import Mathlib

/-!
# fast_flashdb_table: a shallow embedding of the flash table engine

The development follows `src/core/fast_flash_core.c` (the engine), `src/core/fast_flash_types.h`
(the packed on-flash records) and `src/port_win/flash_adapter_win.c` (the NOR flash driver the
engine is run against).

Modelling conventions.

* A byte (`uint8_t`, `char`) is a `Fin 256`.  `uint32_t` values are natural numbers; every place
  where the C arithmetic is carried out at 32 bits is reduced modulo `U32`.  `sizeof` has type
  `size_t`; sums and differences that involve `sizeof` are taken at 64 bits (`SIZE_T`), as in the
  Windows build of `src/port_win`, and are truncated when they are stored in a `uint32_t`.
* The packed structs are Lean structures; what is programmed to flash is their little-endian
  byte image (`header_bytes`, `manager_bytes`), and what is read back is parsed from bytes.
* The module-scoped globals of the engine are the fields of `State`; every engine function takes
  the state and returns the new state next to its C return value.
* `malloc` is taken to succeed.  A C string argument is the list of its characters; the
  terminating NUL is implicit (reading past the end of the list yields 0).
* The driver keeps `flash_cache` as a total function on addresses.  Its file mirror is not
  modelled: `win_flash_init` is the success path on which the mirror agrees with the cache.
-/

namespace FastFlash

/-! ## Constants (`fast_flash_types.h`, `flash_adapter_win.h`) -/

abbrev Byte := Fin 256

@[irreducible] def FLASH_SECTOR_SIZE : Nat := 0x1000
@[irreducible] def FLASH_WRITE_CHUNK_SIZE : Nat := 1024
def MAX_TABLES_ALL_SECTOR : Nat := 24
def TABLE_NAME_MAX_LEN : Nat := 8
@[irreducible] def MAGIC_NUMBER_TABLE : Nat := 0x0531
@[irreducible] def MAGIC_NUMBER_MANAGER : Nat := 0xAAAA
def MANAGER_TABLE_VERSION : Nat := 1
def TABLE_STATUS_INVALID : Nat := 0
def TABLE_STATUS_VALID : Nat := 1
def TABLE_STATUS_DELETED : Nat := 2
@[irreducible] def WIN_FLASH_TOTAL_SIZE : Nat := 64 * 1024

/-- Modulus of `uint32_t` arithmetic. -/
@[irreducible] def U32 : Nat := 4294967296
/-- Modulus of `size_t` arithmetic. -/
@[irreducible] def SIZE_T : Nat := 18446744073709551616
/-- Modulus of `uint64_t` arithmetic. -/
@[irreducible] def U64 : Nat := 18446744073709551616
/-- Value of `sizeof(table_header_t)`: 2 + 8 + 5 * 4. -/
@[irreducible] def SIZEOF_HEADER : Nat := 30
/-- Value of `sizeof(flash_table_info_t)`: 8 + 3 * 4 + 2 + 1 + 1 + 4. -/
@[irreducible] def SIZEOF_INFO : Nat := 28
/-- Value of `sizeof(flash_manager_table_t)`: 2 + 4 + 1 + 1 + 3 * 4 + 24 * 28. -/
@[irreducible] def SIZEOF_MANAGER : Nat := 692

/-! ## Records -/

/-- Packed `table_header_t`. -/
structure table_header_t where
  magic : Nat
  name : List Byte
  table_size : Nat
  data_len : Nat
  struct_size : Nat
  struct_nums : Nat
  data_crc : Nat
deriving DecidableEq

/-- Packed `flash_table_info_t`. -/
structure flash_table_info_t where
  name : List Byte
  addr : Nat
  size : Nat
  used_size : Nat
  magic : Nat
  status : Nat
  reserved : Nat
  next_manager_addr : Nat
deriving DecidableEq

/-- Packed `flash_manager_table_t`. -/
structure flash_manager_table_t where
  magic : Nat
  crc : Nat
  version : Nat
  table_count : Nat
  total_size : Nat
  used_size : Nat
  next_manager_addr : Nat
  tables : List flash_table_info_t
deriving DecidableEq

/-- An all-zero `flash_table_info_t` (what `memset(.., 0, ..)` leaves in a slot). -/
def zero_info : flash_table_info_t :=
  { name := List.replicate 8 0, addr := 0, size := 0, used_size := 0, magic := 0,
    status := 0, reserved := 0, next_manager_addr := 0 }

/-- An all-zero `flash_manager_table_t` (`memset(&g_manager_table, 0, sizeof ..)`). -/
def zero_manager : flash_manager_table_t :=
  { magic := 0, crc := 0, version := 0, table_count := 0, total_size := 0, used_size := 0,
    next_manager_addr := 0, tables := List.replicate 24 zero_info }

/-! ## Little-endian byte images -/

/-- The `k` low bytes of `v`, least significant first. -/
def le_bytes : Nat → Nat → List Byte
  | 0, _ => []
  | k + 1, v => ⟨v % 256, Nat.mod_lt v (by decide)⟩ :: le_bytes k (v / 256)

/-- The number a little-endian byte string stands for. -/
def le_val : List Byte → Nat
  | [] => 0
  | b :: bs => b.val + 256 * le_val bs

/-- A `char[n]` field: exactly `n` bytes. -/
def fix_len (n : Nat) (l : List Byte) : List Byte := (l ++ List.replicate n 0).take n

/-- The 30 bytes of a `table_header_t`. -/
def header_bytes (h : table_header_t) : List Byte :=
  le_bytes 2 h.magic ++ fix_len 8 h.name ++ le_bytes 4 h.table_size ++ le_bytes 4 h.data_len ++
    le_bytes 4 h.struct_size ++ le_bytes 4 h.struct_nums ++ le_bytes 4 h.data_crc

/-- A `table_header_t` read from 30 bytes. -/
def parse_header (b : List Byte) : table_header_t :=
  { magic := le_val (b.take 2)
    name := fix_len 8 ((b.drop 2).take 8)
    table_size := le_val ((b.drop 10).take 4)
    data_len := le_val ((b.drop 14).take 4)
    struct_size := le_val ((b.drop 18).take 4)
    struct_nums := le_val ((b.drop 22).take 4)
    data_crc := le_val ((b.drop 26).take 4) }

/-- The `k` low bytes of `v`, least significant first, in front of `rest`. -/
def le_push : Nat → Nat → List Byte → List Byte
  | 0, _, rest => rest
  | k + 1, v, rest => ⟨v % 256, Nat.mod_lt v (by decide)⟩ :: le_push k (v / 256) rest

/-- A `char[k]` field in front of `rest`: the first `k` bytes of `name`, padded with NULs. -/
def name_push : Nat → List Byte → List Byte → List Byte
  | 0, _, rest => rest
  | k + 1, [], rest => 0 :: name_push k [] rest
  | k + 1, b :: bs, rest => b :: name_push k bs rest

/-- The 28 bytes of a `flash_table_info_t` in front of `rest`. -/
def info_push (t : flash_table_info_t) (rest : List Byte) : List Byte :=
  name_push 8 t.name (le_push 4 t.addr (le_push 4 t.size (le_push 4 t.used_size
    (le_push 2 t.magic (le_push 1 t.status (le_push 1 t.reserved
      (le_push 4 t.next_manager_addr rest)))))))

/-- The 28 bytes of a `flash_table_info_t`. -/
def info_bytes (t : flash_table_info_t) : List Byte := info_push t []

/-- A `flash_table_info_t` read from 28 bytes. -/
def parse_info (b : List Byte) : flash_table_info_t :=
  { name := fix_len 8 (b.take 8)
    addr := le_val ((b.drop 8).take 4)
    size := le_val ((b.drop 12).take 4)
    used_size := le_val ((b.drop 16).take 4)
    magic := le_val ((b.drop 20).take 2)
    status := le_val ((b.drop 22).take 1)
    reserved := le_val ((b.drop 23).take 1)
    next_manager_addr := le_val ((b.drop 24).take 4) }

/-- The bytes of the slot array `tables[MAX_TABLES_ALL_SECTOR]`. -/
def tables_bytes : Nat → List flash_table_info_t → List Byte
  | 0, _ => []
  | k + 1, [] => info_push zero_info (tables_bytes k [])
  | k + 1, t :: ts => info_push t (tables_bytes k ts)

/-- The slot array read from bytes. -/
def parse_tables : Nat → List Byte → List flash_table_info_t
  | 0, _ => []
  | k + 1, b => parse_info (b.take 28) :: parse_tables k (b.drop 28)

/-- The 692 bytes of a `flash_manager_table_t`. -/
def manager_bytes (m : flash_manager_table_t) : List Byte :=
  le_push 2 m.magic (le_push 4 m.crc (le_push 1 m.version (le_push 1 m.table_count
    (le_push 4 m.total_size (le_push 4 m.used_size (le_push 4 m.next_manager_addr
      (tables_bytes 24 m.tables)))))))

/-- A `flash_manager_table_t` read from 692 bytes. -/
def parse_manager (b : List Byte) : flash_manager_table_t :=
  { magic := le_val (b.take 2)
    crc := le_val ((b.drop 2).take 4)
    version := le_val ((b.drop 6).take 1)
    table_count := le_val ((b.drop 7).take 1)
    total_size := le_val ((b.drop 8).take 4)
    used_size := le_val ((b.drop 12).take 4)
    next_manager_addr := le_val ((b.drop 16).take 4)
    tables := parse_tables 24 (b.drop 20) }

/-! ## CRC32 (`calculate_crc32`) -/

/-- One pass of the inner `for (j = 0; j < 8; j++)` loop. -/
def crc32_bit (crc : Nat) : Nat :=
  bif Nat.beq (Nat.land crc 1) 0 then Nat.shiftRight crc 1
  else Nat.xor (Nat.shiftRight crc 1) 0xEDB88320

/-- One pass of the outer loop: `crc ^= data[i]` and the eight inner passes. -/
def crc32_byte (crc : Nat) (b : Byte) : Nat :=
  crc32_bit (crc32_bit (crc32_bit (crc32_bit (crc32_bit (crc32_bit (crc32_bit (crc32_bit
    (Nat.xor crc b.val))))))))

/-- The outer loop over the bytes.  The register is inspected after every byte so that the
value is computed byte by byte. -/
def crc32_loop : List Byte → Nat → Nat
  | [], crc => crc
  | b :: bs, crc =>
    match crc32_byte crc b with
    | 0 => crc32_loop bs 0
    | n + 1 => crc32_loop bs (n + 1)

/-- Model of `calculate_crc32(data, length)`. -/
def calculate_crc32 (data : List Byte) (length : Nat) : Nat :=
  (crc32_loop (data.take length) 0xFFFFFFFF) ^^^ 0xFFFFFFFF

/-- Model of `calculate_manager_table_crc`: the CRC of the record from the `version` field on. -/
def calculate_manager_table_crc (t : flash_manager_table_t) : Nat :=
  calculate_crc32 ((manager_bytes t).drop 6) (SIZEOF_MANAGER - 2 - 4)

/-! ## The flash driver (`flash_adapter_win.c`) -/

/-- A program or erase call issued to the driver. -/
inductive flash_op where
  | write (addr : Nat) (buf : List Byte)
  | erase (addr : Nat) (size : Nat)
deriving DecidableEq

/-- Driver state: the cache array and, as a record of what was asked of the device, the program
and erase calls issued so far (newest first). -/
structure win_flash where
  flash_cache : Nat → Byte
  ops : List flash_op

/-- The bytes `cache[addr .. addr + size)`. -/
def mem_read (cache : Nat → Byte) (addr size : Nat) : List Byte :=
  (List.range size).map (fun i => cache (addr + i))

/-- The cache with `buf` stored from `addr` on. -/
def mem_write (cache : Nat → Byte) (addr : Nat) (buf : List Byte) : Nat → Byte :=
  fun a => if addr ≤ a ∧ a < addr + buf.length then buf.getD (a - addr) 0 else cache a

/-- The cache with `size` bytes from `addr` on set to 0xFF. -/
def mem_erase (cache : Nat → Byte) (addr size : Nat) : Nat → Byte :=
  fun a => if addr ≤ a ∧ a < addr + size then 0xFF else cache a

/-- Model of `win_flash_read`. -/
def win_flash_read (d : win_flash) (addr size : Nat) : Int × List Byte :=
  if (addr + size) % U32 > WIN_FLASH_TOTAL_SIZE then (-1, [])
  else (0, mem_read d.flash_cache addr size)

/-- Number of leading bytes of `buf` that the programming loop of `win_flash_write` stores before
it meets a byte that would need a 0 bit turned into 1 (all of them when there is none). -/
def nor_run (cache : Nat → Byte) (addr : Nat) : List Byte → Nat
  | [] => 0
  | b :: bs =>
    if (cache addr).val &&& b.val ≠ b.val then 0 else nor_run cache (addr + 1) bs + 1

/-- Model of `win_flash_write`: the loop stores the bytes in order and returns -1 at the first
byte that is not a bitwise subset of the old content; the bytes before it stay programmed. -/
def win_flash_write (d : win_flash) (addr : Nat) (buf : List Byte) (size : Nat) :
    Int × win_flash :=
  let d1 : win_flash := { d with ops := flash_op.write addr (buf.take size) :: d.ops }
  if (addr + size) % U32 > WIN_FLASH_TOTAL_SIZE then (-1, d1)
  else
    let k := nor_run d.flash_cache addr (buf.take size)
    if k = size then
      (0, { d1 with flash_cache := mem_write d.flash_cache addr (buf.take size) })
    else (-1, { d1 with flash_cache := mem_write d.flash_cache addr (buf.take k) })

/-- Model of `win_flash_erase`. -/
def win_flash_erase (d : win_flash) (addr size : Nat) : Int × win_flash :=
  let d1 : win_flash := { d with ops := flash_op.erase addr size :: d.ops }
  if (addr + size) % U32 > WIN_FLASH_TOTAL_SIZE then (-1, d1)
  else
    let aligned_addr := (addr / FLASH_SECTOR_SIZE) * FLASH_SECTOR_SIZE
    let aligned_size :=
      (((size + FLASH_SECTOR_SIZE - 1) % U32) / FLASH_SECTOR_SIZE) * FLASH_SECTOR_SIZE % U32
    if (aligned_addr + aligned_size) % U32 > WIN_FLASH_TOTAL_SIZE then (-1, d1)
    else (0, { d1 with flash_cache := mem_erase d.flash_cache aligned_addr aligned_size })

/-! ## Engine state and internal functions (`fast_flash_core.c`) -/

/-- The module-scoped globals of the engine, with the device behind `g_flash_ops`. -/
structure State where
  flash : win_flash
  g_total_size : Nat
  g_allow_erase : Bool
  g_manager_table : flash_manager_table_t
  g_manager_loaded : Bool
  g_current_sector : Nat
  g_current_offset : Nat

/-- The loop of `write_with_chunks`; `fuel` bounds the number of passes and is at least `remain`. -/
def write_with_chunks_loop :
    Nat → win_flash → Nat → List Byte → Nat → Int × win_flash
  | 0, d, _, _, _ => (0, d)
  | fuel + 1, d, current_addr, src, remain =>
    if remain > 0 then
      let chunk_size := if remain > FLASH_WRITE_CHUNK_SIZE then FLASH_WRITE_CHUNK_SIZE else remain
      match win_flash_write d current_addr src chunk_size with
      | (result, d1) =>
        if result ≠ 0 then (result, d1)
        else
          write_with_chunks_loop fuel d1 ((current_addr + chunk_size) % U32)
            (src.drop chunk_size) (remain - chunk_size)
    else (0, d)

/-- Model of `write_with_chunks`. -/
def write_with_chunks (d : win_flash) (addr : Nat) (data : List Byte) (size : Nat) :
    Int × win_flash :=
  write_with_chunks_loop size d addr data size

/-- Model of `validate_manager_table` (for a non-null table). -/
def validate_manager_table (table : flash_manager_table_t) : Int :=
  if table.magic ≠ MAGIC_NUMBER_MANAGER then -1
  else if table.version ≠ MANAGER_TABLE_VERSION then -1
  else if calculate_manager_table_crc table ≠ table.crc then -1
  else 0

/-- Whether `strncmp(a, b, n) == 0`. -/
def strncmp_eq : Nat → List Byte → List Byte → Bool
  | 0, _, _ => true
  | n + 1, a, b =>
    if a.headD 0 ≠ b.headD 0 then false
    else if a.headD 0 = 0 then true
    else strncmp_eq n a.tail b.tail

/-- The `n` bytes that `strncpy(dst, src, n)` stores: the characters of `src` up to its NUL,
then NULs. -/
def strncpy : Nat → List Byte → List Byte
  | 0, _ => []
  | n + 1, src =>
    if src.headD 0 = 0 then (0 : Byte) :: strncpy n [] else src.headD 0 :: strncpy n src.tail

/-- The name as `fast_flash_create_table` stores it: `strncpy(.., name, TABLE_NAME_MAX_LEN - 1)`
followed by `name[TABLE_NAME_MAX_LEN - 1] = 0`. -/
def stored_name (name : List Byte) : List Byte :=
  strncpy (TABLE_NAME_MAX_LEN - 1) name ++ [0]

/-- The `i`-th slot `g_manager_table.tables[i]`. -/
def slot_at (m : flash_manager_table_t) (i : Nat) : flash_table_info_t :=
  m.tables.getD i zero_info

/-- Model of `find_free_table_slot`. -/
def find_free_table_slot (st : State) : Int :=
  match (List.range MAX_TABLES_ALL_SECTOR).find?
      (fun i => (slot_at st.g_manager_table i).status = TABLE_STATUS_INVALID) with
  | some i => (i : Int)
  | none => -1

/-- Model of `find_table_index` (for a non-null name). -/
def find_table_index (st : State) (name : List Byte) : Int :=
  match (List.range MAX_TABLES_ALL_SECTOR).find?
      (fun i => (slot_at st.g_manager_table i).status = TABLE_STATUS_VALID ∧
        strncmp_eq TABLE_NAME_MAX_LEN (slot_at st.g_manager_table i).name name = true) with
  | some i => (i : Int)
  | none => -1

/-- The address the cursor denotes: `g_current_sector * FLASH_SECTOR_SIZE + g_current_offset`. -/
def cursor_addr (st : State) : Nat :=
  (st.g_current_sector * FLASH_SECTOR_SIZE % U32 + st.g_current_offset) % U32

/-- The state with the cursor set to the address `a`. -/
def set_cursor (st : State) (a : Nat) : State :=
  { st with g_current_sector := a / FLASH_SECTOR_SIZE, g_current_offset := a % FLASH_SECTOR_SIZE }

/-- Model of `allocate_table_space` (for a non-null `out_addr`); the middle component is
`*out_addr`, meaningful when the result is 0. -/
def allocate_table_space (st : State) (size : Nat) : Int × Nat × State :=
  if size = 0 then (-1, 0, st)
  else if size > FLASH_SECTOR_SIZE then (-1, 0, st)
  else
    let free_addr := cursor_addr st
    let sector_start := (free_addr / FLASH_SECTOR_SIZE) * FLASH_SECTOR_SIZE
    let offset_in_sector := free_addr % FLASH_SECTOR_SIZE
    if offset_in_sector + size > FLASH_SECTOR_SIZE then
      let sector_start := (sector_start + FLASH_SECTOR_SIZE) % U32
      if (sector_start + size) % U32 > st.g_total_size then (-2, 0, st)
      else if st.g_allow_erase then
        match win_flash_erase st.flash sector_start FLASH_SECTOR_SIZE with
        | (r, fl) =>
          if r ≠ 0 then (-2, 0, { st with flash := fl })
          else (0, sector_start, set_cursor { st with flash := fl } ((sector_start + size) % U32))
      else (0, sector_start, set_cursor st ((sector_start + size) % U32))
    else
      let out_addr := sector_start + offset_in_sector
      (0, out_addr, set_cursor st ((out_addr + size) % U32))

/-- The erase loop of `save_manager_table` over the sectors `sector, sector + 1, ...` (`n` of
them); -2 at the first erase that fails. -/
def erase_sectors : Nat → win_flash → Nat → Int × win_flash
  | 0, d, _ => (0, d)
  | n + 1, d, sector =>
    match win_flash_erase d (sector * FLASH_SECTOR_SIZE % U32) FLASH_SECTOR_SIZE with
    | (r, d1) => if r ≠ 0 then (-2, d1) else erase_sectors n d1 (sector + 1)

/-- Model of `save_manager_table`. -/
def save_manager_table (st : State) : Int × State :=
  if st.g_manager_loaded = false then (-1, st)
  else
    let new_addr := st.g_manager_table.next_manager_addr
    if new_addr = 0 ∨ new_addr ≥ st.g_total_size then (-1, st)
    else
      let current_write_pos := cursor_addr st
      let current_sector := current_write_pos / FLASH_SECTOR_SIZE
      let current_offset := current_write_pos % FLASH_SECTOR_SIZE
      let available_in_sector := FLASH_SECTOR_SIZE - current_offset
      let next_reserved :=
        if SIZEOF_MANAGER > available_in_sector then
          ((current_sector + 1) * FLASH_SECTOR_SIZE) % U32
        else current_write_pos
      if next_reserved + SIZEOF_MANAGER > st.g_total_size then (-1, st)
      else
        let need_erase :=
          st.g_allow_erase &&
            decide ((win_flash_read st.flash new_addr 1).1 = 0 ∧
              (win_flash_read st.flash new_addr 1).2.headD 0 ≠ 0xFF)
        let start_sector := new_addr / FLASH_SECTOR_SIZE
        let end_addr := (new_addr + SIZEOF_MANAGER) % U32
        let end_sector := ((end_addr + U32 - 1) % U32) / FLASH_SECTOR_SIZE
        match (if need_erase && st.g_allow_erase then
                erase_sectors (end_sector + 1 - start_sector) st.flash start_sector
               else (0, st.flash)) with
        | (er, fl1) =>
          if er ≠ 0 then (-2, { st with flash := fl1 })
          else
            let m1 := { st.g_manager_table with next_manager_addr := next_reserved }
            let m2 := { m1 with crc := calculate_manager_table_crc m1 }
            match write_with_chunks fl1 new_addr (manager_bytes m2) SIZEOF_MANAGER with
            | (w, fl2) =>
              if w ≠ 0 then (-1, { st with flash := fl2, g_manager_table := m2 })
              else
                (0, set_cursor { st with flash := fl2, g_manager_table := m2 }
                  (next_reserved + SIZEOF_MANAGER))

/-- The `data_end` computation of `load_manager_table`: the largest `addr + size` of a Valid slot,
or `start` when that is larger. -/
def data_end_of (m : flash_manager_table_t) (start : Nat) : Nat :=
  (List.range MAX_TABLES_ALL_SECTOR).foldl
    (fun data_end i =>
      if (slot_at m i).status = TABLE_STATUS_VALID then
        let table_end := ((slot_at m i).addr + (slot_at m i).size) % U32
        if table_end > data_end then table_end else data_end
      else data_end)
    start

/-- The tail common to every exit of `load_manager_table` that adopts a record: copy it into
`g_manager_table`, set the loaded flag and put the cursor at the end of the data. -/
def adopt_manager (st : State) (candidate : flash_manager_table_t) (start : Nat) : State :=
  set_cursor { st with g_manager_table := candidate, g_manager_loaded := true }
    (data_end_of candidate start)

/-- The `while (addr < g_total_size)` walk of `load_manager_table`.  The result is the state in
which a record was adopted (the function then returns 0), or, when the loop is left without a
return, the last valid record seen with its address.  Every pass that continues does so at a
strictly larger address below `g_total_size`, so `g_total_size` passes of fuel are enough. -/
def load_walk : Nat → State → Nat → Option (flash_manager_table_t × Nat) →
    State ⊕ Option (flash_manager_table_t × Nat)
  | 0, _, _, last => Sum.inr last
  | fuel + 1, st, addr, last =>
    if addr < st.g_total_size then
      match win_flash_read st.flash addr SIZEOF_MANAGER with
      | (result, b) =>
        if result ≠ 0 then Sum.inr last
        else
          let candidate := parse_manager b
          if candidate.magic ≠ MAGIC_NUMBER_MANAGER then Sum.inr last
          else if validate_manager_table candidate ≠ 0 then Sum.inr last
          else if candidate.next_manager_addr = 0 ∨
              candidate.next_manager_addr ≥ st.g_total_size ∨
              candidate.next_manager_addr ≤ addr then
            Sum.inl (adopt_manager st candidate ((addr + SIZEOF_MANAGER) % U32))
          else
            let next_addr := candidate.next_manager_addr
            match win_flash_read st.flash next_addr SIZEOF_MANAGER with
            | (result2, b2) =>
              if result2 ≠ 0 then
                Sum.inl (adopt_manager st candidate ((next_addr + SIZEOF_MANAGER) % U32))
              else if (parse_manager b2).magic ≠ MAGIC_NUMBER_MANAGER ∨
                  validate_manager_table (parse_manager b2) ≠ 0 then
                Sum.inl (adopt_manager st candidate ((next_addr + SIZEOF_MANAGER) % U32))
              else load_walk fuel st next_addr (some (candidate, addr))
    else Sum.inr last

/-- The record `load_manager_table` builds for a device without a valid manager (before its CRC
is filled in). -/
def fresh_manager (total_size : Nat) : flash_manager_table_t :=
  { zero_manager with
    magic := MAGIC_NUMBER_MANAGER, version := MANAGER_TABLE_VERSION, total_size := total_size,
    used_size := 0, table_count := 0, next_manager_addr := SIZEOF_MANAGER }

/-- Model of `load_manager_table`. -/
def load_manager_table (st : State) : Int × State :=
  let st0 : State :=
    { st with g_manager_loaded := false, g_manager_table := zero_manager,
              g_current_sector := 0, g_current_offset := 0 }
  match load_walk (st.g_total_size + 1) st0 0 none with
  | Sum.inl st1 => (0, st1)
  | Sum.inr (some (last_valid_table, last_valid_addr)) =>
    (0, adopt_manager st0 last_valid_table ((last_valid_addr + SIZEOF_MANAGER) % U32))
  | Sum.inr none =>
    let m := fresh_manager st.g_total_size
    match win_flash_erase st0.flash 0 FLASH_SECTOR_SIZE with
    | (er, fl1) =>
      if er ≠ 0 then (-1, { st0 with flash := fl1, g_manager_table := m })
      else
        let m1 := { m with crc := calculate_manager_table_crc m }
        match write_with_chunks fl1 0 (manager_bytes m1) SIZEOF_MANAGER with
        | (w, fl2) =>
          if w ≠ 0 then (-1, { st0 with flash := fl2, g_manager_table := m1 })
          else
            (0, { st0 with flash := fl2, g_manager_table := m1, g_manager_loaded := true,
                           g_current_sector := 0,
                           g_current_offset := SIZEOF_MANAGER + SIZEOF_MANAGER })

/-! ## Public API -/

/-- Model of `fast_flash_init` for the Windows driver (`ops` is `win_flash_ops`, whose `init`
succeeds); `st` carries the device and the previous values of the globals.  `win_flash_init`
opens the mirror file and reloads the cache array from it; the model keeps the cache, which is
what the program does whenever the file holds the cache: every program call that returns 0 and
every read after an erase writes the cache to the file, so the two differ only between an erase
or a program call refused half way and the next such call. -/
def fast_flash_init (st : State) (total_size : Nat) (allow_erase : Bool) : Int × State :=
  match load_manager_table { st with g_total_size := total_size, g_allow_erase := allow_erase } with
  | (r, st1) => if r ≠ 0 then (-1, st1) else (0, st1)

/-- The header `fast_flash_create_table` writes. -/
def new_header (name : List Byte) (struct_size max_structs : Nat) : table_header_t :=
  { magic := MAGIC_NUMBER_TABLE
    name := stored_name name
    table_size := (SIZEOF_HEADER + (struct_size * max_structs) % U32) % U32
    data_len := 0
    struct_size := struct_size
    struct_nums := 0
    data_crc := 0 }

/-- The slot `fast_flash_create_table` fills in. -/
def new_info (name : List Byte) (table_addr : Nat) : flash_table_info_t :=
  { name := stored_name name, addr := table_addr, size := SIZEOF_HEADER,
    used_size := SIZEOF_HEADER, magic := MAGIC_NUMBER_TABLE, status := TABLE_STATUS_VALID,
    reserved := 0, next_manager_addr := 0 }

/-- The state with slot `i` of the in-RAM manager replaced. -/
def set_slot (st : State) (i : Nat) (t : flash_table_info_t) : State :=
  { st with g_manager_table :=
      { st.g_manager_table with tables := st.g_manager_table.tables.set i t } }

/-- Model of `fast_flash_create_table` (for a non-null name). -/
def fast_flash_create_table (st : State) (name : List Byte) (struct_size max_structs : Nat) :
    Int × State :=
  if st.g_manager_loaded = false then (-1, st)
  else if find_table_index st name ≥ 0 then (-1, st)
  else if find_free_table_slot st < 0 then (-1, st)
  else
    let slot := (find_free_table_slot st).toNat
    match allocate_table_space st SIZEOF_HEADER with
    | (result, table_addr, st1) =>
      if result ≠ 0 then (result, st1)
      else
        match write_with_chunks st1.flash table_addr
            (header_bytes (new_header name struct_size max_structs)) SIZEOF_HEADER with
        | (w, fl) =>
          if w ≠ 0 then (-1, { st1 with flash := fl })
          else
            let st2 := set_slot { st1 with flash := fl } slot (new_info name table_addr)
            let st3 : State :=
              { st2 with g_manager_table :=
                  { st2.g_manager_table with
                    table_count := (st2.g_manager_table.table_count + 1) % 256
                    used_size := (st2.g_manager_table.used_size + SIZEOF_HEADER) % U32 } }
            save_manager_table st3

/-- Model of `fast_flash_delete_table` (for a non-null name). -/
def fast_flash_delete_table (st : State) (name : List Byte) : Int × State :=
  if st.g_manager_loaded = false then (-1, st)
  else if find_table_index st name < 0 then (-1, st)
  else
    let idx := (find_table_index st name).toNat
    let st1 := set_slot st idx { slot_at st.g_manager_table idx with status := TABLE_STATUS_DELETED }
    let st2 : State :=
      { st1 with g_manager_table :=
          { st1.g_manager_table with
            table_count := (st1.g_manager_table.table_count + 256 - 1) % 256 } }
    save_manager_table st2

/-- The tail shared by the mutators that relocate a table: program `header` and then the first
`data_len` bytes of `all_data` at `new_table_addr` with `write_with_chunks`; on success store
the slot `info` at index `idx` and commit with `save_manager_table`. -/
def relocate_commit (st : State) (idx : Nat) (new_table_addr : Nat) (header : table_header_t)
    (all_data : List Byte) (data_len : Nat) (skip_empty : Bool) (info : flash_table_info_t) :
    Int × State :=
  match write_with_chunks st.flash new_table_addr (header_bytes header) SIZEOF_HEADER with
  | (w1, fl1) =>
    if w1 ≠ 0 then (-1, { st with flash := fl1 })
    else
      match (if skip_empty && decide (data_len = 0) then (0, fl1)
             else write_with_chunks fl1 ((new_table_addr + SIZEOF_HEADER) % U32) all_data
               data_len) with
      | (w2, fl2) =>
        if w2 ≠ 0 then (-1, { st with flash := fl2 })
        else save_manager_table (set_slot { st with flash := fl2 } idx info)

/-- Model of `fast_flash_write_table_data` (for non-null arguments). -/
def fast_flash_write_table_data (st : State) (table_name : List Byte) (data : List Byte)
    (size : Nat) : Int × State :=
  if st.g_manager_loaded = false then (-1, st)
  else if find_table_index st table_name < 0 then (-1, st)
  else
    let idx := (find_table_index st table_name).toNat
    let table_info := slot_at st.g_manager_table idx
    match win_flash_read st.flash table_info.addr SIZEOF_HEADER with
    | (r, hb) =>
      if r ≠ 0 then (-1, st)
      else
        let header := parse_header hb
        if size ≠ header.struct_size then (-1, st)
        else
          let new_data_len := (header.data_len + size) % U32
          match allocate_table_space st ((SIZEOF_HEADER + new_data_len) % U32) with
          | (result, new_table_addr, st1) =>
            if result ≠ 0 then (result, st1)
            else
              match (if header.data_len > 0 then
                      win_flash_read st1.flash ((table_info.addr + SIZEOF_HEADER) % U32)
                        header.data_len
                     else (0, [])) with
              | (r2, old_data) =>
                if r2 ≠ 0 then (-1, st1)
                else
                  let all_data := old_data ++ data.take size
                  let header1 : table_header_t :=
                    { header with
                      data_len := new_data_len
                      struct_nums := new_data_len / header.struct_size
                      data_crc := calculate_crc32 all_data new_data_len }
                  relocate_commit st1 idx new_table_addr header1 all_data new_data_len false
                    { table_info with
                      addr := new_table_addr
                      size := header.table_size
                      used_size := (SIZEOF_HEADER + new_data_len) % U32 }

/-- Model of `fast_flash_read_table_data` (for non-null arguments); the second component is
what the call leaves in `buffer` when it returns 0. -/
def fast_flash_read_table_data (st : State) (table_name : List Byte) (index size : Nat) :
    Int × List Byte :=
  if st.g_manager_loaded = false then (-1, [])
  else if find_table_index st table_name < 0 then (-1, [])
  else
    let table_info := slot_at st.g_manager_table (find_table_index st table_name).toNat
    match win_flash_read st.flash table_info.addr SIZEOF_HEADER with
    | (r, hb) =>
      if r ≠ 0 then (-1, [])
      else
        let header := parse_header hb
        if size ≠ header.struct_size then (-1, [])
        else if index ≥ header.struct_nums then (-1, [])
        else
          let offset := (index * header.struct_size) % U32
          let data_addr := (table_info.addr + SIZEOF_HEADER + offset) % U32
          win_flash_read st.flash data_addr size

/-- Model of `fast_flash_table_exists` (for a non-null name). -/
def fast_flash_table_exists (st : State) (name : List Byte) : Bool :=
  if st.g_manager_loaded = false then false
  else decide (find_table_index st name ≥ 0)

/-- Model of `fast_flash_get_table_count` (for a non-null name). -/
def fast_flash_get_table_count (st : State) (table_name : List Byte) : Nat :=
  if st.g_manager_loaded = false then 0
  else if find_table_index st table_name < 0 then 0
  else
    let table_info := slot_at st.g_manager_table (find_table_index st table_name).toNat
    match win_flash_read st.flash table_info.addr SIZEOF_HEADER with
    | (r, hb) => if r ≠ 0 then 0 else (parse_header hb).struct_nums

/-- Model of `fast_flash_set_erase_allowed`. -/
def fast_flash_set_erase_allowed (st : State) (allowed : Bool) : State :=
  { st with g_allow_erase := allowed }

/-- Model of `fast_flash_get_used_size`. -/
def fast_flash_get_used_size (st : State) : Nat :=
  if st.g_manager_loaded then st.g_manager_table.used_size else 0

/-- Model of `fast_flash_write_table_data_by_index` (for non-null arguments). -/
def fast_flash_write_table_data_by_index (st : State) (table_name : List Byte) (index : Nat)
    (data : List Byte) (size : Nat) : Int × State :=
  if st.g_manager_loaded = false then (-1, st)
  else if find_table_index st table_name < 0 then (-1, st)
  else
    let idx := (find_table_index st table_name).toNat
    let table_info := slot_at st.g_manager_table idx
    match win_flash_read st.flash table_info.addr SIZEOF_HEADER with
    | (r, hb) =>
      if r ≠ 0 then (-1, st)
      else
        let header := parse_header hb
        if size ≠ header.struct_size then (-1, st)
        else if index ≥ header.struct_nums then (-2, st)
        else
          match win_flash_read st.flash ((table_info.addr + SIZEOF_HEADER) % U32)
              header.data_len with
          | (r2, old_data) =>
            if r2 ≠ 0 then (-1, st)
            else
              let offset := (index * header.struct_size) % U32
              let all_data := old_data.take offset ++ data.take size ++ old_data.drop (offset + size)
              let header1 : table_header_t :=
                { header with data_crc := calculate_crc32 all_data header.data_len }
              match allocate_table_space st ((header.data_len + SIZEOF_HEADER) % U32) with
              | (result, new_table_addr, st1) =>
                if result ≠ 0 then (result, st1)
                else
                  relocate_commit st1 idx new_table_addr header1 all_data header.data_len false
                    { table_info with
                      addr := new_table_addr
                      used_size := (SIZEOF_HEADER + header.data_len) % U32 }

/-- The capacity `(header.table_size - sizeof(table_header_t)) / header.struct_size` as the
mutators compute it: the difference at `size_t`, the quotient stored in a `uint32_t`.  It is the
value of the C expression for `struct_size` of 1 and more; for `struct_size` 0 the program
divides by zero (see `division_by_zero_struct_size`), and the statements about calls that reach
the division carry `struct_size ≠ 0` (`call_defined`, `early_defined`, `public_defined`). -/
def header_capacity (header : table_header_t) : Nat :=
  (((header.table_size + SIZE_T - SIZEOF_HEADER) % SIZE_T) / header.struct_size) % U32

/-- Model of `fast_flash_append_table_data` (for non-null arguments). -/
def fast_flash_append_table_data (st : State) (table_name : List Byte) (data : List Byte)
    (size : Nat) : Int × State :=
  if st.g_manager_loaded = false then (-1, st)
  else if find_table_index st table_name < 0 then (-1, st)
  else
    let table_info := slot_at st.g_manager_table (find_table_index st table_name).toNat
    match win_flash_read st.flash table_info.addr SIZEOF_HEADER with
    | (r, hb) =>
      if r ≠ 0 then (-1, st)
      else
        let header := parse_header hb
        if size ≠ header.struct_size then (-1, st)
        else
          let max_structs := header_capacity header
          if header.struct_nums ≥ max_structs then (-2, st)
          else fast_flash_write_table_data st table_name data size

/-- The value of `1ULL << i` as the x86-64 code of the Windows port computes it: the processor
takes the shift count modulo 64.  For `i` of 64 and more the C expression has no defined value;
`call_defined` leaves out the calls that evaluate it there. -/
def bit64 (i : Nat) : Nat := (1 <<< (i % 64)) % U64

/-- The copy loop of `fast_flash_clear_table_data` over the indices in `is`: every row whose
mask bit is clear is appended to `new_data`; the accumulators are `new_data`, `new_data_len`
and `new_struct_nums`. -/
def clear_loop (clear_mask : Nat) (all_data : List Byte) (struct_size : Nat) :
    List Nat → List Byte × Nat × Nat → List Byte × Nat × Nat
  | [], acc => acc
  | i :: is, (new_data, new_data_len, new_struct_nums) =>
    if clear_mask &&& bit64 i = 0 then
      clear_loop clear_mask all_data struct_size is
        (new_data ++ (all_data.drop ((i * struct_size) % U32)).take struct_size,
          (new_data_len + struct_size) % U32, (new_struct_nums + 1) % U32)
    else clear_loop clear_mask all_data struct_size is (new_data, new_data_len, new_struct_nums)

/-- Model of `fast_flash_clear_table_data` (for a non-null name). -/
def fast_flash_clear_table_data (st : State) (table_name : List Byte) (clear_mask : Nat) :
    Int × State :=
  if st.g_manager_loaded = false then (-1, st)
  else if find_table_index st table_name < 0 then (-1, st)
  else
    let idx := (find_table_index st table_name).toNat
    let table_info := slot_at st.g_manager_table idx
    match win_flash_read st.flash table_info.addr SIZEOF_HEADER with
    | (r, hb) =>
      if r ≠ 0 then (-1, st)
      else
        let header := parse_header hb
        let max_mask :=
          if header.struct_nums < 64 then (1 <<< header.struct_nums) - 1 else U64 - 1
        if clear_mask &&& (max_mask ^^^ (U64 - 1)) ≠ 0 then (-2, st)
        else if clear_mask = 0 then (0, st)
        else
          match win_flash_read st.flash ((table_info.addr + SIZEOF_HEADER) % U32)
              header.data_len with
          | (r2, all_data) =>
            if r2 ≠ 0 then (-1, st)
            else
              match clear_loop clear_mask all_data header.struct_size
                  (List.range header.struct_nums) ([], 0, 0) with
              | (new_data, new_data_len, new_struct_nums) =>
                let header1 : table_header_t :=
                  { header with
                    data_len := new_data_len
                    struct_nums := new_struct_nums
                    data_crc :=
                      if new_data_len > 0 then calculate_crc32 new_data new_data_len else 0 }
                match allocate_table_space st ((SIZEOF_HEADER + new_data_len) % U32) with
                | (result, new_table_addr, st1) =>
                  if result ≠ 0 then (result, st1)
                  else
                    relocate_commit st1 idx new_table_addr header1 new_data new_data_len true
                      { table_info with
                        addr := new_table_addr
                        size := (SIZEOF_HEADER + new_data_len) % U32 }

/-- Model of `fast_flash_write_table_data_batch` (for non-null arguments). -/
def fast_flash_write_table_data_batch (st : State) (table_name : List Byte) (data : List Byte)
    (struct_size count : Nat) : Int × State :=
  if count = 0 ∨ st.g_manager_loaded = false then (-1, st)
  else if find_table_index st table_name < 0 then (-1, st)
  else
    let idx := (find_table_index st table_name).toNat
    let table_info := slot_at st.g_manager_table idx
    match win_flash_read st.flash table_info.addr SIZEOF_HEADER with
    | (r, hb) =>
      if r ≠ 0 then (-1, st)
      else
        let header := parse_header hb
        if struct_size ≠ header.struct_size then (-1, st)
        else
          let total_data_size := (struct_size * count) % U32
          let new_data_len := (header.data_len + total_data_size) % U32
          let max_structs := header_capacity header
          if (header.struct_nums + count) % U32 > max_structs then (-2, st)
          else
            match allocate_table_space st ((SIZEOF_HEADER + new_data_len) % U32) with
            | (result, new_table_addr, st1) =>
              if result ≠ 0 then (result, st1)
              else
                match (if header.data_len > 0 then
                        win_flash_read st1.flash ((table_info.addr + SIZEOF_HEADER) % U32)
                          header.data_len
                       else (0, [])) with
                | (r2, old_data) =>
                  if r2 ≠ 0 then (-1, st1)
                  else
                    let all_data := old_data ++ data.take total_data_size
                    let header1 : table_header_t :=
                      { header with
                        data_len := new_data_len
                        struct_nums := new_data_len / header.struct_size
                        data_crc := calculate_crc32 all_data new_data_len }
                    relocate_commit st1 idx new_table_addr header1 all_data new_data_len false
                      { table_info with
                        addr := new_table_addr
                        size := header.table_size
                        used_size := (SIZEOF_HEADER + new_data_len) % U32 }

/-! ## Garbage collection (`fast_flash_gc`) -/

/-- The Valid slots of the manager in slot order (`valid_tables[0 .. valid_count)`). -/
def collect_valid (m : flash_manager_table_t) : List flash_table_info_t :=
  ((List.range MAX_TABLES_ALL_SECTOR).map (slot_at m)).filter
    (fun t => t.status = TABLE_STATUS_VALID)

/-- The inner loop of the address sort: for each `j` of `js`, exchange entries `i` and `j` when
entry `i` has the larger address. -/
def sort_inner (i : Nat) : List Nat → List flash_table_info_t → List flash_table_info_t
  | [], v => v
  | j :: js, v =>
    if (v.getD i zero_info).addr > (v.getD j zero_info).addr then
      sort_inner i js ((v.set i (v.getD j zero_info)).set j (v.getD i zero_info))
    else sort_inner i js v

/-- The outer loop of the address sort over the indices `is`. -/
def sort_outer : List Nat → List flash_table_info_t → List flash_table_info_t
  | [], v => v
  | i :: is, v => sort_outer is (sort_inner i (List.range' (i + 1) (v.length - (i + 1))) v)

/-- The exchange sort of `valid_tables` by address. -/
def sort_by_addr (v : List flash_table_info_t) : List flash_table_info_t :=
  sort_outer (List.range (v.length - 1)) v

/-- The RAM update after a table was moved: the first Valid slot whose name compares equal gets
the new address. -/
def gc_update_addr (m : flash_manager_table_t) (name : List Byte) (new_addr : Nat) :
    flash_manager_table_t :=
  match (List.range MAX_TABLES_ALL_SECTOR).find?
      (fun j => (slot_at m j).status = TABLE_STATUS_VALID ∧
        strncmp_eq TABLE_NAME_MAX_LEN (slot_at m j).name name = true) with
  | some j => { m with tables := m.tables.set j { slot_at m j with addr := new_addr } }
  | none => m

/-- The loop that moves the tables of sector 0 into the scratch sector; the last component is
`cache_write_pos`. -/
def gc_move_to_cache : List flash_table_info_t → State → Nat → Int × State
  | [], st, _ => (0, st)
  | t :: ts, st, cache_write_pos =>
    match win_flash_read st.flash t.addr t.size with
    | (r, temp_data) =>
      if r ≠ 0 then (-1, st)
      else
        match write_with_chunks st.flash cache_write_pos temp_data t.size with
        | (w, fl) =>
          if w ≠ 0 then (-1, { st with flash := fl })
          else
            gc_move_to_cache ts
              { st with flash := fl,
                        g_manager_table := gc_update_addr st.g_manager_table t.name cache_write_pos }
              ((cache_write_pos + t.size) % U32)

/-- The compaction loop; the result carries `current_write_pos` and `current_sector`. -/
def gc_compact : List flash_table_info_t → State → Nat → Nat → Int × State × Nat × Nat
  | [], st, current_write_pos, current_sector => (0, st, current_write_pos, current_sector)
  | t :: ts, st, current_write_pos, current_sector =>
    let sector_end := ((current_sector + 1) * FLASH_SECTOR_SIZE) % U32
    let crossing := decide ((current_write_pos + t.size) % U32 > sector_end)
    let current_sector1 := if crossing then current_sector + 1 else current_sector
    let current_write_pos1 :=
      if crossing then (current_sector1 * FLASH_SECTOR_SIZE) % U32 else current_write_pos
    match (if crossing then win_flash_erase st.flash current_write_pos1 FLASH_SECTOR_SIZE
           else (0, st.flash)) with
    | (er, fl0) =>
      if er ≠ 0 then (-1, { st with flash := fl0 }, current_write_pos1, current_sector1)
      else
        match win_flash_read fl0 t.addr t.size with
        | (r, temp_data) =>
          if r ≠ 0 then (-1, { st with flash := fl0 }, current_write_pos1, current_sector1)
          else
            match write_with_chunks fl0 current_write_pos1 temp_data t.size with
            | (w, fl) =>
              if w ≠ 0 then (-1, { st with flash := fl }, current_write_pos1, current_sector1)
              else
                gc_compact ts
                  { st with flash := fl,
                            g_manager_table :=
                              gc_update_addr st.g_manager_table t.name current_write_pos1 }
                  ((current_write_pos1 + t.size) % U32) current_sector1

/-- Erase the listed sectors, ignoring the results of the driver. -/
def erase_ignoring : List Nat → win_flash → win_flash
  | [], d => d
  | sector :: rest, d =>
    erase_ignoring rest (win_flash_erase d (sector * FLASH_SECTOR_SIZE % U32) FLASH_SECTOR_SIZE).2

/-- The lowest sector in `[0, total_sectors)` that holds the address of no Valid slot. -/
def find_empty_sector (st : State) : Option Nat :=
  (List.range (st.g_total_size / FLASH_SECTOR_SIZE)).find?
    (fun sector => ¬ ∃ i ∈ List.range MAX_TABLES_ALL_SECTOR,
      (slot_at st.g_manager_table i).status = TABLE_STATUS_VALID ∧
        (slot_at st.g_manager_table i).addr / FLASH_SECTOR_SIZE = sector)

/-- Model of `fast_flash_gc`. -/
def fast_flash_gc (st : State) : Int × State :=
  if st.g_manager_loaded = false then (-1, st)
  else if st.g_allow_erase = false then (-2, st)
  else
    let total_sectors := st.g_total_size / FLASH_SECTOR_SIZE
    let valid_tables := sort_by_addr (collect_valid st.g_manager_table)
    match find_empty_sector st with
    | none =>
      match win_flash_erase st.flash 0 FLASH_SECTOR_SIZE with
      | (er, fl1) =>
        if er ≠ 0 then (-1, { st with flash := fl1 })
        else
          let m0 : flash_manager_table_t :=
            { zero_manager with
              magic := MAGIC_NUMBER_MANAGER, version := MANAGER_TABLE_VERSION,
              total_size := st.g_total_size, used_size := 0, table_count := 0 }
          let fl2 := erase_ignoring (List.range' 1 (total_sectors - 1)) fl1
          let m1 := { m0 with next_manager_addr := SIZEOF_MANAGER }
          let m2 := { m1 with crc := calculate_manager_table_crc m1 }
          match write_with_chunks fl2 0 (manager_bytes m2) SIZEOF_MANAGER with
          | (w, fl3) =>
            if w ≠ 0 then (-1, { st with flash := fl3, g_manager_table := m2 })
            else
              (0, { st with flash := fl3, g_manager_table := m2, g_current_sector := 0,
                            g_current_offset := SIZEOF_MANAGER * 2 })
    | some empty_sector =>
      match win_flash_erase st.flash (empty_sector * FLASH_SECTOR_SIZE % U32)
          FLASH_SECTOR_SIZE with
      | (er, fl1) =>
        if er ≠ 0 then (-1, { st with flash := fl1 })
        else
          let first_sector_tables :=
            valid_tables.filter (fun t => t.addr / FLASH_SECTOR_SIZE = 0)
          match gc_move_to_cache first_sector_tables { st with flash := fl1 }
              (empty_sector * FLASH_SECTOR_SIZE % U32) with
          | (r1, st1) =>
            if r1 ≠ 0 then (-1, st1)
            else
              match win_flash_erase st1.flash 0 FLASH_SECTOR_SIZE with
              | (er2, fl2) =>
                if er2 ≠ 0 then (-1, { st1 with flash := fl2 })
                else
                  let valid_tables2 := sort_by_addr (collect_valid st1.g_manager_table)
                  match gc_compact valid_tables2 { st1 with flash := fl2 } SIZEOF_MANAGER 0 with
                  | (r2, st2, current_write_pos, current_sector) =>
                    if r2 ≠ 0 then (-1, st2)
                    else
                      let m1 :=
                        { st2.g_manager_table with
                          next_manager_addr := current_write_pos, used_size := current_write_pos }
                      let m2 := { m1 with crc := calculate_manager_table_crc m1 }
                      match write_with_chunks st2.flash 0 (manager_bytes m2) SIZEOF_MANAGER with
                      | (w, fl3) =>
                        if w ≠ 0 then (-1, { st2 with flash := fl3, g_manager_table := m2 })
                        else
                          let fl4 :=
                            erase_ignoring
                              (List.range' (current_sector + 1)
                                (total_sectors - (current_sector + 1))) fl3
                          (0, { st2 with flash := fl4, g_manager_table := m2,
                                         g_current_sector := current_sector,
                                         g_current_offset :=
                                           current_write_pos % FLASH_SECTOR_SIZE })

/-! ## State predicates used by the theorems -/

/-- The header stored at flash address `addr`. -/
def header_at (st : State) (addr : Nat) : table_header_t :=
  parse_header (mem_read st.flash.flash_cache addr SIZEOF_HEADER)

/-- The cursor address without 32-bit reduction. -/
def cursor_pos (st : State) : Nat :=
  st.g_current_sector * FLASH_SECTOR_SIZE + st.g_current_offset

/-- A consistent engine state: the manager is loaded, the managed region and the cursor lie
inside the device, the slot reserved for the next manager version lies below the cursor and is
erased, everything from the cursor on is erased, and every Valid table lies below the cursor,
clear of the reserved slot, with `data_len = struct_nums * struct_size` in its header. -/
structure Consistent (st : State) : Prop where
  loaded : st.g_manager_loaded = true
  slots : st.g_manager_table.tables.length = MAX_TABLES_ALL_SECTOR
  total_le : st.g_total_size ≤ WIN_FLASH_TOTAL_SIZE
  cursor_le : cursor_pos st ≤ WIN_FLASH_TOTAL_SIZE
  reserve_le : st.g_manager_table.next_manager_addr + SIZEOF_MANAGER ≤ cursor_pos st
  reserve_blank : ∀ a, st.g_manager_table.next_manager_addr ≤ a →
    a < st.g_manager_table.next_manager_addr + SIZEOF_MANAGER → st.flash.flash_cache a = 0xFF
  free_blank : ∀ a, cursor_pos st ≤ a → a < WIN_FLASH_TOTAL_SIZE →
    st.flash.flash_cache a = 0xFF
  tables_ok : ∀ i, i < MAX_TABLES_ALL_SECTOR →
    (slot_at st.g_manager_table i).status = TABLE_STATUS_VALID →
    (slot_at st.g_manager_table i).addr + SIZEOF_HEADER +
        (header_at st (slot_at st.g_manager_table i).addr).data_len ≤ cursor_pos st ∧
    ((slot_at st.g_manager_table i).addr + SIZEOF_HEADER +
        (header_at st (slot_at st.g_manager_table i).addr).data_len ≤
          st.g_manager_table.next_manager_addr ∨
      st.g_manager_table.next_manager_addr + SIZEOF_MANAGER ≤
        (slot_at st.g_manager_table i).addr) ∧
    (header_at st (slot_at st.g_manager_table i).addr).data_len =
      (header_at st (slot_at st.g_manager_table i).addr).struct_nums *
        (header_at st (slot_at st.g_manager_table i).addr).struct_size

/-- The address `save_manager_table` reserves for the next manager version when the cursor is at
`p`: `p` itself, or the next sector boundary when fewer than `SIZEOF_MANAGER` bytes are left in
the sector of `p`. -/
def next_reservation (p : Nat) : Nat :=
  if SIZEOF_MANAGER > FLASH_SECTOR_SIZE - p % FLASH_SECTOR_SIZE then
    (p / FLASH_SECTOR_SIZE + 1) * FLASH_SECTOR_SIZE
  else p

/-- The record `save_manager_table` programs: the in-RAM manager with the new reservation and
the CRC recomputed. -/
def committed_manager (m : flash_manager_table_t) (next_reserved : Nat) : flash_manager_table_t :=
  { { m with next_manager_addr := next_reserved } with
    crc := calculate_manager_table_crc { m with next_manager_addr := next_reserved } }

/-- The calls `fast_flash_write_table_data(name, d, s)` for the records `d` of `ds` in order,
stopping at the first call that does not return 0. -/
def append_all (st : State) (name : List Byte) (s : Nat) : List (List Byte) → Int × State
  | [] => (0, st)
  | d :: ds =>
    match fast_flash_write_table_data st name d s with
    | (r, st1) => if r ≠ 0 then (r, st1) else append_all st1 name s ds

/-- Number of set bits of a 64-bit mask (the spec's `popcount`). -/
def popcount (mask : Nat) : Nat := ((List.range 64).filter (fun i => mask.testBit i)).length

/-- The C length of a name: the number of bytes before the first NUL. -/
def c_strlen (name : List Byte) : Nat := (name.takeWhile (fun b => decide (b ≠ 0))).length

/-- A call of the mutating table API. -/
inductive api_call where
  | create (name : List Byte) (struct_size max_structs : Nat)
  | append (name data : List Byte) (size : Nat)
  | overwrite (name : List Byte) (index : Nat) (data : List Byte) (size : Nat)
  | batch (name data : List Byte) (struct_size count : Nat)
  | clear (name : List Byte) (mask : Nat)
  | delete (name : List Byte)

/-- The engine function an `api_call` stands for. -/
def api_step (st : State) : api_call → Int × State
  | .create name s m => fast_flash_create_table st name s m
  | .append name d s => fast_flash_write_table_data st name d s
  | .overwrite name k d s => fast_flash_write_table_data_by_index st name k d s
  | .batch name data s k => fast_flash_write_table_data_batch st name data s k
  | .clear name mask => fast_flash_clear_table_data st name mask
  | .delete name => fast_flash_delete_table st name

/-- The conditions on the arguments under which the C call has defined behaviour: the caller's
buffer holds the bytes the call copies, `fast_flash_write_table_data` and
`fast_flash_write_table_data_batch` divide by the record size, the batch copies the old data
and the block into a buffer of `new_data_len` (a `uint32_t`) bytes, and the copy loop of
`fast_flash_clear_table_data`, which a non-zero mask reaches, evaluates `1ULL << i` for every
row index `i`, so that the table holds at most 64 rows. -/
def call_defined (st : State) : api_call → Bool
  | .create _ _ _ => true
  | .append _ d s => decide (1 ≤ s ∧ d.length = s)
  | .overwrite _ _ d s => decide (d.length = s)
  | .batch name data s k =>
    decide (1 ≤ s ∧ data.length = s * k ∧ (fast_flash_get_table_count st name + k) * s < U32)
  | .clear name mask => decide (mask = 0 ∨ fast_flash_get_table_count st name ≤ 64)
  | .delete _ => true

/-- The state after the calls `cs` made in order from `st`, when every one of them is defined and
returns 0. -/
def run_calls (st : State) : List api_call → Option State
  | [] => some st
  | c :: cs =>
    if call_defined st c && decide ((api_step st c).1 = 0) then run_calls (api_step st c).2 cs
    else none

/-- Whether the call is a delete that resolves to the slot `name` resolves to. -/
def deletes_table (st : State) (name : List Byte) : api_call → Bool
  | .delete n => decide (find_table_index st n = find_table_index st name)
  | _ => false

/-- Like `run_calls`, and no call deletes the table `name`. -/
def run_calls_keeping (name : List Byte) (st : State) : List api_call → Option State
  | [] => some st
  | c :: cs =>
    if call_defined st c && decide ((api_step st c).1 = 0) && !deletes_table st name c then
      run_calls_keeping name (api_step st c).2 cs
    else none

/-! ## Concrete inputs used in the examples -/

/-- A device whose every byte is erased. -/
def blank_device : win_flash := { flash_cache := fun _ => 0xFF, ops := [] }

/-- The globals before the first `fast_flash_init`, over a blank device. -/
def power_on : State :=
  { flash := blank_device, g_total_size := 0, g_allow_erase := false,
    g_manager_table := zero_manager, g_manager_loaded := false, g_current_sector := 0,
    g_current_offset := 0 }

/-- The state after `fast_flash_init(&win_flash_ops, 65536, allow_erase)` on a blank device. -/
def boot (allow_erase : Bool) : State :=
  (fast_flash_init power_on WIN_FLASH_TOTAL_SIZE allow_erase).2

/-- The name `"T"`. -/
def name_T : List Byte := [84]

/-- The name `"U"`. -/
def name_U : List Byte := [85]

/-- The name `"ABCDEFG"` (7 characters). -/
def name_7 : List Byte := [65, 66, 67, 68, 69, 70, 71]

/-- The name `"ABCDEFGH"` (8 characters). -/
def name_8 : List Byte := [65, 66, 67, 68, 69, 70, 71, 72]

/-- Header of a table `"T"` of 4-byte records with capacity 10 that holds one row. -/
def demo_header : table_header_t :=
  { magic := 0x0531, name := stored_name name_T, table_size := 70, data_len := 4,
    struct_size := 4, struct_nums := 1, data_crc := 0 }

/-- A state with one Valid table `"T"` at address 1384 holding the row `[1, 2, 3, 4]`, the next
manager version reserved at 692 and the cursor behind the table. -/
def demo_state : State :=
  { flash :=
      { flash_cache := mem_write (fun _ => 0xFF) 1384 (header_bytes demo_header ++ [1, 2, 3, 4])
        ops := [] }
    g_total_size := 65536
    g_allow_erase := false
    g_manager_table :=
      { magic := 0xAAAA, crc := 0, version := 1, table_count := 1, total_size := 65536,
        used_size := 30, next_manager_addr := 692,
        tables :=
          { name := stored_name name_T, addr := 1384, size := 70, used_size := 34,
            magic := 0x0531, status := 1, reserved := 0, next_manager_addr := 0 } ::
          List.replicate 23 zero_info }
    g_manager_loaded := true
    g_current_sector := 0
    g_current_offset := 1418 }

/-- The state after `fast_flash_init` with erase allowed on a blank device,
`fast_flash_create_table("T", 4, 10)` and one `fast_flash_write_table_data("T", d, 4)` for every
record `d` of `rows`. -/
def filled_state (rows : List (List Byte)) : State :=
  (append_all (fast_flash_create_table (boot true) name_T 4 10).2 name_T 4 rows).2

/-- The state after `fast_flash_gc()` in `filled_state rows`. -/
def gc_state (rows : List (List Byte)) : State := (fast_flash_gc (filled_state rows)).2

/-- The state after `fast_flash_init` with erase allowed on a blank device,
`fast_flash_create_table("T", 4, 850)` and `fast_flash_write_table_data("T", [1, 2, 3, 4], 4)`:
one row in a table whose `table_size` is `30 + 4 * 850 = 3430`. -/
def wide_state : State :=
  (fast_flash_write_table_data (fast_flash_create_table (boot true) name_T 4 850).2 name_T
    [1, 2, 3, 4] 4).2

/-! ## Discovery of the manager chain -/

/-- The state `load_manager_table` leaves on its fresh-device path when the erase of sector 0 and
the programming of the record succeed. -/
def fresh_state (st : State) : State :=
  { st with
    flash :=
      { flash_cache := mem_write (mem_erase st.flash.flash_cache 0 FLASH_SECTOR_SIZE) 0
          (manager_bytes { fresh_manager st.g_total_size with
            crc := calculate_manager_table_crc (fresh_manager st.g_total_size) })
        ops := flash_op.write 0 (manager_bytes { fresh_manager st.g_total_size with
            crc := calculate_manager_table_crc (fresh_manager st.g_total_size) }) ::
          flash_op.erase 0 FLASH_SECTOR_SIZE :: st.flash.ops }
    g_manager_table := { fresh_manager st.g_total_size with
      crc := calculate_manager_table_crc (fresh_manager st.g_total_size) }
    g_manager_loaded := true
    g_current_sector := 0
    g_current_offset := SIZEOF_MANAGER + SIZEOF_MANAGER }

/-- The record that follows the record `m` stored at `addr` in the chain of manager records of
the device `d`, as the specification describes the chain: it continues from `m` only while
`m.next_manager_addr` is non-zero, below the total size and strictly greater than `addr`, and
the 692 bytes there are readable and pass `validate_manager_table`. -/
def chain_next (d : win_flash) (total_size addr : Nat) (m : flash_manager_table_t) :
    Option (Nat × flash_manager_table_t) :=
  if m.next_manager_addr ≠ 0 ∧ m.next_manager_addr < total_size ∧ addr < m.next_manager_addr ∧
      (win_flash_read d m.next_manager_addr SIZEOF_MANAGER).1 = 0 ∧
      validate_manager_table
        (parse_manager (win_flash_read d m.next_manager_addr SIZEOF_MANAGER).2) = 0 then
    some (m.next_manager_addr,
      parse_manager (win_flash_read d m.next_manager_addr SIZEOF_MANAGER).2)
  else none

/-- The last record of the chain that starts with the record `m` at `addr`, with its address; at
most `fuel` links are followed. -/
def chain_last (d : win_flash) (total_size : Nat) :
    Nat → Nat → flash_manager_table_t → Nat × flash_manager_table_t
  | 0, addr, m => (addr, m)
  | fuel + 1, addr, m =>
    match chain_next d total_size addr m with
    | none => (addr, m)
    | some (a, m1) => chain_last d total_size fuel a m1

/-- A slot whose fields fit their C types. -/
def wf_info (t : flash_table_info_t) : Prop :=
  t.name.length = 8 ∧ t.addr < U32 ∧ t.size < U32 ∧ t.used_size < U32 ∧ t.magic < 65536 ∧
    t.status < 256 ∧ t.reserved < 256 ∧ t.next_manager_addr < U32

/-- A manager record whose fields fit their C types. -/
def wf_manager (m : flash_manager_table_t) : Prop :=
  m.magic < 65536 ∧ m.crc < U32 ∧ m.version < 256 ∧ m.table_count < 256 ∧ m.total_size < U32 ∧
    m.used_size < U32 ∧ m.next_manager_addr < U32 ∧ m.tables.length = MAX_TABLES_ALL_SECTOR ∧
    ∀ t ∈ m.tables, wf_info t

/-- The state after `fast_flash_init(&win_flash_ops, 65536, false)` on a blank device, written
out: sector 0 erased and the fresh manager record programmed at offset 0. -/
def fresh_boot : State :=
  fresh_state { power_on with g_total_size := WIN_FLASH_TOTAL_SIZE, g_allow_erase := false }

/-- The state `fresh_boot` with the total size set to 0, as `fast_flash_init(ops, 0, false)` sets
it before it loads the manager. -/
def zero_size_state : State := { fresh_boot with g_total_size := 0 }

/-! ## CRC-32 as a polynomial remainder -/

/-- One step of the long division of a polynomial over GF(2) by the generator
x^32 + x^26 + x^23 + x^22 + x^16 + x^12 + x^11 + x^10 + x^8 + x^7 + x^5 + x^4 + x^2 + x + 1.
The remainder `r` is kept reflected (bit `i` is the coefficient of x^(31-i)), so the low 32
coefficients of the generator are the number 0xEDB88320.  With `c` the next coefficient of the
dividend the new remainder is `r * x + c`, minus the generator when the coefficient of x^32 (bit 0
of `r`) is 1; sums and differences of coefficients are exclusive ors. -/
def gf2_div_step (r : Nat) (c : Bool) : Nat :=
  let y := Nat.xor (Nat.shiftRight r 1) (bif c then 0x80000000 else 0)
  bif Nat.beq (Nat.land r 1) 0 then y else Nat.xor y 0xEDB88320

/-- Remainder of the polynomial with the coefficients `dividend` (highest degree first) on
division by the generator. -/
def gf2_rem (dividend : List Bool) : Nat := dividend.foldl gf2_div_step 0

/-- The eight bits of a byte in the order of transmission, least significant first. -/
def byte_bits (b : Byte) : List Bool := (List.range 8).map (fun j => b.val.testBit j)

/-- The bits of a message in the order of transmission. -/
def message_bits : List Byte → List Bool
  | [] => []
  | b :: bs => byte_bits b ++ message_bits bs

/-- Sum of two polynomials over GF(2) given by coefficient lists of the same length. -/
def xor_bits (a b : List Bool) : List Bool := List.zipWith xor a b

/-- The CRC-32 of IEEE 802.3 by its definition: with M the polynomial whose coefficients are the
`n` message bits in the order of transmission and L = x^31 + ... + x + 1, the complement of the
remainder of `M * x^32 + L * x^n` on division by the generator, bit `i` of the value being the
coefficient of x^(31-i). -/
def crc32_ieee (data : List Byte) : Nat :=
  gf2_rem (xor_bits (message_bits data ++ List.replicate 32 false)
    (List.replicate 32 true ++ List.replicate (8 * data.length) false)) ^^^ 0xFFFFFFFF

/-- One link of the chain of manager records: `y` is the record that follows `x`. -/
def chain_step (d : win_flash) (total_size : Nat) (x y : Nat × flash_manager_table_t) : Prop :=
  chain_next d total_size x.1 x.2 = some y

/-- The in-RAM manager is on flash: the device has room (`g_total_size > 0`), the record at
offset 0 validates, the in-RAM manager fits its C types and carries the manager magic and
version, and the chain of records from offset 0 leads to a record at some address `A` that is
the in-RAM manager, with the slot reserved for the next version behind it. -/
structure Persisted (st : State) : Prop where
  size_pos : 0 < st.g_total_size
  first : validate_manager_table
    (parse_manager (mem_read st.flash.flash_cache 0 SIZEOF_MANAGER)) = 0
  wf : wf_manager st.g_manager_table
  magic : st.g_manager_table.magic = MAGIC_NUMBER_MANAGER
  version : st.g_manager_table.version = MANAGER_TABLE_VERSION
  chain : ∃ A, Relation.ReflTransGen (chain_step st.flash st.g_total_size)
    (0, parse_manager (mem_read st.flash.flash_cache 0 SIZEOF_MANAGER))
    (A, st.g_manager_table) ∧ A + SIZEOF_MANAGER ≤ st.g_manager_table.next_manager_addr

/-- The state after `fast_flash_init(&win_flash_ops, 1400, false)` on a blank device: the
fresh manager record at offset 0, the cursor at 1384 and a total size of 1400 bytes. -/
def small_boot : State :=
  fresh_state { power_on with g_total_size := 1400, g_allow_erase := false }

/-- The state `fresh_boot` with the cursor in the last sector of the 32-bit address space:
sector 1048575, offset 4000. -/
def top_cursor_state : State :=
  { fresh_boot with g_current_sector := 1048575, g_current_offset := 4000 }

/-- The header of the table a name resolves to, as the mutators read it through the driver: the
result of the read and the record parsed from the bytes. -/
def read_header (st : State) (table_name : List Byte) : Int × table_header_t :=
  ((win_flash_read st.flash
      (slot_at st.g_manager_table (find_table_index st table_name).toNat).addr SIZEOF_HEADER).1,
    parse_header (win_flash_read st.flash
      (slot_at st.g_manager_table (find_table_index st table_name).toNat).addr SIZEOF_HEADER).2)

/-- Whether one of the checks that a mutator makes on its arguments and on the table, before it
asks the allocator for space (`fast_flash_delete_table`: before it marks the slot), rejects the
call. -/
def rejected (st : State) : api_call → Prop
  | .create name _ _ =>
    st.g_manager_loaded = false ∨ find_table_index st name ≥ 0 ∨ find_free_table_slot st < 0
  | .append name _ size =>
    st.g_manager_loaded = false ∨ find_table_index st name < 0 ∨ (read_header st name).1 ≠ 0 ∨
      size ≠ (read_header st name).2.struct_size
  | .overwrite name index _ size =>
    st.g_manager_loaded = false ∨ find_table_index st name < 0 ∨ (read_header st name).1 ≠ 0 ∨
      size ≠ (read_header st name).2.struct_size ∨ index ≥ (read_header st name).2.struct_nums
  | .batch name _ struct_size count =>
    count = 0 ∨ st.g_manager_loaded = false ∨ find_table_index st name < 0 ∨
      (read_header st name).1 ≠ 0 ∨ struct_size ≠ (read_header st name).2.struct_size ∨
      ((read_header st name).2.struct_nums + count) % U32 >
        header_capacity (read_header st name).2
  | .clear name clear_mask =>
    st.g_manager_loaded = false ∨ find_table_index st name < 0 ∨ (read_header st name).1 ≠ 0 ∨
      clear_mask &&&
        ((if (read_header st name).2.struct_nums < 64 then
            (1 <<< (read_header st name).2.struct_nums) - 1 else U64 - 1) ^^^ (U64 - 1)) ≠ 0
  | .delete name => st.g_manager_loaded = false ∨ find_table_index st name < 0

/-- The size a mutator passes to `allocate_table_space` once its checks have let the call
through; `fast_flash_delete_table` allocates nothing. -/
def requested_size (st : State) : api_call → Option Nat
  | .create _ _ _ => some SIZEOF_HEADER
  | .append name _ size =>
    some ((SIZEOF_HEADER + ((read_header st name).2.data_len + size) % U32) % U32)
  | .overwrite name _ _ _ => some (((read_header st name).2.data_len + SIZEOF_HEADER) % U32)
  | .batch name _ struct_size count =>
    some ((SIZEOF_HEADER +
      ((read_header st name).2.data_len + (struct_size * count) % U32) % U32) % U32)
  | .clear name clear_mask =>
    some ((SIZEOF_HEADER +
      (clear_loop clear_mask
        (win_flash_read st.flash
          (((slot_at st.g_manager_table (find_table_index st name).toNat).addr + SIZEOF_HEADER)
            % U32) (read_header st name).2.data_len).2
        (read_header st name).2.struct_size
        (List.range (read_header st name).2.struct_nums) ([], 0, 0)).2.1) % U32)
  | .delete _ => none

/-- The in-RAM manager table and the write cursor of `st'` are those of `st`. -/
def same_ram (st st' : State) : Prop :=
  st'.g_manager_table = st.g_manager_table ∧ st'.g_current_sector = st.g_current_sector ∧
    st'.g_current_offset = st.g_current_offset

/-- A call of one of the seven mutators: the six of `api_call` and
`fast_flash_append_table_data`, the append that checks the capacity of the table first. -/
inductive mutator_call where
  | core (c : api_call)
  | append_checked (name data : List Byte) (size : Nat)

/-- The engine function a `mutator_call` stands for. -/
def mutator_step (st : State) : mutator_call → Int × State
  | .core c => api_step st c
  | .append_checked name data size => fast_flash_append_table_data st name data size

/-- Whether one of the checks that precede the request for space rejects the call;
`fast_flash_append_table_data` makes the checks of `fast_flash_write_table_data` and rejects a
record for a table that is full. -/
def mutator_rejected (st : State) : mutator_call → Prop
  | .core c => rejected st c
  | .append_checked name data size =>
    rejected st (.append name data size) ∨
      (read_header st name).2.struct_nums ≥ header_capacity (read_header st name).2

/-- The size passed to `allocate_table_space`; `fast_flash_append_table_data` asks through
`fast_flash_write_table_data`. -/
def mutator_requested_size (st : State) : mutator_call → Option Nat
  | .core c => requested_size st c
  | .append_checked name data size => requested_size st (.append name data size)

/-- The call has defined behaviour up to its request for space.  Before that request
`fast_flash_write_table_data_batch` and `fast_flash_append_table_data` divide by
`header.struct_size` once the size check has passed, so the record size of the table is not 0;
the copy loop of `fast_flash_clear_table_data`, reached with a non-zero mask once the data was
read, evaluates `1ULL << i` for every row index and copies every kept row out of the `data_len`
bytes read, so the table holds at most 64 rows and they lie inside the data; and
`fast_flash_write_table_data_by_index` copies `size` bytes of the caller's buffer over the row
inside the `data_len` bytes read.  The other mutators do nothing of the kind before they ask
for space. -/
def early_defined (st : State) : mutator_call → Prop
  | .core (.overwrite name index data size) =>
    rejected st (.overwrite name index data size) ∨
      (win_flash_read st.flash
        (((slot_at st.g_manager_table (find_table_index st name).toNat).addr + SIZEOF_HEADER)
          % U32) (read_header st name).2.data_len).1 ≠ 0 ∨
      (size ≤ data.length ∧
        (index * (read_header st name).2.struct_size) % U32 + size ≤
          (read_header st name).2.data_len)
  | .core (.batch name _ struct_size count) =>
    count = 0 ∨ st.g_manager_loaded = false ∨ find_table_index st name < 0 ∨
      (read_header st name).1 ≠ 0 ∨ struct_size ≠ (read_header st name).2.struct_size ∨
      (read_header st name).2.struct_size ≠ 0
  | .core (.clear name clear_mask) =>
    rejected st (.clear name clear_mask) ∨ clear_mask = 0 ∨
      (win_flash_read st.flash
        (((slot_at st.g_manager_table (find_table_index st name).toNat).addr + SIZEOF_HEADER)
          % U32) (read_header st name).2.data_len).1 ≠ 0 ∨
      ((read_header st name).2.struct_nums ≤ 64 ∧
        (read_header st name).2.struct_nums * (read_header st name).2.struct_size ≤
          (read_header st name).2.data_len)
  | .append_checked name data size =>
    rejected st (.append name data size) ∨ (read_header st name).2.struct_size ≠ 0
  | .core _ => True

/-- The state `demo_state` with the capacity of the table `"T"` reduced to the one row it holds
(`table_size` 34). -/
def full_demo_state : State :=
  { demo_state with
    flash :=
      { flash_cache := mem_write (fun _ => 0xFF) 1384
          (header_bytes { demo_header with table_size := 34 } ++ [1, 2, 3, 4])
        ops := [] } }

/-! ## Calls that fail before anything is staged -/

/-- The state after `fast_flash_init(&win_flash_ops, 4096, true)` on a blank device and
`fast_flash_create_table("T", 4, 10)`: a store of one sector that holds a Valid table. -/
def one_sector_state : State :=
  (fast_flash_create_table (fast_flash_init power_on FLASH_SECTOR_SIZE true).2 name_T 4 10).2

/-- The state `demo_state` with erase allowed. -/
def erasable_demo_state : State := { demo_state with g_allow_erase := true }

/-- The driver calls issued between the device states `d` and `d'` are program calls, each
either at or above the address `p` or inside the `SIZEOF_MANAGER` bytes at `n`. -/
def only_writes (p n : Nat) (d d' : win_flash) : Prop :=
  ∃ new, d'.ops = new ++ d.ops ∧
    ∀ op ∈ new, ∃ a b, op = flash_op.write a b ∧
      (p ≤ a ∨ (n ≤ a ∧ a + b.length ≤ n + SIZEOF_MANAGER))

/-- What a mutator that starts in `st` with erase not allowed has done to the device when it
is in `s`: program calls only, each at or above the cursor of `st` or inside the slot reserved
for the next manager record; erase is still not allowed. -/
def staged (st s : State) : Prop :=
  only_writes (cursor_pos st) st.g_manager_table.next_manager_addr st.flash s.flash ∧
    s.g_allow_erase = false

/-- The state after `fast_flash_init(&win_flash_ops, total_size, false)` on a blank device,
written out: sector 0 erased and the fresh manager record programmed at offset 0. -/
def boot_with (total_size : Nat) : State :=
  fresh_state { power_on with g_total_size := total_size, g_allow_erase := false }

/-- The state after `fast_flash_init(&win_flash_ops, 65536, true)` on a blank device,
`fast_flash_create_table("T", 4, 10)` and `fast_flash_delete_table("T")`. -/
def deleted_state : State :=
  (fast_flash_delete_table (fast_flash_create_table (boot true) name_T 4 10).2 name_T).2

/-- The state after `fast_flash_init(&win_flash_ops, 65536, false)` on a blank device and
`fast_flash_create_table("T", 0, 10)`: a table of records of size 0. -/
def zero_struct_state : State := (fast_flash_create_table (boot false) name_T 0 10).2

/-- The driver writes the specification gives for `write_with_chunks(a, d, n)`:
`ceil(n / CHUNK)` of them, the `j`-th at address `a + CHUNK * j` with the next
`min(CHUNK, remaining)` bytes of `d`. -/
def chunk_calls (a : Nat) (d : List Byte) (n : Nat) : List flash_op :=
  (List.range ((n + FLASH_WRITE_CHUNK_SIZE - 1) / FLASH_WRITE_CHUNK_SIZE)).map (fun j =>
    flash_op.write (a + FLASH_WRITE_CHUNK_SIZE * j)
      ((d.drop (FLASH_WRITE_CHUNK_SIZE * j)).take
        (min FLASH_WRITE_CHUNK_SIZE (n - FLASH_WRITE_CHUNK_SIZE * j))))

/-- The calls of a list issued to the driver in order, up to and including the first one that
returns a non-zero code, which is then the result; 0 when every call returned 0. -/
def issue_in_order : win_flash → List flash_op → Int × win_flash
  | d, [] => (0, d)
  | d, flash_op.write a b :: rest =>
    match win_flash_write d a b b.length with
    | (r, d1) => if r ≠ 0 then (r, d1) else issue_in_order d1 rest
  | d, flash_op.erase a s :: rest =>
    match win_flash_erase d a s with
    | (r, d1) => if r ≠ 0 then (r, d1) else issue_in_order d1 rest

/-- One pass of the walk loop of `load_manager_table` at address `addr`: either the function
returns or the loop is left (`Sum.inl`, with the result of `load_walk`), or the loop goes round
again (`Sum.inr`) with the new value of `addr` and the record saved as last valid one. -/
def walk_pass (st : State) (addr : Nat) (last : Option (flash_manager_table_t × Nat)) :
    (State ⊕ Option (flash_manager_table_t × Nat)) ⊕
      (Nat × Option (flash_manager_table_t × Nat)) :=
  if addr < st.g_total_size then
    match win_flash_read st.flash addr SIZEOF_MANAGER with
    | (result, b) =>
      if result ≠ 0 then Sum.inl (Sum.inr last)
      else
        let candidate := parse_manager b
        if candidate.magic ≠ MAGIC_NUMBER_MANAGER then Sum.inl (Sum.inr last)
        else if validate_manager_table candidate ≠ 0 then Sum.inl (Sum.inr last)
        else if candidate.next_manager_addr = 0 ∨
            candidate.next_manager_addr ≥ st.g_total_size ∨
            candidate.next_manager_addr ≤ addr then
          Sum.inl (Sum.inl (adopt_manager st candidate ((addr + SIZEOF_MANAGER) % U32)))
        else
          let next_addr := candidate.next_manager_addr
          match win_flash_read st.flash next_addr SIZEOF_MANAGER with
          | (result2, b2) =>
            if result2 ≠ 0 then
              Sum.inl (Sum.inl (adopt_manager st candidate ((next_addr + SIZEOF_MANAGER) % U32)))
            else if (parse_manager b2).magic ≠ MAGIC_NUMBER_MANAGER ∨
                validate_manager_table (parse_manager b2) ≠ 0 then
              Sum.inl (Sum.inl (adopt_manager st candidate ((next_addr + SIZEOF_MANAGER) % U32)))
            else Sum.inr (next_addr, some (candidate, addr))
  else Sum.inl (Sum.inr last)

/-- The walk loop of `load_manager_table` run for at most `fuel` passes: `none` when the loop
is still running after them. -/
def walk_within : Nat → State → Nat → Option (flash_manager_table_t × Nat) →
    Option (State ⊕ Option (flash_manager_table_t × Nat))
  | 0, _, _, _ => none
  | fuel + 1, st, addr, last =>
    match walk_pass st addr last with
    | Sum.inl r => some r
    | Sum.inr (next_addr, last1) => walk_within fuel st next_addr last1

/-- The state after `fast_flash_init(&win_flash_ops, 65536, false)` on a blank device,
`fast_flash_create_table("T", 7, 1227133513)` and
`fast_flash_write_table_data_batch("T", {1, 2}, 7, 1840700270)`. -/
def wrapped_batch_state : State :=
  (fast_flash_write_table_data_batch (fast_flash_create_table (boot false) name_T 7 1227133513).2
    name_T [1, 2] 7 1840700270).2

/-- Model of `fast_flash_validate_table_data` (for a non-null name; the function only reads). -/
def fast_flash_validate_table_data (st : State) (table_name : List Byte) : Int :=
  if st.g_manager_loaded = false then -1
  else if find_table_index st table_name < 0 then -1
  else
    let table_info := slot_at st.g_manager_table (find_table_index st table_name).toNat
    match win_flash_read st.flash table_info.addr SIZEOF_HEADER with
    | (r, hb) =>
      if r ≠ 0 then -1
      else
        let header := parse_header hb
        if header.magic ≠ MAGIC_NUMBER_TABLE then -1
        else if header.data_len > 0 then
          match win_flash_read st.flash ((table_info.addr + SIZEOF_HEADER) % U32)
              header.data_len with
          | (result, data) =>
            if result ≠ 0 then result
            else if calculate_crc32 data header.data_len ≠ header.data_crc then -1
            else 0
        else 0

/-- Every Valid slot points at a header with the table magic whose `data_crc` is the CRC-32 of
the `data_len` bytes that follow it. -/
def Checked (st : State) : Prop :=
  ∀ i, i < MAX_TABLES_ALL_SECTOR →
    (slot_at st.g_manager_table i).status = TABLE_STATUS_VALID →
    (header_at st (slot_at st.g_manager_table i).addr).magic = MAGIC_NUMBER_TABLE ∧
    (header_at st (slot_at st.g_manager_table i).addr).data_crc =
      calculate_crc32
        (mem_read st.flash.flash_cache ((slot_at st.g_manager_table i).addr + SIZEOF_HEADER)
          (header_at st (slot_at st.g_manager_table i).addr).data_len)
        (header_at st (slot_at st.g_manager_table i).addr).data_len

/-- The state after `fast_flash_init(&win_flash_ops, total_size, allow_erase)` on a blank
device, written out: sector 0 erased and the fresh manager record programmed at offset 0. -/
def boot_state (total_size : Nat) (allow_erase : Bool) : State :=
  fresh_state { power_on with g_total_size := total_size, g_allow_erase := allow_erase }

/-- Model of `fast_flash_repair_table` (for a non-null name): the data CRC is recomputed and
the header programmed again at the address of the table. -/
def fast_flash_repair_table (st : State) (table_name : List Byte) : Int × State :=
  if st.g_manager_loaded = false then (-1, st)
  else if find_table_index st table_name < 0 then (-1, st)
  else
    let table_info := slot_at st.g_manager_table (find_table_index st table_name).toNat
    match win_flash_read st.flash table_info.addr SIZEOF_HEADER with
    | (r, hb) =>
      if r ≠ 0 then (-1, st)
      else
        let header := parse_header hb
        if header.magic ≠ MAGIC_NUMBER_TABLE then (-1, st)
        else if header.data_len > 0 then
          match win_flash_read st.flash ((table_info.addr + SIZEOF_HEADER) % U32)
              header.data_len with
          | (result, data) =>
            if result = 0 then
              match write_with_chunks st.flash table_info.addr
                  (header_bytes { header with data_crc := calculate_crc32 data header.data_len })
                  SIZEOF_HEADER with
              | (w, fl) => (w, { st with flash := fl })
            else (result, st)
        else (0, st)

/-- A call of a public function that changes the globals or the flash, `fast_flash_init`
apart. -/
inductive public_call where
  | mutator (m : mutator_call)
  | gc
  | repair (name : List Byte)
  | set_erase_allowed (allowed : Bool)

/-- The state after a public call, whatever it returns. -/
def public_step (st : State) : public_call → State
  | .mutator m => (mutator_step st m).2
  | .gc => (fast_flash_gc st).2
  | .repair name => (fast_flash_repair_table st name).2
  | .set_erase_allowed allowed => fast_flash_set_erase_allowed st allowed

/-- The conditions of `call_defined` for the public calls: `fast_flash_append_table_data`
divides by the record size and copies it out of the caller's buffer like
`fast_flash_write_table_data`. -/
def public_defined (st : State) : public_call → Bool
  | .mutator (.core c) => call_defined st c
  | .mutator (.append_checked _ data size) => decide (1 ≤ size ∧ data.length = size)
  | _ => true

/-- The state after the public calls `cs` made in order from `st`, whatever they return, when
every one of them is defined. -/
def run_public (st : State) : List public_call → Option State
  | [] => some st
  | c :: cs => if public_defined st c then run_public (public_step st c) cs else none

/-- The number of slots whose status is Valid. -/
def valid_count (m : flash_manager_table_t) : Nat :=
  ((List.range MAX_TABLES_ALL_SECTOR).filter
    (fun i => decide ((slot_at m i).status = TABLE_STATUS_VALID))).length

/-- The manager has its 24 slots and `table_count` is the number of the Valid ones. -/
def Counted (m : flash_manager_table_t) : Prop :=
  m.tables.length = MAX_TABLES_ALL_SECTOR ∧ m.table_count = valid_count m

/-- Two managers with the same number of slots, the same `table_count` and the same status in
every slot. -/
def same_accounting (m m' : flash_manager_table_t) : Prop :=
  m'.tables.length = m.tables.length ∧ m'.table_count = m.table_count ∧
    ∀ i, (slot_at m' i).status = (slot_at m i).status

/-- The state after `fast_flash_init(&win_flash_ops, 65536, false)` on a blank device and
`fast_flash_create_table("T", 4294967267, 1)`: a table of records of 4294967267 bytes. -/
@[irreducible] def huge_record_state : State :=
  (fast_flash_create_table (boot false) name_T 4294967267 1).2

/-- The 65 one-byte records `0, 1, ..., 64`. -/
def rows_65 : List Byte :=
  (List.range 65).map (fun i => (⟨i % 256, Nat.mod_lt _ (by decide)⟩ : Byte))

/-- The state after `fast_flash_init(&win_flash_ops, 65536, false)` on a blank device,
`fast_flash_create_table("T", 1, 100)` and a batch write of the 65 records of `rows_65`: a
table of 65 rows. -/
def long_table_state : State :=
  (fast_flash_write_table_data_batch (fast_flash_create_table (boot false) name_T 1 100).2
    name_T rows_65 1 65).2

/-- The footprint of the table in slot `i` as the specification defines it: the header and the
`data_len` bytes of data that follow it. -/
def slot_footprint (st : State) (i : Nat) : Nat :=
  SIZEOF_HEADER + (header_at st (slot_at st.g_manager_table i).addr).data_len

/-- A manager record that no commit of the engine writes: it counts one table although none of
its 24 slots is Valid.  Its magic, version and CRC are those of a valid record, and it names
no next record. -/
def forged_record : flash_manager_table_t :=
  committed_manager { fresh_manager WIN_FLASH_TOTAL_SIZE with table_count := 1 } 0

/-- A buffer of 4294967267 bytes: 0xFF everywhere but for the image of `forged_record` in the
bytes 31 to 722. -/
def forged_buffer : List Byte :=
  List.replicate 31 0xFF ++ (manager_bytes forged_record ++ List.replicate 4294966544 0xFF)

/-! # Lemmas -/

/-! ## Memory lemmas -/

theorem mem_read_length (c : Nat → Byte) (a n : Nat) : (mem_read c a n).length = n := by
  simp [mem_read]

theorem mem_read_getD (c : Nat → Byte) (a n i : Nat) (h : i < n) :
    (mem_read c a n).getD i 0 = c (a + i) := by
  simp [mem_read, List.getD_eq_getElem?_getD, List.getElem?_map, List.getElem?_range h]

theorem mem_read_congr (c1 c2 : Nat → Byte) (a n : Nat)
    (h : ∀ x, a ≤ x → x < a + n → c1 x = c2 x) : mem_read c1 a n = mem_read c2 a n := by
  unfold mem_read
  apply List.map_congr_left
  intro i hi
  have := List.mem_range.mp hi
  exact h (a + i) (by omega) (by omega)

theorem mem_read_take_drop (c : Nat → Byte) (a n k m : Nat) (h : k + m ≤ n) :
    ((mem_read c a n).drop k).take m = mem_read c (a + k) m := by
  apply List.ext_getElem
  · simp [mem_read]; omega
  · intro i h1 h2
    simp [mem_read, Nat.add_assoc]

theorem mem_read_append (c : Nat → Byte) (a n m : Nat) :
    mem_read c a (n + m) = mem_read c a n ++ mem_read c (a + n) m := by
  apply List.ext_getElem
  · simp [mem_read]
  · intro i h1 h2
    simp only [mem_read_length] at h1
    by_cases hi : i < n
    · rw [List.getElem_append_left (by simpa [mem_read] using hi)]
      simp [mem_read]
    · rw [List.getElem_append_right (by simp [mem_read]; omega)]
      simp [mem_read]
      congr 1; omega

theorem mem_write_in (c : Nat → Byte) (addr : Nat) (buf : List Byte) (a : Nat)
    (h1 : addr ≤ a) (h2 : a < addr + buf.length) :
    mem_write c addr buf a = buf.getD (a - addr) 0 := by
  simp [mem_write, h1, h2]

theorem mem_write_out (c : Nat → Byte) (addr : Nat) (buf : List Byte) (a : Nat)
    (h : a < addr ∨ addr + buf.length ≤ a) : mem_write c addr buf a = c a := by
  unfold mem_write
  rw [if_neg]
  omega

theorem mem_erase_in (c : Nat → Byte) (addr size a : Nat) (h1 : addr ≤ a) (h2 : a < addr + size) :
    mem_erase c addr size a = 0xFF := by
  simp [mem_erase, h1, h2]

theorem mem_erase_out (c : Nat → Byte) (addr size a : Nat) (h : a < addr ∨ addr + size ≤ a) :
    mem_erase c addr size a = c a := by
  unfold mem_erase
  rw [if_neg]
  omega

theorem mem_read_write_same (c : Nat → Byte) (addr : Nat) (buf : List Byte) :
    mem_read (mem_write c addr buf) addr buf.length = buf := by
  apply List.ext_getElem
  · simp [mem_read]
  · intro i h1 h2
    simp only [mem_read, List.getElem_map, List.getElem_range]
    rw [mem_write_in _ _ _ _ (by omega) (by omega)]
    simp [List.getD_eq_getElem?_getD, h2]

theorem mem_write_append (c : Nat → Byte) (addr : Nat) (b1 b2 : List Byte) :
    mem_write (mem_write c addr b1) (addr + b1.length) b2 = mem_write c addr (b1 ++ b2) := by
  funext a
  simp only [mem_write, List.length_append]
  by_cases h1 : addr + b1.length ≤ a ∧ a < addr + b1.length + b2.length
  · rw [if_pos h1, if_pos (by omega)]
    rw [List.getD_append_right _ _ _ _ (by omega)]
    congr 1; omega
  · rw [if_neg h1]
    by_cases h2 : addr ≤ a ∧ a < addr + b1.length
    · rw [if_pos h2, if_pos (by omega)]
      rw [List.getD_append _ _ _ _ (by omega)]
    · rw [if_neg h2, if_neg (by omega)]


theorem mem_write_nil (c : Nat → Byte) (addr : Nat) : mem_write c addr [] = c := by
  funext a
  exact mem_write_out c addr [] a (by simp; omega)

/-! ## Driver lemmas -/

theorem nor_run_le (c : Nat → Byte) : ∀ (l : List Byte) (a : Nat), nor_run c a l ≤ l.length
  | [], _ => by simp [nor_run]
  | b :: bs, a => by
    simp only [nor_run, List.length_cons]
    split
    · omega
    · have := nor_run_le c bs (a + 1); omega

theorem win_flash_read_ok (d : win_flash) (addr size : Nat)
    (h : (win_flash_read d addr size).1 = 0) :
    (addr + size) % U32 ≤ WIN_FLASH_TOTAL_SIZE ∧
      (win_flash_read d addr size).2 = mem_read d.flash_cache addr size := by
  unfold win_flash_read at h ⊢
  split at h
  · simp at h
  · rename_i hb
    rw [if_neg hb]
    exact ⟨by omega, rfl⟩

theorem win_flash_read_of_le (d : win_flash) (addr size : Nat)
    (h : addr + size ≤ WIN_FLASH_TOTAL_SIZE) :
    win_flash_read d addr size = (0, mem_read d.flash_cache addr size) := by
  unfold win_flash_read
  rw [if_neg]
  have : (addr + size) % U32 ≤ addr + size := Nat.mod_le _ _
  omega

theorem win_flash_write_ok (d : win_flash) (addr : Nat) (buf : List Byte) (size : Nat)
    (h : (win_flash_write d addr buf size).1 = 0) :
    (addr + size) % U32 ≤ WIN_FLASH_TOTAL_SIZE ∧ size ≤ buf.length ∧
      (win_flash_write d addr buf size).2.flash_cache =
        mem_write d.flash_cache addr (buf.take size) := by
  unfold win_flash_write at h ⊢
  simp only at h ⊢
  split at h
  · simp at h
  · rename_i hb
    rw [if_neg hb]
    split at h
    · rename_i hk
      rw [if_pos hk]
      have hle := nor_run_le d.flash_cache (buf.take size) addr
      rw [hk, List.length_take] at hle
      refine ⟨by omega, by omega, ?_⟩
      simp only [hk]
    · simp at h

theorem win_flash_write_frame (d : win_flash) (addr : Nat) (buf : List Byte) (size x : Nat)
    (hx : x < addr ∨ addr + size ≤ x) :
    (win_flash_write d addr buf size).2.flash_cache x = d.flash_cache x := by
  unfold win_flash_write
  simp only
  have hle := nor_run_le d.flash_cache (buf.take size) addr
  rw [List.length_take] at hle
  have hlen : (buf.take (nor_run d.flash_cache addr (buf.take size))).length ≤ size := by
    rw [List.length_take]; omega
  have hlen2 : (buf.take size).length ≤ size := by
    rw [List.length_take]; omega
  split
  · rfl
  · split <;> exact mem_write_out _ _ _ _ (by omega)

theorem aligned_size_sector :
    (((FLASH_SECTOR_SIZE + FLASH_SECTOR_SIZE - 1) % U32) / FLASH_SECTOR_SIZE) *
      FLASH_SECTOR_SIZE % U32 = FLASH_SECTOR_SIZE := by decide!

theorem win_flash_erase_sector_ok (d : win_flash) (addr : Nat)
    (h : (win_flash_erase d addr FLASH_SECTOR_SIZE).1 = 0) :
    (win_flash_erase d addr FLASH_SECTOR_SIZE).2.flash_cache =
      mem_erase d.flash_cache ((addr / FLASH_SECTOR_SIZE) * FLASH_SECTOR_SIZE)
        FLASH_SECTOR_SIZE := by
  unfold win_flash_erase at h ⊢
  simp only [aligned_size_sector] at h ⊢
  split at h
  · simp at h
  · rename_i hb
    rw [if_neg hb]
    split at h
    · simp at h
    · rename_i hb2
      rw [if_neg hb2]

theorem win_flash_erase_sector_frame (d : win_flash) (addr x : Nat)
    (hx : x < (addr / FLASH_SECTOR_SIZE) * FLASH_SECTOR_SIZE ∨
      (addr / FLASH_SECTOR_SIZE) * FLASH_SECTOR_SIZE + FLASH_SECTOR_SIZE ≤ x) :
    (win_flash_erase d addr FLASH_SECTOR_SIZE).2.flash_cache x = d.flash_cache x := by
  unfold win_flash_erase
  simp only [aligned_size_sector]
  split
  · rfl
  · split
    · rfl
    · exact mem_erase_out _ _ _ _ hx

/-! ## Chunked programming -/

theorem write_with_chunks_loop_ok : ∀ (fuel : Nat) (d : win_flash) (addr : Nat) (src : List Byte)
    (remain : Nat), remain ≤ fuel → addr + FLASH_WRITE_CHUNK_SIZE < U32 →
    (write_with_chunks_loop fuel d addr src remain).1 = 0 →
    remain ≤ src.length ∧
      (write_with_chunks_loop fuel d addr src remain).2.flash_cache =
        mem_write d.flash_cache addr (src.take remain) ∧
      (0 < remain → addr + remain ≤ WIN_FLASH_TOTAL_SIZE)
  | 0, d, addr, src, remain, hf, _, _ => by
    have : remain = 0 := by omega
    subst this
    simp [write_with_chunks_loop, mem_write_nil]
  | fuel + 1, d, addr, src, remain, hf, hw, h => by
    have hC : FLASH_WRITE_CHUNK_SIZE = 1024 := by decide!
    have hU : U32 = 4294967296 := by decide!
    have hW : WIN_FLASH_TOTAL_SIZE = 65536 := by decide!
    unfold write_with_chunks_loop at h ⊢
    by_cases hr : remain > 0
    · rw [if_pos hr] at h ⊢
      dsimp only at h ⊢
      generalize hcs : (if remain > FLASH_WRITE_CHUNK_SIZE then FLASH_WRITE_CHUNK_SIZE
        else remain) = chunk at h ⊢
      have hc1 : chunk ≤ remain ∧ chunk ≤ FLASH_WRITE_CHUNK_SIZE ∧ 0 < chunk := by
        rw [← hcs]; split <;> omega
      by_cases hres : (win_flash_write d addr src chunk).1 = 0
      · rw [if_neg (by simpa using hres)] at h ⊢
        obtain ⟨hb, hlen, hcache⟩ := win_flash_write_ok d addr src chunk hres
        have hmod : (addr + chunk) % U32 = addr + chunk := Nat.mod_eq_of_lt (by omega)
        rw [hmod] at h hb ⊢
        have ih := write_with_chunks_loop_ok fuel (win_flash_write d addr src chunk).2
          (addr + chunk) (src.drop chunk) (remain - chunk) (by omega) (by omega) h
        obtain ⟨ih1, ih2, ih3⟩ := ih
        rw [List.length_drop] at ih1
        refine ⟨by omega, ?_, ?_⟩
        · rw [ih2, hcache]
          have hl : (src.take chunk).length = chunk := by
            rw [List.length_take]; omega
          have := mem_write_append d.flash_cache addr (src.take chunk)
            ((src.drop chunk).take (remain - chunk))
          rw [hl] at this
          rw [this]
          have : remain = chunk + (remain - chunk) := by omega
          conv_rhs => rw [this, List.take_add]
        · intro _
          by_cases hz : remain - chunk = 0
          · omega
          · have := ih3 (by omega); omega
      · rw [if_pos (by simpa using hres)] at h
        exact absurd h hres
    · have : remain = 0 := by omega
      subst this
      simp [mem_write_nil]

theorem write_with_chunks_ok (d : win_flash) (addr : Nat) (data : List Byte) (size : Nat)
    (hw : addr + FLASH_WRITE_CHUNK_SIZE < U32) (h : (write_with_chunks d addr data size).1 = 0) :
    size ≤ data.length ∧
      (write_with_chunks d addr data size).2.flash_cache =
        mem_write d.flash_cache addr (data.take size) ∧
      (0 < size → addr + size ≤ WIN_FLASH_TOTAL_SIZE) :=
  write_with_chunks_loop_ok size d addr data size (Nat.le_refl _) hw h

theorem write_with_chunks_loop_frame : ∀ (fuel : Nat) (d : win_flash) (addr : Nat)
    (src : List Byte) (remain x : Nat), remain ≤ fuel → addr + FLASH_WRITE_CHUNK_SIZE < U32 →
    (x < addr ∨ addr + remain ≤ x) →
    (write_with_chunks_loop fuel d addr src remain).2.flash_cache x = d.flash_cache x
  | 0, d, addr, src, remain, x, _, _, _ => by simp [write_with_chunks_loop]
  | fuel + 1, d, addr, src, remain, x, hf, hw, hx => by
    have hC : FLASH_WRITE_CHUNK_SIZE = 1024 := by decide!
    have hU : U32 = 4294967296 := by decide!
    have hW : WIN_FLASH_TOTAL_SIZE = 65536 := by decide!
    unfold write_with_chunks_loop
    by_cases hr : remain > 0
    · rw [if_pos hr]
      dsimp only
      generalize hcs : (if remain > FLASH_WRITE_CHUNK_SIZE then FLASH_WRITE_CHUNK_SIZE
        else remain) = chunk
      have hc1 : chunk ≤ remain ∧ chunk ≤ FLASH_WRITE_CHUNK_SIZE ∧ 0 < chunk := by
        rw [← hcs]; split <;> omega
      have hfr := win_flash_write_frame d addr src chunk x (by omega)
      by_cases hres : (win_flash_write d addr src chunk).1 = 0
      · rw [if_neg (by simpa using hres)]
        obtain ⟨hb, _, _⟩ := win_flash_write_ok d addr src chunk hres
        have hmod : (addr + chunk) % U32 = addr + chunk := Nat.mod_eq_of_lt (by omega)
        rw [hmod] at hb ⊢
        rw [write_with_chunks_loop_frame fuel _ (addr + chunk) _ (remain - chunk) x
          (by omega) (by omega) (by omega)]
        exact hfr
      · rw [if_pos (by simpa using hres)]
        exact hfr
    · rw [if_neg hr]

theorem write_with_chunks_frame (d : win_flash) (addr : Nat) (data : List Byte) (size x : Nat)
    (hw : addr + FLASH_WRITE_CHUNK_SIZE < U32) (hx : x < addr ∨ addr + size ≤ x) :
    (write_with_chunks d addr data size).2.flash_cache x = d.flash_cache x :=
  write_with_chunks_loop_frame size d addr data size x (Nat.le_refl _) hw hx

/-! ## Byte images -/

theorem le_bytes_length : ∀ (k v : Nat), (le_bytes k v).length = k
  | 0, _ => rfl
  | k + 1, v => by simp [le_bytes, le_bytes_length k]

theorem le_val_le_bytes : ∀ (k v : Nat), le_val (le_bytes k v) = v % 256 ^ k
  | 0, v => by simp [le_bytes, le_val, Nat.mod_one]
  | k + 1, v => by
    simp only [le_bytes, le_val, le_val_le_bytes k]
    rw [Nat.pow_succ, Nat.mul_comm (256 ^ k) 256, Nat.mod_mul]

theorem le_val_lt : ∀ (l : List Byte), le_val l < 256 ^ l.length
  | [] => by simp [le_val]
  | b :: bs => by
    have := le_val_lt bs
    have hb := b.isLt
    simp only [le_val, List.length_cons, Nat.pow_succ]
    omega

theorem fix_len_length (n : Nat) (l : List Byte) : (fix_len n l).length = n := by
  simp [fix_len]

theorem fix_len_of_length (n : Nat) (l : List Byte) (h : l.length = n) : fix_len n l = l := by
  unfold fix_len
  rw [List.take_left' h]

theorem fix_len_fix_len (n : Nat) (l : List Byte) : fix_len n (fix_len n l) = fix_len n l :=
  fix_len_of_length n _ (fix_len_length n l)

theorem list_len1 (l : List Byte) (h : l.length = 1) : ∃ a, l = [a] := by
  rcases l with _ | ⟨a, _ | ⟨b, t⟩⟩ <;> simp at h ⊢

theorem list_len2 (l : List Byte) (h : l.length = 2) : ∃ a b, l = [a, b] := by
  rcases l with _ | ⟨a, _ | ⟨b, _ | ⟨c, t⟩⟩⟩ <;> simp at h ⊢

theorem list_len4 (l : List Byte) (h : l.length = 4) : ∃ a b c d, l = [a, b, c, d] := by
  rcases l with _ | ⟨a, _ | ⟨b, _ | ⟨c, _ | ⟨d, _ | ⟨e, t⟩⟩⟩⟩⟩ <;> simp at h ⊢

theorem list_len8 (l : List Byte) (h : l.length = 8) :
    ∃ a b c d e f g i, l = [a, b, c, d, e, f, g, i] := by
  rcases l with _ | ⟨a, _ | ⟨b, _ | ⟨c, _ | ⟨d, _ | ⟨e, _ | ⟨f, _ | ⟨g, _ | ⟨i, _ | ⟨j, t⟩⟩⟩⟩⟩⟩⟩⟩⟩ <;>
    simp at h ⊢

theorem parse_header_append (l1 l2 l3 l4 l5 l6 l7 : List Byte) (h1 : l1.length = 2)
    (h2 : l2.length = 8) (h3 : l3.length = 4) (h4 : l4.length = 4) (h5 : l5.length = 4)
    (h6 : l6.length = 4) (h7 : l7.length = 4) :
    parse_header (l1 ++ l2 ++ l3 ++ l4 ++ l5 ++ l6 ++ l7) =
      { magic := le_val l1, name := l2, table_size := le_val l3, data_len := le_val l4,
        struct_size := le_val l5, struct_nums := le_val l6, data_crc := le_val l7 } := by
  obtain ⟨a1, a2, rfl⟩ := list_len2 l1 h1
  obtain ⟨b1, b2, b3, b4, b5, b6, b7, b8, rfl⟩ := list_len8 l2 h2
  obtain ⟨c1, c2, c3, c4, rfl⟩ := list_len4 l3 h3
  obtain ⟨d1, d2, d3, d4, rfl⟩ := list_len4 l4 h4
  obtain ⟨e1, e2, e3, e4, rfl⟩ := list_len4 l5 h5
  obtain ⟨f1, f2, f3, f4, rfl⟩ := list_len4 l6 h6
  obtain ⟨g1, g2, g3, g4, rfl⟩ := list_len4 l7 h7
  rfl

theorem header_bytes_length (h : table_header_t) : (header_bytes h).length = 30 := by
  simp [header_bytes, le_bytes_length, fix_len_length]

theorem parse_header_bytes (h : table_header_t) :
    parse_header (header_bytes h) =
      { magic := h.magic % 65536, name := fix_len 8 h.name, table_size := h.table_size % U32,
        data_len := h.data_len % U32, struct_size := h.struct_size % U32,
        struct_nums := h.struct_nums % U32, data_crc := h.data_crc % U32 } := by
  unfold header_bytes
  rw [parse_header_append _ _ _ _ _ _ _ (le_bytes_length _ _) (fix_len_length _ _)
    (le_bytes_length _ _) (le_bytes_length _ _) (le_bytes_length _ _) (le_bytes_length _ _)
    (le_bytes_length _ _)]
  simp only [le_val_le_bytes]
  have h4 : 256 ^ 4 = U32 := by decide!
  have h2 : 256 ^ 2 = 65536 := by decide
  rw [h4, h2]

theorem parse_header_lt (b : List Byte) :
    (parse_header b).table_size < U32 ∧ (parse_header b).data_len < U32 ∧
      (parse_header b).struct_size < U32 ∧ (parse_header b).struct_nums < U32 ∧
      (parse_header b).data_crc < U32 ∧ (parse_header b).magic < 65536 ∧
      (parse_header b).name.length = 8 := by
  have h : ∀ (l : List Byte) (n : Nat), le_val (l.take n) < 256 ^ n := by
    intro l n
    have h1 := le_val_lt (l.take n)
    have h2 : (l.take n).length ≤ n := by simp
    exact Nat.lt_of_lt_of_le h1 (Nat.pow_le_pow_right (by decide) h2)
  have h4 : 256 ^ 4 = U32 := by decide!
  have h2 : 256 ^ 2 = 65536 := by decide
  rw [← h4, ← h2]
  exact ⟨h _ 4, h _ 4, h _ 4, h _ 4, h _ 4, h _ 2, fix_len_length _ _⟩

/-! ## Cursor and allocator -/

theorem cursor_addr_eq (st : State) (h : cursor_pos st < U32) : cursor_addr st = cursor_pos st := by
  unfold cursor_addr cursor_pos at *
  have h1 : st.g_current_sector * FLASH_SECTOR_SIZE < U32 :=
    Nat.lt_of_le_of_lt (Nat.le_add_right _ _) h
  rw [Nat.mod_eq_of_lt h1, Nat.mod_eq_of_lt h]

theorem cursor_pos_set_cursor (st : State) (a : Nat) : cursor_pos (set_cursor st a) = a := by
  simp only [cursor_pos, set_cursor]
  exact Nat.div_add_mod' a FLASH_SECTOR_SIZE

theorem allocate_ok (st : State) (size : Nat) (hc : cursor_pos st ≤ WIN_FLASH_TOTAL_SIZE)
    (h : (allocate_table_space st size).1 = 0) :
    1 ≤ size ∧ size ≤ FLASH_SECTOR_SIZE ∧
    cursor_pos st ≤ (allocate_table_space st size).2.1 ∧
    (allocate_table_space st size).2.1 < cursor_pos st + FLASH_SECTOR_SIZE ∧
    (allocate_table_space st size).2.1 % FLASH_SECTOR_SIZE + size ≤ FLASH_SECTOR_SIZE ∧
    cursor_pos (allocate_table_space st size).2.2 = (allocate_table_space st size).2.1 + size ∧
    (allocate_table_space st size).2.2.g_manager_table = st.g_manager_table ∧
    (allocate_table_space st size).2.2.g_total_size = st.g_total_size ∧
    (allocate_table_space st size).2.2.g_allow_erase = st.g_allow_erase ∧
    (allocate_table_space st size).2.2.g_manager_loaded = st.g_manager_loaded ∧
    (∀ x, x < cursor_pos st →
      (allocate_table_space st size).2.2.flash.flash_cache x = st.flash.flash_cache x) ∧
    (∀ x, cursor_pos st ≤ x → st.flash.flash_cache x = 0xFF →
      (allocate_table_space st size).2.2.flash.flash_cache x = 0xFF) := by
  have hS : FLASH_SECTOR_SIZE = 4096 := by decide!
  have hU : U32 = 4294967296 := by decide!
  have hW : WIN_FLASH_TOTAL_SIZE = 65536 := by decide!
  have hcu : cursor_addr st = cursor_pos st := cursor_addr_eq st (by omega)
  generalize hr : allocate_table_space st size = r at h ⊢
  unfold allocate_table_space at hr
  rw [hcu] at hr
  generalize hp : cursor_pos st = p at *
  by_cases hs0 : size = 0
  · rw [if_pos hs0] at hr; subst hr; simp at h
  rw [if_neg hs0] at hr
  by_cases hs1 : size > FLASH_SECTOR_SIZE
  · rw [if_pos hs1] at hr; subst hr; simp at h
  rw [if_neg hs1] at hr
  dsimp only at hr
  have hdm := Nat.div_add_mod' p FLASH_SECTOR_SIZE
  have hml : p % FLASH_SECTOR_SIZE < FLASH_SECTOR_SIZE := Nat.mod_lt _ (by omega)
  generalize hq : p / FLASH_SECTOR_SIZE * FLASH_SECTOR_SIZE = q at *
  have hq0 : q % FLASH_SECTOR_SIZE = 0 := by rw [← hq]; exact Nat.mul_mod_left _ _
  by_cases hcross : p % FLASH_SECTOR_SIZE + size > FLASH_SECTOR_SIZE
  · rw [if_pos hcross] at hr
    have hss : (q + FLASH_SECTOR_SIZE) % U32 = q + FLASH_SECTOR_SIZE :=
      Nat.mod_eq_of_lt (by omega)
    rw [hss] at hr
    have hsz : (q + FLASH_SECTOR_SIZE + size) % U32 = q + FLASH_SECTOR_SIZE + size :=
      Nat.mod_eq_of_lt (by omega)
    rw [hsz] at hr
    have hqm : (q + FLASH_SECTOR_SIZE) % FLASH_SECTOR_SIZE = 0 := by
      rw [Nat.add_mod_right]; exact hq0
    have hqd : (q + FLASH_SECTOR_SIZE) / FLASH_SECTOR_SIZE * FLASH_SECTOR_SIZE =
        q + FLASH_SECTOR_SIZE := by
      have := Nat.div_add_mod' (q + FLASH_SECTOR_SIZE) FLASH_SECTOR_SIZE
      omega
    by_cases ht : q + FLASH_SECTOR_SIZE + size > st.g_total_size
    · rw [if_pos ht] at hr; subst hr; simp at h
    rw [if_neg ht] at hr
    by_cases he : st.g_allow_erase = true
    · rw [if_pos he] at hr
      by_cases her : (win_flash_erase st.flash (q + FLASH_SECTOR_SIZE) FLASH_SECTOR_SIZE).1 = 0
      · simp only [her, ne_eq, not_true_eq_false, if_false] at hr
        subst hr
        dsimp only
        refine ⟨by omega, by omega, by omega, by omega, by omega, cursor_pos_set_cursor _ _, rfl, rfl,
          rfl, rfl, ?_, ?_⟩
        · intro x hx
          exact win_flash_erase_sector_frame st.flash (q + FLASH_SECTOR_SIZE) x
            (by rw [hqd]; omega)
        · intro x hx hff
          show (win_flash_erase st.flash (q + FLASH_SECTOR_SIZE) FLASH_SECTOR_SIZE).2.flash_cache x
            = 0xFF
          rw [win_flash_erase_sector_ok st.flash _ her]
          unfold mem_erase
          split
          · rfl
          · exact hff
      · simp only [her, ne_eq, not_false_eq_true, if_true] at hr
        subst hr; simp at h
    · rw [if_neg he] at hr
      subst hr
      dsimp only
      refine ⟨by omega, by omega, by omega, by omega, by omega, cursor_pos_set_cursor _ _, rfl, rfl,
        rfl, rfl, ?_, ?_⟩
      · intro x _; rfl
      · intro x _ hff; exact hff
  · rw [if_neg hcross] at hr
    have hsz : (q + p % FLASH_SECTOR_SIZE + size) % U32 = q + p % FLASH_SECTOR_SIZE + size :=
      Nat.mod_eq_of_lt (by omega)
    rw [hsz] at hr
    subst hr
    dsimp only
    have hpm : (q + p % FLASH_SECTOR_SIZE) % FLASH_SECTOR_SIZE = p % FLASH_SECTOR_SIZE := by
      rw [hdm]
    refine ⟨by omega, by omega, by omega, by omega, by omega, cursor_pos_set_cursor _ _, rfl, rfl,
      rfl, rfl, ?_, ?_⟩
    · intro x _; rfl
    · intro x _ hff; exact hff

/-! ## Commit -/

theorem le_push_eq : ∀ (k v : Nat) (rest : List Byte), le_push k v rest = le_bytes k v ++ rest
  | 0, _, _ => rfl
  | k + 1, v, rest => by
    show _ :: le_push k (v / 256) rest = (_ :: le_bytes k (v / 256)) ++ rest
    rw [le_push_eq k (v / 256) rest]
    rfl

theorem name_push_eq : ∀ (k : Nat) (name rest : List Byte),
    name_push k name rest = fix_len k name ++ rest
  | 0, _, _ => by simp [name_push, fix_len]
  | k + 1, [], rest => by
    rw [name_push, name_push_eq k [] rest]
    simp [fix_len, List.replicate_succ]
  | k + 1, b :: bs, rest => by
    rw [name_push, name_push_eq k bs rest]
    simp only [fix_len, List.cons_append, List.take_succ_cons, List.replicate_succ]
    congr 2
    apply List.ext_getElem?
    intro i
    simp only [List.getElem?_take]
    split
    · rename_i hi
      by_cases h1 : i < bs.length
      · rw [List.getElem?_append_left h1, List.getElem?_append_left h1]
      · rw [List.getElem?_append_right (by omega), List.getElem?_append_right (by omega)]
        have e1 : (List.replicate k (0 : Byte))[i - bs.length]? = some 0 := by
          rw [List.getElem?_replicate, if_pos (by omega)]
        have e2 : ((0 : Byte) :: List.replicate k 0)[i - bs.length]? = some 0 := by
          rw [← List.replicate_succ, List.getElem?_replicate, if_pos (by omega)]
        rw [e1, e2]
    · rfl

theorem info_push_eq (t : flash_table_info_t) (rest : List Byte) :
    info_push t rest =
      fix_len 8 t.name ++ le_bytes 4 t.addr ++ le_bytes 4 t.size ++ le_bytes 4 t.used_size ++
        le_bytes 2 t.magic ++ le_bytes 1 t.status ++ le_bytes 1 t.reserved ++
        le_bytes 4 t.next_manager_addr ++ rest := by
  unfold info_push
  simp only [name_push_eq, le_push_eq, List.append_assoc]

theorem info_push_length (t : flash_table_info_t) (rest : List Byte) :
    (info_push t rest).length = 28 + rest.length := by
  rw [info_push_eq]
  simp only [List.length_append, le_bytes_length, fix_len_length]

theorem info_bytes_length (t : flash_table_info_t) : (info_bytes t).length = 28 := by
  unfold info_bytes
  rw [info_push_length]
  rfl

theorem tables_bytes_length : ∀ (k : Nat) (ts : List flash_table_info_t),
    (tables_bytes k ts).length = 28 * k
  | 0, _ => rfl
  | k + 1, [] => by
    rw [tables_bytes, info_push_length, tables_bytes_length k []]
    omega
  | k + 1, t :: ts => by
    rw [tables_bytes, info_push_length, tables_bytes_length k ts]
    omega

theorem manager_bytes_eq (m : flash_manager_table_t) :
    manager_bytes m =
      le_bytes 2 m.magic ++ le_bytes 4 m.crc ++ le_bytes 1 m.version ++
        le_bytes 1 m.table_count ++ le_bytes 4 m.total_size ++ le_bytes 4 m.used_size ++
        le_bytes 4 m.next_manager_addr ++ tables_bytes 24 m.tables := by
  unfold manager_bytes
  simp only [le_push_eq, List.append_assoc]

theorem manager_bytes_length (m : flash_manager_table_t) :
    (manager_bytes m).length = SIZEOF_MANAGER := by
  have h : SIZEOF_MANAGER = 692 := by decide!
  rw [manager_bytes_eq]
  simp [le_bytes_length, tables_bytes_length, h]

theorem win_flash_read_one (d : win_flash) (addr : Nat) (h : addr + 1 ≤ WIN_FLASH_TOTAL_SIZE) :
    win_flash_read d addr 1 = (0, [d.flash_cache addr]) := by
  rw [win_flash_read_of_le d addr 1 h]
  rfl

theorem next_reservation_spec (p : Nat) :
    p ≤ next_reservation p ∧ next_reservation p < p + FLASH_SECTOR_SIZE ∧
      next_reservation p % FLASH_SECTOR_SIZE + SIZEOF_MANAGER ≤ FLASH_SECTOR_SIZE := by
  have hS : FLASH_SECTOR_SIZE = 4096 := by decide!
  have hM : SIZEOF_MANAGER = 692 := by decide!
  unfold next_reservation
  rw [hS, hM]
  split <;> omega

theorem save_ok (st : State) (hc : cursor_pos st ≤ WIN_FLASH_TOTAL_SIZE)
    (hres : st.g_manager_table.next_manager_addr + SIZEOF_MANAGER ≤ cursor_pos st)
    (hblank : st.g_allow_erase = true →
      st.flash.flash_cache st.g_manager_table.next_manager_addr = 0xFF)
    (h : (save_manager_table st).1 = 0) :
    st.g_manager_table.next_manager_addr ≠ 0 ∧
    st.g_manager_table.next_manager_addr < st.g_total_size ∧
    next_reservation (cursor_pos st) + SIZEOF_MANAGER ≤ st.g_total_size ∧
    (save_manager_table st).2.g_manager_table =
      committed_manager st.g_manager_table (next_reservation (cursor_pos st)) ∧
    cursor_pos (save_manager_table st).2 = next_reservation (cursor_pos st) + SIZEOF_MANAGER ∧
    (save_manager_table st).2.flash.flash_cache =
      mem_write st.flash.flash_cache st.g_manager_table.next_manager_addr
        (manager_bytes (committed_manager st.g_manager_table
          (next_reservation (cursor_pos st)))) ∧
    (save_manager_table st).2.g_total_size = st.g_total_size ∧
    (save_manager_table st).2.g_allow_erase = st.g_allow_erase ∧
    (save_manager_table st).2.g_manager_loaded = true := by
  have hS : FLASH_SECTOR_SIZE = 4096 := by decide!
  have hU : U32 = 4294967296 := by decide!
  have hW : WIN_FLASH_TOTAL_SIZE = 65536 := by decide!
  have hM : SIZEOF_MANAGER = 692 := by decide!
  have hcu : cursor_addr st = cursor_pos st := cursor_addr_eq st (by omega)
  generalize hr : save_manager_table st = r at h ⊢
  unfold save_manager_table at hr
  rw [hcu] at hr
  generalize hp : cursor_pos st = p at *
  generalize hR : st.g_manager_table.next_manager_addr = R at *
  by_cases hl : st.g_manager_loaded = false
  · rw [if_pos hl] at hr; subst hr; simp at h
  rw [if_neg hl] at hr
  dsimp only at hr
  by_cases ha : R = 0 ∨ R ≥ st.g_total_size
  · rw [if_pos ha] at hr; subst hr; simp at h
  rw [if_neg ha] at hr
  have hnr : (if SIZEOF_MANAGER > FLASH_SECTOR_SIZE - p % FLASH_SECTOR_SIZE then
      (p / FLASH_SECTOR_SIZE + 1) * FLASH_SECTOR_SIZE % U32 else p) = next_reservation p := by
    unfold next_reservation
    split
    · have := Nat.div_add_mod' p FLASH_SECTOR_SIZE
      apply Nat.mod_eq_of_lt
      rw [Nat.add_mul]
      omega
    · rfl
  rw [hnr] at hr
  obtain ⟨hn1, hn2, hn3⟩ := next_reservation_spec p
  generalize next_reservation p = nr at *
  by_cases hfit : nr + SIZEOF_MANAGER > st.g_total_size
  · rw [if_pos hfit] at hr; subst hr; simp at h
  rw [if_neg hfit] at hr
  have hne : (st.g_allow_erase &&
      decide ((win_flash_read st.flash R 1).1 = 0 ∧
        (win_flash_read st.flash R 1).2.headD 0 ≠ 0xFF)) = false := by
    cases he : st.g_allow_erase
    · rfl
    · rw [win_flash_read_one st.flash R (by omega)]
      simp [hblank he]
  rw [hne] at hr
  simp only [Bool.false_and, Bool.false_eq_true, if_false] at hr
  have hw0 : (write_with_chunks st.flash R
      (manager_bytes (committed_manager st.g_manager_table nr)) SIZEOF_MANAGER).1 = 0 := by
    by_contra hcon
    have hr2 := hr
    unfold committed_manager at hcon
    simp only [ne_eq, not_true_eq_false, if_false, hcon, not_false_eq_true, if_true] at hr2
    subst hr2
    simp at h
  have hC : FLASH_WRITE_CHUNK_SIZE = 1024 := by decide!
  obtain ⟨_, hwc, _⟩ := write_with_chunks_ok st.flash R _ SIZEOF_MANAGER (by omega) hw0
  have hwc' := hwc
  rw [← manager_bytes_length (committed_manager st.g_manager_table nr), List.take_length]
    at hwc'
  unfold committed_manager at hw0 hwc'
  simp only [ne_eq, not_true_eq_false, if_false, hw0] at hr
  subst hr
  have hl' : st.g_manager_loaded = true := by simpa using hl
  refine ⟨by omega, by omega, by omega, rfl, cursor_pos_set_cursor _ _, ?_, rfl, rfl, hl'⟩
  rw [manager_bytes_length] at hwc'
  exact hwc'

/-! ## Slots and lookup -/

theorem slot_at_set_same (m : flash_manager_table_t) (i : Nat) (t : flash_table_info_t)
    (h : i < m.tables.length) :
    slot_at { m with tables := m.tables.set i t } i = t := by
  simp [slot_at, List.getD_eq_getElem?_getD, h]

theorem slot_at_set_ne (m : flash_manager_table_t) (i j : Nat) (t : flash_table_info_t)
    (h : i ≠ j) : slot_at { m with tables := m.tables.set i t } j = slot_at m j := by
  simp [slot_at, List.getD_eq_getElem?_getD, List.getElem?_set_ne h]

theorem slot_at_committed (m : flash_manager_table_t) (nr i : Nat) :
    slot_at (committed_manager m nr) i = slot_at m i := rfl

theorem slot_lt_of_status (m : flash_manager_table_t) (i : Nat)
    (h : (slot_at m i).status ≠ 0) : i < m.tables.length := by
  by_contra hcon
  have : slot_at m i = zero_info := by
    simp [slot_at, List.getD_eq_getElem?_getD, List.getElem?_eq_none (Nat.le_of_not_lt hcon)]
  rw [this] at h
  exact h rfl

theorem find_table_index_spec (st : State) (name : List Byte)
    (h : ¬ find_table_index st name < 0) :
    ∃ i : Nat, find_table_index st name = (i : Int) ∧ i < MAX_TABLES_ALL_SECTOR ∧
      (slot_at st.g_manager_table i).status = TABLE_STATUS_VALID ∧
      strncmp_eq TABLE_NAME_MAX_LEN (slot_at st.g_manager_table i).name name = true := by
  unfold find_table_index at h ⊢
  split at h
  · rename_i i hi
    have h1 := List.find?_some hi
    have h2 := List.mem_range.mp (List.mem_of_find?_eq_some hi)
    simp only [decide_eq_true_eq] at h1
    exact ⟨i, rfl, h2, h1.1, h1.2⟩
  · simp at h

theorem find_table_index_congr (st1 st2 : State) (name : List Byte)
    (h : ∀ i, i < MAX_TABLES_ALL_SECTOR →
      (slot_at st1.g_manager_table i).status = (slot_at st2.g_manager_table i).status ∧
      (slot_at st1.g_manager_table i).name = (slot_at st2.g_manager_table i).name) :
    find_table_index st1 name = find_table_index st2 name := by
  unfold find_table_index
  have : (List.range MAX_TABLES_ALL_SECTOR).find?
      (fun i => decide ((slot_at st1.g_manager_table i).status = TABLE_STATUS_VALID ∧
        strncmp_eq TABLE_NAME_MAX_LEN (slot_at st1.g_manager_table i).name name = true)) =
      (List.range MAX_TABLES_ALL_SECTOR).find?
      (fun i => decide ((slot_at st2.g_manager_table i).status = TABLE_STATUS_VALID ∧
        strncmp_eq TABLE_NAME_MAX_LEN (slot_at st2.g_manager_table i).name name = true)) := by
    have hl : ∀ l : List Nat, (∀ i ∈ l, i < MAX_TABLES_ALL_SECTOR) →
        l.find? (fun i => decide ((slot_at st1.g_manager_table i).status = TABLE_STATUS_VALID ∧
          strncmp_eq TABLE_NAME_MAX_LEN (slot_at st1.g_manager_table i).name name = true)) =
        l.find? (fun i => decide ((slot_at st2.g_manager_table i).status = TABLE_STATUS_VALID ∧
          strncmp_eq TABLE_NAME_MAX_LEN (slot_at st2.g_manager_table i).name name = true)) := by
      intro l
      induction l with
      | nil => intro _; rfl
      | cons a l ih =>
        intro hm
        have ha := h a (hm a (List.mem_cons_self a l))
        simp only [List.find?_cons, ha.1, ha.2]
        rw [ih (fun i hi => hm i (List.mem_cons_of_mem a hi))]
    exact hl _ (fun i hi => List.mem_range.mp hi)
  rw [this]

/-! ## Reading -/

theorem read_table_data_eq (st : State) (name : List Byte) (i index size : Nat)
    (hl : st.g_manager_loaded = true) (hi : find_table_index st name = (i : Int))
    (hb : (slot_at st.g_manager_table i).addr + SIZEOF_HEADER +
      (header_at st (slot_at st.g_manager_table i).addr).data_len ≤ WIN_FLASH_TOTAL_SIZE)
    (hc : (header_at st (slot_at st.g_manager_table i).addr).data_len =
      (header_at st (slot_at st.g_manager_table i).addr).struct_nums *
        (header_at st (slot_at st.g_manager_table i).addr).struct_size) :
    fast_flash_read_table_data st name index size =
      if size = (header_at st (slot_at st.g_manager_table i).addr).struct_size ∧
          index < (header_at st (slot_at st.g_manager_table i).addr).struct_nums then
        (0, mem_read st.flash.flash_cache
          ((slot_at st.g_manager_table i).addr + SIZEOF_HEADER + index * size) size)
      else (-1, []) := by
  have hU : U32 = 4294967296 := by decide!
  have hW : WIN_FLASH_TOTAL_SIZE = 65536 := by decide!
  have hH : SIZEOF_HEADER = 30 := by decide!
  unfold fast_flash_read_table_data
  rw [if_neg (by simp [hl]), if_neg (by rw [hi]; omega)]
  simp only [hi, Int.toNat_ofNat]
  rw [win_flash_read_of_le _ _ _ (by omega)]
  dsimp only
  rw [if_neg (by decide)]
  unfold header_at at hb hc ⊢
  generalize parse_header (mem_read st.flash.flash_cache (slot_at st.g_manager_table i).addr
    SIZEOF_HEADER) = h at *
  generalize (slot_at st.g_manager_table i).addr = a at *
  by_cases hs : size = h.struct_size
  · rw [if_neg (by simpa using hs)]
    by_cases hx : index < h.struct_nums
    · rw [if_neg (by omega), if_pos ⟨hs, hx⟩]
      have hle : index * h.struct_size + h.struct_size ≤ h.struct_nums * h.struct_size := by
        calc index * h.struct_size + h.struct_size = (index + 1) * h.struct_size := by
              rw [Nat.add_mul, Nat.one_mul]
          _ ≤ h.struct_nums * h.struct_size := Nat.mul_le_mul_right _ hx
      have h1 : index * h.struct_size % U32 = index * h.struct_size :=
        Nat.mod_eq_of_lt (by omega)
      have h2 : (a + SIZEOF_HEADER + index * h.struct_size) % U32 =
          a + SIZEOF_HEADER + index * h.struct_size := Nat.mod_eq_of_lt (by omega)
      rw [h1, h2, win_flash_read_of_le _ _ _ (by omega), hs]
    · rw [if_pos (by omega), if_neg (by simp [hx])]
  · rw [if_pos (by simpa using hs), if_neg (by simp [hs])]

theorem get_table_count_eq (st : State) (name : List Byte) (i : Nat)
    (hl : st.g_manager_loaded = true) (hi : find_table_index st name = (i : Int))
    (hb : (slot_at st.g_manager_table i).addr + SIZEOF_HEADER ≤ WIN_FLASH_TOTAL_SIZE) :
    fast_flash_get_table_count st name =
      (header_at st (slot_at st.g_manager_table i).addr).struct_nums := by
  unfold fast_flash_get_table_count
  rw [if_neg (by simp [hl]), if_neg (by rw [hi]; omega)]
  simp only [hi, Int.toNat_ofNat]
  rw [win_flash_read_of_le _ _ _ hb]
  dsimp only
  rw [if_neg (by decide)]
  rfl

/-! ## Relocation -/

theorem relocate_ok_full (st0 : State) (hc : Consistent st0) (ndl idx : Nat)
    (header : table_header_t) (all_data : List Byte) (skip : Bool) (info : flash_table_info_t)
    (a : Nat) (st1 : State) (hndl : ndl < U32)
    (hal : allocate_table_space st0 ((SIZEOF_HEADER + ndl) % U32) = (0, a, st1))
    (hrc : (relocate_commit st1 idx a header all_data ndl skip info).1 = 0) :
    cursor_pos st0 ≤ a ∧ a + SIZEOF_HEADER + ndl ≤ WIN_FLASH_TOTAL_SIZE ∧
    a % FLASH_SECTOR_SIZE + SIZEOF_HEADER + ndl ≤ FLASH_SECTOR_SIZE ∧
    (ndl ≤ all_data.length ∨ ndl = 0) ∧
    (relocate_commit st1 idx a header all_data ndl skip info).2.g_manager_table =
      committed_manager { st0.g_manager_table with tables := st0.g_manager_table.tables.set idx info }
        (next_reservation (a + SIZEOF_HEADER + ndl)) ∧
    cursor_pos (relocate_commit st1 idx a header all_data ndl skip info).2 =
      next_reservation (a + SIZEOF_HEADER + ndl) + SIZEOF_MANAGER ∧
    next_reservation (a + SIZEOF_HEADER + ndl) + SIZEOF_MANAGER ≤ st0.g_total_size ∧
    (∀ x, x < cursor_pos st0 →
      (x < st0.g_manager_table.next_manager_addr ∨
        st0.g_manager_table.next_manager_addr + SIZEOF_MANAGER ≤ x) →
      (relocate_commit st1 idx a header all_data ndl skip info).2.flash.flash_cache x =
        st0.flash.flash_cache x) ∧
    mem_read (relocate_commit st1 idx a header all_data ndl skip info).2.flash.flash_cache a
      SIZEOF_HEADER = header_bytes header ∧
    mem_read (relocate_commit st1 idx a header all_data ndl skip info).2.flash.flash_cache
      (a + SIZEOF_HEADER) ndl = all_data.take ndl ∧
    (∀ x, a + SIZEOF_HEADER + ndl ≤ x → x < WIN_FLASH_TOTAL_SIZE →
      (relocate_commit st1 idx a header all_data ndl skip info).2.flash.flash_cache x = 0xFF) ∧
    (relocate_commit st1 idx a header all_data ndl skip info).2.g_total_size = st0.g_total_size ∧
    (relocate_commit st1 idx a header all_data ndl skip info).2.g_allow_erase =
      st0.g_allow_erase ∧
    (relocate_commit st1 idx a header all_data ndl skip info).2.g_manager_loaded = true ∧
    st0.g_manager_table.next_manager_addr ≠ 0 ∧
    st0.g_manager_table.next_manager_addr < st0.g_total_size ∧
    mem_read (relocate_commit st1 idx a header all_data ndl skip info).2.flash.flash_cache
      st0.g_manager_table.next_manager_addr SIZEOF_MANAGER =
      manager_bytes (relocate_commit st1 idx a header all_data ndl skip info).2.g_manager_table := by
  have hS : FLASH_SECTOR_SIZE = 4096 := by decide!
  have hU : U32 = 4294967296 := by decide!
  have hW : WIN_FLASH_TOTAL_SIZE = 65536 := by decide!
  have hM : SIZEOF_MANAGER = 692 := by decide!
  have hH : SIZEOF_HEADER = 30 := by decide!
  have hC : FLASH_WRITE_CHUNK_SIZE = 1024 := by decide!
  have hA := allocate_ok st0 ((SIZEOF_HEADER + ndl) % U32) hc.cursor_le (by rw [hal])
  rw [hal] at hA
  dsimp only at hA
  obtain ⟨hs1, hs2, hPa, haP, hsec, hcur1, hm1, ht1, he1, hl1, hfr1, hbl1⟩ := hA
  have hres := hc.reserve_le
  have hcl := hc.cursor_le
  generalize hR : st0.g_manager_table.next_manager_addr = R at *
  generalize hP : cursor_pos st0 = P at *
  generalize hrr : relocate_commit st1 idx a header all_data ndl skip info = r at hrc ⊢
  unfold relocate_commit at hrr
  by_cases hw1 : (write_with_chunks st1.flash a (header_bytes header) SIZEOF_HEADER).1 = 0
  swap
  · simp only [ne_eq, hw1, not_false_eq_true, if_true] at hrr
    subst hrr; simp at hrc
  simp only [ne_eq, hw1, not_true_eq_false, if_false] at hrr
  obtain ⟨_, hc1, hb1⟩ := write_with_chunks_ok st1.flash a (header_bytes header) SIZEOF_HEADER
    (by omega) hw1
  have hb1' := hb1 (by omega)
  have hH30 : (header_bytes header).length = 30 := header_bytes_length header
  have htk : (header_bytes header).take SIZEOF_HEADER = header_bytes header := by
    rw [hH, ← hH30, List.take_length]
  rw [htk] at hc1
  generalize hfl1 : (write_with_chunks st1.flash a (header_bytes header) SIZEOF_HEADER).2 = fl1
    at hrr hc1
  have hmod : (a + SIZEOF_HEADER) % U32 = a + SIZEOF_HEADER := Nat.mod_eq_of_lt (by omega)
  rw [hmod] at hrr
  -- the data write
  have hdata : ∃ fl2 : win_flash,
      (if (skip && decide (ndl = 0)) = true then ((0 : Int), fl1)
        else write_with_chunks fl1 (a + SIZEOF_HEADER) all_data ndl) = (0, fl2) ∧
      fl2.flash_cache = mem_write fl1.flash_cache (a + SIZEOF_HEADER) (all_data.take ndl) ∧
      (ndl ≤ all_data.length ∨ ndl = 0) ∧ a + SIZEOF_HEADER + ndl ≤ WIN_FLASH_TOTAL_SIZE := by
    by_cases hsk : (skip && decide (ndl = 0)) = true
    · rw [if_pos hsk]
      have hz : ndl = 0 := by
        simp only [Bool.and_eq_true, decide_eq_true_eq] at hsk
        exact hsk.2
      refine ⟨fl1, rfl, ?_, Or.inr hz, by omega⟩
      rw [hz, List.take_zero, mem_write_nil]
    · rw [if_neg hsk]
      by_cases hw2 : (write_with_chunks fl1 (a + SIZEOF_HEADER) all_data ndl).1 = 0
      · obtain ⟨h1, h2, h3⟩ := write_with_chunks_ok fl1 (a + SIZEOF_HEADER) all_data ndl
          (by omega) hw2
        refine ⟨(write_with_chunks fl1 (a + SIZEOF_HEADER) all_data ndl).2, ?_, h2,
          Or.inl h1, ?_⟩
        · rw [← hw2]
        · by_cases hz : ndl = 0
          · omega
          · exact h3 (by omega)
      · exfalso
        rw [if_neg hsk] at hrr
        simp only [ne_eq, hw2, not_false_eq_true, if_true] at hrr
        subst hrr; simp at hrc
  obtain ⟨fl2, hd1, hd2, hd3, hd4⟩ := hdata
  rw [hd1] at hrr
  simp only [ne_eq, not_true_eq_false, if_false] at hrr
  have hsz : (SIZEOF_HEADER + ndl) % U32 = SIZEOF_HEADER + ndl := Nat.mod_eq_of_lt (by omega)
  rw [hsz] at hcur1 hs1 hs2 hsec
  -- the commit
  have hcur2 : cursor_pos (set_slot { st1 with flash := fl2 } idx info) =
      a + SIZEOF_HEADER + ndl := by
    rw [← Nat.add_assoc] at hcur1
    exact hcur1
  have hR2 : (set_slot { st1 with flash := fl2 } idx info).g_manager_table.next_manager_addr
      = R := by
    show st1.g_manager_table.next_manager_addr = R
    rw [hm1]; exact hR
  have hcache2 : ∀ x, x < a → fl2.flash_cache x = st0.flash.flash_cache x ∨ P ≤ x := by
    intro x hx
    by_cases hxP : x < P
    · left
      rw [hd2, mem_write_out _ _ _ _ (by omega), hc1, mem_write_out _ _ _ _ (by omega)]
      exact hfr1 x hxP
    · right; omega
  have hsv := save_ok (set_slot { st1 with flash := fl2 } idx info) (by rw [hcur2]; omega)
    (by rw [hR2, hcur2]; omega)
    (by
      intro _
      rw [hR2]
      show fl2.flash_cache R = 0xFF
      rcases hcache2 R (by omega) with h | h
      · rw [h]; exact hc.reserve_blank R (by omega) (by omega)
      · omega)
    (by rw [hrr]; exact hrc)
  rw [hrr, hR2, hcur2] at hsv
  obtain ⟨hR0, hRt, hfit, hmgr, hcur, hcache, htot, hera, hld⟩ := hsv
  have hmb := manager_bytes_length (committed_manager
    (set_slot { st1 with flash := fl2 } idx info).g_manager_table
    (next_reservation (a + SIZEOF_HEADER + ndl)))
  have hfinal : ∀ x, (x < R ∨ R + SIZEOF_MANAGER ≤ x) →
      r.2.flash.flash_cache x = fl2.flash_cache x := by
    intro x hx
    rw [hcache]
    exact mem_write_out _ _ _ _ (by omega)
  refine ⟨hPa, hd4, by omega, hd3, ?_, hcur, ?_, ?_, ?_, ?_, ?_, ?_, ?_, hld, hR0, ?_, ?_⟩
  · rw [hmgr]
    show committed_manager { st1.g_manager_table with
      tables := st1.g_manager_table.tables.set idx info } _ = _
    rw [hm1]
  · rw [← ht1]; exact (htot ▸ hfit)
  · intro x hx hxR
    rw [hfinal x hxR]
    rcases hcache2 x (by omega) with h | h
    · exact h
    · omega
  · apply List.ext_getElem
    · rw [mem_read_length, hH30, hH]
    · intro i h1 h2
      rw [mem_read_length] at h1
      simp only [mem_read, List.getElem_map, List.getElem_range]
      rw [hfinal _ (by omega), hd2, mem_write_out _ _ _ _ (by omega), hc1,
        mem_write_in _ _ _ _ (by omega) (by omega)]
      simp [List.getD_eq_getElem?_getD, h2]
  · apply List.ext_getElem
    · rw [mem_read_length, List.length_take]
      rcases hd3 with h | h <;> omega
    · intro i h1 h2
      rw [mem_read_length] at h1
      simp only [mem_read, List.getElem_map, List.getElem_range]
      rw [hfinal _ (by omega), hd2, mem_write_in _ _ _ _ (by omega) (by omega)]
      have hi : a + SIZEOF_HEADER + i - (a + SIZEOF_HEADER) = i := by omega
      rw [hi, List.getD_eq_getElem?_getD, List.getElem?_eq_getElem h2]
      rfl
  · intro x hx hxW
    have hlen : (all_data.take ndl).length ≤ ndl := by
      rw [List.length_take]; omega
    rw [hfinal _ (by omega), hd2, mem_write_out _ _ _ _ (by omega), hc1,
      mem_write_out _ _ _ _ (by omega)]
    exact hbl1 x (by omega) (hc.free_blank x (by omega) hxW)
  · rw [htot]; exact ht1
  · rw [hera]; exact he1
  · rw [← ht1]; exact hRt
  · rw [hcache, hmgr, ← hmb]
    exact mem_read_write_same _ _ _

theorem relocate_ok (st0 : State) (hc : Consistent st0) (ndl idx : Nat)
    (header : table_header_t) (all_data : List Byte) (skip : Bool) (info : flash_table_info_t)
    (a : Nat) (st1 : State) (hndl : ndl < U32)
    (hal : allocate_table_space st0 ((SIZEOF_HEADER + ndl) % U32) = (0, a, st1))
    (hrc : (relocate_commit st1 idx a header all_data ndl skip info).1 = 0) :
    cursor_pos st0 ≤ a ∧ a + SIZEOF_HEADER + ndl ≤ WIN_FLASH_TOTAL_SIZE ∧
    a % FLASH_SECTOR_SIZE + SIZEOF_HEADER + ndl ≤ FLASH_SECTOR_SIZE ∧
    (ndl ≤ all_data.length ∨ ndl = 0) ∧
    (relocate_commit st1 idx a header all_data ndl skip info).2.g_manager_table =
      committed_manager { st0.g_manager_table with tables := st0.g_manager_table.tables.set idx info }
        (next_reservation (a + SIZEOF_HEADER + ndl)) ∧
    cursor_pos (relocate_commit st1 idx a header all_data ndl skip info).2 =
      next_reservation (a + SIZEOF_HEADER + ndl) + SIZEOF_MANAGER ∧
    next_reservation (a + SIZEOF_HEADER + ndl) + SIZEOF_MANAGER ≤ st0.g_total_size ∧
    (∀ x, x < cursor_pos st0 →
      (x < st0.g_manager_table.next_manager_addr ∨
        st0.g_manager_table.next_manager_addr + SIZEOF_MANAGER ≤ x) →
      (relocate_commit st1 idx a header all_data ndl skip info).2.flash.flash_cache x =
        st0.flash.flash_cache x) ∧
    mem_read (relocate_commit st1 idx a header all_data ndl skip info).2.flash.flash_cache a
      SIZEOF_HEADER = header_bytes header ∧
    mem_read (relocate_commit st1 idx a header all_data ndl skip info).2.flash.flash_cache
      (a + SIZEOF_HEADER) ndl = all_data.take ndl ∧
    (∀ x, a + SIZEOF_HEADER + ndl ≤ x → x < WIN_FLASH_TOTAL_SIZE →
      (relocate_commit st1 idx a header all_data ndl skip info).2.flash.flash_cache x = 0xFF) ∧
    (relocate_commit st1 idx a header all_data ndl skip info).2.g_total_size = st0.g_total_size ∧
    (relocate_commit st1 idx a header all_data ndl skip info).2.g_allow_erase =
      st0.g_allow_erase ∧
    (relocate_commit st1 idx a header all_data ndl skip info).2.g_manager_loaded = true := by
  obtain ⟨h1, h2, h3, h4, h5, h6, h7, h8, h9, h10, h11, h12, h13, h14, _⟩ :=
    relocate_ok_full st0 hc ndl idx header all_data skip info a st1 hndl hal hrc
  exact ⟨h1, h2, h3, h4, h5, h6, h7, h8, h9, h10, h11, h12, h13, h14⟩

/-! ## Tables that an operation does not touch -/

theorem header_at_congr (st st' : State) (a : Nat)
    (h : ∀ x, a ≤ x → x < a + SIZEOF_HEADER → st'.flash.flash_cache x = st.flash.flash_cache x) :
    header_at st' a = header_at st a := by
  unfold header_at
  rw [mem_read_congr _ _ _ _ h]

theorem frame_reads (st st' : State) (hc : Consistent st)
    (hl : st'.g_manager_loaded = true)
    (name : List Byte) (j : Nat)
    (hj : find_table_index st name = (j : Int))
    (hj' : find_table_index st' name = (j : Int))
    (hslot : slot_at st'.g_manager_table j = slot_at st.g_manager_table j)
    (hfr : ∀ x, x < cursor_pos st →
      (x < st.g_manager_table.next_manager_addr ∨
        st.g_manager_table.next_manager_addr + SIZEOF_MANAGER ≤ x) →
      st'.flash.flash_cache x = st.flash.flash_cache x)
    (k sz : Nat) :
    fast_flash_read_table_data st' name k sz = fast_flash_read_table_data st name k sz ∧
      fast_flash_get_table_count st' name = fast_flash_get_table_count st name := by
  have hW : WIN_FLASH_TOTAL_SIZE = 65536 := by decide!
  have hH : SIZEOF_HEADER = 30 := by decide!
  have hM : SIZEOF_MANAGER = 692 := by decide!
  obtain ⟨i, hi, hi24, hval, _⟩ := find_table_index_spec st name (by rw [hj]; omega)
  have hij : i = j := by
    have := hi.symm.trans hj
    exact Int.ofNat.inj this
  subst hij
  obtain ⟨ht1, ht2, ht3⟩ := hc.tables_ok i hi24 hval
  have hcl := hc.cursor_le
  have hhdr : header_at st' (slot_at st.g_manager_table i).addr =
      header_at st (slot_at st.g_manager_table i).addr := by
    apply header_at_congr
    intro x hx1 hx2
    exact hfr x (by omega) (by omega)
  have e1 := read_table_data_eq st name i k sz hc.loaded hj (by omega) ht3
  have e2 := read_table_data_eq st' name i k sz hl hj' (by rw [hslot, hhdr]; omega)
    (by rw [hslot, hhdr]; exact ht3)
  have c1 := get_table_count_eq st name i hc.loaded hj (by omega)
  have c2 := get_table_count_eq st' name i hl hj' (by rw [hslot]; omega)
  rw [e1, e2, c1, c2, hslot, hhdr]
  refine ⟨?_, rfl⟩
  by_cases hcond : sz = (header_at st (slot_at st.g_manager_table i).addr).struct_size ∧
      k < (header_at st (slot_at st.g_manager_table i).addr).struct_nums
  · rw [if_pos hcond, if_pos hcond]
    have hle : k * sz + sz ≤ (header_at st (slot_at st.g_manager_table i).addr).data_len := by
      rw [ht3, hcond.1]
      calc k * _ + _ = (k + 1) * (header_at st (slot_at st.g_manager_table i).addr).struct_size := by
            rw [Nat.add_mul, Nat.one_mul]
        _ ≤ _ := Nat.mul_le_mul_right _ hcond.2
    rw [mem_read_congr _ _ _ _ (fun x hx1 hx2 => hfr x (by omega) (by omega))]
  · rw [if_neg hcond, if_neg hcond]

theorem frame_reads_absent (st st' : State) (name : List Byte)
    (hj : find_table_index st name < 0) (hj' : find_table_index st' name < 0) (k sz : Nat) :
    fast_flash_read_table_data st' name k sz = fast_flash_read_table_data st name k sz ∧
      fast_flash_get_table_count st' name = fast_flash_get_table_count st name := by
  unfold fast_flash_read_table_data fast_flash_get_table_count
  simp only [hj, hj', if_true, ite_self, and_self]

/-! ## Append -/

theorem write_table_data_run (st : State) (name d : List Byte) (s i : Nat)
    (hc : Consistent st) (hi : find_table_index st name = (i : Int))
    (hs : s = (header_at st (slot_at st.g_manager_table i).addr).struct_size)
    (hw : (fast_flash_write_table_data st name d s).1 = 0) :
    ∃ a st1,
      allocate_table_space st ((SIZEOF_HEADER +
        ((header_at st (slot_at st.g_manager_table i).addr).data_len + s) % U32) % U32) =
          (0, a, st1) ∧
      fast_flash_write_table_data st name d s =
        relocate_commit st1 i a
          { header_at st (slot_at st.g_manager_table i).addr with
            data_len := ((header_at st (slot_at st.g_manager_table i).addr).data_len + s) % U32
            struct_nums :=
              (((header_at st (slot_at st.g_manager_table i).addr).data_len + s) % U32) / s
            data_crc := calculate_crc32
              (mem_read st.flash.flash_cache
                ((slot_at st.g_manager_table i).addr + SIZEOF_HEADER)
                (header_at st (slot_at st.g_manager_table i).addr).data_len ++ d.take s)
              (((header_at st (slot_at st.g_manager_table i).addr).data_len + s) % U32) }
          (mem_read st.flash.flash_cache ((slot_at st.g_manager_table i).addr + SIZEOF_HEADER)
            (header_at st (slot_at st.g_manager_table i).addr).data_len ++ d.take s)
          (((header_at st (slot_at st.g_manager_table i).addr).data_len + s) % U32) false
          { slot_at st.g_manager_table i with
            addr := a
            size := (header_at st (slot_at st.g_manager_table i).addr).table_size
            used_size := (SIZEOF_HEADER +
              ((header_at st (slot_at st.g_manager_table i).addr).data_len + s) % U32) % U32 } := by
  have hU : U32 = 4294967296 := by decide!
  have hW : WIN_FLASH_TOTAL_SIZE = 65536 := by decide!
  have hH : SIZEOF_HEADER = 30 := by decide!
  have hM : SIZEOF_MANAGER = 692 := by decide!
  obtain ⟨i', hi', hi24, hval, _⟩ := find_table_index_spec st name (by rw [hi]; omega)
  have hii : i' = i := Int.ofNat.inj (hi'.symm.trans hi)
  subst hii
  obtain ⟨ht1, ht2, ht3⟩ := hc.tables_ok i' hi24 hval
  have hcl := hc.cursor_le
  unfold fast_flash_write_table_data at hw ⊢
  rw [if_neg (by simp [hc.loaded]), if_neg (by rw [hi]; omega)] at hw ⊢
  simp only [hi, Int.toNat_ofNat] at hw ⊢
  rw [win_flash_read_of_le _ _ _ (by omega)] at hw ⊢
  dsimp only at hw ⊢
  rw [if_neg (by decide)] at hw ⊢
  unfold header_at at hs ht1 ht2 ht3 ⊢
  generalize parse_header (mem_read st.flash.flash_cache (slot_at st.g_manager_table i').addr
    SIZEOF_HEADER) = h at *
  generalize slot_at st.g_manager_table i' = t at *
  rw [if_neg (by simpa using hs)] at hw ⊢
  rw [← hs] at hw ⊢
  rcases hal : allocate_table_space st ((SIZEOF_HEADER + (h.data_len + s) % U32) % U32) with
    ⟨result, a, st1⟩
  rw [hal] at hw
  dsimp only at hw ⊢
  by_cases hres : result = 0
  swap
  · rw [if_pos hres] at hw
    exact absurd hw hres
  subst hres
  rw [if_neg (by decide)] at hw ⊢
  refine ⟨a, st1, rfl, ?_⟩
  have hA := allocate_ok st _ hcl (by rw [hal])
  rw [hal] at hA
  dsimp only at hA
  obtain ⟨_, _, _, _, _, _, _, _, _, _, hfr1, _⟩ := hA
  have hmod : (t.addr + SIZEOF_HEADER) % U32 = t.addr + SIZEOF_HEADER :=
    Nat.mod_eq_of_lt (by omega)
  have hold : (if h.data_len > 0 then
      win_flash_read st1.flash ((t.addr + SIZEOF_HEADER) % U32) h.data_len else (0, [])) =
      (0, mem_read st.flash.flash_cache (t.addr + SIZEOF_HEADER) h.data_len) := by
    by_cases hz : h.data_len > 0
    · rw [if_pos hz, hmod, win_flash_read_of_le _ _ _ (by omega)]
      rw [mem_read_congr _ _ _ _ (fun x _ hx2 => hfr1 x (by omega))]
    · have : h.data_len = 0 := by omega
      rw [if_neg hz, this]
      rfl
  rw [hold]
  dsimp only
  rw [if_neg (by decide)]

theorem relocate_consistent (st0 : State) (hc : Consistent st0) (ndl idx : Nat)
    (header : table_header_t) (all_data : List Byte) (skip : Bool) (info : flash_table_info_t)
    (a : Nat) (st1 : State) (hndl : ndl < U32)
    (hal : allocate_table_space st0 ((SIZEOF_HEADER + ndl) % U32) = (0, a, st1))
    (hrc : (relocate_commit st1 idx a header all_data ndl skip info).1 = 0)
    (hia : info.addr = a) (hdl : header.data_len = ndl) (hn : header.struct_nums < U32)
    (hss : header.struct_size < U32) (hcons : ndl = header.struct_nums * header.struct_size) :
    Consistent (relocate_commit st1 idx a header all_data ndl skip info).2 := by
  have hS : FLASH_SECTOR_SIZE = 4096 := by decide!
  have hW : WIN_FLASH_TOTAL_SIZE = 65536 := by decide!
  have hM : SIZEOF_MANAGER = 692 := by decide!
  have hH : SIZEOF_HEADER = 30 := by decide!
  obtain ⟨h1, h2, h3, h4, hmgr, hcur, hfit, hfr, hhd, hdat, hbl, htot, her, hld⟩ :=
    relocate_ok st0 hc ndl idx header all_data skip info a st1 hndl hal hrc
  obtain ⟨hn1, hn2, hn3⟩ := next_reservation_spec (a + SIZEOF_HEADER + ndl)
  generalize relocate_commit st1 idx a header all_data ndl skip info = r at *
  generalize next_reservation (a + SIZEOF_HEADER + ndl) = nr at *
  have htl := hc.total_le
  have hnext : r.2.g_manager_table.next_manager_addr = nr := by rw [hmgr]; rfl
  refine ⟨hld, ?_, by rw [htot]; exact htl, by rw [hcur, ← htot] at *; omega, by
    rw [hnext, hcur], ?_, ?_, ?_⟩
  · rw [hmgr]
    show (st0.g_manager_table.tables.set idx info).length = _
    rw [List.length_set]; exact hc.slots
  · intro x hx1 hx2
    rw [hnext] at hx1 hx2
    exact hbl x (by omega) (by omega)
  · intro x hx1 hx2
    rw [hcur] at hx1
    exact hbl x (by omega) hx2
  · intro j hj hval
    rw [hnext, hcur]
    rw [hmgr, slot_at_committed] at hval ⊢
    by_cases hji : idx = j
    · subst hji
      have hlt : idx < st0.g_manager_table.tables.length := by
        rw [hc.slots]; exact hj
      rw [slot_at_set_same _ _ _ hlt] at hval ⊢
      rw [hia]
      have hp : header_at r.2 a = parse_header (header_bytes header) := by
        unfold header_at; rw [hhd]
      rw [hp, parse_header_bytes]
      dsimp only
      rw [Nat.mod_eq_of_lt hn, Nat.mod_eq_of_lt hss, hdl, Nat.mod_eq_of_lt hndl]
      exact ⟨by omega, Or.inl (by omega), hcons⟩
    · rw [slot_at_set_ne _ _ _ _ hji] at hval ⊢
      obtain ⟨t1, t2, t3⟩ := hc.tables_ok j hj hval
      have hp : header_at r.2 (slot_at st0.g_manager_table j).addr =
          header_at st0 (slot_at st0.g_manager_table j).addr := by
        apply header_at_congr
        intro x hx1 hx2
        exact hfr x (by omega) (by omega)
      rw [hp]
      exact ⟨by omega, Or.inl (by omega), t3⟩

theorem relocate_lookup (st0 : State) (hc : Consistent st0) (ndl idx : Nat)
    (header : table_header_t) (all_data : List Byte) (skip : Bool) (info : flash_table_info_t)
    (a : Nat) (st1 : State) (hndl : ndl < U32)
    (hal : allocate_table_space st0 ((SIZEOF_HEADER + ndl) % U32) = (0, a, st1))
    (hrc : (relocate_commit st1 idx a header all_data ndl skip info).1 = 0)
    (hidx : idx < MAX_TABLES_ALL_SECTOR)
    (hst : info.status = (slot_at st0.g_manager_table idx).status)
    (hnm : info.name = (slot_at st0.g_manager_table idx).name) :
    slot_at (relocate_commit st1 idx a header all_data ndl skip info).2.g_manager_table idx
      = info ∧
    (∀ j, j ≠ idx →
      slot_at (relocate_commit st1 idx a header all_data ndl skip info).2.g_manager_table j =
        slot_at st0.g_manager_table j) ∧
    ∀ name, find_table_index (relocate_commit st1 idx a header all_data ndl skip info).2 name =
      find_table_index st0 name := by
  obtain ⟨_, _, _, _, hmgr, _⟩ :=
    relocate_ok st0 hc ndl idx header all_data skip info a st1 hndl hal hrc
  have hlt : idx < st0.g_manager_table.tables.length := by rw [hc.slots]; exact hidx
  have e1 : slot_at (relocate_commit st1 idx a header all_data ndl skip info).2.g_manager_table
      idx = info := by
    rw [hmgr, slot_at_committed, slot_at_set_same _ _ _ hlt]
  have e2 : ∀ j, j ≠ idx →
      slot_at (relocate_commit st1 idx a header all_data ndl skip info).2.g_manager_table j =
        slot_at st0.g_manager_table j := by
    intro j hj
    rw [hmgr, slot_at_committed, slot_at_set_ne _ _ _ _ (Ne.symm hj)]
  refine ⟨e1, e2, ?_⟩
  intro name
  apply find_table_index_congr
  intro j _
  by_cases hj : j = idx
  · subst hj; rw [e1, hst, hnm]; exact ⟨rfl, rfl⟩
  · rw [e2 j hj]; exact ⟨rfl, rfl⟩

theorem find_table_index_nonneg (st : State) (name : List Byte)
    (h : 0 ≤ find_table_index st name) :
    ∃ i : Nat, find_table_index st name = (i : Int) ∧ i < MAX_TABLES_ALL_SECTOR ∧
      (slot_at st.g_manager_table i).status = TABLE_STATUS_VALID :=
  let ⟨i, h1, h2, h3, _⟩ := find_table_index_spec st name (by omega)
  ⟨i, h1, h2, h3⟩

theorem write_table_data_size (st : State) (name d : List Byte) (s i : Nat)
    (hc : Consistent st) (hi : find_table_index st name = (i : Int))
    (hw : (fast_flash_write_table_data st name d s).1 = 0) :
    s = (header_at st (slot_at st.g_manager_table i).addr).struct_size := by
  have hW : WIN_FLASH_TOTAL_SIZE = 65536 := by decide!
  have hH : SIZEOF_HEADER = 30 := by decide!
  obtain ⟨i', hi', hi24, hval⟩ := find_table_index_nonneg st name (by rw [hi]; omega)
  have hii : i' = i := Int.ofNat.inj (hi'.symm.trans hi)
  subst hii
  obtain ⟨ht1, _, _⟩ := hc.tables_ok i' hi24 hval
  have hcl := hc.cursor_le
  unfold fast_flash_write_table_data at hw
  rw [if_neg (by simp [hc.loaded]), if_neg (by rw [hi]; omega)] at hw
  simp only [hi, Int.toNat_ofNat] at hw
  rw [win_flash_read_of_le _ _ _ (by omega)] at hw
  dsimp only at hw
  rw [if_neg (by decide)] at hw
  by_contra hne
  unfold header_at at hne
  rw [if_pos (by simpa using hne)] at hw
  simp at hw

/-- Shape of the state after a successful append: the rows of the table, the lookup of every
name, the slots of the other tables and the flash outside the new table and the committed
manager. -/
theorem write_table_data_shape (st : State) (name d : List Byte) (s i : Nat)
    (hc : Consistent st) (hi : find_table_index st name = (i : Int)) (hs : 1 ≤ s)
    (hd : d.length = s)
    (hw : (fast_flash_write_table_data st name d s).1 = 0) :
    Consistent (fast_flash_write_table_data st name d s).2 ∧
    (∀ nm, find_table_index (fast_flash_write_table_data st name d s).2 nm =
      find_table_index st nm) ∧
    (∀ j, j ≠ i → slot_at (fast_flash_write_table_data st name d s).2.g_manager_table j =
      slot_at st.g_manager_table j) ∧
    (∀ x, x < cursor_pos st →
      (x < st.g_manager_table.next_manager_addr ∨
        st.g_manager_table.next_manager_addr + SIZEOF_MANAGER ≤ x) →
      (fast_flash_write_table_data st name d s).2.flash.flash_cache x =
        st.flash.flash_cache x) ∧
    (header_at (fast_flash_write_table_data st name d s).2
      (slot_at (fast_flash_write_table_data st name d s).2.g_manager_table i).addr).struct_size
        = s ∧
    (header_at (fast_flash_write_table_data st name d s).2
      (slot_at (fast_flash_write_table_data st name d s).2.g_manager_table i).addr).struct_nums
        = (header_at st (slot_at st.g_manager_table i).addr).struct_nums + 1 ∧
    (header_at (fast_flash_write_table_data st name d s).2
      (slot_at (fast_flash_write_table_data st name d s).2.g_manager_table i).addr).table_size
        = (header_at st (slot_at st.g_manager_table i).addr).table_size ∧
    mem_read (fast_flash_write_table_data st name d s).2.flash.flash_cache
      ((slot_at (fast_flash_write_table_data st name d s).2.g_manager_table i).addr +
        SIZEOF_HEADER)
      (((header_at st (slot_at st.g_manager_table i).addr).struct_nums + 1) * s) =
      mem_read st.flash.flash_cache ((slot_at st.g_manager_table i).addr + SIZEOF_HEADER)
        ((header_at st (slot_at st.g_manager_table i).addr).struct_nums * s) ++ d := by
  have hU : U32 = 4294967296 := by decide!
  have hW : WIN_FLASH_TOTAL_SIZE = 65536 := by decide!
  have hH : SIZEOF_HEADER = 30 := by decide!
  obtain ⟨i', hi', hi24, hval⟩ := find_table_index_nonneg st name (by rw [hi]; omega)
  have hii : i' = i := Int.ofNat.inj (hi'.symm.trans hi)
  subst hii
  have hsz := write_table_data_size st name d s i' hc hi hw
  obtain ⟨a, st1, hal, hrun⟩ := write_table_data_run st name d s i' hc hi hsz hw
  obtain ⟨ht1, ht2, ht3⟩ := hc.tables_ok i' hi24 hval
  have hcl := hc.cursor_le
  rw [hrun] at hw ⊢
  obtain ⟨hl1, hl2, hl3, hl4, hl5, hl6, hl7⟩ := parse_header_lt
    (mem_read st.flash.flash_cache (slot_at st.g_manager_table i').addr SIZEOF_HEADER)
  unfold header_at at hsz ht1 ht2 ht3 hw hal ⊢
  generalize parse_header (mem_read st.flash.flash_cache (slot_at st.g_manager_table i').addr
    SIZEOF_HEADER) = h at *
  generalize hn : h.struct_nums = n at *
  rw [← hsz] at ht3
  -- no wrap-around in the new length
  have hnw : (h.data_len + s) % U32 = (n + 1) * s := by
    rw [ht3, Nat.add_mul, Nat.one_mul]
    apply Nat.mod_eq_of_lt
    rcases Nat.eq_zero_or_pos n with h0 | h0
    · rw [h0, Nat.zero_mul]; omega
    · have : s ≤ n * s := Nat.le_mul_of_pos_left s h0
      omega
  rw [hnw] at hw hal ⊢
  have hndl : (n + 1) * s < U32 := by rw [← hnw]; exact Nat.mod_lt _ (by omega)
  have hdiv : (n + 1) * s / s = n + 1 := Nat.mul_div_cancel _ (by omega)
  rw [hdiv] at hw ⊢
  have hcons := relocate_consistent st hc _ i' _ _ false _ a st1 hndl hal hw rfl rfl
    (by show n + 1 < U32; have : n + 1 ≤ (n + 1) * s := Nat.le_mul_of_pos_right _ hs; omega)
    (by show h.struct_size < U32; exact hl3) (by show _ = (n + 1) * h.struct_size; rw [hsz])
  obtain ⟨e1, e2, e3⟩ := relocate_lookup st hc _ i' _ _ false _ a st1 hndl hal hw hi24 rfl rfl
  obtain ⟨_, _, _, r4, _, _, _, rfr, rhd, rdat, _⟩ :=
    relocate_ok st hc _ i' _ _ false _ a st1 hndl hal hw
  refine ⟨hcons, e3, e2, rfr, ?_, ?_, ?_, ?_⟩
  · rw [e1]
    dsimp only
    rw [rhd, parse_header_bytes]
    show h.struct_size % U32 = s
    rw [Nat.mod_eq_of_lt hl3, hsz]
  · rw [e1]
    dsimp only
    rw [rhd, parse_header_bytes]
    show (n + 1) % U32 = n + 1
    have : n + 1 ≤ (n + 1) * s := Nat.le_mul_of_pos_right _ hs
    exact Nat.mod_eq_of_lt (by omega)
  · rw [e1]
    dsimp only
    rw [rhd, parse_header_bytes]
    show h.table_size % U32 = h.table_size
    exact Nat.mod_eq_of_lt hl1
  · rw [e1]
    show mem_read _ (a + SIZEOF_HEADER) _ = _
    rw [rdat, List.take_of_length_le]
    · rw [ht3, List.take_of_length_le (by omega)]
    · rw [List.length_append, mem_read_length, List.length_take, ht3, Nat.add_mul]
      omega

theorem consistent_view (st : State) (hc : Consistent st) (name : List Byte) (i : Nat)
    (hi : find_table_index st name = (i : Int)) (k sz : Nat) :
    fast_flash_get_table_count st name =
      (header_at st (slot_at st.g_manager_table i).addr).struct_nums ∧
    fast_flash_read_table_data st name k sz =
      if sz = (header_at st (slot_at st.g_manager_table i).addr).struct_size ∧
          k < (header_at st (slot_at st.g_manager_table i).addr).struct_nums then
        (0, mem_read st.flash.flash_cache
          ((slot_at st.g_manager_table i).addr + SIZEOF_HEADER + k * sz) sz)
      else (-1, []) := by
  have hW : WIN_FLASH_TOTAL_SIZE = 65536 := by decide!
  have hH : SIZEOF_HEADER = 30 := by decide!
  obtain ⟨i', hi', hi24, hval⟩ := find_table_index_nonneg st name (by rw [hi]; omega)
  have hii : i' = i := Int.ofNat.inj (hi'.symm.trans hi)
  subst hii
  obtain ⟨ht1, _, ht3⟩ := hc.tables_ok i' hi24 hval
  have hcl := hc.cursor_le
  exact ⟨get_table_count_eq st name i' hc.loaded hi (by omega),
    read_table_data_eq st name i' k sz hc.loaded hi (by omega) ht3⟩

/-- C1 (amended): in a consistent state, a successful append of an `s`-byte record `d` to a Valid
table with `n` rows makes the count `n + 1`, leaves the first `n` rows readable and unchanged,
makes `d` row `n`, and leaves the count and every read of every other table as before. -/
theorem append_round_trip (st : State) (name d : List Byte) (s n : Nat)
    (hc : Consistent st) (hv : 0 ≤ find_table_index st name) (hs : 1 ≤ s) (hd : d.length = s)
    (hn : fast_flash_get_table_count st name = n)
    (hw : (fast_flash_write_table_data st name d s).1 = 0) :
    fast_flash_get_table_count (fast_flash_write_table_data st name d s).2 name = n + 1 ∧
    (∀ i, i < n →
      (fast_flash_read_table_data st name i s).1 = 0 ∧
      fast_flash_read_table_data (fast_flash_write_table_data st name d s).2 name i s =
        fast_flash_read_table_data st name i s) ∧
    fast_flash_read_table_data (fast_flash_write_table_data st name d s).2 name n s = (0, d) ∧
    (∀ other, find_table_index st other ≠ find_table_index st name → ∀ i sz,
      fast_flash_read_table_data (fast_flash_write_table_data st name d s).2 other i sz =
        fast_flash_read_table_data st other i sz ∧
      fast_flash_get_table_count (fast_flash_write_table_data st name d s).2 other =
        fast_flash_get_table_count st other) := by
  obtain ⟨i, hi, hi24, hval⟩ := find_table_index_nonneg st name hv
  obtain ⟨hc', hfind, hslots, hfr, hss, hsn, _, hdat⟩ :=
    write_table_data_shape st name d s i hc hi hs hd hw
  have hsz := write_table_data_size st name d s i hc hi hw
  have hv0 := fun k => consistent_view st hc name i hi k s
  have hv1 := fun k => consistent_view _ hc' name i ((hfind name).trans hi) k s
  have hn0 : (header_at st (slot_at st.g_manager_table i).addr).struct_nums = n := by
    rw [← (hv0 0).1]; exact hn
  generalize fast_flash_write_table_data st name d s = r at *
  rw [hn0] at hsn hdat hv0
  rw [hsn, hss] at hv1
  rw [← hsz] at hv0
  have hrow : ∀ k, k < n + 1 →
      mem_read r.2.flash.flash_cache
        ((slot_at r.2.g_manager_table i).addr + SIZEOF_HEADER + k * s) s =
      (((mem_read st.flash.flash_cache ((slot_at st.g_manager_table i).addr + SIZEOF_HEADER)
        (n * s)) ++ d).drop (k * s)).take s := by
    intro k hk
    rw [← hdat, mem_read_take_drop]
    calc k * s + s = (k + 1) * s := by rw [Nat.add_mul, Nat.one_mul]
      _ ≤ (n + 1) * s := Nat.mul_le_mul_right _ hk
  refine ⟨(hv1 0).1, ?_, ?_, ?_⟩
  · intro k hk
    rw [(hv0 k).2, (hv1 k).2, if_pos ⟨rfl, hk⟩, if_pos ⟨rfl, by omega⟩]
    refine ⟨rfl, ?_⟩
    rw [hrow k (by omega)]
    have hle : k * s + s ≤ n * s := by
      calc k * s + s = (k + 1) * s := by rw [Nat.add_mul, Nat.one_mul]
        _ ≤ n * s := Nat.mul_le_mul_right _ hk
    rw [List.drop_append_of_le_length (by rw [mem_read_length]; omega),
      List.take_append_of_le_length (by rw [List.length_drop, mem_read_length]; omega),
      mem_read_take_drop _ _ _ _ _ hle]
  · rw [(hv1 n).2, if_pos ⟨rfl, by omega⟩, hrow n (by omega)]
    have hl : (mem_read st.flash.flash_cache
        ((slot_at st.g_manager_table i).addr + SIZEOF_HEADER) (n * s)).length = n * s :=
      mem_read_length _ _ _
    rw [List.drop_left' hl, ← hd, List.take_length]
  · intro other hne k sz
    by_cases hneg : find_table_index st other < 0
    · exact frame_reads_absent st r.2 other hneg (by rw [hfind]; exact hneg) k sz
    · obtain ⟨j, hj, _, _, _⟩ := find_table_index_spec st other hneg
      have hji : j ≠ i := by
        intro h; subst h; exact hne (hj.trans hi.symm)
      exact frame_reads st r.2 hc hc'.loaded other j hj ((hfind other).trans hj)
        (hslots j hji) hfr k sz

/-! ## Overwrite by index -/

theorem splice_getElem? (old d : List Byte) (p j : Nat) (hp : p + d.length ≤ old.length) :
    (old.take p ++ d ++ old.drop (p + d.length))[j]? =
      if p ≤ j ∧ j < p + d.length then d[j - p]? else old[j]? := by
  have hlt : (old.take p).length = p := by rw [List.length_take]; omega
  by_cases h1 : j < p
  · rw [if_neg (by omega), List.append_assoc, List.getElem?_append_left (by omega),
      List.getElem?_take_of_lt h1]
  · by_cases h2 : j < p + d.length
    · rw [if_pos ⟨by omega, h2⟩, List.getElem?_append_left (by simp; omega),
        List.getElem?_append_right (by omega), hlt]
    · rw [if_neg (by omega), List.getElem?_append_right (by simp; omega)]
      simp only [List.length_append, hlt, List.getElem?_drop]
      congr 1
      omega

theorem splice_length (old d : List Byte) (p : Nat) (hp : p + d.length ≤ old.length) :
    (old.take p ++ d ++ old.drop (p + d.length)).length = old.length := by
  simp only [List.length_append, List.length_take, List.length_drop]
  omega

theorem splice_row (old d : List Byte) (k i : Nat) (hk : k * d.length + d.length ≤ old.length) :
    ((old.take (k * d.length) ++ d ++ old.drop (k * d.length + d.length)).drop
      (i * d.length)).take d.length =
      if i = k then d else (old.drop (i * d.length)).take d.length := by
  apply List.ext_getElem?
  intro m
  rw [List.getElem?_take]
  by_cases hm : m < d.length
  · rw [if_pos hm, List.getElem?_drop, splice_getElem? old d _ _ hk]
    by_cases hik : i = k
    · subst hik
      rw [if_pos rfl, if_pos ⟨by omega, by omega⟩]
      congr 1; omega
    · rw [if_neg hik, List.getElem?_take, if_pos hm, List.getElem?_drop]
      rw [if_neg]
      intro ⟨h1, h2⟩
      rcases Nat.lt_or_gt_of_ne hik with h | h
      · have : (i + 1) * d.length ≤ k * d.length := Nat.mul_le_mul_right _ h
        rw [Nat.add_mul, Nat.one_mul] at this
        omega
      · have : (k + 1) * d.length ≤ i * d.length := Nat.mul_le_mul_right _ h
        rw [Nat.add_mul, Nat.one_mul] at this
        omega
  · rw [if_neg hm]
    split
    · exact (List.getElem?_eq_none (by omega)).symm
    · rw [List.getElem?_take, if_neg hm]

theorem write_by_index_run (st : State) (name d : List Byte) (index s i : Nat)
    (hc : Consistent st) (hi : find_table_index st name = (i : Int))
    (hw : (fast_flash_write_table_data_by_index st name index d s).1 = 0) :
    s = (header_at st (slot_at st.g_manager_table i).addr).struct_size ∧
    index < (header_at st (slot_at st.g_manager_table i).addr).struct_nums ∧
    ∃ a st1,
      allocate_table_space st ((SIZEOF_HEADER +
        (header_at st (slot_at st.g_manager_table i).addr).data_len) % U32) = (0, a, st1) ∧
      fast_flash_write_table_data_by_index st name index d s =
        relocate_commit st1 i a
          { header_at st (slot_at st.g_manager_table i).addr with
            data_crc := calculate_crc32
              ((mem_read st.flash.flash_cache
                  ((slot_at st.g_manager_table i).addr + SIZEOF_HEADER)
                  (header_at st (slot_at st.g_manager_table i).addr).data_len).take (index * s)
                ++ d.take s ++
                (mem_read st.flash.flash_cache
                  ((slot_at st.g_manager_table i).addr + SIZEOF_HEADER)
                  (header_at st (slot_at st.g_manager_table i).addr).data_len).drop
                    (index * s + s))
              (header_at st (slot_at st.g_manager_table i).addr).data_len }
          ((mem_read st.flash.flash_cache
              ((slot_at st.g_manager_table i).addr + SIZEOF_HEADER)
              (header_at st (slot_at st.g_manager_table i).addr).data_len).take (index * s)
            ++ d.take s ++
            (mem_read st.flash.flash_cache
              ((slot_at st.g_manager_table i).addr + SIZEOF_HEADER)
              (header_at st (slot_at st.g_manager_table i).addr).data_len).drop (index * s + s))
          (header_at st (slot_at st.g_manager_table i).addr).data_len false
          { slot_at st.g_manager_table i with
            addr := a
            used_size := (SIZEOF_HEADER +
              (header_at st (slot_at st.g_manager_table i).addr).data_len) % U32 } := by
  have hU : U32 = 4294967296 := by decide!
  have hW : WIN_FLASH_TOTAL_SIZE = 65536 := by decide!
  have hH : SIZEOF_HEADER = 30 := by decide!
  have hM : SIZEOF_MANAGER = 692 := by decide!
  obtain ⟨i', hi', hi24, hval⟩ := find_table_index_nonneg st name (by rw [hi]; omega)
  have hii : i' = i := Int.ofNat.inj (hi'.symm.trans hi)
  subst hii
  obtain ⟨ht1, ht2, ht3⟩ := hc.tables_ok i' hi24 hval
  have hcl := hc.cursor_le
  unfold fast_flash_write_table_data_by_index at hw ⊢
  rw [if_neg (by simp [hc.loaded]), if_neg (by rw [hi]; omega)] at hw ⊢
  simp only [hi, Int.toNat_ofNat] at hw ⊢
  rw [win_flash_read_of_le _ _ _ (by omega)] at hw ⊢
  dsimp only at hw ⊢
  rw [if_neg (by decide)] at hw ⊢
  unfold header_at at ht1 ht2 ht3 ⊢
  generalize parse_header (mem_read st.flash.flash_cache (slot_at st.g_manager_table i').addr
    SIZEOF_HEADER) = h at *
  generalize slot_at st.g_manager_table i' = t at *
  by_cases hs : s = h.struct_size
  swap
  · rw [if_pos (by simpa using hs)] at hw; simp at hw
  rw [if_neg (by simpa using hs)] at hw ⊢
  by_cases hx : index ≥ h.struct_nums
  · rw [if_pos hx] at hw; simp at hw
  rw [if_neg hx] at hw ⊢
  have hmod : (t.addr + SIZEOF_HEADER) % U32 = t.addr + SIZEOF_HEADER :=
    Nat.mod_eq_of_lt (by omega)
  rw [hmod, win_flash_read_of_le _ _ _ (by omega)] at hw ⊢
  dsimp only at hw ⊢
  rw [if_neg (by decide)] at hw ⊢
  have hle : index * h.struct_size + h.struct_size ≤ h.struct_nums * h.struct_size := by
    calc index * h.struct_size + h.struct_size = (index + 1) * h.struct_size := by
          rw [Nat.add_mul, Nat.one_mul]
      _ ≤ _ := Nat.mul_le_mul_right _ (by omega)
  have hoff : index * h.struct_size % U32 = index * h.struct_size :=
    Nat.mod_eq_of_lt (by omega)
  rw [hoff, Nat.add_comm h.data_len SIZEOF_HEADER] at hw ⊢
  rw [← hs] at hw ⊢
  rcases hal : allocate_table_space st ((SIZEOF_HEADER + h.data_len) % U32) with
    ⟨result, a, st1⟩
  rw [hal] at hw
  dsimp only at hw ⊢
  by_cases hres : result = 0
  swap
  · rw [if_pos hres] at hw
    exact absurd hw hres
  subst hres
  rw [if_neg (by decide)] at hw ⊢
  exact ⟨rfl, by omega, a, st1, rfl, rfl⟩

theorem write_by_index_shape (st : State) (name d : List Byte) (index s i : Nat)
    (hc : Consistent st) (hi : find_table_index st name = (i : Int)) (hd : d.length = s)
    (hw : (fast_flash_write_table_data_by_index st name index d s).1 = 0) :
    Consistent (fast_flash_write_table_data_by_index st name index d s).2 ∧
    (∀ nm, find_table_index (fast_flash_write_table_data_by_index st name index d s).2 nm =
      find_table_index st nm) ∧
    (∀ j, j ≠ i →
      slot_at (fast_flash_write_table_data_by_index st name index d s).2.g_manager_table j =
        slot_at st.g_manager_table j) ∧
    (∀ x, x < cursor_pos st →
      (x < st.g_manager_table.next_manager_addr ∨
        st.g_manager_table.next_manager_addr + SIZEOF_MANAGER ≤ x) →
      (fast_flash_write_table_data_by_index st name index d s).2.flash.flash_cache x =
        st.flash.flash_cache x) ∧
    (header_at (fast_flash_write_table_data_by_index st name index d s).2
      (slot_at (fast_flash_write_table_data_by_index st name index d s).2.g_manager_table
        i).addr).struct_size = s ∧
    (header_at (fast_flash_write_table_data_by_index st name index d s).2
      (slot_at (fast_flash_write_table_data_by_index st name index d s).2.g_manager_table
        i).addr).struct_nums = (header_at st (slot_at st.g_manager_table i).addr).struct_nums ∧
    (header_at (fast_flash_write_table_data_by_index st name index d s).2
      (slot_at (fast_flash_write_table_data_by_index st name index d s).2.g_manager_table
        i).addr).table_size = (header_at st (slot_at st.g_manager_table i).addr).table_size ∧
    index < (header_at st (slot_at st.g_manager_table i).addr).struct_nums ∧
    s = (header_at st (slot_at st.g_manager_table i).addr).struct_size ∧
    mem_read (fast_flash_write_table_data_by_index st name index d s).2.flash.flash_cache
      ((slot_at (fast_flash_write_table_data_by_index st name index d s).2.g_manager_table
        i).addr + SIZEOF_HEADER)
      ((header_at st (slot_at st.g_manager_table i).addr).struct_nums * s) =
      (mem_read st.flash.flash_cache ((slot_at st.g_manager_table i).addr + SIZEOF_HEADER)
        ((header_at st (slot_at st.g_manager_table i).addr).struct_nums * s)).take (index * s)
      ++ d ++
      (mem_read st.flash.flash_cache ((slot_at st.g_manager_table i).addr + SIZEOF_HEADER)
        ((header_at st (slot_at st.g_manager_table i).addr).struct_nums * s)).drop
          (index * s + s) := by
  have hU : U32 = 4294967296 := by decide!
  have hW : WIN_FLASH_TOTAL_SIZE = 65536 := by decide!
  have hH : SIZEOF_HEADER = 30 := by decide!
  obtain ⟨i', hi', hi24, hval⟩ := find_table_index_nonneg st name (by rw [hi]; omega)
  have hii : i' = i := Int.ofNat.inj (hi'.symm.trans hi)
  subst hii
  obtain ⟨hsz, hidx, a, st1, hal, hrun⟩ := write_by_index_run st name d index s i' hc hi hw
  obtain ⟨ht1, ht2, ht3⟩ := hc.tables_ok i' hi24 hval
  have hcl := hc.cursor_le
  rw [hrun] at hw ⊢
  obtain ⟨hl1, hl2, hl3, hl4, hl5, hl6, hl7⟩ := parse_header_lt
    (mem_read st.flash.flash_cache (slot_at st.g_manager_table i').addr SIZEOF_HEADER)
  unfold header_at at hsz hidx ht1 ht2 ht3 hw hal ⊢
  generalize parse_header (mem_read st.flash.flash_cache (slot_at st.g_manager_table i').addr
    SIZEOF_HEADER) = h at *
  generalize hn : h.struct_nums = n at *
  rw [← hsz] at ht3
  rw [ht3] at hw hal ⊢
  have hndl : n * s < U32 := by rw [← ht3]; exact hl2
  have hcons := relocate_consistent st hc _ i' _ _ false _ a st1 hndl hal hw rfl ht3
    (by show h.struct_nums < U32; rw [hn]; omega)
    (by show h.struct_size < U32; exact hl3)
    (by show _ = h.struct_nums * h.struct_size; rw [hn, hsz])
  obtain ⟨e1, e2, e3⟩ := relocate_lookup st hc _ i' _ _ false _ a st1 hndl hal hw hi24 rfl rfl
  obtain ⟨_, _, _, r4, _, _, _, rfr, rhd, rdat, _⟩ :=
    relocate_ok st hc _ i' _ _ false _ a st1 hndl hal hw
  have hle : index * s + s ≤ n * s := by
    calc index * s + s = (index + 1) * s := by rw [Nat.add_mul, Nat.one_mul]
      _ ≤ _ := Nat.mul_le_mul_right _ hidx
  refine ⟨hcons, e3, e2, rfr, ?_, ?_, ?_, hidx, hsz, ?_⟩
  · rw [e1]
    dsimp only
    rw [rhd, parse_header_bytes]
    show h.struct_size % U32 = s
    rw [Nat.mod_eq_of_lt hl3, hsz]
  · rw [e1]
    dsimp only
    rw [rhd, parse_header_bytes]
    show h.struct_nums % U32 = n
    rw [hn]
    exact Nat.mod_eq_of_lt (by omega)
  · rw [e1]
    dsimp only
    rw [rhd, parse_header_bytes]
    show h.table_size % U32 = h.table_size
    exact Nat.mod_eq_of_lt hl1
  · rw [e1]
    show mem_read _ (a + SIZEOF_HEADER) _ = _
    have htd : d.take s = d := List.take_of_length_le (Nat.le_of_eq hd)
    rw [rdat, htd, List.take_of_length_le]
    have := splice_length (mem_read st.flash.flash_cache
      ((slot_at st.g_manager_table i').addr + SIZEOF_HEADER) (n * s)) d (index * s)
      (by rw [mem_read_length, hd]; exact hle)
    rw [hd] at this
    rw [this, mem_read_length]

/-- C5 (amended): in a consistent state, a successful overwrite of row `k` of a Valid table
with an `s`-byte record `d` makes row `k` read as `d`, leaves every other row of the table and
the row count as they were, and leaves the count and every read of every other table as
before. -/
theorem overwrite_replaces_one_row (st : State) (name d : List Byte) (k s n : Nat)
    (hc : Consistent st) (hv : 0 ≤ find_table_index st name) (hd : d.length = s)
    (hn : fast_flash_get_table_count st name = n) (hk : k < n)
    (hw : (fast_flash_write_table_data_by_index st name k d s).1 = 0) :
    fast_flash_read_table_data (fast_flash_write_table_data_by_index st name k d s).2 name k s
      = (0, d) ∧
    (∀ i, i < n → i ≠ k →
      (fast_flash_read_table_data st name i s).1 = 0 ∧
      fast_flash_read_table_data (fast_flash_write_table_data_by_index st name k d s).2
        name i s = fast_flash_read_table_data st name i s) ∧
    fast_flash_get_table_count (fast_flash_write_table_data_by_index st name k d s).2 name
      = n ∧
    (∀ other, find_table_index st other ≠ find_table_index st name → ∀ i sz,
      fast_flash_read_table_data (fast_flash_write_table_data_by_index st name k d s).2
        other i sz = fast_flash_read_table_data st other i sz ∧
      fast_flash_get_table_count (fast_flash_write_table_data_by_index st name k d s).2 other
        = fast_flash_get_table_count st other) := by
  obtain ⟨i, hi, hi24, hval⟩ := find_table_index_nonneg st name hv
  obtain ⟨hc', hfind, hslots, hfr, hss, hsn, _, _, hsz, hdat⟩ :=
    write_by_index_shape st name d k s i hc hi hd hw
  have hv0 := fun q => consistent_view st hc name i hi q s
  have hv1 := fun q => consistent_view _ hc' name i ((hfind name).trans hi) q s
  have hn0 : (header_at st (slot_at st.g_manager_table i).addr).struct_nums = n := by
    rw [← (hv0 0).1]; exact hn
  generalize fast_flash_write_table_data_by_index st name k d s = r at *
  rw [hn0] at hsn hdat hv0
  rw [hsn, hss] at hv1
  rw [← hsz] at hv0
  have hks : k * s + s ≤ n * s := by
    calc k * s + s = (k + 1) * s := by rw [Nat.add_mul, Nat.one_mul]
      _ ≤ _ := Nat.mul_le_mul_right _ hk
  have hrow : ∀ q, q < n →
      mem_read r.2.flash.flash_cache
        ((slot_at r.2.g_manager_table i).addr + SIZEOF_HEADER + q * s) s =
      if q = k then d else
        mem_read st.flash.flash_cache
          ((slot_at st.g_manager_table i).addr + SIZEOF_HEADER + q * s) s := by
    intro q hq
    have hqs : q * s + s ≤ n * s := by
      calc q * s + s = (q + 1) * s := by rw [Nat.add_mul, Nat.one_mul]
        _ ≤ _ := Nat.mul_le_mul_right _ hq
    rw [← mem_read_take_drop r.2.flash.flash_cache _ (n * s) (q * s) s hqs, hdat]
    have := splice_row (mem_read st.flash.flash_cache
      ((slot_at st.g_manager_table i).addr + SIZEOF_HEADER) (n * s)) d k q
      (by rw [mem_read_length, hd]; exact hks)
    rw [hd] at this
    rw [this, mem_read_take_drop _ _ _ _ _ hqs]
  refine ⟨?_, ?_, (hv1 0).1, ?_⟩
  · rw [(hv1 k).2, if_pos ⟨rfl, hk⟩, hrow k hk, if_pos rfl]
  · intro q hq hqk
    rw [(hv0 q).2, (hv1 q).2, if_pos ⟨rfl, hq⟩, if_pos ⟨rfl, hq⟩, hrow q hq, if_neg hqk]
    exact ⟨rfl, rfl⟩
  · intro other hne q sz
    by_cases hneg : find_table_index st other < 0
    · exact frame_reads_absent st r.2 other hneg (by rw [hfind]; exact hneg) q sz
    · obtain ⟨j, hj, _, _, _⟩ := find_table_index_spec st other hneg
      have hji : j ≠ i := by
        intro h; subst h; exact hne (hj.trans hi.symm)
      exact frame_reads st r.2 hc hc'.loaded other j hj ((hfind other).trans hj)
        (hslots j hji) hfr q sz

/-! ## Batch append -/

theorem view_of_data (st : State) (hc : Consistent st) (name : List Byte) (i s N : Nat)
    (D : List Byte) (hi : find_table_index st name = (i : Int))
    (hs : (header_at st (slot_at st.g_manager_table i).addr).struct_size = s)
    (hN : (header_at st (slot_at st.g_manager_table i).addr).struct_nums = N)
    (hD : mem_read st.flash.flash_cache ((slot_at st.g_manager_table i).addr + SIZEOF_HEADER)
      (N * s) = D) (q : Nat) :
    fast_flash_get_table_count st name = N ∧
    fast_flash_read_table_data st name q s =
      if q < N then (0, (D.drop (q * s)).take s) else (-1, []) := by
  obtain ⟨h1, h2⟩ := consistent_view st hc name i hi q s
  rw [hN] at h1
  rw [hs, hN] at h2
  refine ⟨h1, ?_⟩
  rw [h2]
  by_cases hq : q < N
  · rw [if_pos ⟨rfl, hq⟩, if_pos hq, ← hD, mem_read_take_drop]
    calc q * s + s = (q + 1) * s := by rw [Nat.add_mul, Nat.one_mul]
      _ ≤ _ := Nat.mul_le_mul_right _ hq
  · rw [if_neg (by simp [hq]), if_neg hq]

theorem batch_run (st : State) (name data : List Byte) (s k i : Nat)
    (hc : Consistent st) (hi : find_table_index st name = (i : Int))
    (hw : (fast_flash_write_table_data_batch st name data s k).1 = 0) :
    s = (header_at st (slot_at st.g_manager_table i).addr).struct_size ∧
    ∃ a st1,
      allocate_table_space st ((SIZEOF_HEADER +
        ((header_at st (slot_at st.g_manager_table i).addr).data_len + s * k % U32) % U32)
          % U32) = (0, a, st1) ∧
      fast_flash_write_table_data_batch st name data s k =
        relocate_commit st1 i a
          { header_at st (slot_at st.g_manager_table i).addr with
            data_len :=
              ((header_at st (slot_at st.g_manager_table i).addr).data_len + s * k % U32) % U32
            struct_nums :=
              (((header_at st (slot_at st.g_manager_table i).addr).data_len + s * k % U32)
                % U32) / s
            data_crc := calculate_crc32
              (mem_read st.flash.flash_cache
                ((slot_at st.g_manager_table i).addr + SIZEOF_HEADER)
                (header_at st (slot_at st.g_manager_table i).addr).data_len ++
                  data.take (s * k % U32))
              (((header_at st (slot_at st.g_manager_table i).addr).data_len + s * k % U32)
                % U32) }
          (mem_read st.flash.flash_cache ((slot_at st.g_manager_table i).addr + SIZEOF_HEADER)
            (header_at st (slot_at st.g_manager_table i).addr).data_len ++
              data.take (s * k % U32))
          (((header_at st (slot_at st.g_manager_table i).addr).data_len + s * k % U32) % U32)
          false
          { slot_at st.g_manager_table i with
            addr := a
            size := (header_at st (slot_at st.g_manager_table i).addr).table_size
            used_size := (SIZEOF_HEADER +
              ((header_at st (slot_at st.g_manager_table i).addr).data_len + s * k % U32)
                % U32) % U32 } := by
  have hU : U32 = 4294967296 := by decide!
  have hW : WIN_FLASH_TOTAL_SIZE = 65536 := by decide!
  have hH : SIZEOF_HEADER = 30 := by decide!
  have hM : SIZEOF_MANAGER = 692 := by decide!
  obtain ⟨i', hi', hi24, hval⟩ := find_table_index_nonneg st name (by rw [hi]; omega)
  have hii : i' = i := Int.ofNat.inj (hi'.symm.trans hi)
  subst hii
  obtain ⟨ht1, ht2, ht3⟩ := hc.tables_ok i' hi24 hval
  have hcl := hc.cursor_le
  unfold fast_flash_write_table_data_batch at hw ⊢
  by_cases hk0 : k = 0 ∨ st.g_manager_loaded = false
  · rw [if_pos hk0] at hw; simp at hw
  rw [if_neg hk0, if_neg (by rw [hi]; omega)] at hw ⊢
  simp only [hi, Int.toNat_ofNat] at hw ⊢
  rw [win_flash_read_of_le _ _ _ (by omega)] at hw ⊢
  dsimp only at hw ⊢
  rw [if_neg (by decide)] at hw ⊢
  unfold header_at at ht1 ht2 ht3 ⊢
  generalize parse_header (mem_read st.flash.flash_cache (slot_at st.g_manager_table i').addr
    SIZEOF_HEADER) = h at *
  generalize slot_at st.g_manager_table i' = t at *
  by_cases hs : s = h.struct_size
  swap
  · rw [if_pos (by simpa using hs)] at hw; simp at hw
  rw [if_neg (by simpa using hs)] at hw ⊢
  by_cases hcap : (h.struct_nums + k) % U32 > header_capacity h
  · rw [if_pos hcap] at hw; simp at hw
  rw [if_neg hcap] at hw ⊢
  rw [← hs] at hw ⊢
  rcases hal : allocate_table_space st ((SIZEOF_HEADER + (h.data_len + s * k % U32) % U32)
    % U32) with ⟨result, a, st1⟩
  rw [hal] at hw
  dsimp only at hw ⊢
  by_cases hres : result = 0
  swap
  · rw [if_pos hres] at hw
    exact absurd hw hres
  subst hres
  rw [if_neg (by decide)] at hw ⊢
  refine ⟨rfl, a, st1, rfl, ?_⟩
  have hA := allocate_ok st _ hcl (by rw [hal])
  rw [hal] at hA
  dsimp only at hA
  obtain ⟨_, _, _, _, _, _, _, _, _, _, hfr1, _⟩ := hA
  have hmod : (t.addr + SIZEOF_HEADER) % U32 = t.addr + SIZEOF_HEADER :=
    Nat.mod_eq_of_lt (by omega)
  have hold : (if h.data_len > 0 then
      win_flash_read st1.flash ((t.addr + SIZEOF_HEADER) % U32) h.data_len else (0, [])) =
      (0, mem_read st.flash.flash_cache (t.addr + SIZEOF_HEADER) h.data_len) := by
    by_cases hz : h.data_len > 0
    · rw [if_pos hz, hmod, win_flash_read_of_le _ _ _ (by omega)]
      rw [mem_read_congr _ _ _ _ (fun x _ hx2 => hfr1 x (by omega))]
    · have : h.data_len = 0 := by omega
      rw [if_neg hz, this]
      rfl
  rw [hold]
  dsimp only
  rw [if_neg (by decide)]

theorem join_length_eq (s : Nat) : ∀ (ds : List (List Byte)), (∀ d ∈ ds, d.length = s) →
    ds.flatten.length = ds.length * s
  | [], _ => by simp
  | d :: ds, h => by
    rw [List.flatten_cons, List.length_append, join_length_eq s ds
      (fun x hx => h x (List.mem_cons_of_mem d hx)), h d (List.mem_cons_self d ds),
      List.length_cons, Nat.add_mul, Nat.one_mul, Nat.add_comm]

theorem join_row (s : Nat) : ∀ (ds : List (List Byte)) (j : Nat), (∀ d ∈ ds, d.length = s) →
    j < ds.length → (ds.flatten.drop (j * s)).take s = ds.getD j []
  | [], j, _, hj => by simp at hj
  | d :: ds, 0, h, _ => by
    have hd := h d (List.mem_cons_self d ds)
    rw [Nat.zero_mul, List.drop_zero, List.flatten_cons, List.take_left' hd]
    rfl
  | d :: ds, j + 1, h, hj => by
    have hd := h d (List.mem_cons_self d ds)
    have : (j + 1) * s = d.length + j * s := by rw [Nat.add_mul, Nat.one_mul, hd, Nat.add_comm]
    rw [List.flatten_cons, this, List.drop_append]
    rw [join_row s ds j (fun x hx => h x (List.mem_cons_of_mem d hx))
      (by simpa using hj)]
    rfl

theorem batch_shape (st : State) (name data : List Byte) (s k i : Nat)
    (hc : Consistent st) (hi : find_table_index st name = (i : Int)) (hs : 1 ≤ s)
    (hd : data.length = s * k)
    (hnw : ((header_at st (slot_at st.g_manager_table i).addr).struct_nums + k) * s < U32)
    (hw : (fast_flash_write_table_data_batch st name data s k).1 = 0) :
    Consistent (fast_flash_write_table_data_batch st name data s k).2 ∧
    (∀ nm, find_table_index (fast_flash_write_table_data_batch st name data s k).2 nm =
      find_table_index st nm) ∧
    (header_at st (slot_at st.g_manager_table i).addr).struct_size = s ∧
    (header_at (fast_flash_write_table_data_batch st name data s k).2
      (slot_at (fast_flash_write_table_data_batch st name data s k).2.g_manager_table
        i).addr).struct_size = s ∧
    (header_at (fast_flash_write_table_data_batch st name data s k).2
      (slot_at (fast_flash_write_table_data_batch st name data s k).2.g_manager_table
        i).addr).struct_nums = (header_at st (slot_at st.g_manager_table i).addr).struct_nums
          + k ∧
    mem_read (fast_flash_write_table_data_batch st name data s k).2.flash.flash_cache
      ((slot_at (fast_flash_write_table_data_batch st name data s k).2.g_manager_table
        i).addr + SIZEOF_HEADER)
      (((header_at st (slot_at st.g_manager_table i).addr).struct_nums + k) * s) =
      mem_read st.flash.flash_cache ((slot_at st.g_manager_table i).addr + SIZEOF_HEADER)
        ((header_at st (slot_at st.g_manager_table i).addr).struct_nums * s) ++ data := by
  have hU : U32 = 4294967296 := by decide!
  have hW : WIN_FLASH_TOTAL_SIZE = 65536 := by decide!
  have hH : SIZEOF_HEADER = 30 := by decide!
  obtain ⟨i', hi', hi24, hval⟩ := find_table_index_nonneg st name (by rw [hi]; omega)
  have hii : i' = i := Int.ofNat.inj (hi'.symm.trans hi)
  subst hii
  obtain ⟨hsz, a, st1, hal, hrun⟩ := batch_run st name data s k i' hc hi hw
  obtain ⟨ht1, ht2, ht3⟩ := hc.tables_ok i' hi24 hval
  have hcl := hc.cursor_le
  rw [hrun] at hw ⊢
  obtain ⟨hl1, hl2, hl3, hl4, hl5, hl6, hl7⟩ := parse_header_lt
    (mem_read st.flash.flash_cache (slot_at st.g_manager_table i').addr SIZEOF_HEADER)
  unfold header_at at hsz ht1 ht2 ht3 hw hal hnw ⊢
  generalize parse_header (mem_read st.flash.flash_cache (slot_at st.g_manager_table i').addr
    SIZEOF_HEADER) = h at *
  generalize hn : h.struct_nums = n at *
  rw [← hsz] at ht3
  have hexp : (n + k) * s = n * s + s * k := by rw [Nat.add_mul, Nat.mul_comm k s]
  have hsk : s * k % U32 = s * k := Nat.mod_eq_of_lt (by omega)
  have hnew : (h.data_len + s * k % U32) % U32 = (n + k) * s := by
    rw [hsk, ht3, ← hexp]
    exact Nat.mod_eq_of_lt hnw
  rw [hnew] at hw hal ⊢
  rw [hsk] at hw ⊢
  have hdiv : (n + k) * s / s = n + k := Nat.mul_div_cancel _ (by omega)
  rw [hdiv] at hw ⊢
  have hnk : n + k < U32 := by
    have : n + k ≤ (n + k) * s := Nat.le_mul_of_pos_right _ hs
    omega
  have hcons := relocate_consistent st hc _ i' _ _ false _ a st1 hnw hal hw rfl rfl
    (by show n + k < U32; exact hnk)
    (by show h.struct_size < U32; exact hl3) (by show _ = (n + k) * h.struct_size; rw [hsz])
  obtain ⟨e1, e2, e3⟩ := relocate_lookup st hc _ i' _ _ false _ a st1 hnw hal hw hi24 rfl rfl
  obtain ⟨_, _, _, r4, _, _, _, rfr, rhd, rdat, _⟩ :=
    relocate_ok st hc _ i' _ _ false _ a st1 hnw hal hw
  refine ⟨hcons, e3, hsz.symm, ?_, ?_, ?_⟩
  · rw [e1]
    dsimp only
    rw [rhd, parse_header_bytes]
    show h.struct_size % U32 = s
    rw [Nat.mod_eq_of_lt hl3, hsz]
  · rw [e1]
    dsimp only
    rw [rhd, parse_header_bytes]
    show (n + k) % U32 = n + k
    exact Nat.mod_eq_of_lt hnk
  · rw [e1]
    show mem_read _ (a + SIZEOF_HEADER) _ = _
    have htd : data.take (s * k) = data := List.take_of_length_le (Nat.le_of_eq hd)
    rw [rdat, htd, List.take_of_length_le]
    · rw [ht3]
    · rw [List.length_append, mem_read_length, hd, ht3, hexp]

theorem append_all_shape (name : List Byte) (s i : Nat) (hs : 1 ≤ s) :
    ∀ (ds : List (List Byte)) (st : State), Consistent st →
      find_table_index st name = (i : Int) →
      (header_at st (slot_at st.g_manager_table i).addr).struct_size = s →
      (∀ d ∈ ds, d.length = s) → (append_all st name s ds).1 = 0 →
      Consistent (append_all st name s ds).2 ∧
      find_table_index (append_all st name s ds).2 name = (i : Int) ∧
      (header_at (append_all st name s ds).2
        (slot_at (append_all st name s ds).2.g_manager_table i).addr).struct_size = s ∧
      (header_at (append_all st name s ds).2
        (slot_at (append_all st name s ds).2.g_manager_table i).addr).struct_nums =
          (header_at st (slot_at st.g_manager_table i).addr).struct_nums + ds.length ∧
      mem_read (append_all st name s ds).2.flash.flash_cache
        ((slot_at (append_all st name s ds).2.g_manager_table i).addr + SIZEOF_HEADER)
        (((header_at st (slot_at st.g_manager_table i).addr).struct_nums + ds.length) * s) =
        mem_read st.flash.flash_cache ((slot_at st.g_manager_table i).addr + SIZEOF_HEADER)
          ((header_at st (slot_at st.g_manager_table i).addr).struct_nums * s) ++ ds.flatten
  | [], st, hc, hi, hsz, _, _ => by
    refine ⟨hc, hi, hsz, ?_, ?_⟩
    · simp [append_all]
    · simp [append_all]
  | d :: ds, st, hc, hi, hsz, hall, hw => by
    unfold append_all at hw ⊢
    dsimp only at hw ⊢
    by_cases hr : (fast_flash_write_table_data st name d s).1 = 0
    swap
    · rw [if_pos hr] at hw
      exact absurd hw hr
    rw [if_neg (by simpa using hr)] at hw ⊢
    have hd := hall d (List.mem_cons_self d ds)
    obtain ⟨hc1, hf1, _, _, hss1, hsn1, _, hdat1⟩ :=
      write_table_data_shape st name d s i hc hi hs hd hr
    have ih := append_all_shape name s i hs ds (fast_flash_write_table_data st name d s).2 hc1
      ((hf1 name).trans hi) hss1 (fun x hx => hall x (List.mem_cons_of_mem d hx)) hw
    obtain ⟨g1, g2, g3, g4, g5⟩ := ih
    rw [hsn1] at g4 g5
    rw [hdat1] at g5
    refine ⟨g1, g2, g3, ?_, ?_⟩
    · rw [g4, List.length_cons]; omega
    · rw [List.length_cons, List.flatten_cons, ← List.append_assoc, ← g5]
      congr 2
      omega

/-- C6 (amended): in a consistent state, for a Valid table with `n` rows of size `s` and a block
of `k ≥ 1` records whose grown data length `(n + k) * s` stays below 2^32, a successful batch
append yields the old rows followed by the records of the block in order (count `n + k`), and
`k` successive successful single appends from the same state yield the same count and the same
reads. -/
theorem batch_equals_repeated_append (st : State) (name : List Byte) (ds : List (List Byte))
    (s n : Nat) (hc : Consistent st) (hv : 0 ≤ find_table_index st name) (hs : 1 ≤ s)
    (hk : 1 ≤ ds.length) (hall : ∀ d ∈ ds, d.length = s)
    (hn : fast_flash_get_table_count st name = n) (hnw : (n + ds.length) * s < U32)
    (hw : (fast_flash_write_table_data_batch st name ds.flatten s ds.length).1 = 0) :
    fast_flash_get_table_count
      (fast_flash_write_table_data_batch st name ds.flatten s ds.length).2 name
        = n + ds.length ∧
    (∀ i, i < n →
      (fast_flash_read_table_data st name i s).1 = 0 ∧
      fast_flash_read_table_data
        (fast_flash_write_table_data_batch st name ds.flatten s ds.length).2 name i s =
          fast_flash_read_table_data st name i s) ∧
    (∀ j, j < ds.length →
      fast_flash_read_table_data
        (fast_flash_write_table_data_batch st name ds.flatten s ds.length).2 name (n + j) s =
          (0, ds.getD j [])) ∧
    ((append_all st name s ds).1 = 0 →
      fast_flash_get_table_count (append_all st name s ds).2 name =
        fast_flash_get_table_count
          (fast_flash_write_table_data_batch st name ds.flatten s ds.length).2 name ∧
      ∀ q, fast_flash_read_table_data (append_all st name s ds).2 name q s =
        fast_flash_read_table_data
          (fast_flash_write_table_data_batch st name ds.flatten s ds.length).2 name q s) := by
  obtain ⟨i, hi, hi24, hval⟩ := find_table_index_nonneg st name hv
  have hn0 : (header_at st (slot_at st.g_manager_table i).addr).struct_nums = n := by
    rw [← (consistent_view st hc name i hi 0 s).1]; exact hn
  have hlen : ds.flatten.length = s * ds.length := by
    rw [join_length_eq s ds hall, Nat.mul_comm]
  obtain ⟨hc', hfind, hsz0, hss, hsn, hdat⟩ :=
    batch_shape st name ds.flatten s ds.length i hc hi hs hlen (by rw [hn0]; exact hnw) hw
  rw [hn0] at hsn hdat
  have hvb := fun q => view_of_data _ hc' name i s _ _ ((hfind name).trans hi) hss hsn hdat q
  have hv0 := fun q => view_of_data st hc name i s n _ hi hsz0 hn0 rfl q
  have hl0 : (mem_read st.flash.flash_cache
      ((slot_at st.g_manager_table i).addr + SIZEOF_HEADER) (n * s)).length = n * s :=
    mem_read_length _ _ _
  refine ⟨(hvb 0).1, ?_, ?_, ?_⟩
  · intro q hq
    rw [(hvb q).2, (hv0 q).2, if_pos hq, if_pos (show q < n + ds.length by omega)]
    refine ⟨rfl, ?_⟩
    have hle : q * s + s ≤ n * s := by
      calc q * s + s = (q + 1) * s := by rw [Nat.add_mul, Nat.one_mul]
        _ ≤ n * s := Nat.mul_le_mul_right _ hq
    rw [List.drop_append_of_le_length (by omega),
      List.take_append_of_le_length (by rw [List.length_drop]; omega)]
  · intro j hj
    rw [(hvb (n + j)).2, if_pos (show n + j < n + ds.length by omega)]
    have : (n + j) * s = (mem_read st.flash.flash_cache
        ((slot_at st.g_manager_table i).addr + SIZEOF_HEADER) (n * s)).length + j * s := by
      rw [hl0, Nat.add_mul]
    rw [this, List.drop_append, join_row s ds j hall hj]
  · intro ha
    obtain ⟨g1, g2, g3, g4, g5⟩ := append_all_shape name s i hs ds st hc hi hsz0 hall ha
    rw [hn0] at g4 g5
    have hva := fun q => view_of_data _ g1 name i s _ _ g2 g3 g4 g5 q
    refine ⟨by rw [(hva 0).1, (hvb 0).1], ?_⟩
    intro q
    rw [(hva q).2, (hvb q).2]

/-! ## Clearing rows by mask -/

theorem clear_loop_eq (mask : Nat) (all : List Byte) (s : Nat) :
    ∀ (is : List Nat) (nd : List Byte) (l c : Nat), l < U32 → c < U32 →
    clear_loop mask all s is (nd, l, c) =
      (nd ++ ((is.filter (fun i => decide (mask &&& bit64 i = 0))).map
          (fun i => (all.drop ((i * s) % U32)).take s)).flatten,
        (l + (is.filter (fun i => decide (mask &&& bit64 i = 0))).length * s) % U32,
        (c + (is.filter (fun i => decide (mask &&& bit64 i = 0))).length) % U32)
  | [], nd, l, c, hl, hc => by
    simp [clear_loop, Nat.mod_eq_of_lt hl, Nat.mod_eq_of_lt hc]
  | i :: is, nd, l, c, hl, hc => by
    have hU : 0 < U32 := by decide!
    unfold clear_loop
    by_cases hp : mask &&& bit64 i = 0
    · rw [if_pos hp, clear_loop_eq mask all s is _ _ _ (Nat.mod_lt _ hU) (Nat.mod_lt _ hU),
        List.filter_cons_of_pos (by simpa using hp)]
      simp only [List.map_cons, List.flatten_cons, List.length_cons, List.append_assoc,
        Nat.mod_add_mod]
      refine Prod.ext rfl (Prod.ext ?_ ?_)
      · show _ % U32 = _ % U32
        congr 1
        rw [Nat.add_mul, Nat.one_mul]
        omega
      · show _ % U32 = _ % U32
        congr 1
        omega
    · rw [if_neg hp, clear_loop_eq mask all s is _ _ _ hl hc,
        List.filter_cons_of_neg (by simpa using hp)]

theorem bit64_eq (i : Nat) (h : i < 64) : bit64 i = 2 ^ i := by
  have hU : U64 = 2 ^ 64 := by decide!
  unfold bit64
  rw [Nat.mod_eq_of_lt h, Nat.one_shiftLeft, hU]
  exact Nat.mod_eq_of_lt (Nat.pow_lt_pow_right (by decide) h)

theorem mask_bit_clear (mask i : Nat) (h : i < 64) :
    mask &&& bit64 i = 0 ↔ mask.testBit i = false := by
  rw [bit64_eq i h]
  constructor
  · intro h0
    have := congrArg (fun x => Nat.testBit x i) h0
    simpa [Nat.testBit_and, Nat.testBit_two_pow_self] using this
  · intro hb
    apply Nat.eq_of_testBit_eq
    intro j
    rw [Nat.testBit_and, Nat.testBit_two_pow, Nat.zero_testBit]
    by_cases hij : i = j
    · subst hij; simp [hb]
    · simp [hij]

theorem kept_filter_eq (mask n : Nat) (h : n ≤ 64) :
    (List.range n).filter (fun i => decide (mask &&& bit64 i = 0)) =
      (List.range n).filter (fun i => !mask.testBit i) := by
  apply List.filter_congr
  intro i hi
  have hi64 : i < 64 := by have := List.mem_range.mp hi; omega
  by_cases hb : mask.testBit i = false
  · simp [hb, (mask_bit_clear mask i hi64).mpr hb]
  · have : ¬ (mask &&& bit64 i = 0) := fun h0 => hb ((mask_bit_clear mask i hi64).mp h0)
    simp [this]
    simpa using hb

theorem clear_shape (st : State) (name : List Byte) (mask i : Nat)
    (hc : Consistent st) (hi : find_table_index st name = (i : Int)) (hm0 : mask ≠ 0)
    (hw : (fast_flash_clear_table_data st name mask).1 = 0) :
    Consistent (fast_flash_clear_table_data st name mask).2 ∧
    (∀ nm, find_table_index (fast_flash_clear_table_data st name mask).2 nm =
      find_table_index st nm) ∧
    (∀ j, j ≠ i →
      slot_at (fast_flash_clear_table_data st name mask).2.g_manager_table j =
        slot_at st.g_manager_table j) ∧
    (∀ x, x < cursor_pos st →
      (x < st.g_manager_table.next_manager_addr ∨
        st.g_manager_table.next_manager_addr + SIZEOF_MANAGER ≤ x) →
      (fast_flash_clear_table_data st name mask).2.flash.flash_cache x =
        st.flash.flash_cache x) ∧
    (header_at (fast_flash_clear_table_data st name mask).2
      (slot_at (fast_flash_clear_table_data st name mask).2.g_manager_table
        i).addr).struct_size = (header_at st (slot_at st.g_manager_table i).addr).struct_size ∧
    (header_at (fast_flash_clear_table_data st name mask).2
      (slot_at (fast_flash_clear_table_data st name mask).2.g_manager_table
        i).addr).struct_nums =
      ((List.range (header_at st (slot_at st.g_manager_table i).addr).struct_nums).filter
        (fun q => decide (mask &&& bit64 q = 0))).length ∧
    mem_read (fast_flash_clear_table_data st name mask).2.flash.flash_cache
      ((slot_at (fast_flash_clear_table_data st name mask).2.g_manager_table
        i).addr + SIZEOF_HEADER)
      (((List.range (header_at st (slot_at st.g_manager_table i).addr).struct_nums).filter
        (fun q => decide (mask &&& bit64 q = 0))).length *
        (header_at st (slot_at st.g_manager_table i).addr).struct_size) =
      (((List.range (header_at st (slot_at st.g_manager_table i).addr).struct_nums).filter
        (fun q => decide (mask &&& bit64 q = 0))).map
        (fun q => ((mem_read st.flash.flash_cache
          ((slot_at st.g_manager_table i).addr + SIZEOF_HEADER)
          ((header_at st (slot_at st.g_manager_table i).addr).struct_nums *
            (header_at st (slot_at st.g_manager_table i).addr).struct_size)).drop
          (q * (header_at st (slot_at st.g_manager_table i).addr).struct_size)).take
          (header_at st (slot_at st.g_manager_table i).addr).struct_size)).flatten := by
  have hU : U32 = 4294967296 := by decide!
  have hW : WIN_FLASH_TOTAL_SIZE = 65536 := by decide!
  have hH : SIZEOF_HEADER = 30 := by decide!
  have hM : SIZEOF_MANAGER = 692 := by decide!
  obtain ⟨i', hi', hi24, hval⟩ := find_table_index_nonneg st name (by rw [hi]; omega)
  have hii : i' = i := Int.ofNat.inj (hi'.symm.trans hi)
  subst hii
  obtain ⟨ht1, ht2, ht3⟩ := hc.tables_ok i' hi24 hval
  have hcl := hc.cursor_le
  obtain ⟨hl1, hl2, hl3, hl4, hl5, hl6, hl7⟩ := parse_header_lt
    (mem_read st.flash.flash_cache (slot_at st.g_manager_table i').addr SIZEOF_HEADER)
  unfold fast_flash_clear_table_data at hw ⊢
  rw [if_neg (by simp [hc.loaded]), if_neg (by rw [hi]; omega)] at hw ⊢
  rw [hi] at hw ⊢
  rw [Int.toNat_ofNat] at hw ⊢
  dsimp only at hw ⊢
  rw [win_flash_read_of_le _ _ _ (by omega)] at hw ⊢
  dsimp only at hw ⊢
  rw [if_neg (by decide)] at hw ⊢
  unfold header_at at ht1 ht2 ht3 ⊢
  generalize parse_header (mem_read st.flash.flash_cache (slot_at st.g_manager_table i').addr
    SIZEOF_HEADER) = h at *
  generalize hn : h.struct_nums = n at *
  generalize hs : h.struct_size = s at *
  by_cases hchk : mask &&& ((if n < 64 then (1 <<< n) - 1 else U64 - 1) ^^^ (U64 - 1)) ≠ 0
  · rw [if_pos hchk] at hw; simp at hw
  rw [if_neg hchk, if_neg hm0] at hw ⊢
  have hmod : ((slot_at st.g_manager_table i').addr + SIZEOF_HEADER) % U32 =
      (slot_at st.g_manager_table i').addr + SIZEOF_HEADER :=
    Nat.mod_eq_of_lt (by omega)
  rw [hmod, win_flash_read_of_le _ _ _ (by omega)] at hw ⊢
  dsimp only at hw ⊢
  rw [if_neg (by decide)] at hw ⊢
  rw [clear_loop_eq mask _ s _ _ _ _ (by omega) (by omega)] at hw ⊢
  dsimp only at hw ⊢
  rw [ht3] at hw ⊢
  generalize hD : mem_read st.flash.flash_cache
    ((slot_at st.g_manager_table i').addr + SIZEOF_HEADER) (n * s) = D at *
  have hDl : D.length = n * s := by rw [← hD]; exact mem_read_length _ _ _
  generalize hK : (List.range n).filter (fun q => decide (mask &&& bit64 q = 0)) = K at *
  have hKn : ∀ q ∈ K, q < n := by
    intro q hq
    rw [← hK] at hq
    exact List.mem_range.mp (List.mem_filter.mp hq).1
  have hKl : K.length ≤ n := by
    rw [← hK]
    exact (List.length_filter_le _ _).trans (by rw [List.length_range])
  have hKs : K.length * s ≤ n * s := Nat.mul_le_mul_right _ hKl
  have hrows : K.map (fun q => (D.drop ((q * s) % U32)).take s) =
      K.map (fun q => (D.drop (q * s)).take s) := by
    apply List.map_congr_left
    intro q hq
    have : (q + 1) * s ≤ n * s := Nat.mul_le_mul_right _ (hKn q hq)
    rw [Nat.add_mul, Nat.one_mul] at this
    rw [Nat.mod_eq_of_lt (by omega)]
  rw [hrows] at hw ⊢
  have hlen : ((K.map (fun q => (D.drop (q * s)).take s)).flatten).length = K.length * s := by
    rw [join_length_eq s, List.length_map]
    intro d hd
    obtain ⟨q, hq, rfl⟩ := List.mem_map.mp hd
    have : (q + 1) * s ≤ n * s := Nat.mul_le_mul_right _ (hKn q hq)
    rw [Nat.add_mul, Nat.one_mul] at this
    rw [List.length_take, List.length_drop, hDl]
    omega
  generalize hND : (K.map (fun q => (D.drop (q * s)).take s)).flatten = ND at *
  have e0 : (0 + K.length * s) % U32 = K.length * s := by
    rw [Nat.zero_add]; exact Nat.mod_eq_of_lt (by omega)
  have e1 : (0 + K.length) % U32 = K.length := by
    rw [Nat.zero_add]; exact Nat.mod_eq_of_lt (by omega)
  rw [e0, e1] at hw ⊢
  rcases hal : allocate_table_space st ((SIZEOF_HEADER + K.length * s) % U32) with
    ⟨result, a, st1⟩
  rw [hal] at hw
  dsimp only at hw ⊢
  by_cases hres : result = 0
  swap
  · rw [if_pos hres] at hw
    exact absurd hw hres
  subst hres
  rw [if_neg (by decide)] at hw ⊢
  have hndl : K.length * s < U32 := by omega
  have hcons := relocate_consistent st hc _ i' _ _ true _ a st1 hndl hal hw rfl rfl
    (by show K.length < U32; omega)
    (by show s < U32; exact hl3)
    rfl
  obtain ⟨e1, e2, e3⟩ := relocate_lookup st hc _ i' _ _ true _ a st1 hndl hal hw hi24 rfl rfl
  obtain ⟨_, _, _, r4, _, _, _, rfr, rhd, rdat, _⟩ :=
    relocate_ok st hc _ i' _ _ true _ a st1 hndl hal hw
  refine ⟨hcons, e3, e2, rfr, ?_, ?_, ?_⟩
  · rw [e1]
    dsimp only
    rw [rhd, parse_header_bytes]
    show s % U32 = s
    exact Nat.mod_eq_of_lt hl3
  · rw [e1]
    dsimp only
    rw [rhd, parse_header_bytes]
    show K.length % U32 = K.length
    exact Nat.mod_eq_of_lt (by omega)
  · rw [e1]
    show mem_read _ (a + SIZEOF_HEADER) _ = _
    rw [rdat, List.nil_append, List.take_of_length_le (Nat.le_of_eq hlen)]

theorem kept_length (mask n : Nat) (hn64 : n ≤ 64) (hm : mask < 2 ^ n) :
    ((List.range n).filter (fun i => !mask.testBit i)).length = n - popcount mask := by
  have hhi : ∀ i, n ≤ i → mask.testBit i = false := fun i hi =>
    Nat.testBit_lt_two_pow (Nat.lt_of_lt_of_le hm (Nat.pow_le_pow_right (by decide) hi))
  have h64 : List.range 64 = List.range n ++ (List.range (64 - n)).map (n + ·) := by
    rw [← List.range_add]; congr 1; omega
  have hp : popcount mask = ((List.range n).filter (fun i => mask.testBit i)).length := by
    unfold popcount
    rw [h64, List.filter_append, List.length_append]
    have : ((List.range (64 - n)).map (n + ·)).filter (fun i => mask.testBit i) = [] := by
      rw [List.filter_eq_nil_iff]
      intro a ha
      obtain ⟨b, _, rfl⟩ := List.mem_map.mp ha
      simp [hhi (n + b) (by omega)]
    rw [this, List.length_nil, Nat.add_zero]
  have hsum := List.length_eq_countP_add_countP (fun i => mask.testBit i) (List.range n)
  rw [List.length_range, List.countP_eq_length_filter, List.countP_eq_length_filter] at hsum
  have he : (List.range n).filter (fun i => !mask.testBit i) =
      (List.range n).filter (fun a => decide ¬ (mask.testBit a = true)) := by
    apply List.filter_congr
    intro i _
    cases mask.testBit i <;> rfl
  rw [hp, he]
  omega

/-- Clear of a table of at most 64 rows: in a consistent state, for a Valid table with `n ≤ 64`
rows and a nonzero mask
whose set bits all lie below `n`, a successful clear leaves exactly the rows whose mask bit is 0,
in their original order (new row `j` is the old row at the `j`-th kept index), the count becomes
`n - popcount mask`, and the count and every read of every other table are as before. -/
theorem clear_keeps_unmasked_rows (st : State) (name : List Byte) (mask n : Nat)
    (hc : Consistent st) (hv : 0 ≤ find_table_index st name)
    (hn : fast_flash_get_table_count st name = n) (hn64 : n ≤ 64)
    (hm0 : mask ≠ 0) (hm : mask < 2 ^ n)
    (hw : (fast_flash_clear_table_data st name mask).1 = 0) :
    fast_flash_get_table_count (fast_flash_clear_table_data st name mask).2 name =
      ((List.range n).filter (fun i => !mask.testBit i)).length ∧
    ((List.range n).filter (fun i => !mask.testBit i)).length = n - popcount mask ∧
    (∀ j, j < ((List.range n).filter (fun i => !mask.testBit i)).length → ∀ sz,
      fast_flash_read_table_data (fast_flash_clear_table_data st name mask).2 name j sz =
        fast_flash_read_table_data st name
          (((List.range n).filter (fun i => !mask.testBit i)).getD j 0) sz) ∧
    (∀ other, find_table_index st other ≠ find_table_index st name → ∀ i sz,
      fast_flash_read_table_data (fast_flash_clear_table_data st name mask).2 other i sz =
        fast_flash_read_table_data st other i sz ∧
      fast_flash_get_table_count (fast_flash_clear_table_data st name mask).2 other =
        fast_flash_get_table_count st other) := by
  obtain ⟨i, hi, hi24, hval⟩ := find_table_index_nonneg st name hv
  obtain ⟨hc', hfind, hslots, hfr, hss, hsn, hdat⟩ := clear_shape st name mask i hc hi hm0 hw
  have hv0 := fun k sz => consistent_view st hc name i hi k sz
  have hv1 := fun k sz => consistent_view _ hc' name i ((hfind name).trans hi) k sz
  have hn0 : (header_at st (slot_at st.g_manager_table i).addr).struct_nums = n := by
    rw [← (hv0 0 0).1]; exact hn
  generalize fast_flash_clear_table_data st name mask = r at *
  rw [hn0] at hsn hdat hv0
  rw [kept_filter_eq mask n hn64] at hsn hdat
  generalize hK : (List.range n).filter (fun i => !mask.testBit i) = K at *
  generalize hs : (header_at st (slot_at st.g_manager_table i).addr).struct_size = s at *
  rw [hsn, hss] at hv1
  have hKn : ∀ q ∈ K, q < n := by
    intro q hq
    rw [← hK] at hq
    exact List.mem_range.mp (List.mem_filter.mp hq).1
  refine ⟨(hv1 0 0).1, by rw [← hK]; exact kept_length mask n hn64 hm, ?_, ?_⟩
  · intro j hj sz
    have hq : K.getD j 0 < n := by
      rw [List.getD_eq_getElem?_getD, List.getElem?_eq_getElem hj]
      exact hKn _ (List.getElem_mem _)
    rw [(hv0 _ sz).2, (hv1 j sz).2]
    by_cases hsz : sz = s
    swap
    · rw [if_neg (fun h => hsz h.1), if_neg (fun h => hsz h.1)]
    subst hsz
    rw [if_pos ⟨rfl, hj⟩, if_pos ⟨rfl, hq⟩]
    congr 1
    have hle : j * sz + sz ≤ K.length * sz := by
      calc j * sz + sz = (j + 1) * sz := by rw [Nat.add_mul, Nat.one_mul]
        _ ≤ _ := Nat.mul_le_mul_right _ hj
    have hle2 : K.getD j 0 * sz + sz ≤ n * sz := by
      calc K.getD j 0 * sz + sz = (K.getD j 0 + 1) * sz := by rw [Nat.add_mul, Nat.one_mul]
        _ ≤ _ := Nat.mul_le_mul_right _ hq
    rw [← mem_read_take_drop _ _ _ _ _ hle, hdat, join_row sz _ j ?_ (by simpa using hj),
      ← mem_read_take_drop _ _ _ _ _ hle2]
    · rw [List.getD_eq_getElem?_getD, List.getElem?_map, List.getD_eq_getElem?_getD,
        List.getElem?_eq_getElem hj]
      rfl
    · intro d hd
      obtain ⟨q, hq', rfl⟩ := List.mem_map.mp hd
      have : (q + 1) * sz ≤ n * sz := Nat.mul_le_mul_right _ (hKn q hq')
      rw [Nat.add_mul, Nat.one_mul] at this
      rw [List.length_take, List.length_drop, mem_read_length]
      omega
  · intro other hne k sz
    by_cases hneg : find_table_index st other < 0
    · exact frame_reads_absent st r.2 other hneg (by rw [hfind]; exact hneg) k sz
    · obtain ⟨j, hj, _, _, _⟩ := find_table_index_spec st other hneg
      have hji : j ≠ i := by
        intro h; subst h; exact hne (hj.trans hi.symm)
      exact frame_reads st r.2 hc hc'.loaded other j hj ((hfind other).trans hj)
        (hslots j hji) hfr k sz

/-! ## Commit of a manager version -/

theorem save_consistent (st : State) (hc : Consistent st)
    (h : (save_manager_table st).1 = 0) :
    Consistent (save_manager_table st).2 ∧
    (save_manager_table st).2.g_manager_table =
      committed_manager st.g_manager_table (next_reservation (cursor_pos st)) ∧
    (∀ x, (x < st.g_manager_table.next_manager_addr ∨
        st.g_manager_table.next_manager_addr + SIZEOF_MANAGER ≤ x) →
      (save_manager_table st).2.flash.flash_cache x = st.flash.flash_cache x) ∧
    mem_read (save_manager_table st).2.flash.flash_cache st.g_manager_table.next_manager_addr
      SIZEOF_MANAGER =
      manager_bytes (committed_manager st.g_manager_table (next_reservation (cursor_pos st))) ∧
    (save_manager_table st).2.g_total_size = st.g_total_size ∧
    (save_manager_table st).2.g_allow_erase = st.g_allow_erase := by
  have hS : FLASH_SECTOR_SIZE = 4096 := by decide!
  have hW : WIN_FLASH_TOTAL_SIZE = 65536 := by decide!
  have hM : SIZEOF_MANAGER = 692 := by decide!
  have hH : SIZEOF_HEADER = 30 := by decide!
  have hres := hc.reserve_le
  have hcl := hc.cursor_le
  have htl := hc.total_le
  obtain ⟨h1, h2, hfit, hmgr, hcur, hfl, htot, her, hld⟩ :=
    save_ok st hc.cursor_le hc.reserve_le
      (fun _ => hc.reserve_blank _ (Nat.le_refl _) (by omega)) h
  obtain ⟨hn1, hn2, hn3⟩ := next_reservation_spec (cursor_pos st)
  generalize save_manager_table st = r at *
  generalize next_reservation (cursor_pos st) = nr at *
  have hnext : r.2.g_manager_table.next_manager_addr = nr := by rw [hmgr]; rfl
  have hlen := manager_bytes_length (committed_manager st.g_manager_table nr)
  have hout : ∀ x, (x < st.g_manager_table.next_manager_addr ∨
      st.g_manager_table.next_manager_addr + SIZEOF_MANAGER ≤ x) →
      r.2.flash.flash_cache x = st.flash.flash_cache x := by
    intro x hx
    rw [hfl]
    exact mem_write_out _ _ _ _ (by rw [hlen]; omega)
  refine ⟨⟨hld, ?_, by rw [htot]; exact htl, by rw [hcur]; omega, by
    rw [hnext, hcur], ?_, ?_, ?_⟩, hmgr, hout, ?_, htot, her⟩
  · rw [hmgr]; exact hc.slots
  · intro x hx1 hx2
    rw [hnext] at hx1 hx2
    rw [hout x (by omega)]
    exact hc.free_blank x (by omega) (by omega)
  · intro x hx1 hx2
    rw [hcur] at hx1
    rw [hout x (by omega)]
    exact hc.free_blank x (by omega) hx2
  · intro j hj hval
    rw [hnext, hcur]
    rw [hmgr, slot_at_committed] at hval ⊢
    obtain ⟨t1, t2, t3⟩ := hc.tables_ok j hj hval
    have hp : header_at r.2 (slot_at st.g_manager_table j).addr =
        header_at st (slot_at st.g_manager_table j).addr := by
      apply header_at_congr
      intro x hx1 hx2
      exact hout x (by omega)
    rw [hp]
    exact ⟨by omega, Or.inl (by omega), t3⟩
  · rw [hfl]
    have := mem_read_write_same st.flash.flash_cache st.g_manager_table.next_manager_addr
      (manager_bytes (committed_manager st.g_manager_table nr))
    rw [hlen] at this
    exact this

/-! ## Delete -/

theorem find?_drop_index (p q : Nat → Bool) (i : Nat) (hq : q i = false)
    (hoth : ∀ j, j ≠ i → q j = p j) :
    ∀ l : List Nat, l.find? p ≠ some i → l.find? q = l.find? p
  | [], _ => rfl
  | a :: t, h => by
    rw [List.find?_cons] at h ⊢
    rw [List.find?_cons]
    by_cases hai : a = i
    · subst hai
      cases hp : p a
      · rw [hp] at h
        rw [hq]
        exact find?_drop_index p q a hq hoth t h
      · rw [hp] at h
        exact absurd rfl h
    · rw [hoth a hai]
      cases hp : p a
      · rw [hp] at h
        exact find?_drop_index p q i hq hoth t h
      · rfl

theorem find_table_index_drop (st st' : State) (i : Nat)
    (hs : (slot_at st'.g_manager_table i).status ≠ TABLE_STATUS_VALID)
    (hoth : ∀ j, j ≠ i → slot_at st'.g_manager_table j = slot_at st.g_manager_table j)
    (nm : List Byte) :
    (find_table_index st nm ≠ (i : Int) → find_table_index st' nm = find_table_index st nm) ∧
    ((∀ j, j ≠ i → (slot_at st.g_manager_table j).status = TABLE_STATUS_VALID →
        strncmp_eq TABLE_NAME_MAX_LEN (slot_at st.g_manager_table j).name nm = false) →
      find_table_index st' nm = -1) := by
  constructor
  · intro hne
    unfold find_table_index at hne ⊢
    rw [find?_drop_index
      (fun j => decide ((slot_at st.g_manager_table j).status = TABLE_STATUS_VALID ∧
        strncmp_eq TABLE_NAME_MAX_LEN (slot_at st.g_manager_table j).name nm = true))
      (fun j => decide ((slot_at st'.g_manager_table j).status = TABLE_STATUS_VALID ∧
        strncmp_eq TABLE_NAME_MAX_LEN (slot_at st'.g_manager_table j).name nm = true)) i
      (by simp [hs]) (fun j hj => by dsimp only; rw [hoth j hj])]
    intro hcon
    rw [hcon] at hne
    exact hne rfl
  · intro hu
    unfold find_table_index
    rw [List.find?_eq_none.mpr]
    intro j _
    by_cases hji : j = i
    · subst hji; simp [hs]
    · rw [hoth j hji]
      by_cases hv : (slot_at st.g_manager_table j).status = TABLE_STATUS_VALID
      · simp [hu j hji hv]
      · simp [hv]

theorem delete_shape (st : State) (name : List Byte) (i : Nat)
    (hc : Consistent st) (hi : find_table_index st name = (i : Int))
    (hw : (fast_flash_delete_table st name).1 = 0) :
    Consistent (fast_flash_delete_table st name).2 ∧
    slot_at (fast_flash_delete_table st name).2.g_manager_table i =
      { slot_at st.g_manager_table i with status := TABLE_STATUS_DELETED } ∧
    (∀ j, j ≠ i →
      slot_at (fast_flash_delete_table st name).2.g_manager_table j =
        slot_at st.g_manager_table j) ∧
    (∀ x, (x < st.g_manager_table.next_manager_addr ∨
        st.g_manager_table.next_manager_addr + SIZEOF_MANAGER ≤ x) →
      (fast_flash_delete_table st name).2.flash.flash_cache x = st.flash.flash_cache x) ∧
    (fast_flash_delete_table st name).2.g_manager_table.table_count =
      (st.g_manager_table.table_count + 256 - 1) % 256 ∧
    (fast_flash_delete_table st name).2.g_manager_table.used_size =
      st.g_manager_table.used_size := by
  obtain ⟨i', hi', hi24, hval⟩ := find_table_index_nonneg st name (by rw [hi]; omega)
  have hii : i' = i := Int.ofNat.inj (hi'.symm.trans hi)
  subst hii
  have hlt : i' < st.g_manager_table.tables.length := by rw [hc.slots]; exact hi24
  unfold fast_flash_delete_table at hw ⊢
  rw [if_neg (by simp [hc.loaded]), if_neg (by rw [hi]; omega)] at hw ⊢
  rw [hi] at hw ⊢
  rw [Int.toNat_ofNat] at hw ⊢
  dsimp only at hw ⊢
  generalize hst2 : ({ set_slot st i'
      { slot_at st.g_manager_table i' with status := TABLE_STATUS_DELETED } with
      g_manager_table :=
        { (set_slot st i'
            { slot_at st.g_manager_table i' with status := TABLE_STATUS_DELETED }).g_manager_table
          with table_count := ((set_slot st i'
            { slot_at st.g_manager_table i' with
              status := TABLE_STATUS_DELETED }).g_manager_table.table_count + 256 - 1) % 256 } }
      : State) = st2 at hw ⊢
  have e_i : slot_at st2.g_manager_table i' =
      { slot_at st.g_manager_table i' with status := TABLE_STATUS_DELETED } := by
    rw [← hst2]
    exact slot_at_set_same _ _ _ hlt
  have e_o : ∀ j, j ≠ i' → slot_at st2.g_manager_table j = slot_at st.g_manager_table j := by
    intro j hj
    rw [← hst2]
    exact slot_at_set_ne _ _ _ _ (Ne.symm hj)
  have e_fl : st2.flash = st.flash := by rw [← hst2]; rfl
  have e_cur : cursor_pos st2 = cursor_pos st := by rw [← hst2]; rfl
  have e_nx : st2.g_manager_table.next_manager_addr = st.g_manager_table.next_manager_addr := by
    rw [← hst2]; rfl
  have e_cnt : st2.g_manager_table.table_count =
      (st.g_manager_table.table_count + 256 - 1) % 256 := by rw [← hst2]; rfl
  have e_us : st2.g_manager_table.used_size = st.g_manager_table.used_size := by
    rw [← hst2]; rfl
  have hc2 : Consistent st2 := by
    refine ⟨by rw [← hst2]; exact hc.loaded, ?_, by rw [← hst2]; exact hc.total_le,
      by rw [e_cur]; exact hc.cursor_le, by rw [e_cur, e_nx]; exact hc.reserve_le, ?_, ?_, ?_⟩
    · rw [← hst2]
      show (st.g_manager_table.tables.set i' _).length = _
      rw [List.length_set]; exact hc.slots
    · intro x hx1 hx2
      rw [e_nx] at hx1 hx2
      rw [e_fl]
      exact hc.reserve_blank x hx1 hx2
    · intro x hx1 hx2
      rw [e_cur] at hx1
      rw [e_fl]
      exact hc.free_blank x hx1 hx2
    · intro j hj hvj
      by_cases hji : j = i'
      · subst hji
        rw [e_i] at hvj
        have hd : TABLE_STATUS_DELETED ≠ TABLE_STATUS_VALID := by decide
        exact absurd hvj hd
      · rw [e_o j hji] at hvj ⊢
        rw [e_cur, e_nx]
        have : header_at st2 (slot_at st.g_manager_table j).addr =
            header_at st (slot_at st.g_manager_table j).addr := by
          unfold header_at; rw [e_fl]
        rw [this]
        exact hc.tables_ok j hj hvj
  obtain ⟨hc', hmgr, hout, _, _, _⟩ := save_consistent st2 hc2 hw
  refine ⟨hc', ?_, ?_, ?_, ?_, ?_⟩
  · rw [hmgr, slot_at_committed]; exact e_i
  · intro j hj
    rw [hmgr, slot_at_committed]; exact e_o j hj
  · intro x hx
    rw [hout x (by rw [e_nx]; exact hx), e_fl]
  · rw [hmgr]; exact e_cnt
  · rw [hmgr]; exact e_us

/-- C7 (amended): in a consistent state whose `table_count` is between 1 and 255, if `name`
resolves to slot `i` and no other Valid slot carries a stored name matching `name`, a successful
delete makes `name` non-existent and unreadable, marks slot `i` Deleted, lowers `table_count` by
exactly 1, and leaves existence and every read of every name resolving elsewhere unchanged. -/
theorem delete_removes_only_named (st : State) (name : List Byte) (i : Nat)
    (hc : Consistent st) (hi : find_table_index st name = (i : Int))
    (huniq : ∀ j, j ≠ i → (slot_at st.g_manager_table j).status = TABLE_STATUS_VALID →
      strncmp_eq TABLE_NAME_MAX_LEN (slot_at st.g_manager_table j).name name = false)
    (hcnt : 1 ≤ st.g_manager_table.table_count) (hu8 : st.g_manager_table.table_count < 256)
    (hw : (fast_flash_delete_table st name).1 = 0) :
    fast_flash_table_exists (fast_flash_delete_table st name).2 name = false ∧
    (∀ k sz, (fast_flash_read_table_data (fast_flash_delete_table st name).2 name k sz).1 ≠ 0) ∧
    (slot_at (fast_flash_delete_table st name).2.g_manager_table i).status =
      TABLE_STATUS_DELETED ∧
    (fast_flash_delete_table st name).2.g_manager_table.table_count + 1 =
      st.g_manager_table.table_count ∧
    (∀ other, find_table_index st other ≠ (i : Int) →
      fast_flash_table_exists (fast_flash_delete_table st name).2 other =
        fast_flash_table_exists st other ∧
      ∀ k sz, fast_flash_read_table_data (fast_flash_delete_table st name).2 other k sz =
        fast_flash_read_table_data st other k sz) := by
  obtain ⟨hc', hsi, hso, hfr, hcount, _⟩ := delete_shape st name i hc hi hw
  have hdel : (slot_at (fast_flash_delete_table st name).2.g_manager_table i).status ≠
      TABLE_STATUS_VALID := by
    rw [hsi]
    show TABLE_STATUS_DELETED ≠ TABLE_STATUS_VALID
    decide
  have hfind := find_table_index_drop st (fast_flash_delete_table st name).2 i hdel hso
  generalize fast_flash_delete_table st name = r at *
  have hgone : find_table_index r.2 name = -1 := (hfind name).2 huniq
  refine ⟨?_, ?_, by rw [hsi], by rw [hcount]; omega, ?_⟩
  · unfold fast_flash_table_exists
    rw [hgone]
    simp
  · intro k sz
    unfold fast_flash_read_table_data
    rw [hgone]
    simp
  · intro other hne
    have hsame := (hfind other).1 hne
    refine ⟨?_, ?_⟩
    · unfold fast_flash_table_exists
      rw [hsame, hc.loaded, hc'.loaded]
    · intro k sz
      by_cases hneg : find_table_index st other < 0
      · exact (frame_reads_absent st r.2 other hneg (by rw [hsame]; exact hneg) k sz).1
      · obtain ⟨j, hj, _, _, _⟩ := find_table_index_spec st other hneg
        have hji : j ≠ i := by
          intro h; subst h; exact hne hj
        exact (frame_reads st r.2 hc hc'.loaded other j hj (hsame.trans hj)
          (hso j hji) (fun x _ hx => hfr x hx) k sz).1

/-! ## Create -/

theorem find_free_table_slot_spec (st : State) (h : ¬ find_free_table_slot st < 0) :
    ∃ i : Nat, find_free_table_slot st = (i : Int) ∧ i < MAX_TABLES_ALL_SECTOR ∧
      (slot_at st.g_manager_table i).status = TABLE_STATUS_INVALID := by
  unfold find_free_table_slot at h ⊢
  split at h
  · rename_i i hi
    have h1 := List.find?_some hi
    have h2 := List.mem_range.mp (List.mem_of_find?_eq_some hi)
    simp only [decide_eq_true_eq] at h1
    exact ⟨i, rfl, h2, h1⟩
  · simp at h

theorem create_shape (st : State) (name : List Byte) (s m : Nat)
    (hc : Consistent st) (hw : (fast_flash_create_table st name s m).1 = 0) :
    find_table_index st name < 0 ∧
    ∃ slot a : Nat, find_free_table_slot st = (slot : Int) ∧ slot < MAX_TABLES_ALL_SECTOR ∧
      (slot_at st.g_manager_table slot).status = TABLE_STATUS_INVALID ∧
      cursor_pos st ≤ a ∧
      Consistent (fast_flash_create_table st name s m).2 ∧
      (fast_flash_create_table st name s m).2.g_manager_table =
        committed_manager
          { st.g_manager_table with
            tables := st.g_manager_table.tables.set slot (new_info name a)
            table_count := (st.g_manager_table.table_count + 1) % 256
            used_size := (st.g_manager_table.used_size + SIZEOF_HEADER) % U32 }
          (next_reservation (a + SIZEOF_HEADER)) ∧
      (∀ x, x < cursor_pos st →
        (x < st.g_manager_table.next_manager_addr ∨
          st.g_manager_table.next_manager_addr + SIZEOF_MANAGER ≤ x) →
        (fast_flash_create_table st name s m).2.flash.flash_cache x =
          st.flash.flash_cache x) ∧
      mem_read (fast_flash_create_table st name s m).2.flash.flash_cache a SIZEOF_HEADER =
        header_bytes (new_header name s m) ∧
      mem_read (fast_flash_create_table st name s m).2.flash.flash_cache
        st.g_manager_table.next_manager_addr SIZEOF_MANAGER =
        manager_bytes (fast_flash_create_table st name s m).2.g_manager_table ∧
      (fast_flash_create_table st name s m).2.g_total_size = st.g_total_size ∧
      (fast_flash_create_table st name s m).2.g_allow_erase = st.g_allow_erase := by
  have hS : FLASH_SECTOR_SIZE = 4096 := by decide!
  have hU : U32 = 4294967296 := by decide!
  have hW : WIN_FLASH_TOTAL_SIZE = 65536 := by decide!
  have hM : SIZEOF_MANAGER = 692 := by decide!
  have hH : SIZEOF_HEADER = 30 := by decide!
  have hC : FLASH_WRITE_CHUNK_SIZE = 1024 := by decide!
  have hres := hc.reserve_le
  have hcl := hc.cursor_le
  unfold fast_flash_create_table at hw ⊢
  rw [if_neg (by simp [hc.loaded])] at hw ⊢
  by_cases hdup : find_table_index st name ≥ 0
  · rw [if_pos hdup] at hw; simp at hw
  rw [if_neg hdup] at hw ⊢
  by_cases hfree : find_free_table_slot st < 0
  · rw [if_pos hfree] at hw; simp at hw
  rw [if_neg hfree] at hw ⊢
  obtain ⟨slot, hslot, hs24, hinv⟩ := find_free_table_slot_spec st hfree
  rw [hslot] at hw ⊢
  rw [Int.toNat_ofNat] at hw ⊢
  rcases hal : allocate_table_space st SIZEOF_HEADER with ⟨result, a, st1⟩
  rw [hal] at hw
  dsimp only at hw ⊢
  by_cases hres0 : result = 0
  swap
  · rw [if_pos hres0] at hw
    exact absurd hw hres0
  subst hres0
  rw [if_neg (by decide)] at hw ⊢
  have hA := allocate_ok st SIZEOF_HEADER hc.cursor_le (by rw [hal])
  rw [hal] at hA
  dsimp only at hA
  obtain ⟨hs1, hs2, hPa, haP, hsec, hcur1, hm1, ht1, he1, hl1, hfr1, hbl1⟩ := hA
  by_cases hw1 : (write_with_chunks st1.flash a (header_bytes (new_header name s m))
      SIZEOF_HEADER).1 = 0
  swap
  · generalize write_with_chunks st1.flash a (header_bytes (new_header name s m))
      SIZEOF_HEADER = wr at hw hw1
    obtain ⟨w, fl⟩ := wr
    dsimp only at hw hw1
    rw [if_pos hw1] at hw
    simp at hw
  obtain ⟨_, hc1, hb1⟩ := write_with_chunks_ok st1.flash a (header_bytes (new_header name s m))
    SIZEOF_HEADER (by omega) hw1
  have hb1' := hb1 (by omega)
  have hH30 : (header_bytes (new_header name s m)).length = 30 := header_bytes_length _
  have htk : (header_bytes (new_header name s m)).take SIZEOF_HEADER =
      header_bytes (new_header name s m) := by
    rw [hH, ← hH30, List.take_length]
  rw [htk] at hc1
  generalize write_with_chunks st1.flash a (header_bytes (new_header name s m))
    SIZEOF_HEADER = wr at hw hw1 hc1 ⊢
  obtain ⟨w, fl⟩ := wr
  dsimp only at hw hw1 hc1 ⊢
  subst hw1
  rw [if_neg (by decide)] at hw ⊢
  generalize hst3 : ({ set_slot { st1 with flash := fl } slot (new_info name a) with
      g_manager_table :=
        { (set_slot { st1 with flash := fl } slot (new_info name a)).g_manager_table with
          table_count := ((set_slot { st1 with flash := fl } slot
            (new_info name a)).g_manager_table.table_count + 1) % 256
          used_size := ((set_slot { st1 with flash := fl } slot
            (new_info name a)).g_manager_table.used_size + SIZEOF_HEADER) % U32 } } : State)
    = st3 at hw ⊢
  have hlt : slot < st.g_manager_table.tables.length := by rw [hc.slots]; exact hs24
  have e_mgr : st3.g_manager_table =
      { st.g_manager_table with
        tables := st.g_manager_table.tables.set slot (new_info name a)
        table_count := (st.g_manager_table.table_count + 1) % 256
        used_size := (st.g_manager_table.used_size + SIZEOF_HEADER) % U32 } := by
    rw [← hst3]
    show ({ { st1.g_manager_table with
      tables := st1.g_manager_table.tables.set slot (new_info name a) } with
      table_count := (st1.g_manager_table.table_count + 1) % 256
      used_size := (st1.g_manager_table.used_size + SIZEOF_HEADER) % U32 } :
        flash_manager_table_t) = _
    rw [hm1]
  have e_i : slot_at st3.g_manager_table slot = new_info name a := by
    rw [e_mgr]
    exact slot_at_set_same _ _ _ hlt
  have e_o : ∀ j, j ≠ slot → slot_at st3.g_manager_table j = slot_at st.g_manager_table j := by
    intro j hj
    rw [e_mgr]
    exact slot_at_set_ne _ _ _ _ (Ne.symm hj)
  have e_fl : st3.flash.flash_cache =
      mem_write st1.flash.flash_cache a (header_bytes (new_header name s m)) := by
    rw [← hst3]; exact hc1
  have e_cur : cursor_pos st3 = a + SIZEOF_HEADER := by rw [← hst3]; exact hcur1
  have e_nx : st3.g_manager_table.next_manager_addr = st.g_manager_table.next_manager_addr := by
    rw [e_mgr]
  have e_low : ∀ x, x < cursor_pos st → st3.flash.flash_cache x = st.flash.flash_cache x := by
    intro x hx
    rw [e_fl, mem_write_out _ _ _ _ (by omega)]
    exact hfr1 x hx
  have e_hdr : mem_read st3.flash.flash_cache a SIZEOF_HEADER =
      header_bytes (new_header name s m) := by
    rw [e_fl]
    have := mem_read_write_same st1.flash.flash_cache a (header_bytes (new_header name s m))
    rw [hH30] at this
    rw [hH]
    exact this
  have hc3 : Consistent st3 := by
    refine ⟨by rw [← hst3]; show st1.g_manager_loaded = true; rw [hl1]; exact hc.loaded, ?_,
      by rw [← hst3]; show st1.g_total_size ≤ _; rw [ht1]; exact hc.total_le,
      by rw [e_cur]; omega, by rw [e_cur, e_nx]; omega, ?_, ?_, ?_⟩
    · rw [e_mgr]
      show (st.g_manager_table.tables.set slot _).length = _
      rw [List.length_set]; exact hc.slots
    · intro x hx1 hx2
      rw [e_nx] at hx1 hx2
      rw [e_low x (by omega)]
      exact hc.reserve_blank x hx1 hx2
    · intro x hx1 hx2
      rw [e_cur] at hx1
      rw [e_fl, mem_write_out _ _ _ _ (by omega)]
      exact hbl1 x (by omega) (hc.free_blank x (by omega) hx2)
    · intro j hj hvj
      rw [e_cur, e_nx]
      by_cases hji : j = slot
      · subst hji
        rw [e_i]
        have hp : header_at st3 (new_info name a).addr =
            parse_header (header_bytes (new_header name s m)) := by
          unfold header_at; exact congrArg parse_header e_hdr
        rw [hp, parse_header_bytes]
        show a + SIZEOF_HEADER + 0 % U32 ≤ _ ∧ (_ ∨ _ ≤ a) ∧ 0 % U32 = 0 % U32 * (s % U32)
        rw [Nat.zero_mod, Nat.zero_mul]
        exact ⟨by omega, Or.inr (by omega), rfl⟩
      · rw [e_o j hji] at hvj ⊢
        obtain ⟨t1, t2, t3⟩ := hc.tables_ok j hj hvj
        have hp : header_at st3 (slot_at st.g_manager_table j).addr =
            header_at st (slot_at st.g_manager_table j).addr := by
          apply header_at_congr
          intro x hx1 hx2
          exact e_low x (by omega)
        rw [hp]
        exact ⟨by omega, t2, t3⟩
  obtain ⟨hc', hmgr, hout, hrd, htot, hera⟩ := save_consistent st3 hc3 hw
  have hhdr : mem_read (save_manager_table st3).2.flash.flash_cache a SIZEOF_HEADER =
      header_bytes (new_header name s m) := by
    rw [← e_hdr]
    apply mem_read_congr
    intro x hx1 hx2
    exact hout x (by rw [e_nx]; omega)
  refine ⟨by omega, slot, a, rfl, hs24, hinv, hPa, hc', ?_, ?_, hhdr, ?_, ?_, ?_⟩
  · rw [hmgr, e_mgr, e_cur]
  · intro x hx hxR
    rw [hout x (by rw [e_nx]; exact hxR)]
    exact e_low x hx
  · rw [hmgr, ← e_nx]; exact hrd
  · rw [htot, ← hst3]; exact ht1
  · rw [hera, ← hst3]; exact he1

theorem c_strlen_zero (name : List Byte) (h : c_strlen name = 0) : name.headD 0 = 0 := by
  cases name with
  | nil => rfl
  | cons b t =>
    unfold c_strlen at h
    rw [List.takeWhile_cons] at h
    by_cases hb : b = 0
    · subst hb; rfl
    · rw [if_pos (by simpa using hb)] at h
      simp at h

theorem strncmp_stored : ∀ (n : Nat) (name : List Byte), c_strlen name ≤ n →
    strncmp_eq (n + 1) (strncpy n name ++ [0]) name = true
  | 0, name, h => by
    have h0 := c_strlen_zero name (by omega)
    unfold strncmp_eq
    show (if (0 : Byte) ≠ name.headD 0 then false else _) = true
    rw [h0]
    rfl
  | n + 1, name, h => by
    unfold strncpy
    by_cases h0 : name.headD 0 = 0
    · rw [if_pos h0]
      unfold strncmp_eq
      show (if (0 : Byte) ≠ name.headD 0 then false else _) = true
      rw [h0]
      rfl
    · rw [if_neg h0]
      cases name with
      | nil => exact absurd rfl h0
      | cons b t =>
        have hb : b ≠ 0 := h0
        have ht : c_strlen t ≤ n := by
          unfold c_strlen at h ⊢
          rw [List.takeWhile_cons, if_pos (by simpa using hb)] at h
          simp only [List.length_cons] at h
          omega
        unfold strncmp_eq
        simp only [List.headD_cons, List.cons_append, List.tail_cons, ne_eq, not_true_eq_false,
          if_false]
        rw [if_neg hb]
        exact strncmp_stored n t ht

theorem find?_new_index (q : Nat → Bool) (slot : Nat) (hq : q slot = true) :
    ∀ l : List Nat, (∀ j ∈ l, j ≠ slot → q j = false) → slot ∈ l → l.find? q = some slot
  | [], _, hm => by simp at hm
  | a :: t, h, hm => by
    rw [List.find?_cons]
    by_cases ha : a = slot
    · subst ha; rw [hq]
    · rw [h a (List.mem_cons_self a t) ha]
      rcases List.mem_cons.mp hm with h1 | h1
      · exact absurd h1.symm ha
      · exact find?_new_index q slot hq t (fun j hj => h j (List.mem_cons_of_mem a hj)) h1

theorem find_table_index_new (st st' : State) (name : List Byte) (slot : Nat)
    (hs24 : slot < MAX_TABLES_ALL_SECTOR)
    (hneg : find_table_index st name < 0)
    (hst : (slot_at st'.g_manager_table slot).status = TABLE_STATUS_VALID)
    (hnm : strncmp_eq TABLE_NAME_MAX_LEN (slot_at st'.g_manager_table slot).name name = true)
    (hoth : ∀ j, j ≠ slot → slot_at st'.g_manager_table j = slot_at st.g_manager_table j) :
    find_table_index st' name = (slot : Int) := by
  have hnone : ∀ j ∈ List.range MAX_TABLES_ALL_SECTOR,
      ¬ ((slot_at st.g_manager_table j).status = TABLE_STATUS_VALID ∧
        strncmp_eq TABLE_NAME_MAX_LEN (slot_at st.g_manager_table j).name name = true) := by
    unfold find_table_index at hneg
    split at hneg
    · exact absurd hneg (by omega)
    · rename_i hn
      intro j hj
      have := List.find?_eq_none.mp hn j hj
      simpa using this
  unfold find_table_index
  rw [find?_new_index _ slot (by simp [hst, hnm]) _ _ (List.mem_range.mpr hs24)]
  intro j hj hjs
  rw [hoth j hjs]
  have := hnone j hj
  simpa using this

/-- C8 (amended): in a consistent state, for a name of at most 7 characters, a successful create
makes the table exist with a row count of 0. -/
theorem created_table_visible_and_empty (st : State) (name : List Byte) (s m : Nat)
    (hc : Consistent st) (hlen : c_strlen name ≤ 7)
    (hw : (fast_flash_create_table st name s m).1 = 0) :
    fast_flash_table_exists (fast_flash_create_table st name s m).2 name = true ∧
    fast_flash_get_table_count (fast_flash_create_table st name s m).2 name = 0 := by
  obtain ⟨hneg, slot, a, _, hs24, _, _, hc', hmgr, _, hhdr, _⟩ := create_shape st name s m hc hw
  have hlt : slot < st.g_manager_table.tables.length := by rw [hc.slots]; exact hs24
  generalize fast_flash_create_table st name s m = r at *
  have e_i : slot_at r.2.g_manager_table slot = new_info name a := by
    rw [hmgr, slot_at_committed]
    exact slot_at_set_same _ _ _ hlt
  have e_o : ∀ j, j ≠ slot → slot_at r.2.g_manager_table j = slot_at st.g_manager_table j := by
    intro j hj
    rw [hmgr, slot_at_committed]
    exact slot_at_set_ne _ _ _ _ (Ne.symm hj)
  have hfind : find_table_index r.2 name = (slot : Int) :=
    find_table_index_new st r.2 name slot hs24 hneg (by rw [e_i]; rfl)
      (by rw [e_i]; exact strncmp_stored 7 name hlen) e_o
  refine ⟨?_, ?_⟩
  · unfold fast_flash_table_exists
    rw [hfind, hc'.loaded]
    simp
  · rw [(consistent_view r.2 hc' name slot hfind 0 0).1, e_i]
    have hp : header_at r.2 (new_info name a).addr =
        parse_header (header_bytes (new_header name s m)) := by
      unfold header_at; exact congrArg parse_header hhdr
    rw [hp, parse_header_bytes]
    rfl

/-! ## Sequences of calls -/

theorem append_found (st : State) (name d : List Byte) (s : Nat)
    (hw : (fast_flash_write_table_data st name d s).1 = 0) : 0 ≤ find_table_index st name := by
  by_contra hcon
  unfold fast_flash_write_table_data at hw
  by_cases hl : st.g_manager_loaded = false
  · rw [if_pos hl] at hw; simp at hw
  · rw [if_neg hl, if_pos (by omega)] at hw; simp at hw

theorem overwrite_found (st : State) (name d : List Byte) (k s : Nat)
    (hw : (fast_flash_write_table_data_by_index st name k d s).1 = 0) :
    0 ≤ find_table_index st name := by
  by_contra hcon
  unfold fast_flash_write_table_data_by_index at hw
  by_cases hl : st.g_manager_loaded = false
  · rw [if_pos hl] at hw; simp at hw
  · rw [if_neg hl, if_pos (by omega)] at hw; simp at hw

theorem batch_found (st : State) (name data : List Byte) (s k : Nat)
    (hw : (fast_flash_write_table_data_batch st name data s k).1 = 0) :
    0 ≤ find_table_index st name := by
  by_contra hcon
  unfold fast_flash_write_table_data_batch at hw
  by_cases hl : k = 0 ∨ st.g_manager_loaded = false
  · rw [if_pos hl] at hw; simp at hw
  · rw [if_neg hl, if_pos (by omega)] at hw; simp at hw

theorem clear_found (st : State) (name : List Byte) (mask : Nat)
    (hw : (fast_flash_clear_table_data st name mask).1 = 0) :
    0 ≤ find_table_index st name := by
  by_contra hcon
  unfold fast_flash_clear_table_data at hw
  by_cases hl : st.g_manager_loaded = false
  · rw [if_pos hl] at hw; simp at hw
  · rw [if_neg hl, if_pos (by omega)] at hw; simp at hw

theorem delete_found (st : State) (name : List Byte)
    (hw : (fast_flash_delete_table st name).1 = 0) : 0 ≤ find_table_index st name := by
  by_contra hcon
  unfold fast_flash_delete_table at hw
  by_cases hl : st.g_manager_loaded = false
  · rw [if_pos hl] at hw; simp at hw
  · rw [if_neg hl, if_pos (by omega)] at hw; simp at hw

theorem clear_zero (st : State) (name : List Byte) :
    (fast_flash_clear_table_data st name 0).2 = st := by
  unfold fast_flash_clear_table_data
  split
  · rfl
  · split
    · rfl
    · dsimp only
      rw [if_pos (rfl : (0 : Nat) = 0), apply_ite Prod.snd, apply_ite Prod.snd]
      dsimp only
      rw [ite_self, ite_self]

theorem find_table_index_nonneg_iff (st : State) (name : List Byte) :
    0 ≤ find_table_index st name ↔
      ∃ j, j < MAX_TABLES_ALL_SECTOR ∧
        (slot_at st.g_manager_table j).status = TABLE_STATUS_VALID ∧
        strncmp_eq TABLE_NAME_MAX_LEN (slot_at st.g_manager_table j).name name = true := by
  constructor
  · intro h
    obtain ⟨i, _, h2, h3, h4⟩ := find_table_index_spec st name (by omega)
    exact ⟨i, h2, h3, h4⟩
  · rintro ⟨j, hj, hv, hn⟩
    unfold find_table_index
    split
    · omega
    · rename_i hnone
      have := List.find?_eq_none.mp hnone j (List.mem_range.mpr hj)
      simp [hv, hn] at this

theorem step_consistent (st : State) (c : api_call) (hc : Consistent st)
    (hd : call_defined st c = true) (h0 : (api_step st c).1 = 0) :
    Consistent (api_step st c).2 ∧
    ∀ nm, 0 ≤ find_table_index st nm → deletes_table st nm c = false →
      0 ≤ find_table_index (api_step st c).2 nm := by
  cases c with
  | create name s m =>
    obtain ⟨_, slot, a, _, hs24, hinv, _, hc', hmgr, _⟩ := create_shape st name s m hc h0
    refine ⟨hc', ?_⟩
    intro nm hnm _
    rw [find_table_index_nonneg_iff] at hnm ⊢
    obtain ⟨j, hj, hv, hn⟩ := hnm
    have hjs : j ≠ slot := by
      intro h; subst h; rw [hinv] at hv; exact absurd hv (by decide)
    have e : slot_at (api_step st (.create name s m)).2.g_manager_table j =
        slot_at st.g_manager_table j := by
      show slot_at (fast_flash_create_table st name s m).2.g_manager_table j = _
      rw [hmgr, slot_at_committed]
      exact slot_at_set_ne _ _ _ _ (Ne.symm hjs)
    exact ⟨j, hj, by rw [e]; exact hv, by rw [e]; exact hn⟩
  | append name d s =>
    have hd' : 1 ≤ s ∧ d.length = s := by simpa [call_defined] using hd
    obtain ⟨i, hi, _, _⟩ := find_table_index_nonneg st name (append_found st name d s h0)
    obtain ⟨hc', hfind, _⟩ := write_table_data_shape st name d s i hc hi hd'.1 hd'.2 h0
    exact ⟨hc', fun nm hnm _ => by
      show 0 ≤ find_table_index (fast_flash_write_table_data st name d s).2 nm
      rw [hfind]; exact hnm⟩
  | overwrite name k d s =>
    have hd' : d.length = s := by simpa [call_defined] using hd
    obtain ⟨i, hi, _, _⟩ := find_table_index_nonneg st name (overwrite_found st name d k s h0)
    obtain ⟨hc', hfind, _⟩ := write_by_index_shape st name d k s i hc hi hd' h0
    exact ⟨hc', fun nm hnm _ => by
      show 0 ≤ find_table_index (fast_flash_write_table_data_by_index st name k d s).2 nm
      rw [hfind]; exact hnm⟩
  | batch name data s k =>
    have hd' : 1 ≤ s ∧ data.length = s * k ∧
        (fast_flash_get_table_count st name + k) * s < U32 := by
      simpa [call_defined] using hd
    obtain ⟨i, hi, _, _⟩ := find_table_index_nonneg st name (batch_found st name data s k h0)
    rw [(consistent_view st hc name i hi 0 0).1] at hd'
    obtain ⟨hc', hfind, _⟩ := batch_shape st name data s k i hc hi hd'.1 hd'.2.1 hd'.2.2 h0
    exact ⟨hc', fun nm hnm _ => by
      show 0 ≤ find_table_index (fast_flash_write_table_data_batch st name data s k).2 nm
      rw [hfind]; exact hnm⟩
  | clear name mask =>
    by_cases hm0 : mask = 0
    · subst hm0
      show Consistent (fast_flash_clear_table_data st name 0).2 ∧ ∀ nm, _ → _ →
        0 ≤ find_table_index (fast_flash_clear_table_data st name 0).2 nm
      rw [clear_zero]
      exact ⟨hc, fun nm hnm _ => hnm⟩
    · obtain ⟨i, hi, _, _⟩ := find_table_index_nonneg st name (clear_found st name mask h0)
      obtain ⟨hc', hfind, _⟩ := clear_shape st name mask i hc hi hm0 h0
      exact ⟨hc', fun nm hnm _ => by
        show 0 ≤ find_table_index (fast_flash_clear_table_data st name mask).2 nm
        rw [hfind]; exact hnm⟩
  | delete name =>
    obtain ⟨i, hi, _, _⟩ := find_table_index_nonneg st name (delete_found st name h0)
    obtain ⟨hc', hsi, hso, _⟩ := delete_shape st name i hc hi h0
    refine ⟨hc', ?_⟩
    intro nm hnm hdel
    have hne : find_table_index st nm ≠ (i : Int) := by
      intro h
      have : find_table_index st name = find_table_index st nm := by rw [hi, h]
      simp [deletes_table, this] at hdel
    have hdel' : (slot_at (fast_flash_delete_table st name).2.g_manager_table i).status ≠
        TABLE_STATUS_VALID := by
      rw [hsi]
      show TABLE_STATUS_DELETED ≠ TABLE_STATUS_VALID
      decide
    show 0 ≤ find_table_index (fast_flash_delete_table st name).2 nm
    rw [(find_table_index_drop st _ i hdel' hso nm).1 hne]
    exact hnm

theorem run_calls_consistent : ∀ (cs : List api_call) (st st' : State), Consistent st →
    run_calls st cs = some st' → Consistent st'
  | [], st, st', hc, h => by
    simp only [run_calls, Option.some.injEq] at h
    subst h; exact hc
  | c :: cs, st, st', hc, h => by
    unfold run_calls at h
    by_cases hcond : (call_defined st c && decide ((api_step st c).1 = 0)) = true
    · rw [if_pos hcond] at h
      simp only [Bool.and_eq_true, decide_eq_true_eq] at hcond
      exact run_calls_consistent cs _ st' (step_consistent st c hc hcond.1 hcond.2).1 h
    · rw [if_neg hcond] at h
      exact absurd h (by simp)

theorem run_calls_keeping_found (name : List Byte) : ∀ (cs : List api_call) (st st' : State),
    Consistent st → 0 ≤ find_table_index st name →
    run_calls_keeping name st cs = some st' → Consistent st' ∧ 0 ≤ find_table_index st' name
  | [], st, st', hc, hf, h => by
    simp only [run_calls_keeping, Option.some.injEq] at h
    subst h; exact ⟨hc, hf⟩
  | c :: cs, st, st', hc, hf, h => by
    unfold run_calls_keeping at h
    by_cases hcond : (call_defined st c && decide ((api_step st c).1 = 0) &&
        !deletes_table st name c) = true
    · rw [if_pos hcond] at h
      simp only [Bool.and_eq_true, decide_eq_true_eq, Bool.not_eq_true'] at hcond
      obtain ⟨h1, h2⟩ := step_consistent st c hc hcond.1.1 hcond.1.2
      exact run_calls_keeping_found name cs _ st' h1 (h2 name hf hcond.2) h
    · rw [if_neg hcond] at h
      exact absurd h (by simp)

theorem create_found (st : State) (name : List Byte) (s m : Nat)
    (hc : Consistent st) (hlen : c_strlen name ≤ 7)
    (hw : (fast_flash_create_table st name s m).1 = 0) :
    0 ≤ find_table_index (fast_flash_create_table st name s m).2 name := by
  obtain ⟨hneg, slot, a, _, hs24, _, _, hc', hmgr, _⟩ := create_shape st name s m hc hw
  have hlt : slot < st.g_manager_table.tables.length := by rw [hc.slots]; exact hs24
  generalize fast_flash_create_table st name s m = r at *
  have e_i : slot_at r.2.g_manager_table slot = new_info name a := by
    rw [hmgr, slot_at_committed]
    exact slot_at_set_same _ _ _ hlt
  have e_o : ∀ j, j ≠ slot → slot_at r.2.g_manager_table j = slot_at st.g_manager_table j := by
    intro j hj
    rw [hmgr, slot_at_committed]
    exact slot_at_set_ne _ _ _ _ (Ne.symm hj)
  rw [find_table_index_new st r.2 name slot hs24 hneg (by rw [e_i]; rfl)
    (by rw [e_i]; exact strncmp_stored 7 name hlen) e_o]
  omega

/-- C9 (amended): for a name of at most 7 characters created successfully in a consistent state,
after any sequence of defined, successful create/append/overwrite/batch/clear/delete calls none
of which deletes that table, a further create of the name returns -1 and leaves the whole state
(manager table, cursor and flash) unchanged. -/
theorem create_rejects_duplicate (st0 st : State) (name : List Byte) (s0 m0 s m : Nat)
    (cs : List api_call) (hc : Consistent st0) (hlen : c_strlen name ≤ 7)
    (h0 : (fast_flash_create_table st0 name s0 m0).1 = 0)
    (hrun : run_calls_keeping name (fast_flash_create_table st0 name s0 m0).2 cs = some st) :
    fast_flash_create_table st name s m = (-1, st) := by
  have h1 := create_found st0 name s0 m0 hc hlen h0
  obtain ⟨hc1, _⟩ := step_consistent st0 (.create name s0 m0) hc rfl h0
  obtain ⟨hc', hf⟩ := run_calls_keeping_found name cs _ st hc1 h1 hrun
  unfold fast_flash_create_table
  rw [if_neg (by simp [hc'.loaded]), if_pos hf]

/-! ## Capacity-checked append -/

theorem header_capacity_eq (h : table_header_t) (s m : Nat) (hs : 1 ≤ s)
    (hss : h.struct_size = s) (hts : h.table_size = SIZEOF_HEADER + s * m)
    (hov : SIZEOF_HEADER + s * m < U32) : header_capacity h = m := by
  have hU : U32 = 4294967296 := by decide!
  have hZ : SIZE_T = 18446744073709551616 := by decide!
  have hH : SIZEOF_HEADER = 30 := by decide!
  unfold header_capacity
  rw [hss, hts]
  have e1 : (SIZEOF_HEADER + s * m + SIZE_T - SIZEOF_HEADER) % SIZE_T = s * m := by
    have : SIZEOF_HEADER + s * m + SIZE_T - SIZEOF_HEADER = s * m + SIZE_T := by omega
    rw [this, Nat.add_mod_right]
    exact Nat.mod_eq_of_lt (by omega)
  rw [e1, Nat.mul_div_cancel_left m (by omega)]
  have : m ≤ s * m := Nat.le_mul_of_pos_left m (by omega)
  exact Nat.mod_eq_of_lt (by omega)

/-- C10 (amended): in a consistent state, for a Valid table whose header records the record size
`s ≥ 1` and the table size `30 + s * m` that `fast_flash_create_table(name, s, m)` writes when
`30 + s * m < 2^32`, and which holds `n` rows: with `n ≥ m` the capacity-checked append returns
-2 and leaves the whole state unchanged, and with `n < m` it is `fast_flash_write_table_data`
(same return value, same resulting state). -/
theorem append_checked_enforces_capacity (st : State) (name d : List Byte) (s m n i : Nat)
    (hc : Consistent st) (hi : find_table_index st name = (i : Int)) (hs : 1 ≤ s)
    (hss : (header_at st (slot_at st.g_manager_table i).addr).struct_size = s)
    (hts : (header_at st (slot_at st.g_manager_table i).addr).table_size =
      (new_header name s m).table_size)
    (hov : SIZEOF_HEADER + s * m < U32)
    (hn : fast_flash_get_table_count st name = n) :
    (m ≤ n → fast_flash_append_table_data st name d s = (-2, st)) ∧
    (n < m → fast_flash_append_table_data st name d s =
      fast_flash_write_table_data st name d s) := by
  have hU : U32 = 4294967296 := by decide!
  have hW : WIN_FLASH_TOTAL_SIZE = 65536 := by decide!
  have hH : SIZEOF_HEADER = 30 := by decide!
  obtain ⟨i', hi', hi24, hval⟩ := find_table_index_nonneg st name (by rw [hi]; omega)
  have hii : i' = i := Int.ofNat.inj (hi'.symm.trans hi)
  subst hii
  obtain ⟨ht1, ht2, ht3⟩ := hc.tables_ok i' hi24 hval
  have hcl := hc.cursor_le
  have hn0 : (header_at st (slot_at st.g_manager_table i').addr).struct_nums = n := by
    rw [← (consistent_view st hc name i' hi 0 0).1]; exact hn
  have hts' : (header_at st (slot_at st.g_manager_table i').addr).table_size =
      SIZEOF_HEADER + s * m := by
    rw [hts]
    show (SIZEOF_HEADER + (s * m) % U32) % U32 = _
    rw [Nat.mod_eq_of_lt (show s * m < U32 by omega), Nat.mod_eq_of_lt hov]
  have hcap := header_capacity_eq _ s m hs hss hts' hov
  unfold fast_flash_append_table_data
  rw [if_neg (by simp [hc.loaded]), if_neg (by rw [hi]; omega)]
  rw [hi, Int.toNat_ofNat]
  dsimp only
  rw [win_flash_read_of_le _ _ _ (by omega)]
  dsimp only
  rw [if_neg (by decide)]
  unfold header_at at hss hn0 hcap
  rw [hss, hn0, hcap, if_neg (by simp)]
  constructor
  · intro h; rw [if_pos h]
  · intro h; rw [if_neg (by omega)]

set_option maxRecDepth 100000

/-! ## Examples -/

theorem demo_consistent : Consistent demo_state := by
  have hW : WIN_FLASH_TOTAL_SIZE = 65536 := by decide!
  have hM : SIZEOF_MANAGER = 692 := by decide!
  have hH : SIZEOF_HEADER = 30 := by decide!
  have hcur : cursor_pos demo_state = 1418 := by decide!
  have hlen : (header_bytes demo_header ++ [1, 2, 3, 4]).length = 34 := by
    rw [List.length_append, header_bytes_length]; rfl
  have hcache : demo_state.flash.flash_cache =
      mem_write (fun _ => 0xFF) 1384 (header_bytes demo_header ++ [1, 2, 3, 4]) := rfl
  have hnext : demo_state.g_manager_table.next_manager_addr = 692 := rfl
  refine ⟨rfl, rfl, by rw [hW]; exact Nat.le_of_eq rfl, by rw [hcur, hW]; decide,
    by rw [hcur, hnext, hM]; decide, ?_, ?_, ?_⟩
  · intro a h1 h2
    rw [hnext] at h1 h2
    rw [hcache, mem_write_out _ _ _ _ (by omega)]
  · intro a h1 h2
    rw [hcur] at h1
    rw [hcache, mem_write_out _ _ _ _ (by omega)]
  · intro i hi hv
    have hi0 : i = 0 := by
      by_contra hne
      obtain ⟨k, rfl⟩ : ∃ k, i = k + 1 := ⟨i - 1, by omega⟩
      have hk : k < 23 := by
        have : MAX_TABLES_ALL_SECTOR = 24 := rfl
        omega
      have : slot_at demo_state.g_manager_table (k + 1) = zero_info := by
        show (List.replicate 23 zero_info).getD k zero_info = zero_info
        rw [List.getD_eq_getElem?_getD, List.getElem?_replicate]
        simp [hk]
      rw [this] at hv
      exact absurd hv (by decide)
    subst hi0
    have hhdr : header_at demo_state 1384 = demo_header := by
      unfold header_at
      have : mem_read demo_state.flash.flash_cache 1384 SIZEOF_HEADER =
          header_bytes demo_header := by
        rw [hcache, ← mem_read_take_drop _ 1384 34 0 SIZEOF_HEADER (by omega),
          ← hlen, mem_read_write_same, List.drop_zero, List.take_left']
        rw [header_bytes_length, hH]
      rw [this, parse_header_bytes]
      decide!
    show 1384 + SIZEOF_HEADER + (header_at demo_state 1384).data_len ≤ _ ∧
      (1384 + SIZEOF_HEADER + (header_at demo_state 1384).data_len ≤ _ ∨ _ ≤ 1384) ∧
      (header_at demo_state 1384).data_len =
        (header_at demo_state 1384).struct_nums * (header_at demo_state 1384).struct_size
    rw [hhdr, hcur, hnext, hH, hM]
    exact ⟨by decide, Or.inr (by decide), rfl⟩

/-! ## Rejected calls -/

theorem header_capacity_small (h : table_header_t) (s : Nat) (_hs : 1 ≤ s)
    (hss : h.struct_size = s) (hlo : SIZEOF_HEADER ≤ h.table_size) (hhi : h.table_size < U32) :
    header_capacity h = (h.table_size - SIZEOF_HEADER) / s := by
  have hU : U32 = 4294967296 := by decide!
  have hZ : SIZE_T = 18446744073709551616 := by decide!
  have hH : SIZEOF_HEADER = 30 := by decide!
  unfold header_capacity
  rw [hss]
  have e1 : (h.table_size + SIZE_T - SIZEOF_HEADER) % SIZE_T = h.table_size - SIZEOF_HEADER := by
    have : h.table_size + SIZE_T - SIZEOF_HEADER = h.table_size - SIZEOF_HEADER + SIZE_T := by
      omega
    rw [this, Nat.add_mod_right]
    exact Nat.mod_eq_of_lt (by omega)
  rw [e1]
  have : (h.table_size - SIZEOF_HEADER) / s ≤ h.table_size - SIZEOF_HEADER := Nat.div_le_self _ _
  exact Nat.mod_eq_of_lt (by omega)

/-- The capacity check of the batch append when the sum does not wrap: for a loaded state in
which `name` resolves to a slot whose header is readable and records the record size `s ≥ 1`, a
table size of at least 30 and `n` rows, a batch append of `count ≥ 1` records with
`n + count < 2^32` and `n + count` above the capacity `(table_size - 30) / s` returns -2 and
leaves the whole state (flash, manager table, cursor) unchanged. -/
theorem batch_rejects_over_capacity (st : State) (name data : List Byte) (s count i n : Nat)
    (hl : st.g_manager_loaded = true) (hi : find_table_index st name = (i : Int))
    (hr : (slot_at st.g_manager_table i).addr + SIZEOF_HEADER ≤ WIN_FLASH_TOTAL_SIZE)
    (hs : 1 ≤ s)
    (hss : (header_at st (slot_at st.g_manager_table i).addr).struct_size = s)
    (hts : SIZEOF_HEADER ≤ (header_at st (slot_at st.g_manager_table i).addr).table_size)
    (hn : fast_flash_get_table_count st name = n) (hc1 : 1 ≤ count)
    (hwrap : n + count < U32)
    (hover : ((header_at st (slot_at st.g_manager_table i).addr).table_size - SIZEOF_HEADER) / s
      < n + count) :
    fast_flash_write_table_data_batch st name data s count = (-2, st) := by
  have hn0 : (header_at st (slot_at st.g_manager_table i).addr).struct_nums = n := by
    rw [← get_table_count_eq st name i hl hi hr]; exact hn
  obtain ⟨hl1, _⟩ := parse_header_lt
    (mem_read st.flash.flash_cache (slot_at st.g_manager_table i).addr SIZEOF_HEADER)
  have hcap := header_capacity_small _ s hs hss hts hl1
  unfold fast_flash_write_table_data_batch
  rw [if_neg (by simp [hl]; omega), if_neg (by rw [hi]; omega)]
  rw [hi, Int.toNat_ofNat]
  dsimp only
  rw [win_flash_read_of_le _ _ _ hr]
  dsimp only
  rw [if_neg (by decide)]
  unfold header_at at hss hn0 hcap hover
  rw [hss, hn0, hcap, if_neg (by simp), Nat.mod_eq_of_lt hwrap, if_pos hover]

/-- C12: for a loaded state in which `name` resolves to a slot whose header is readable and
records the record size `s` and `n` rows, an overwrite at an index `k ≥ n` returns -2 and leaves
the whole state unchanged, and a read at `k` returns -1 (reading has no state to change). -/
theorem out_of_range_index_rejected (st : State) (name d : List Byte) (k s i n : Nat)
    (hl : st.g_manager_loaded = true) (hi : find_table_index st name = (i : Int))
    (hr : (slot_at st.g_manager_table i).addr + SIZEOF_HEADER ≤ WIN_FLASH_TOTAL_SIZE)
    (hss : (header_at st (slot_at st.g_manager_table i).addr).struct_size = s)
    (hn : fast_flash_get_table_count st name = n) (hk : n ≤ k) :
    fast_flash_write_table_data_by_index st name k d s = (-2, st) ∧
    fast_flash_read_table_data st name k s = (-1, []) := by
  have hn0 : (header_at st (slot_at st.g_manager_table i).addr).struct_nums = n := by
    rw [← get_table_count_eq st name i hl hi hr]; exact hn
  unfold header_at at hss hn0
  constructor
  · unfold fast_flash_write_table_data_by_index
    rw [if_neg (by simp [hl]), if_neg (by rw [hi]; omega)]
    rw [hi, Int.toNat_ofNat]
    dsimp only
    rw [win_flash_read_of_le _ _ _ hr]
    dsimp only
    rw [if_neg (by decide), hss, hn0, if_neg (by simp), if_pos hk]
  · unfold fast_flash_read_table_data
    rw [if_neg (by simp [hl]), if_neg (by rw [hi]; omega)]
    rw [hi, Int.toNat_ofNat]
    dsimp only
    rw [win_flash_read_of_le _ _ _ hr]
    dsimp only
    rw [if_neg (by decide), hss, hn0, if_neg (by simp), if_pos hk]

/-- C13: for a loaded state in which `name` resolves to a slot whose header is readable and
records `n` rows, a clear whose mask has a set bit at a position `p` with `n ≤ p < 64` returns -2
and leaves the whole state (flash, manager table, cursor) unchanged. -/
theorem clear_rejects_absent_rows (st : State) (name : List Byte) (mask p i n : Nat)
    (hl : st.g_manager_loaded = true) (hi : find_table_index st name = (i : Int))
    (hr : (slot_at st.g_manager_table i).addr + SIZEOF_HEADER ≤ WIN_FLASH_TOTAL_SIZE)
    (hn : fast_flash_get_table_count st name = n)
    (hp : mask.testBit p = true) (hpn : n ≤ p) (hp64 : p < 64) :
    fast_flash_clear_table_data st name mask = (-2, st) := by
  have hU : U64 = 2 ^ 64 := by decide!
  have hn0 : (header_at st (slot_at st.g_manager_table i).addr).struct_nums = n := by
    rw [← get_table_count_eq st name i hl hi hr]; exact hn
  unfold header_at at hn0
  have hbit : (mask &&& (((1 <<< n) - 1) ^^^ (U64 - 1))).testBit p = true := by
    rw [Nat.testBit_and, Nat.testBit_xor, Nat.one_shiftLeft, Nat.testBit_two_pow_sub_one, hU,
      Nat.testBit_two_pow_sub_one, hp]
    simp only [Bool.true_and]
    rw [decide_eq_false (by omega), decide_eq_true hp64]
    rfl
  have hne : mask &&& (((1 <<< n) - 1) ^^^ (U64 - 1)) ≠ 0 := by
    intro h0
    rw [h0, Nat.zero_testBit] at hbit
    exact absurd hbit (by decide)
  unfold fast_flash_clear_table_data
  rw [if_neg (by simp [hl]), if_neg (by rw [hi]; omega)]
  rw [hi, Int.toNat_ofNat]
  dsimp only
  rw [win_flash_read_of_le _ _ _ hr]
  dsimp only
  rw [if_neg (by decide), hn0, if_pos (show n < 64 by omega), if_pos hne]

/-- C14: for a loaded state in which `name` resolves to a slot whose header is readable, a clear
with mask 0 returns 0 and leaves the whole state unchanged: the flash with its log of program
and erase calls, the manager table and the cursor. -/
theorem clear_empty_mask_noop (st : State) (name : List Byte) (i : Nat)
    (hl : st.g_manager_loaded = true) (hi : find_table_index st name = (i : Int))
    (hr : (slot_at st.g_manager_table i).addr + SIZEOF_HEADER ≤ WIN_FLASH_TOTAL_SIZE) :
    fast_flash_clear_table_data st name 0 = (0, st) := by
  unfold fast_flash_clear_table_data
  rw [if_neg (by simp [hl]), if_neg (by rw [hi]; omega)]
  rw [hi, Int.toNat_ofNat]
  dsimp only
  rw [win_flash_read_of_le _ _ _ hr]
  dsimp only
  rw [if_neg (by decide), Nat.zero_and, if_neg (by simp), if_pos rfl]

/-! ## Manager validation and discovery -/

theorem manager_bytes_drop6 (t : flash_manager_table_t) (a b : Nat) :
    (manager_bytes { t with magic := a, crc := b }).drop 6 = (manager_bytes t).drop 6 := by
  have h1 : ∀ (m : flash_manager_table_t), (manager_bytes m).drop 6 =
      le_bytes 1 m.version ++ le_bytes 1 m.table_count ++ le_bytes 4 m.total_size ++
        le_bytes 4 m.used_size ++ le_bytes 4 m.next_manager_addr ++ tables_bytes 24 m.tables := by
    intro m
    rw [manager_bytes_eq]
    have hlen : (le_bytes 2 m.magic ++ le_bytes 4 m.crc).length = 6 := by
      rw [List.length_append, le_bytes_length, le_bytes_length]
    simp only [List.append_assoc]
    rw [← List.append_assoc (le_bytes 2 m.magic), List.drop_left' hlen]
  rw [h1, h1]

theorem manager_crc_independent (t : flash_manager_table_t) (a b : Nat) :
    calculate_manager_table_crc { t with magic := a, crc := b } =
      calculate_manager_table_crc t := by
  unfold calculate_manager_table_crc
  rw [manager_bytes_drop6]

/-- For a record given by its fields: `validate_manager_table` returns 0 exactly for the records
with magic 0xAAAA, version 1 and a `crc` field equal to the CRC32 of the 686 bytes of the record
image from offset 6 on, and the CRC it computes does not depend on the `magic` and `crc` fields. -/
theorem validate_manager_table_iff (t : flash_manager_table_t) :
    (validate_manager_table t = 0 ↔
      t.magic = 0xAAAA ∧ t.version = 1 ∧
        t.crc = calculate_crc32 ((manager_bytes t).drop 6) 686) ∧
    ((manager_bytes t).drop 6).length = 686 ∧
    ∀ a b, calculate_manager_table_crc { t with magic := a, crc := b } =
      calculate_manager_table_crc t := by
  have hM : MAGIC_NUMBER_MANAGER = 0xAAAA := by decide!
  have hS : SIZEOF_MANAGER - 2 - 4 = 686 := by decide!
  have hZ : SIZEOF_MANAGER = 692 := by decide!
  refine ⟨?_, by rw [List.length_drop, manager_bytes_length, hZ], manager_crc_independent t⟩
  unfold validate_manager_table calculate_manager_table_crc
  rw [hM, hS]
  show (if t.magic ≠ 43690 then (-1 : Int) else if t.version ≠ 1 then -1 else
    if calculate_crc32 ((manager_bytes t).drop 6) 686 ≠ t.crc then -1 else 0) = 0 ↔ _
  by_cases h1 : t.magic = 43690
  · by_cases h2 : t.version = 1
    · by_cases h3 : calculate_crc32 ((manager_bytes t).drop 6) 686 = t.crc
      · simp [h1, h2, h3]
      · have h3' : ¬ t.crc = calculate_crc32 ((manager_bytes t).drop 6) 686 :=
          fun h => h3 h.symm
        simp [h1, h2, h3, h3']
    · simp [h1, h2]
  · simp [h1]

/-- C20: `fast_flash_gc` returns -1 when the manager is not loaded and -2 when it is loaded
but erase is not allowed, and in both cases the whole state is unchanged: the flash with its log
of program and erase calls, the manager table and the cursor. -/
theorem gc_preconditions (st : State) :
    fast_flash_gc { st with g_manager_loaded := false } =
      (-1, { st with g_manager_loaded := false }) ∧
    fast_flash_gc { st with g_manager_loaded := true, g_allow_erase := false } =
      (-2, { st with g_manager_loaded := true, g_allow_erase := false }) := by
  constructor
  · unfold fast_flash_gc
    rw [if_pos rfl]
  · unfold fast_flash_gc
    rw [if_neg (by simp), if_pos rfl]

/-! ## Reading records back -/

theorem le_bytes_le_val : ∀ (l : List Byte), le_bytes l.length (le_val l) = l
  | [] => rfl
  | b :: bs => by
    have hb := b.isLt
    show (⟨(b.val + 256 * le_val bs) % 256, _⟩ : Byte) ::
      le_bytes bs.length ((b.val + 256 * le_val bs) / 256) = b :: bs
    have e1 : (b.val + 256 * le_val bs) % 256 = b.val := by omega
    have e2 : (b.val + 256 * le_val bs) / 256 = le_val bs := by omega
    rw [e2, le_bytes_le_val bs]
    congr 1
    exact Fin.ext e1

theorem le_bytes_le_val_of (k : Nat) (l : List Byte) (h : l.length = k) :
    le_bytes k (le_val l) = l := by
  subst h
  exact le_bytes_le_val l

theorem parse_info_append (l1 l2 l3 l4 l5 l6 l7 l8 : List Byte) (h1 : l1.length = 8)
    (h2 : l2.length = 4) (h3 : l3.length = 4) (h4 : l4.length = 4) (h5 : l5.length = 2)
    (h6 : l6.length = 1) (h7 : l7.length = 1) (h8 : l8.length = 4) :
    parse_info (l1 ++ l2 ++ l3 ++ l4 ++ l5 ++ l6 ++ l7 ++ l8) =
      { name := l1, addr := le_val l2, size := le_val l3, used_size := le_val l4,
        magic := le_val l5, status := le_val l6, reserved := le_val l7,
        next_manager_addr := le_val l8 } := by
  obtain ⟨b1, b2, b3, b4, b5, b6, b7, b8, rfl⟩ := list_len8 l1 h1
  obtain ⟨c1, c2, c3, c4, rfl⟩ := list_len4 l2 h2
  obtain ⟨d1, d2, d3, d4, rfl⟩ := list_len4 l3 h3
  obtain ⟨e1, e2, e3, e4, rfl⟩ := list_len4 l4 h4
  obtain ⟨a1, a2, rfl⟩ := list_len2 l5 h5
  obtain ⟨f1, rfl⟩ := list_len1 l6 h6
  obtain ⟨g1, rfl⟩ := list_len1 l7 h7
  obtain ⟨i1, i2, i3, i4, rfl⟩ := list_len4 l8 h8
  rfl

/-- The slot a stored slot image is read back as. -/
theorem parse_info_bytes (t : flash_table_info_t) :
    parse_info (info_bytes t) =
      { name := fix_len 8 t.name, addr := t.addr % U32, size := t.size % U32,
        used_size := t.used_size % U32, magic := t.magic % 65536, status := t.status % 256,
        reserved := t.reserved % 256, next_manager_addr := t.next_manager_addr % U32 } := by
  unfold info_bytes
  rw [info_push_eq, List.append_nil,
    parse_info_append _ _ _ _ _ _ _ _ (fix_len_length _ _) (le_bytes_length _ _)
      (le_bytes_length _ _) (le_bytes_length _ _) (le_bytes_length _ _) (le_bytes_length _ _)
      (le_bytes_length _ _) (le_bytes_length _ _)]
  simp only [le_val_le_bytes]
  have h4 : 256 ^ 4 = U32 := by decide!
  have h2 : 256 ^ 2 = 65536 := by decide
  have h1 : 256 ^ 1 = 256 := by decide
  rw [h4, h2, h1]

theorem parse_info_bytes_wf (t : flash_table_info_t) (h : wf_info t) :
    parse_info (info_bytes t) = t := by
  obtain ⟨h1, h2, h3, h4, h5, h6, h7, h8⟩ := h
  rw [parse_info_bytes, fix_len_of_length 8 _ h1, Nat.mod_eq_of_lt h2, Nat.mod_eq_of_lt h3,
    Nat.mod_eq_of_lt h4, Nat.mod_eq_of_lt h5, Nat.mod_eq_of_lt h6, Nat.mod_eq_of_lt h7,
    Nat.mod_eq_of_lt h8]

theorem info_push_split (t : flash_table_info_t) (rest : List Byte) :
    info_push t rest = info_bytes t ++ rest := by
  unfold info_bytes
  rw [info_push_eq, info_push_eq, List.append_nil]

theorem parse_tables_bytes : ∀ (k : Nat) (ts : List flash_table_info_t),
    ts.length = k → (∀ t ∈ ts, wf_info t) → parse_tables k (tables_bytes k ts) = ts
  | 0, [], _, _ => rfl
  | 0, _ :: _, h, _ => by simp at h
  | k + 1, [], h, _ => by simp at h
  | k + 1, t :: ts, h, hw => by
    rw [tables_bytes, parse_tables, info_push_split, List.take_left' (info_bytes_length t),
      List.drop_left' (info_bytes_length t), parse_info_bytes_wf t (hw t (by simp)),
      parse_tables_bytes k ts (by simpa using h) (fun t1 h1 => hw t1 (by simp [h1]))]

theorem parse_manager_append (l1 l2 l3 l4 l5 l6 l7 rest : List Byte) (h1 : l1.length = 2)
    (h2 : l2.length = 4) (h3 : l3.length = 1) (h4 : l4.length = 1) (h5 : l5.length = 4)
    (h6 : l6.length = 4) (h7 : l7.length = 4) :
    parse_manager (l1 ++ l2 ++ l3 ++ l4 ++ l5 ++ l6 ++ l7 ++ rest) =
      { magic := le_val l1, crc := le_val l2, version := le_val l3, table_count := le_val l4,
        total_size := le_val l5, used_size := le_val l6, next_manager_addr := le_val l7,
        tables := parse_tables 24 rest } := by
  obtain ⟨a1, a2, rfl⟩ := list_len2 l1 h1
  obtain ⟨c1, c2, c3, c4, rfl⟩ := list_len4 l2 h2
  obtain ⟨f1, rfl⟩ := list_len1 l3 h3
  obtain ⟨g1, rfl⟩ := list_len1 l4 h4
  obtain ⟨d1, d2, d3, d4, rfl⟩ := list_len4 l5 h5
  obtain ⟨e1, e2, e3, e4, rfl⟩ := list_len4 l6 h6
  obtain ⟨i1, i2, i3, i4, rfl⟩ := list_len4 l7 h7
  rfl

/-- A well-formed manager record is read back from its byte image. -/
theorem parse_manager_bytes (m : flash_manager_table_t) (h : wf_manager m) :
    parse_manager (manager_bytes m) = m := by
  obtain ⟨h1, h2, h3, h4, h5, h6, h7, h8, h9⟩ := h
  have e4 : 256 ^ 4 = U32 := by decide!
  have e2 : 256 ^ 2 = 65536 := by decide
  have e1 : 256 ^ 1 = 256 := by decide
  have e24 : MAX_TABLES_ALL_SECTOR = 24 := by decide!
  rw [manager_bytes_eq,
    parse_manager_append _ _ _ _ _ _ _ _ (le_bytes_length _ _) (le_bytes_length _ _)
      (le_bytes_length _ _) (le_bytes_length _ _) (le_bytes_length _ _) (le_bytes_length _ _)
      (le_bytes_length _ _),
    parse_tables_bytes 24 m.tables (by rw [h8, e24]) h9]
  simp only [le_val_le_bytes]
  rw [e4, e2, e1, Nat.mod_eq_of_lt h1, Nat.mod_eq_of_lt h2, Nat.mod_eq_of_lt h3,
    Nat.mod_eq_of_lt h4, Nat.mod_eq_of_lt h5, Nat.mod_eq_of_lt h6, Nat.mod_eq_of_lt h7]

theorem take_drop_step (l : List Byte) (a k : Nat) :
    (l.drop a).take k ++ l.drop (a + k) = l.drop a := by
  rw [← List.drop_drop, List.take_append_drop]

/-- A slot image is the image of the slot it is read as. -/
theorem info_bytes_parse (l : List Byte) (h : l.length = 28) : info_bytes (parse_info l) = l := by
  unfold info_bytes
  rw [info_push_eq, List.append_nil]
  unfold parse_info
  dsimp only
  rw [fix_len_fix_len, fix_len_of_length 8 (l.take 8) (by rw [List.length_take]; omega),
    le_bytes_le_val_of 4 _ (by rw [List.length_take, List.length_drop]; omega),
    le_bytes_le_val_of 4 _ (by rw [List.length_take, List.length_drop]; omega),
    le_bytes_le_val_of 4 _ (by rw [List.length_take, List.length_drop]; omega),
    le_bytes_le_val_of 2 _ (by rw [List.length_take, List.length_drop]; omega),
    le_bytes_le_val_of 1 _ (by rw [List.length_take, List.length_drop]; omega),
    le_bytes_le_val_of 1 _ (by rw [List.length_take, List.length_drop]; omega),
    le_bytes_le_val_of 4 _ (by rw [List.length_take, List.length_drop]; omega)]
  simp only [List.append_assoc]
  rw [List.take_of_length_le (l := l.drop 24) (by rw [List.length_drop]; omega),
    take_drop_step l 23 1, take_drop_step l 22 1, take_drop_step l 20 2, take_drop_step l 16 4,
    take_drop_step l 12 4, take_drop_step l 8 4, List.take_append_drop]

theorem tables_bytes_parse : ∀ (k : Nat) (r : List Byte), r.length = 28 * k →
    tables_bytes k (parse_tables k r) = r
  | 0, r, h => by
    have : r = [] := List.length_eq_zero.mp (by omega)
    subst this
    rfl
  | k + 1, r, h => by
    rw [parse_tables, tables_bytes, info_push_split,
      info_bytes_parse _ (by rw [List.length_take]; omega),
      tables_bytes_parse k (r.drop 28) (by rw [List.length_drop]; omega),
      List.take_append_drop]

/-- A 692-byte manager image is the image of the record it is read as. -/
theorem manager_bytes_parse (b : List Byte) (h : b.length = SIZEOF_MANAGER) :
    manager_bytes (parse_manager b) = b := by
  have hM : SIZEOF_MANAGER = 692 := by decide!
  rw [hM] at h
  rw [manager_bytes_eq]
  unfold parse_manager
  dsimp only
  rw [le_bytes_le_val_of 2 _ (by rw [List.length_take]; omega),
    le_bytes_le_val_of 4 _ (by rw [List.length_take, List.length_drop]; omega),
    le_bytes_le_val_of 1 _ (by rw [List.length_take, List.length_drop]; omega),
    le_bytes_le_val_of 1 _ (by rw [List.length_take, List.length_drop]; omega),
    le_bytes_le_val_of 4 _ (by rw [List.length_take, List.length_drop]; omega),
    le_bytes_le_val_of 4 _ (by rw [List.length_take, List.length_drop]; omega),
    le_bytes_le_val_of 4 _ (by rw [List.length_take, List.length_drop]; omega),
    tables_bytes_parse 24 _ (by rw [List.length_drop]; omega)]
  simp only [List.append_assoc]
  rw [take_drop_step b 16 4, take_drop_step b 12 4, take_drop_step b 8 4, take_drop_step b 7 1,
    take_drop_step b 6 1, take_drop_step b 2 4, List.take_append_drop]

theorem crc32_bit_lt (c : Nat) (h : c < 2 ^ 32) : crc32_bit c < 2 ^ 32 := by
  unfold crc32_bit
  have h1 : Nat.shiftRight c 1 < 2 ^ 32 := by
    show c >>> 1 < 2 ^ 32
    rw [Nat.shiftRight_eq_div_pow]
    omega
  cases Nat.beq (Nat.land c 1) 0
  · exact Nat.xor_lt_two_pow h1 (by decide)
  · exact h1

theorem crc32_byte_lt (c : Nat) (b : Byte) (h : c < 2 ^ 32) : crc32_byte c b < 2 ^ 32 := by
  unfold crc32_byte
  have hb : b.val < 2 ^ 32 := Nat.lt_trans b.isLt (by decide)
  have h0 : Nat.xor c b.val < 2 ^ 32 := Nat.xor_lt_two_pow h hb
  exact crc32_bit_lt _ (crc32_bit_lt _ (crc32_bit_lt _ (crc32_bit_lt _ (crc32_bit_lt _
    (crc32_bit_lt _ (crc32_bit_lt _ (crc32_bit_lt _ h0)))))))

theorem crc32_loop_lt : ∀ (l : List Byte) (c : Nat), c < 2 ^ 32 → crc32_loop l c < 2 ^ 32
  | [], _, h => h
  | b :: bs, c, h => by
    have hb := crc32_byte_lt c b h
    show (match crc32_byte c b with
      | 0 => crc32_loop bs 0
      | n + 1 => crc32_loop bs (n + 1)) < 2 ^ 32
    rcases hc : crc32_byte c b with _ | n
    · exact crc32_loop_lt bs 0 (by decide)
    · exact crc32_loop_lt bs (n + 1) (by rw [hc] at hb; exact hb)

/-- The CRC fits 32 bits. -/
theorem calculate_crc32_lt (data : List Byte) (length : Nat) :
    calculate_crc32 data length < U32 := by
  have hU : U32 = 2 ^ 32 := by decide!
  rw [hU]
  unfold calculate_crc32
  exact Nat.xor_lt_two_pow (crc32_loop_lt _ _ (by decide)) (by decide)

/-! ## Fresh-device initialisation -/

theorem nor_run_blank (c : Nat → Byte) : ∀ (l : List Byte) (a : Nat),
    (∀ j, j < l.length → c (a + j) = 0xFF) → nor_run c a l = l.length
  | [], _, _ => rfl
  | b :: bs, a, h => by
    unfold nor_run
    have h0 : c a = 0xFF := h 0 (by simp)
    have hb : (c a).val &&& b.val = b.val := by
      rw [h0]
      show 255 &&& b.val = b.val
      have : b.val < 2 ^ 8 := b.isLt
      rw [Nat.and_comm]
      exact Nat.and_pow_two_sub_one_of_lt_two_pow this
    rw [if_neg (by simp [hb]), nor_run_blank c bs (a + 1) (fun j hj => by
      have := h (j + 1) (by simp; omega)
      rw [← this]; congr 1; omega)]
    rfl

theorem win_flash_write_blank (d : win_flash) (addr : Nat) (buf : List Byte) (size : Nat)
    (hsz : size ≤ buf.length) (hb : addr + size ≤ WIN_FLASH_TOTAL_SIZE)
    (hblank : ∀ j, j < size → d.flash_cache (addr + j) = 0xFF) :
    win_flash_write d addr buf size =
      (0, { flash_cache := mem_write d.flash_cache addr (buf.take size),
            ops := flash_op.write addr (buf.take size) :: d.ops }) := by
  have hU : U32 = 4294967296 := by decide!
  have hW : WIN_FLASH_TOTAL_SIZE = 65536 := by decide!
  have hlen : (buf.take size).length = size := by rw [List.length_take]; omega
  have hk : nor_run d.flash_cache addr (buf.take size) = size := by
    rw [nor_run_blank _ _ _ (fun j hj => hblank j (by rw [hlen] at hj; exact hj)), hlen]
  unfold win_flash_write
  dsimp only
  rw [if_neg (by rw [Nat.mod_eq_of_lt (by omega)]; omega), hk, if_pos rfl]

theorem write_with_chunks_blank (d : win_flash) (addr : Nat) (buf : List Byte) (size : Nat)
    (h1 : 1 ≤ size) (hc : size ≤ FLASH_WRITE_CHUNK_SIZE)
    (hsz : size ≤ buf.length) (hb : addr + size ≤ WIN_FLASH_TOTAL_SIZE)
    (hblank : ∀ j, j < size → d.flash_cache (addr + j) = 0xFF) :
    write_with_chunks d addr buf size =
      (0, { flash_cache := mem_write d.flash_cache addr (buf.take size),
            ops := flash_op.write addr (buf.take size) :: d.ops }) := by
  unfold write_with_chunks
  obtain ⟨k, rfl⟩ : ∃ k, size = k + 1 := ⟨size - 1, by omega⟩
  unfold write_with_chunks_loop
  rw [if_pos (by omega), if_neg (by omega)]
  dsimp only
  rw [win_flash_write_blank d addr buf (k + 1) hsz hb hblank]
  dsimp only
  rw [if_neg (by decide), Nat.sub_self]
  cases k with
  | zero => rfl
  | succ k =>
    unfold write_with_chunks_loop
    rw [if_neg (by decide)]

theorem win_flash_erase_first (d : win_flash) :
    win_flash_erase d 0 FLASH_SECTOR_SIZE =
      (0, { flash_cache := mem_erase d.flash_cache 0 FLASH_SECTOR_SIZE,
            ops := flash_op.erase 0 FLASH_SECTOR_SIZE :: d.ops }) := by
  unfold win_flash_erase
  dsimp only
  rw [aligned_size_sector, Nat.zero_div, Nat.zero_mul, if_neg (by decide!), if_neg (by decide!)]

theorem load_walk_invalid : ∀ (fuel : Nat) (st : State)
    (last : Option (flash_manager_table_t × Nat)),
    validate_manager_table (parse_manager (mem_read st.flash.flash_cache 0 SIZEOF_MANAGER)) ≠ 0 →
    load_walk fuel st 0 last = Sum.inr last
  | 0, _, _, _ => rfl
  | fuel + 1, st, last, h => by
    unfold load_walk
    by_cases ht : 0 < st.g_total_size
    · rw [if_pos ht, win_flash_read_of_le _ _ _ (by decide!)]
      dsimp only
      rw [if_neg (by decide)]
      by_cases hm : (parse_manager (mem_read st.flash.flash_cache 0 SIZEOF_MANAGER)).magic ≠
          MAGIC_NUMBER_MANAGER
      · rw [if_pos hm]
      · rw [if_neg hm, if_pos h]
    · rw [if_neg ht]

theorem validate_committed (m : flash_manager_table_t)
    (hm : m.magic = MAGIC_NUMBER_MANAGER) (hv : m.version = MANAGER_TABLE_VERSION) :
    validate_manager_table { m with crc := calculate_manager_table_crc m } = 0 := by
  have hc := manager_crc_independent m m.magic (calculate_manager_table_crc m)
  generalize hm2 : ({ m with crc := calculate_manager_table_crc m } : flash_manager_table_t)
    = m2 at hc ⊢
  have e1 : m2.magic = MAGIC_NUMBER_MANAGER := by rw [← hm2]; exact hm
  have e2 : m2.version = MANAGER_TABLE_VERSION := by rw [← hm2]; exact hv
  have e3 : m2.crc = calculate_manager_table_crc m := by rw [← hm2]
  have e4 : calculate_manager_table_crc m2 = m2.crc := by
    rw [e3, ← hc, ← hm2]
  unfold validate_manager_table
  rw [if_neg (by simp [e1]), if_neg (by simp [e2]), if_neg (by simp [e4])]

theorem load_walk_zero_size (fuel : Nat) (st : State)
    (last : Option (flash_manager_table_t × Nat)) (h : st.g_total_size = 0) :
    load_walk fuel st 0 last = Sum.inr last := by
  cases fuel with
  | zero => rfl
  | succ fuel =>
    unfold load_walk
    rw [if_neg (by omega)]

/-- The fresh-device path: when the walk finds no record, sector 0 is erased and the fresh
record programmed at offset 0; neither driver call can fail there. -/
theorem load_manager_table_of_walk (st : State)
    (hwalk : load_walk (st.g_total_size + 1)
      { st with g_manager_loaded := false, g_manager_table := zero_manager,
                g_current_sector := 0, g_current_offset := 0 } 0 none = Sum.inr none) :
    load_manager_table st = (0, fresh_state st) := by
  have hS : FLASH_SECTOR_SIZE = 4096 := by decide!
  have hW : WIN_FLASH_TOTAL_SIZE = 65536 := by decide!
  have hM : SIZEOF_MANAGER = 692 := by decide!
  have hC : FLASH_WRITE_CHUNK_SIZE = 1024 := by decide!
  generalize hr : load_manager_table st = r
  unfold load_manager_table at hr
  lift_lets at hr
  extract_lets st0 m m1 at hr
  have hwalk1 : load_walk (st.g_total_size + 1) st0 0 none = Sum.inr none := hwalk
  rw [hwalk1] at hr
  generalize hE : win_flash_erase st0.flash 0 FLASH_SECTOR_SIZE = e at hr
  obtain ⟨er, fl1⟩ := e
  obtain ⟨her, hfl⟩ := Prod.mk.inj (hE.symm.trans (win_flash_erase_first st0.flash))
  subst her
  dsimp only at hr
  rw [if_neg (by decide)] at hr
  have hblank : ∀ j, j < SIZEOF_MANAGER → fl1.flash_cache (0 + j) = 0xFF := by
    intro j hj
    rw [hfl]
    exact mem_erase_in _ _ _ _ (by omega) (by omega)
  rw [write_with_chunks_blank fl1 0 (manager_bytes m1) SIZEOF_MANAGER (by omega) (by omega)
    (by rw [manager_bytes_length]) (by omega) hblank,
    List.take_of_length_le (by rw [manager_bytes_length])] at hr
  dsimp only at hr
  rw [if_neg (by decide)] at hr
  subst hr
  subst hfl
  rfl

theorem load_manager_table_fresh (st : State)
    (hinv : validate_manager_table
      (parse_manager (mem_read st.flash.flash_cache 0 SIZEOF_MANAGER)) ≠ 0) :
    load_manager_table st = (0, fresh_state st) :=
  load_manager_table_of_walk st (load_walk_invalid _ _ none hinv)

theorem fast_flash_init_fresh (st : State) (total_size : Nat) (allow_erase : Bool)
    (hinv : validate_manager_table
      (parse_manager (mem_read st.flash.flash_cache 0 SIZEOF_MANAGER)) ≠ 0) :
    fast_flash_init st total_size allow_erase =
      (0, fresh_state { st with g_total_size := total_size, g_allow_erase := allow_erase }) := by
  unfold fast_flash_init
  rw [load_manager_table_fresh
    { st with g_total_size := total_size, g_allow_erase := allow_erase } hinv]
  rfl

theorem fresh_state_record (st : State) :
    mem_read (fresh_state st).flash.flash_cache 0 SIZEOF_MANAGER =
      manager_bytes (fresh_state st).g_manager_table := by
  have := mem_read_write_same (mem_erase st.flash.flash_cache 0 FLASH_SECTOR_SIZE) 0
    (manager_bytes { fresh_manager st.g_total_size with
      crc := calculate_manager_table_crc (fresh_manager st.g_total_size) })
  rw [manager_bytes_length] at this
  exact this

theorem wf_zero_info : wf_info zero_info := by
  have hU : U32 = 4294967296 := by decide!
  unfold wf_info
  rw [hU]
  decide

theorem wf_fresh (total_size : Nat) (h : total_size < U32) :
    wf_manager { fresh_manager total_size with
      crc := calculate_manager_table_crc (fresh_manager total_size) } := by
  have hU : U32 = 4294967296 := by decide!
  have hM : SIZEOF_MANAGER = 692 := by decide!
  have hMG : MAGIC_NUMBER_MANAGER = 0xAAAA := by decide!
  have hV : MANAGER_TABLE_VERSION = 1 := by decide!
  have hT : MAX_TABLES_ALL_SECTOR = 24 := by decide!
  refine ⟨?_, calculate_crc32_lt _ _, ?_, ?_, h, ?_, ?_, ?_, ?_⟩
  · show MAGIC_NUMBER_MANAGER < 65536
    rw [hMG]; decide
  · show MANAGER_TABLE_VERSION < 256
    rw [hV]; decide
  · show 0 < 256
    decide
  · show 0 < U32
    rw [hU]; decide
  · show SIZEOF_MANAGER < U32
    rw [hU, hM]; decide
  · show (List.replicate 24 zero_info).length = MAX_TABLES_ALL_SECTOR
    rw [hT]; rfl
  · intro t ht
    have : t = zero_info := List.eq_of_mem_replicate ht
    rw [this]
    exact wf_zero_info

/-- The record a fresh-device initialisation leaves at offset 0 validates. -/
theorem fresh_state_valid (st : State) (h : st.g_total_size < U32) :
    validate_manager_table
      (parse_manager (mem_read (fresh_state st).flash.flash_cache 0 SIZEOF_MANAGER)) = 0 := by
  rw [fresh_state_record]
  show validate_manager_table (parse_manager (manager_bytes
    { fresh_manager st.g_total_size with
      crc := calculate_manager_table_crc (fresh_manager st.g_total_size) })) = 0
  rw [parse_manager_bytes _ (wf_fresh _ h)]
  exact validate_committed (fresh_manager st.g_total_size) rfl rfl

theorem blank_invalid :
    validate_manager_table
      (parse_manager (mem_read power_on.flash.flash_cache 0 SIZEOF_MANAGER)) ≠ 0 := by
  decide!

/-- The state `fresh_boot` is the state after `fast_flash_init` on a blank device. -/
theorem fresh_boot_init :
    fast_flash_init power_on WIN_FLASH_TOTAL_SIZE false = (0, fresh_boot) :=
  fast_flash_init_fresh power_on WIN_FLASH_TOTAL_SIZE false blank_invalid

theorem fresh_boot_valid :
    validate_manager_table
      (parse_manager (mem_read fresh_boot.flash.flash_cache 0 SIZEOF_MANAGER)) = 0 :=
  fresh_state_valid _ (by decide!)

/-- C18: when the first 692 bytes of the flash do not validate as a manager record,
`load_manager_table` returns 0 with the loaded flag set and the in-RAM manager the fresh record
(magic 0xAAAA, version 1, the given total size, used size 0, table count 0, next manager address
692, all 24 slots Invalid) with a CRC that validates; the same 692 bytes are at flash offset 0,
the cursor is (sector 0, offset 1384), and the erase-allowed flag has its value from before
(with this driver the erase of sector 0 and the program on the erased sector cannot fail). -/
theorem fresh_device_initialisation (st : State)
    (hinv : validate_manager_table
      (parse_manager (mem_read st.flash.flash_cache 0 SIZEOF_MANAGER)) ≠ 0) :
    (load_manager_table st).1 = 0 ∧
    (load_manager_table st).2.g_manager_loaded = true ∧
    (load_manager_table st).2.g_manager_table =
      { fresh_manager st.g_total_size with
        crc := calculate_manager_table_crc (fresh_manager st.g_total_size) } ∧
    (load_manager_table st).2.g_manager_table.magic = 0xAAAA ∧
    (load_manager_table st).2.g_manager_table.version = 1 ∧
    (load_manager_table st).2.g_manager_table.total_size = st.g_total_size ∧
    (load_manager_table st).2.g_manager_table.used_size = 0 ∧
    (load_manager_table st).2.g_manager_table.table_count = 0 ∧
    (load_manager_table st).2.g_manager_table.next_manager_addr = 692 ∧
    (load_manager_table st).2.g_manager_table.tables.length = 24 ∧
    (∀ i, (slot_at (load_manager_table st).2.g_manager_table i).status =
      TABLE_STATUS_INVALID) ∧
    validate_manager_table (load_manager_table st).2.g_manager_table = 0 ∧
    mem_read (load_manager_table st).2.flash.flash_cache 0 SIZEOF_MANAGER =
      manager_bytes (load_manager_table st).2.g_manager_table ∧
    (load_manager_table st).2.g_current_sector = 0 ∧
    (load_manager_table st).2.g_current_offset = 1384 ∧
    (load_manager_table st).2.g_allow_erase = st.g_allow_erase ∧
    (load_manager_table st).2.g_total_size = st.g_total_size := by
  have hM : SIZEOF_MANAGER = 692 := by decide!
  have hMG : MAGIC_NUMBER_MANAGER = 0xAAAA := by decide!
  rw [load_manager_table_fresh st hinv]
  have hvalid := validate_committed (fresh_manager st.g_total_size) rfl rfl
  refine ⟨rfl, rfl, rfl, hMG, rfl, rfl, rfl, rfl, hM, rfl, ?_, hvalid, ?_, rfl, ?_, rfl, rfl⟩
  · intro i
    show ((List.replicate 24 zero_info).getD i zero_info).status = TABLE_STATUS_INVALID
    rw [List.getD_eq_getElem?_getD, List.getElem?_replicate]
    split <;> rfl
  · have := mem_read_write_same (mem_erase st.flash.flash_cache 0 FLASH_SECTOR_SIZE) 0
      (manager_bytes { fresh_manager st.g_total_size with
        crc := calculate_manager_table_crc (fresh_manager st.g_total_size) })
    rw [manager_bytes_length] at this
    exact this
  · show SIZEOF_MANAGER + SIZEOF_MANAGER = 1384
    rw [hM]

/-- C19 at the failing input: `fast_flash_init(ops, 100, false)` on a blank device returns 0
with the manager loaded, although 100 < 692; it has erased sector 0 and programmed the 692 bytes
of a manager record at offset 0. -/
theorem init_accepts_small_device :
    (100 : Nat) < SIZEOF_MANAGER ∧
    (fast_flash_init power_on 100 false).1 = 0 ∧
    (fast_flash_init power_on 100 false).2.g_manager_loaded = true ∧
    (fast_flash_init power_on 100 false).2.g_manager_table.total_size = 100 ∧
    (fast_flash_init power_on 100 false).2.flash.ops =
      [flash_op.write 0 (manager_bytes (fast_flash_init power_on 100 false).2.g_manager_table),
       flash_op.erase 0 FLASH_SECTOR_SIZE] ∧
    (manager_bytes (fast_flash_init power_on 100 false).2.g_manager_table).length = 692 ∧
    mem_read (fast_flash_init power_on 100 false).2.flash.flash_cache 0 SIZEOF_MANAGER =
      manager_bytes (fast_flash_init power_on 100 false).2.g_manager_table := by
  have hM : SIZEOF_MANAGER = 692 := by decide!
  rw [fast_flash_init_fresh power_on 100 false blank_invalid]
  exact ⟨by rw [hM]; decide, rfl, rfl, rfl, rfl, by rw [manager_bytes_length, hM],
    fresh_state_record _⟩


/-! ## The chain of manager records -/

theorem validate_magic (t : flash_manager_table_t) (h : validate_manager_table t = 0) :
    t.magic = MAGIC_NUMBER_MANAGER := by
  unfold validate_manager_table at h
  by_contra hm
  rw [if_pos hm] at h
  exact absurd h (by decide)

theorem adopt_manager_table (st : State) (c : flash_manager_table_t) (s : Nat) :
    (adopt_manager st c s).g_manager_table = c ∧ (adopt_manager st c s).g_manager_loaded = true ∧
      (adopt_manager st c s).flash = st.flash ∧
      (adopt_manager st c s).g_total_size = st.g_total_size ∧
      (adopt_manager st c s).g_allow_erase = st.g_allow_erase :=
  ⟨rfl, rfl, rfl, rfl, rfl⟩

/-- The walk started at a readable, valid record adopts the end of the chain from there. -/
theorem load_walk_chain : ∀ (fuel : Nat) (st : State) (addr : Nat)
    (last : Option (flash_manager_table_t × Nat)),
    addr < st.g_total_size → st.g_total_size - addr ≤ fuel + 1 →
    (win_flash_read st.flash addr SIZEOF_MANAGER).1 = 0 →
    validate_manager_table (parse_manager (win_flash_read st.flash addr SIZEOF_MANAGER).2) = 0 →
    (∃ start, load_walk (fuel + 1) st addr last =
      Sum.inl (adopt_manager st
        (chain_last st.flash st.g_total_size fuel addr
          (parse_manager (win_flash_read st.flash addr SIZEOF_MANAGER).2)).2 start)) ∧
    chain_next st.flash st.g_total_size
      (chain_last st.flash st.g_total_size fuel addr
        (parse_manager (win_flash_read st.flash addr SIZEOF_MANAGER).2)).1
      (chain_last st.flash st.g_total_size fuel addr
        (parse_manager (win_flash_read st.flash addr SIZEOF_MANAGER).2)).2 = none := by
  intro fuel
  induction fuel with
  | zero =>
    intro st addr last ha hf hr hv
    have hmag := validate_magic _ hv
    generalize hm : parse_manager (win_flash_read st.flash addr SIZEOF_MANAGER).2 = m at hv hmag ⊢
    have hstop : m.next_manager_addr = 0 ∨ m.next_manager_addr ≥ st.g_total_size ∨
        m.next_manager_addr ≤ addr := by
      by_contra hc
      omega
    constructor
    · refine ⟨(addr + SIZEOF_MANAGER) % U32, ?_⟩
      unfold load_walk
      rw [if_pos ha]
      generalize hrd : win_flash_read st.flash addr SIZEOF_MANAGER = rd at hr hm
      obtain ⟨r1, b1⟩ := rd
      dsimp only at hr hm ⊢
      rw [if_neg (by rw [hr]; decide), hm, if_neg (by simp [hmag]), if_neg (by simp [hv]),
        if_pos hstop]
      rfl
    · show chain_next st.flash st.g_total_size addr m = none
      unfold chain_next
      rw [if_neg]
      intro hc
      omega
  | succ fuel ih =>
    intro st addr last ha hf hr hv
    have hmag := validate_magic _ hv
    generalize hm : parse_manager (win_flash_read st.flash addr SIZEOF_MANAGER).2 = m at hv hmag ⊢
    by_cases hstop : m.next_manager_addr = 0 ∨ m.next_manager_addr ≥ st.g_total_size ∨
        m.next_manager_addr ≤ addr
    · have hcn : chain_next st.flash st.g_total_size addr m = none := by
        unfold chain_next
        rw [if_neg]
        intro hc
        omega
      have hcl : chain_last st.flash st.g_total_size (fuel + 1) addr m = (addr, m) := by
        unfold chain_last
        rw [hcn]
      rw [hcl]
      refine ⟨⟨(addr + SIZEOF_MANAGER) % U32, ?_⟩, hcn⟩
      unfold load_walk
      rw [if_pos ha]
      generalize hrd : win_flash_read st.flash addr SIZEOF_MANAGER = rd at hr hm
      obtain ⟨r1, b1⟩ := rd
      dsimp only at hr hm ⊢
      rw [if_neg (by rw [hr]; decide), hm, if_neg (by simp [hmag]), if_neg (by simp [hv]),
        if_pos hstop]
    · by_cases hnext : (win_flash_read st.flash m.next_manager_addr SIZEOF_MANAGER).1 = 0 ∧
          validate_manager_table
            (parse_manager (win_flash_read st.flash m.next_manager_addr SIZEOF_MANAGER).2) = 0
      · have hcn : chain_next st.flash st.g_total_size addr m = some (m.next_manager_addr,
            parse_manager (win_flash_read st.flash m.next_manager_addr SIZEOF_MANAGER).2) := by
          unfold chain_next
          rw [if_pos ⟨by omega, by omega, by omega, hnext.1, hnext.2⟩]
        have hcl : chain_last st.flash st.g_total_size (fuel + 1) addr m =
            chain_last st.flash st.g_total_size fuel m.next_manager_addr
              (parse_manager (win_flash_read st.flash m.next_manager_addr SIZEOF_MANAGER).2) := by
          conv => lhs; unfold chain_last
          rw [hcn]
        rw [hcl]
        obtain ⟨⟨start, hw⟩, hend⟩ := ih st m.next_manager_addr (some (m, addr)) (by omega)
          (by omega) hnext.1 hnext.2
        refine ⟨⟨start, ?_⟩, hend⟩
        rw [← hw]
        conv => lhs; unfold load_walk
        rw [if_pos ha]
        have hmag2 := validate_magic _ hnext.2
        generalize hrd : win_flash_read st.flash addr SIZEOF_MANAGER = rd at hr hm
        obtain ⟨r1, b1⟩ := rd
        generalize hrd2 : win_flash_read st.flash m.next_manager_addr SIZEOF_MANAGER = rd2
          at hnext hmag2
        obtain ⟨r2, b2⟩ := rd2
        dsimp only at hr hm hnext hmag2 ⊢
        rw [if_neg (by rw [hr]; decide), hm, if_neg (by simp [hmag]), if_neg (by simp [hv]),
          if_neg hstop]
        rw [hrd2]
        dsimp only
        rw [if_neg (by rw [hnext.1]; decide), if_neg (by simp [hmag2, hnext.2])]
      · have hcn : chain_next st.flash st.g_total_size addr m = none := by
          unfold chain_next
          rw [if_neg]
          intro hc
          exact hnext ⟨hc.2.2.2.1, hc.2.2.2.2⟩
        have hcl : chain_last st.flash st.g_total_size (fuel + 1) addr m = (addr, m) := by
          unfold chain_last
          rw [hcn]
        rw [hcl]
        refine ⟨⟨(m.next_manager_addr + SIZEOF_MANAGER) % U32, ?_⟩, hcn⟩
        unfold load_walk
        rw [if_pos ha]
        generalize hrd : win_flash_read st.flash addr SIZEOF_MANAGER = rd at hr hm
        obtain ⟨r1, b1⟩ := rd
        generalize hrd2 : win_flash_read st.flash m.next_manager_addr SIZEOF_MANAGER = rd2
          at hnext
        obtain ⟨r2, b2⟩ := rd2
        dsimp only at hr hm hnext ⊢
        rw [if_neg (by rw [hr]; decide), hm, if_neg (by simp [hmag]), if_neg (by simp [hv]),
          if_neg hstop]
        rw [hrd2]
        dsimp only
        by_cases h2 : r2 = 0
        · have hv2 : validate_manager_table (parse_manager b2) ≠ 0 := fun h => hnext ⟨h2, h⟩
          rw [if_neg (by rw [h2]; decide), if_pos (Or.inr hv2)]
        · rw [if_pos h2]

/-- The walk of `load_manager_table` from a valid record at offset 0 ends at the last record of
the chain, which becomes the in-RAM manager; the driver is not asked to program or erase. -/
theorem load_manager_table_chain (st : State) (hpos : 0 < st.g_total_size)
    (hv : validate_manager_table
      (parse_manager (mem_read st.flash.flash_cache 0 SIZEOF_MANAGER)) = 0) :
    (load_manager_table st).1 = 0 ∧
    (load_manager_table st).2.g_manager_loaded = true ∧
    (load_manager_table st).2.g_manager_table =
      (chain_last st.flash st.g_total_size st.g_total_size 0
        (parse_manager (mem_read st.flash.flash_cache 0 SIZEOF_MANAGER))).2 ∧
    chain_next st.flash st.g_total_size
      (chain_last st.flash st.g_total_size st.g_total_size 0
        (parse_manager (mem_read st.flash.flash_cache 0 SIZEOF_MANAGER))).1
      (chain_last st.flash st.g_total_size st.g_total_size 0
        (parse_manager (mem_read st.flash.flash_cache 0 SIZEOF_MANAGER))).2 = none ∧
    (load_manager_table st).2.flash = st.flash := by
  have hrd : win_flash_read st.flash 0 SIZEOF_MANAGER =
      (0, mem_read st.flash.flash_cache 0 SIZEOF_MANAGER) :=
    win_flash_read_of_le _ _ _ (by decide!)
  have hc := load_walk_chain st.g_total_size
    { st with g_manager_loaded := false, g_manager_table := zero_manager,
              g_current_sector := 0, g_current_offset := 0 } 0 none hpos
    (Nat.le_succ_of_le (Nat.sub_le _ _)) (by rw [hrd]) (by rw [hrd]; exact hv)
  rw [hrd] at hc
  obtain ⟨⟨start, hw⟩, hend⟩ := hc
  generalize hr : load_manager_table st = r
  unfold load_manager_table at hr
  lift_lets at hr
  extract_lets st0 m m1 at hr
  have hw1 : load_walk (st.g_total_size + 1) st0 0 none = _ := hw
  rw [hw1] at hr
  subst hr
  exact ⟨rfl, rfl, rfl, hend, rfl⟩

/-- C17 (with a total size above 0): when the record at offset 0 validates,
`load_manager_table` returns 0 with the loaded flag set and the in-RAM manager equal to the last
record of the chain that starts at offset 0 (`chain_last` with `g_total_size` links of fuel, which
are enough: the chain does not continue from the record it gives), and it makes no driver write
or erase. -/
theorem discovery_adopts_chain_end (st : State) (hpos : 0 < st.g_total_size)
    (hv : validate_manager_table
      (parse_manager (mem_read st.flash.flash_cache 0 SIZEOF_MANAGER)) = 0) :
    (load_manager_table st).1 = 0 ∧
    (load_manager_table st).2.g_manager_loaded = true ∧
    (load_manager_table st).2.g_manager_table =
      (chain_last st.flash st.g_total_size st.g_total_size 0
        (parse_manager (mem_read st.flash.flash_cache 0 SIZEOF_MANAGER))).2 ∧
    chain_next st.flash st.g_total_size
      (chain_last st.flash st.g_total_size st.g_total_size 0
        (parse_manager (mem_read st.flash.flash_cache 0 SIZEOF_MANAGER))).1
      (chain_last st.flash st.g_total_size st.g_total_size 0
        (parse_manager (mem_read st.flash.flash_cache 0 SIZEOF_MANAGER))).2 = none ∧
    (load_manager_table st).2.flash = st.flash :=
  load_manager_table_chain st hpos hv


/-! ## CRC-32 -/

theorem gf2_div_step_false (r : Nat) : gf2_div_step r false = crc32_bit r := by
  unfold gf2_div_step crc32_bit
  show (bif Nat.beq (Nat.land r 1) 0 then Nat.xor (Nat.shiftRight r 1) 0
    else Nat.xor (Nat.xor (Nat.shiftRight r 1) 0) 0xEDB88320) = _
  rw [show Nat.xor (Nat.shiftRight r 1) 0 = Nat.shiftRight r 1 from Nat.xor_zero _]

theorem shiftRight_one_xor (a b : Nat) : (a ^^^ b) >>> 1 = a >>> 1 ^^^ b >>> 1 := by
  apply Nat.eq_of_testBit_eq
  intro i
  simp [Nat.testBit_xor, Nat.testBit_shiftRight]

theorem xor_interchange (x y k1 k2 q1 q2 : Nat) :
    ((x ^^^ y) ^^^ (k1 ^^^ k2)) ^^^ (q1 ^^^ q2) = ((x ^^^ k1) ^^^ q1) ^^^ ((y ^^^ k2) ^^^ q2) := by
  apply Nat.eq_of_testBit_eq
  intro i
  simp only [Nat.testBit_xor]
  cases x.testBit i <;> cases y.testBit i <;> cases k1.testBit i <;> cases k2.testBit i <;>
    cases q1.testBit i <;> cases q2.testBit i <;> rfl

theorem gf2_div_step_eq (r : Nat) (c : Bool) :
    gf2_div_step r c =
      ((r >>> 1) ^^^ (if c then 0x80000000 else 0)) ^^^
        (if r.testBit 0 then 0xEDB88320 else 0) := by
  unfold gf2_div_step
  have h1 : Nat.land r 1 = r % 2 := Nat.and_one_is_mod r
  have hc : (bif c then 0x80000000 else 0) = (if c = true then 0x80000000 else 0) := by
    cases c <;> rfl
  show (bif Nat.beq (Nat.land r 1) 0 then (r >>> 1) ^^^ (bif c then 0x80000000 else 0)
    else ((r >>> 1) ^^^ (bif c then 0x80000000 else 0)) ^^^ 0xEDB88320) = _
  rw [h1, Nat.testBit_zero, hc]
  rcases Nat.mod_two_eq_zero_or_one r with h | h
  · rw [h]
    exact (Nat.xor_zero _).symm
  · rw [h]
    rfl

theorem gf2_div_step_xor (a b : Nat) (c d : Bool) :
    gf2_div_step (a ^^^ b) (xor c d) = gf2_div_step a c ^^^ gf2_div_step b d := by
  rw [gf2_div_step_eq, gf2_div_step_eq, gf2_div_step_eq, Nat.testBit_xor, shiftRight_one_xor,
    ← xor_interchange]
  have hk : (if xor c d = true then 0x80000000 else 0) =
      (if c = true then 0x80000000 else 0) ^^^ (if d = true then 0x80000000 else 0) := by
    cases c <;> cases d <;> rfl
  have hq : (if xor (a.testBit 0) (b.testBit 0) = true then 0xEDB88320 else 0) =
      (if a.testBit 0 = true then 0xEDB88320 else 0) ^^^
        (if b.testBit 0 = true then 0xEDB88320 else 0) := by
    cases a.testBit 0 <;> cases b.testBit 0 <;> rfl
  rw [hk, hq]

theorem gf2_fold_xor : ∀ (d1 d2 : List Bool) (r1 r2 : Nat), d1.length = d2.length →
    (xor_bits d1 d2).foldl gf2_div_step (r1 ^^^ r2) =
      d1.foldl gf2_div_step r1 ^^^ d2.foldl gf2_div_step r2
  | [], [], _, _, _ => rfl
  | [], _ :: _, _, _, h => by simp at h
  | _ :: _, [], _, _, h => by simp at h
  | c :: d1, d :: d2, r1, r2, h => by
    show (xor_bits d1 d2).foldl gf2_div_step (gf2_div_step (r1 ^^^ r2) (xor c d)) = _
    rw [gf2_div_step_xor, gf2_fold_xor d1 d2 _ _ (by simpa using h)]
    rfl

theorem xor_bits_false : ∀ (l : List Bool), xor_bits (List.replicate l.length false) l = l
  | [] => rfl
  | b :: l => by
    show (xor false b) :: xor_bits (List.replicate l.length false) l = b :: l
    rw [xor_bits_false l, Bool.false_xor]

theorem crc32_loop_eq : ∀ (l : List Byte) (c : Nat), crc32_loop l c = l.foldl crc32_byte c
  | [], _ => rfl
  | b :: bs, c => by
    show (match crc32_byte c b with
      | 0 => crc32_loop bs 0
      | n + 1 => crc32_loop bs (n + 1)) = bs.foldl crc32_byte (crc32_byte c b)
    rcases h : crc32_byte c b with _ | n
    · exact crc32_loop_eq bs 0
    · exact crc32_loop_eq bs (n + 1)

theorem crc32_byte_eq (c : Nat) (b : Byte) :
    crc32_byte c b = (List.replicate 8 false).foldl gf2_div_step (c ^^^ b.val) := by
  show _ = gf2_div_step (gf2_div_step (gf2_div_step (gf2_div_step (gf2_div_step (gf2_div_step
    (gf2_div_step (gf2_div_step (c ^^^ b.val) false) false) false) false) false) false) false)
    false
  simp only [gf2_div_step_false]
  rfl

theorem gf2_rem_byte : ∀ b : Byte,
    (List.replicate 8 false).foldl gf2_div_step b.val =
      gf2_rem (byte_bits b ++ List.replicate 32 false) := by
  decide!

theorem gf2_fold_zeros_xor (k x y : Nat) :
    (List.replicate k false).foldl gf2_div_step (x ^^^ y) =
      (List.replicate k false).foldl gf2_div_step x ^^^
        (List.replicate k false).foldl gf2_div_step y := by
  have h := gf2_fold_xor (List.replicate k false) (List.replicate k false) x y rfl
  have hx := xor_bits_false (List.replicate k false)
  rw [List.length_replicate] at hx
  rw [hx] at h
  exact h

theorem message_bits_append : ∀ (l1 l2 : List Byte),
    message_bits (l1 ++ l2) = message_bits l1 ++ message_bits l2
  | [], _ => rfl
  | b :: l1, l2 => by
    show byte_bits b ++ message_bits (l1 ++ l2) = (byte_bits b ++ message_bits l1) ++ _
    rw [message_bits_append l1 l2, List.append_assoc]

theorem message_bits_length : ∀ (l : List Byte), (message_bits l).length = 8 * l.length
  | [] => rfl
  | b :: l => by
    show (byte_bits b ++ message_bits l).length = 8 * (l.length + 1)
    rw [List.length_append, message_bits_length l]
    show 8 + _ = _
    omega

/-- The register of the byte-wise loop started at `c` is the sum of the register of the loop
started at 0 and of `c` shifted through the same number of bits. -/
theorem crc32_fold_split : ∀ (data : List Byte) (c : Nat),
    data.foldl crc32_byte c =
      (List.replicate (8 * data.length) false).foldl gf2_div_step c ^^^ data.foldl crc32_byte 0
  | [], c => (Nat.xor_zero c).symm
  | b :: bs, c => by
    have e : 8 * (b :: bs).length = 8 + 8 * bs.length := by
      rw [List.length_cons]; omega
    rw [List.foldl_cons, List.foldl_cons, crc32_fold_split bs (crc32_byte c b),
      crc32_fold_split bs (crc32_byte 0 b), e, List.replicate_add,
      List.foldl_append, crc32_byte_eq c b, crc32_byte_eq 0 b, Nat.zero_xor,
      gf2_fold_zeros_xor 8, gf2_fold_zeros_xor (8 * bs.length), Nat.xor_assoc]

/-- The register of the byte-wise loop started at 0 is the remainder of the message polynomial
times x^32. -/
theorem crc32_fold_zero (data : List Byte) :
    data.foldl crc32_byte 0 = gf2_rem (message_bits data ++ List.replicate 32 false) := by
  induction data using List.reverseRecOn with
  | nil => decide!
  | append_singleton l b ih =>
    have hb : message_bits [b] = byte_bits b := List.append_nil _
    have h40 : (byte_bits b ++ List.replicate 32 false) =
        xor_bits (List.replicate 32 false ++ List.replicate 8 false)
          (byte_bits b ++ List.replicate 32 false) := by
      have := xor_bits_false (byte_bits b ++ List.replicate 32 false)
      exact this.symm
    have hx := gf2_fold_xor (List.replicate 32 false ++ List.replicate 8 false)
      (byte_bits b ++ List.replicate 32 false) (gf2_rem (message_bits l)) 0 rfl
    rw [← h40, Nat.xor_zero] at hx
    unfold gf2_rem at ih hx ⊢
    rw [List.foldl_append] at ih
    rw [List.foldl_append, List.foldl_cons, List.foldl_nil, crc32_byte_eq, gf2_fold_zeros_xor,
      message_bits_append, hb, List.append_assoc, List.foldl_append, hx, List.foldl_append, ← ih,
      gf2_rem_byte b]
    rfl

theorem calculate_crc32_eq_ieee (data : List Byte) :
    calculate_crc32 data data.length = crc32_ieee data := by
  have hI : (List.replicate 32 true).foldl gf2_div_step 0 = 0xFFFFFFFF := by decide!
  have hx := gf2_fold_xor (message_bits data ++ List.replicate 32 false)
    (List.replicate 32 true ++ List.replicate (8 * data.length) false) 0 0 (by
      rw [List.length_append, List.length_append, message_bits_length]
      simp only [List.length_replicate]; omega)
  rw [Nat.xor_zero, List.foldl_append (l := List.replicate 32 true), hI] at hx
  unfold calculate_crc32 crc32_ieee gf2_rem
  rw [List.take_length, crc32_loop_eq, crc32_fold_split, crc32_fold_zero, hx,
    Nat.xor_comm (List.foldl _ _ (List.replicate _ _))]
  rfl

/-- C15: `calculate_crc32` over a whole byte sequence is the CRC-32 of IEEE 802.3 defined by
polynomial division over GF(2) (`crc32_ieee`: reflected, generator 0xEDB88320, initial value and
final exclusive or 0xFFFFFFFF); the ASCII string `123456789` gives 0xCBF43926 and the empty
sequence gives 0. -/
theorem calculate_crc32_is_ieee (data : List Byte) :
    calculate_crc32 data data.length = crc32_ieee data ∧
    calculate_crc32 [49, 50, 51, 52, 53, 54, 55, 56, 57] 9 = 0xCBF43926 ∧
    crc32_ieee [49, 50, 51, 52, 53, 54, 55, 56, 57] = 0xCBF43926 ∧
    calculate_crc32 [] 0 = 0 ∧ crc32_ieee [] = 0 := by
  have h9 : calculate_crc32 [49, 50, 51, 52, 53, 54, 55, 56, 57] 9 = 0xCBF43926 := by decide!
  have h0 : calculate_crc32 [] 0 = 0 := by decide!
  exact ⟨calculate_crc32_eq_ieee data, h9,
    (calculate_crc32_eq_ieee [49, 50, 51, 52, 53, 54, 55, 56, 57]).symm.trans h9, h0,
    (calculate_crc32_eq_ieee []).symm.trans h0⟩

/-! ## Manager validation on record images -/

/-- C16: for a 692-byte record image `b`, `validate_manager_table` returns 0 exactly when the
magic field is 0xAAAA, the version field is 1 and the crc field is the CRC32 of the 686 bytes of
`b` from offset 6 (the version field) to the end of the slot array; the image of the record read
from `b` is `b` itself; and the CRC computed for a record does not depend on its magic and crc
fields. -/
theorem validate_manager_table_exact (b : List Byte) (hb : b.length = SIZEOF_MANAGER) :
    (validate_manager_table (parse_manager b) = 0 ↔
      (parse_manager b).magic = 0xAAAA ∧ (parse_manager b).version = 1 ∧
        (parse_manager b).crc = calculate_crc32 (b.drop 6) 686) ∧
    (b.drop 6).length = 686 ∧
    (parse_manager b).magic = le_val (b.take 2) ∧
    (parse_manager b).crc = le_val ((b.drop 2).take 4) ∧
    (parse_manager b).version = le_val ((b.drop 6).take 1) ∧
    manager_bytes (parse_manager b) = b ∧
    ∀ (t : flash_manager_table_t) (a c : Nat),
      calculate_manager_table_crc { t with magic := a, crc := c } =
        calculate_manager_table_crc t := by
  have hZ : SIZEOF_MANAGER = 692 := by decide!
  have h := (validate_manager_table_iff (parse_manager b)).1
  rw [manager_bytes_parse b hb] at h
  exact ⟨h, by rw [List.length_drop, hb, hZ], rfl, rfl, rfl, manager_bytes_parse b hb,
    fun t a c => manager_crc_independent t a c⟩

/-! ## Persistence across re-initialisation -/

theorem chain_next_some (d : win_flash) (total a : Nat) (m : flash_manager_table_t)
    (y : Nat × flash_manager_table_t) (h : chain_next d total a m = some y) :
    y.1 = m.next_manager_addr ∧ a < y.1 ∧ y.1 < total ∧ y.1 ≠ 0 ∧
    (win_flash_read d y.1 SIZEOF_MANAGER).1 = 0 ∧
    y.2 = parse_manager (win_flash_read d y.1 SIZEOF_MANAGER).2 ∧
    validate_manager_table y.2 = 0 := by
  unfold chain_next at h
  split at h
  · rename_i hc
    have := Option.some.inj h
    subst this
    exact ⟨rfl, hc.2.2.1, hc.2.1, hc.1, hc.2.2.2.1, rfl, hc.2.2.2.2⟩
  · exact absurd h (by simp)

theorem win_flash_read_ok_bound (d : win_flash) (a n : Nat) (hlt : a + n < U32)
    (h : (win_flash_read d a n).1 = 0) :
    a + n ≤ WIN_FLASH_TOTAL_SIZE ∧ (win_flash_read d a n).2 = mem_read d.flash_cache a n := by
  unfold win_flash_read at h ⊢
  by_cases hb : (a + n) % U32 > WIN_FLASH_TOTAL_SIZE
  · rw [if_pos hb] at h
    exact absurd h (by decide)
  · rw [if_neg hb]
    rw [Nat.mod_eq_of_lt hlt] at hb
    exact ⟨by omega, rfl⟩

/-- A link of the chain depends only on the bytes of the record it leads to. -/
theorem chain_step_congr (d d' : win_flash) (total : Nat) (x y : Nat × flash_manager_table_t)
    (ht : total ≤ WIN_FLASH_TOTAL_SIZE) (h : chain_step d total x y)
    (hsame : ∀ a, y.1 ≤ a → a < y.1 + SIZEOF_MANAGER → d'.flash_cache a = d.flash_cache a) :
    chain_step d' total x y := by
  have hU : U32 = 4294967296 := by decide!
  have hW : WIN_FLASH_TOTAL_SIZE = 65536 := by decide!
  have hM : SIZEOF_MANAGER = 692 := by decide!
  obtain ⟨h1, h2, h3, h4, h5, h6, h7⟩ := chain_next_some d total x.1 x.2 y h
  obtain ⟨hb, hr⟩ := win_flash_read_ok_bound d y.1 SIZEOF_MANAGER (by omega) h5
  have hrd : win_flash_read d' y.1 SIZEOF_MANAGER = win_flash_read d y.1 SIZEOF_MANAGER := by
    rw [win_flash_read_of_le d' _ _ hb, win_flash_read_of_le d _ _ hb,
      mem_read_congr _ _ _ _ hsame]
  unfold chain_step chain_next
  rw [← h1, hrd, if_pos ⟨h4, h3, h2, h5, by rw [← h6]; exact h7⟩, ← h6]

/-- The addresses along the chain increase. -/
theorem chain_reach_le (d : win_flash) (total : Nat) (x y : Nat × flash_manager_table_t)
    (h : Relation.ReflTransGen (chain_step d total) x y) : x.1 ≤ y.1 := by
  induction h with
  | refl => exact Nat.le_refl _
  | @tail b c _ hstep ih =>
    obtain ⟨_, h2, _⟩ := chain_next_some d total b.1 b.2 c hstep
    omega

/-- A path of the chain survives every change of the flash above its last record. -/
theorem chain_reach_congr (d d' : win_flash) (total : Nat) (x y : Nat × flash_manager_table_t)
    (ht : total ≤ WIN_FLASH_TOTAL_SIZE)
    (h : Relation.ReflTransGen (chain_step d total) x y) :
    (∀ a, a < y.1 + SIZEOF_MANAGER → d'.flash_cache a = d.flash_cache a) →
    Relation.ReflTransGen (chain_step d' total) x y := by
  induction h with
  | refl => intro _; exact Relation.ReflTransGen.refl
  | @tail b c hxb hstep ih =>
    intro hsame
    obtain ⟨_, h2, _⟩ := chain_next_some d total b.1 b.2 c hstep
    exact Relation.ReflTransGen.tail (ih (fun a ha => hsame a (by omega)))
      (chain_step_congr d d' total b c ht hstep (fun a _ ha => hsame a ha))

/-- With enough fuel `chain_last` is the end of the chain: a record the chain leads to and
does not continue from. -/
theorem chain_last_of_reach (d : win_flash) (total : Nat) :
    ∀ (fuel : Nat) (x y : Nat × flash_manager_table_t),
    Relation.ReflTransGen (chain_step d total) x y → chain_next d total y.1 y.2 = none →
    chain_next d total (chain_last d total fuel x.1 x.2).1 (chain_last d total fuel x.1 x.2).2
      = none →
    chain_last d total fuel x.1 x.2 = y := by
  intro fuel
  induction fuel with
  | zero =>
    intro x y hxy hy hend
    rcases Relation.ReflTransGen.cases_head hxy with h | ⟨b, hstep, _⟩
    · rw [← h]; rfl
    · have : chain_next d total x.1 x.2 = none := hend
      unfold chain_step at hstep
      rw [this] at hstep
      exact absurd hstep (by simp)
  | succ fuel ih =>
    intro x y hxy hy hend
    rcases Relation.ReflTransGen.cases_head hxy with h | ⟨b, hstep, hrest⟩
    · subst h
      unfold chain_last
      rw [hy]
    · unfold chain_step at hstep
      have e : chain_last d total (fuel + 1) x.1 x.2 = chain_last d total fuel b.1 b.2 := by
        conv => lhs; unfold chain_last
        rw [hstep]
      rw [e] at hend ⊢
      exact ih b y hrest hy hend


/-- An erased record does not validate. -/
theorem blank_record_invalid (c : Nat → Byte) (a : Nat)
    (h : ∀ x, a ≤ x → x < a + SIZEOF_MANAGER → c x = 0xFF) :
    validate_manager_table (parse_manager (mem_read c a SIZEOF_MANAGER)) ≠ 0 := by
  have hM : SIZEOF_MANAGER = 692 := by decide!
  have e : mem_read c a SIZEOF_MANAGER = mem_read (fun _ => 0xFF) 0 SIZEOF_MANAGER := by
    unfold mem_read
    apply List.map_congr_left
    intro i hi
    have := List.mem_range.mp hi
    exact h (a + i) (by omega) (by omega)
  rw [e]
  exact blank_invalid

/-- In a consistent state the chain does not continue from the in-RAM manager: the slot
reserved for the next version is erased. -/
theorem chain_ends_at_manager (st : State) (hc : Consistent st) (A : Nat) :
    chain_next st.flash st.g_total_size A st.g_manager_table = none := by
  have hres := hc.reserve_le
  have hcl := hc.cursor_le
  unfold chain_next
  rw [if_neg]
  intro hcon
  obtain ⟨_, _, _, _, h5⟩ := hcon
  rw [win_flash_read_of_le _ _ _ (by omega)] at h5
  exact blank_record_invalid _ _ (fun x h1 h2 => hc.reserve_blank x h1 h2) h5

/-- The functions that read tables see only the flash, the manager table and the loaded
flag. -/
theorem reads_congr (st st' : State) (hf : st'.flash = st.flash)
    (hm : st'.g_manager_table = st.g_manager_table)
    (hl : st'.g_manager_loaded = st.g_manager_loaded) (name : List Byte) (k sz : Nat) :
    fast_flash_table_exists st' name = fast_flash_table_exists st name ∧
    fast_flash_get_table_count st' name = fast_flash_get_table_count st name ∧
    fast_flash_read_table_data st' name k sz = fast_flash_read_table_data st name k sz ∧
    fast_flash_get_used_size st' = fast_flash_get_used_size st := by
  have hfi : find_table_index st' name = find_table_index st name := by
    unfold find_table_index
    rw [hm]
  unfold fast_flash_table_exists fast_flash_get_table_count fast_flash_read_table_data
    fast_flash_get_used_size
  rw [hfi, hf, hm, hl]
  exact ⟨rfl, rfl, rfl, rfl⟩

/-- Re-initialisation of a consistent state whose manager is on flash adopts that manager and
leaves the flash alone. -/
theorem reinit_of_persisted (st : State) (hc : Consistent st) (hp : Persisted st)
    (allow_erase : Bool) :
    (fast_flash_init st st.g_total_size allow_erase).1 = 0 ∧
    (fast_flash_init st st.g_total_size allow_erase).2.g_manager_loaded = true ∧
    (fast_flash_init st st.g_total_size allow_erase).2.g_manager_table = st.g_manager_table ∧
    (fast_flash_init st st.g_total_size allow_erase).2.flash = st.flash := by
  obtain ⟨A, hreach, _⟩ := hp.chain
  obtain ⟨h1, h2, h3, h4, h5⟩ := load_manager_table_chain
    { st with g_total_size := st.g_total_size, g_allow_erase := allow_erase } hp.size_pos hp.first
  have hend := chain_ends_at_manager st hc A
  have hlast := chain_last_of_reach st.flash st.g_total_size st.g_total_size _ _ hreach hend h4
  have h3' : (load_manager_table
      { st with g_total_size := st.g_total_size, g_allow_erase := allow_erase }).2.g_manager_table
      = st.g_manager_table := by
    rw [h3]
    exact congrArg Prod.snd hlast
  generalize hr : load_manager_table
    { st with g_total_size := st.g_total_size, g_allow_erase := allow_erase } = r at h1 h2 h3' h5
  obtain ⟨r1, r2⟩ := r
  unfold fast_flash_init
  rw [hr]
  dsimp only at h1 h2 h3' h5 ⊢
  subst h1
  rw [if_neg (by decide)]
  exact ⟨rfl, h2, h3', h5⟩

theorem wf_committed (M : flash_manager_table_t) (res : Nat) (hM : wf_manager M)
    (hres : res < U32) : wf_manager (committed_manager M res) := by
  obtain ⟨h1, _, h3, h4, h5, h6, _, h8, h9⟩ := hM
  exact ⟨h1, calculate_crc32_lt _ _, h3, h4, h5, h6, hres, h8, h9⟩

theorem wf_slot_at (M : flash_manager_table_t) (hM : wf_manager M) (i : Nat) :
    wf_info (slot_at M i) := by
  unfold slot_at
  rw [List.getD_eq_getElem?_getD]
  by_cases h : i < M.tables.length
  · rw [List.getElem?_eq_getElem h]
    exact hM.2.2.2.2.2.2.2.2 _ (List.getElem_mem h)
  · rw [List.getElem?_eq_none (by omega)]
    exact wf_zero_info

theorem wf_set_slot (M : flash_manager_table_t) (hM : wf_manager M) (i : Nat)
    (t : flash_table_info_t) (ht : wf_info t) :
    wf_manager { M with tables := M.tables.set i t } := by
  obtain ⟨h1, h2, h3, h4, h5, h6, h7, h8, h9⟩ := hM
  refine ⟨h1, h2, h3, h4, h5, h6, h7, ?_, ?_⟩
  · show (M.tables.set i t).length = _
    rw [List.length_set]; exact h8
  · intro x hx
    rcases List.mem_or_eq_of_mem_set hx with h | h
    · exact h9 x h
    · rw [h]; exact ht

theorem validate_committed_manager (M : flash_manager_table_t) (res : Nat)
    (hm : M.magic = MAGIC_NUMBER_MANAGER) (hv : M.version = MANAGER_TABLE_VERSION) :
    validate_manager_table (committed_manager M res) = 0 :=
  validate_committed { M with next_manager_addr := res } hm hv

/-- A commit keeps the manager on flash: when an operation leaves the flash below the reserved
slot alone, programs the image of its new in-RAM manager into the reserved slot, and that
manager is a committed well-formed record with a new reservation behind the slot, the chain from
offset 0 leads to the new manager. -/
theorem persisted_commit (st st' : State) (hc : Consistent st) (hp : Persisted st)
    (M : flash_manager_table_t) (res : Nat)
    (hmgr : st'.g_manager_table = committed_manager M res)
    (hMm : M.magic = st.g_manager_table.magic) (hMv : M.version = st.g_manager_table.version)
    (hMwf : wf_manager M)
    (hres : res + SIZEOF_MANAGER ≤ st.g_total_size)
    (hRres : st.g_manager_table.next_manager_addr + SIZEOF_MANAGER ≤ res)
    (hR0 : st.g_manager_table.next_manager_addr ≠ 0)
    (hRt : st.g_manager_table.next_manager_addr < st.g_total_size)
    (hfr : ∀ x, x < st.g_manager_table.next_manager_addr →
      st'.flash.flash_cache x = st.flash.flash_cache x)
    (hrec : mem_read st'.flash.flash_cache st.g_manager_table.next_manager_addr SIZEOF_MANAGER =
      manager_bytes st'.g_manager_table)
    (htot : st'.g_total_size = st.g_total_size) : Persisted st' := by
  have hU : U32 = 4294967296 := by decide!
  have hW : WIN_FLASH_TOTAL_SIZE = 65536 := by decide!
  have hM : SIZEOF_MANAGER = 692 := by decide!
  have hres0 := hc.reserve_le
  have hcl := hc.cursor_le
  have htl := hc.total_le
  obtain ⟨A, hreach, hA⟩ := hp.chain
  have hwf' : wf_manager st'.g_manager_table := by
    rw [hmgr]; exact wf_committed M res hMwf (by omega)
  have hval' : validate_manager_table st'.g_manager_table = 0 := by
    rw [hmgr]
    exact validate_committed_manager M res (hMm.trans hp.magic) (hMv.trans hp.version)
  have hfirst : mem_read st'.flash.flash_cache 0 SIZEOF_MANAGER =
      mem_read st.flash.flash_cache 0 SIZEOF_MANAGER :=
    mem_read_congr _ _ _ _ (fun x _ hx => hfr x (by omega))
  refine ⟨by rw [htot]; exact hp.size_pos, by rw [hfirst]; exact hp.first, hwf', ?_, ?_, ?_⟩
  · rw [hmgr]; exact hMm.trans hp.magic
  · rw [hmgr]; exact hMv.trans hp.version
  · refine ⟨st.g_manager_table.next_manager_addr, ?_, by rw [hmgr]; exact hRres⟩
    rw [hfirst, htot]
    refine Relation.ReflTransGen.tail
      (chain_reach_congr st.flash st'.flash _ _ _ htl hreach (fun a ha => hfr a (by
        show a < st.g_manager_table.next_manager_addr
        have : a < A + SIZEOF_MANAGER := ha
        omega))) ?_
    unfold chain_step chain_next
    dsimp only
    rw [win_flash_read_of_le _ _ _ (by omega)]
    dsimp only
    rw [hrec, parse_manager_bytes _ hwf', if_pos ⟨hR0, hRt, by omega, rfl, hval'⟩]

/-- A successful `save_manager_table` from a consistent intermediate state that still has the
reserved slot and the flash below it of a state whose manager is on flash. -/
theorem persisted_save (st st2 : State) (hc : Consistent st) (hp : Persisted st)
    (hc2 : Consistent st2)
    (hnx : st2.g_manager_table.next_manager_addr = st.g_manager_table.next_manager_addr)
    (hfl : ∀ x, x < st.g_manager_table.next_manager_addr →
      st2.flash.flash_cache x = st.flash.flash_cache x)
    (hm : st2.g_manager_table.magic = st.g_manager_table.magic)
    (hv : st2.g_manager_table.version = st.g_manager_table.version)
    (hwf : wf_manager st2.g_manager_table)
    (htot : st2.g_total_size = st.g_total_size)
    (h : (save_manager_table st2).1 = 0) :
    Persisted (save_manager_table st2).2 ∧
      (save_manager_table st2).2.g_total_size = st.g_total_size := by
  obtain ⟨_, hmgr, hout, hrd, htot2, _⟩ := save_consistent st2 hc2 h
  obtain ⟨h1, h2, hfit, _⟩ := save_ok st2 hc2.cursor_le hc2.reserve_le
    (fun _ => hc2.reserve_blank _ (Nat.le_refl _) (by
      have : 0 < SIZEOF_MANAGER := by decide!
      omega)) h
  obtain ⟨hn1, _, _⟩ := next_reservation_spec (cursor_pos st2)
  have hres2 := hc2.reserve_le
  rw [hnx] at h1 h2 hrd hres2
  rw [htot] at h2 hfit
  exact ⟨persisted_commit st _ hc hp st2.g_manager_table (next_reservation (cursor_pos st2))
    hmgr hm hv hwf hfit (by omega) h1 h2
    (fun x hx => by rw [hout x (Or.inl (by rw [hnx]; exact hx))]; exact hfl x hx)
    (by rw [hmgr]; exact hrd) (htot2.trans htot), htot2.trans htot⟩

/-- A successful relocation of a table (the common tail of append, overwrite, batch and clear)
keeps the manager on flash. -/
theorem persisted_relocate (st0 : State) (hc : Consistent st0) (hp : Persisted st0)
    (ndl idx : Nat) (header : table_header_t) (all_data : List Byte) (skip : Bool)
    (info : flash_table_info_t) (a : Nat) (st1 : State) (hndl : ndl < U32)
    (hal : allocate_table_space st0 ((SIZEOF_HEADER + ndl) % U32) = (0, a, st1))
    (hrc : (relocate_commit st1 idx a header all_data ndl skip info).1 = 0)
    (hinfo : a + SIZEOF_HEADER + ndl ≤ WIN_FLASH_TOTAL_SIZE → wf_info info) :
    Persisted (relocate_commit st1 idx a header all_data ndl skip info).2 ∧
      (relocate_commit st1 idx a header all_data ndl skip info).2.g_total_size =
        st0.g_total_size := by
  obtain ⟨h1, h2, _, _, h5, _, h7, h8, _, _, _, h12, _, _, hR0, hRt, hrec⟩ :=
    relocate_ok_full st0 hc ndl idx header all_data skip info a st1 hndl hal hrc
  obtain ⟨hn1, _, _⟩ := next_reservation_spec (a + SIZEOF_HEADER + ndl)
  have hres := hc.reserve_le
  exact ⟨persisted_commit st0 _ hc hp
    { st0.g_manager_table with tables := st0.g_manager_table.tables.set idx info }
    (next_reservation (a + SIZEOF_HEADER + ndl)) h5 rfl rfl
    (wf_set_slot _ hp.wf idx info (hinfo h2)) h7 (by omega) hR0 hRt
    (fun x hx => h8 x (by omega) (Or.inl hx)) hrec h12, h12⟩

theorem wf_info_moved (t : flash_table_info_t) (ht : wf_info t) (a sz us : Nat)
    (ha : a < U32) (hsz : sz < U32) (hus : us < U32) :
    wf_info { t with addr := a, size := sz, used_size := us } := by
  obtain ⟨h1, _, _, _, h5, h6, h7, h8⟩ := ht
  exact ⟨h1, ha, hsz, hus, h5, h6, h7, h8⟩

theorem persisted_append (st : State) (name d : List Byte) (s : Nat)
    (hc : Consistent st) (hp : Persisted st)
    (hw : (fast_flash_write_table_data st name d s).1 = 0) :
    Persisted (fast_flash_write_table_data st name d s).2 ∧
      (fast_flash_write_table_data st name d s).2.g_total_size = st.g_total_size := by
  have hU : U32 = 4294967296 := by decide!
  have hW : WIN_FLASH_TOTAL_SIZE = 65536 := by decide!
  obtain ⟨i, hi, _, _⟩ := find_table_index_nonneg st name (append_found st name d s hw)
  have hs := write_table_data_size st name d s i hc hi hw
  obtain ⟨a, st1, hal, heq⟩ := write_table_data_run st name d s i hc hi hs hw
  obtain ⟨hl1, _⟩ := parse_header_lt
    (mem_read st.flash.flash_cache (slot_at st.g_manager_table i).addr SIZEOF_HEADER)
  rw [heq] at hw ⊢
  exact persisted_relocate st hc hp _ i _ _ false _ a st1 (Nat.mod_lt _ (by omega)) hal hw
    (fun hb => wf_info_moved _ (wf_slot_at _ hp.wf i) _ _ _ (by omega) hl1
      (Nat.mod_lt _ (by omega)))

theorem persisted_overwrite (st : State) (name d : List Byte) (k s : Nat)
    (hc : Consistent st) (hp : Persisted st)
    (hw : (fast_flash_write_table_data_by_index st name k d s).1 = 0) :
    Persisted (fast_flash_write_table_data_by_index st name k d s).2 ∧
      (fast_flash_write_table_data_by_index st name k d s).2.g_total_size = st.g_total_size := by
  have hU : U32 = 4294967296 := by decide!
  have hW : WIN_FLASH_TOTAL_SIZE = 65536 := by decide!
  obtain ⟨i, hi, _, _⟩ := find_table_index_nonneg st name (overwrite_found st name d k s hw)
  obtain ⟨_, _, a, st1, hal, heq⟩ := write_by_index_run st name d k s i hc hi hw
  obtain ⟨_, hl2, _⟩ := parse_header_lt
    (mem_read st.flash.flash_cache (slot_at st.g_manager_table i).addr SIZEOF_HEADER)
  rw [heq] at hw ⊢
  have hwi := wf_slot_at _ hp.wf i
  exact persisted_relocate st hc hp _ i _ _ false _ a st1 hl2 hal hw
    (fun hb => wf_info_moved _ hwi _ _ _ (by omega) hwi.2.2.1 (Nat.mod_lt _ (by omega)))

theorem persisted_batch (st : State) (name data : List Byte) (s k : Nat)
    (hc : Consistent st) (hp : Persisted st)
    (hw : (fast_flash_write_table_data_batch st name data s k).1 = 0) :
    Persisted (fast_flash_write_table_data_batch st name data s k).2 ∧
      (fast_flash_write_table_data_batch st name data s k).2.g_total_size = st.g_total_size := by
  have hU : U32 = 4294967296 := by decide!
  have hW : WIN_FLASH_TOTAL_SIZE = 65536 := by decide!
  obtain ⟨i, hi, _, _⟩ := find_table_index_nonneg st name (batch_found st name data s k hw)
  obtain ⟨_, a, st1, hal, heq⟩ := batch_run st name data s k i hc hi hw
  obtain ⟨hl1, _⟩ := parse_header_lt
    (mem_read st.flash.flash_cache (slot_at st.g_manager_table i).addr SIZEOF_HEADER)
  rw [heq] at hw ⊢
  exact persisted_relocate st hc hp _ i _ _ false _ a st1 (Nat.mod_lt _ (by omega)) hal hw
    (fun hb => wf_info_moved _ (wf_slot_at _ hp.wf i) _ _ _ (by omega) hl1
      (Nat.mod_lt _ (by omega)))

theorem persisted_delete (st : State) (name : List Byte)
    (hc : Consistent st) (hp : Persisted st)
    (hw : (fast_flash_delete_table st name).1 = 0) :
    Persisted (fast_flash_delete_table st name).2 ∧
      (fast_flash_delete_table st name).2.g_total_size = st.g_total_size := by
  obtain ⟨i, hi, _, _⟩ := find_table_index_nonneg st name (delete_found st name hw)
  obtain ⟨i', hi', hi24, hval⟩ := find_table_index_nonneg st name (by rw [hi]; omega)
  have hii : i' = i := Int.ofNat.inj (hi'.symm.trans hi)
  subst hii
  have hlt : i' < st.g_manager_table.tables.length := by rw [hc.slots]; exact hi24
  unfold fast_flash_delete_table at hw ⊢
  rw [if_neg (by simp [hc.loaded]), if_neg (by rw [hi]; omega)] at hw ⊢
  rw [hi] at hw ⊢
  rw [Int.toNat_ofNat] at hw ⊢
  dsimp only at hw ⊢
  generalize hst2 : ({ set_slot st i'
      { slot_at st.g_manager_table i' with status := TABLE_STATUS_DELETED } with
      g_manager_table :=
        { (set_slot st i'
            { slot_at st.g_manager_table i' with status := TABLE_STATUS_DELETED }).g_manager_table
          with table_count := ((set_slot st i'
            { slot_at st.g_manager_table i' with
              status := TABLE_STATUS_DELETED }).g_manager_table.table_count + 256 - 1) % 256 } }
      : State) = st2 at hw ⊢
  have e_i : slot_at st2.g_manager_table i' =
      { slot_at st.g_manager_table i' with status := TABLE_STATUS_DELETED } := by
    rw [← hst2]
    exact slot_at_set_same _ _ _ hlt
  have e_o : ∀ j, j ≠ i' → slot_at st2.g_manager_table j = slot_at st.g_manager_table j := by
    intro j hj
    rw [← hst2]
    exact slot_at_set_ne _ _ _ _ (Ne.symm hj)
  have e_fl : st2.flash = st.flash := by rw [← hst2]; rfl
  have e_cur : cursor_pos st2 = cursor_pos st := by rw [← hst2]; rfl
  have e_nx : st2.g_manager_table.next_manager_addr = st.g_manager_table.next_manager_addr := by
    rw [← hst2]; rfl
  have e_cnt : st2.g_manager_table.table_count =
      (st.g_manager_table.table_count + 256 - 1) % 256 := by rw [← hst2]; rfl
  have e_us : st2.g_manager_table.used_size = st.g_manager_table.used_size := by
    rw [← hst2]; rfl
  have hc2 : Consistent st2 := by
    refine ⟨by rw [← hst2]; exact hc.loaded, ?_, by rw [← hst2]; exact hc.total_le,
      by rw [e_cur]; exact hc.cursor_le, by rw [e_cur, e_nx]; exact hc.reserve_le, ?_, ?_, ?_⟩
    · rw [← hst2]
      show (st.g_manager_table.tables.set i' _).length = _
      rw [List.length_set]; exact hc.slots
    · intro x hx1 hx2
      rw [e_nx] at hx1 hx2
      rw [e_fl]
      exact hc.reserve_blank x hx1 hx2
    · intro x hx1 hx2
      rw [e_cur] at hx1
      rw [e_fl]
      exact hc.free_blank x hx1 hx2
    · intro j hj hvj
      by_cases hji : j = i'
      · subst hji
        rw [e_i] at hvj
        have hd : TABLE_STATUS_DELETED ≠ TABLE_STATUS_VALID := by decide
        exact absurd hvj hd
      · rw [e_o j hji] at hvj ⊢
        rw [e_cur, e_nx]
        have : header_at st2 (slot_at st.g_manager_table j).addr =
            header_at st (slot_at st.g_manager_table j).addr := by
          unfold header_at; rw [e_fl]
        rw [this]
        exact hc.tables_ok j hj hvj
  have e_mgr : st2.g_manager_table =
      { st.g_manager_table with
        tables := st.g_manager_table.tables.set i'
          { slot_at st.g_manager_table i' with status := TABLE_STATUS_DELETED }
        table_count := (st.g_manager_table.table_count + 256 - 1) % 256 } := by
    rw [← hst2]; rfl
  have hwi := wf_slot_at _ hp.wf i'
  have hwf2 : wf_manager st2.g_manager_table := by
    rw [e_mgr]
    obtain ⟨h1, h2, h3, h4, h5, h6, h7, h8, h9⟩ := wf_set_slot _ hp.wf i'
      { slot_at st.g_manager_table i' with status := TABLE_STATUS_DELETED }
      ⟨hwi.1, hwi.2.1, hwi.2.2.1, hwi.2.2.2.1, hwi.2.2.2.2.1,
        (by decide! : TABLE_STATUS_DELETED < 256), hwi.2.2.2.2.2.2.1,
        hwi.2.2.2.2.2.2.2⟩
    exact ⟨h1, h2, h3, Nat.mod_lt _ (by decide), h5, h6, h7, h8, h9⟩
  exact persisted_save st st2 hc hp hc2 e_nx (fun x _ => by rw [e_fl])
    (by rw [e_mgr]) (by rw [e_mgr]) hwf2 (by rw [← hst2]; rfl) hw

theorem strncpy_length : ∀ (n : Nat) (src : List Byte), (strncpy n src).length = n
  | 0, _ => rfl
  | n + 1, src => by
    unfold strncpy
    split
    · rw [List.length_cons, strncpy_length n []]
    · rw [List.length_cons, strncpy_length n src.tail]

theorem wf_new_info (name : List Byte) (a : Nat) (ha : a < U32) : wf_info (new_info name a) := by
  have hU : U32 = 4294967296 := by decide!
  have hN : TABLE_NAME_MAX_LEN - 1 = 7 := by decide!
  refine ⟨?_, ha, (by decide! : SIZEOF_HEADER < U32), (by decide! : SIZEOF_HEADER < U32),
    (by decide! : MAGIC_NUMBER_TABLE < 65536), (by decide! : TABLE_STATUS_VALID < 256),
    (by decide : (0 : Nat) < 256), (by decide! : (0 : Nat) < U32)⟩
  show (strncpy (TABLE_NAME_MAX_LEN - 1) name ++ [0]).length = 8
  rw [List.length_append, strncpy_length, hN]
  rfl

theorem persisted_create (st : State) (name : List Byte) (s m : Nat)
    (hc : Consistent st) (hp : Persisted st)
    (hw : (fast_flash_create_table st name s m).1 = 0) :
    Persisted (fast_flash_create_table st name s m).2 ∧
      (fast_flash_create_table st name s m).2.g_total_size = st.g_total_size := by
  have hS : FLASH_SECTOR_SIZE = 4096 := by decide!
  have hU : U32 = 4294967296 := by decide!
  have hW : WIN_FLASH_TOTAL_SIZE = 65536 := by decide!
  have hM : SIZEOF_MANAGER = 692 := by decide!
  have hH : SIZEOF_HEADER = 30 := by decide!
  have hC : FLASH_WRITE_CHUNK_SIZE = 1024 := by decide!
  have hres := hc.reserve_le
  have hcl := hc.cursor_le
  unfold fast_flash_create_table at hw ⊢
  rw [if_neg (by simp [hc.loaded])] at hw ⊢
  by_cases hdup : find_table_index st name ≥ 0
  · rw [if_pos hdup] at hw; simp at hw
  rw [if_neg hdup] at hw ⊢
  by_cases hfree : find_free_table_slot st < 0
  · rw [if_pos hfree] at hw; simp at hw
  rw [if_neg hfree] at hw ⊢
  obtain ⟨slot, hslot, hs24, hinv⟩ := find_free_table_slot_spec st hfree
  rw [hslot] at hw ⊢
  rw [Int.toNat_ofNat] at hw ⊢
  rcases hal : allocate_table_space st SIZEOF_HEADER with ⟨result, a, st1⟩
  rw [hal] at hw
  dsimp only at hw ⊢
  by_cases hres0 : result = 0
  swap
  · rw [if_pos hres0] at hw
    exact absurd hw hres0
  subst hres0
  rw [if_neg (by decide)] at hw ⊢
  have hA := allocate_ok st SIZEOF_HEADER hc.cursor_le (by rw [hal])
  rw [hal] at hA
  dsimp only at hA
  obtain ⟨hs1, hs2, hPa, haP, hsec, hcur1, hm1, ht1, he1, hl1, hfr1, hbl1⟩ := hA
  by_cases hw1 : (write_with_chunks st1.flash a (header_bytes (new_header name s m))
      SIZEOF_HEADER).1 = 0
  swap
  · generalize write_with_chunks st1.flash a (header_bytes (new_header name s m))
      SIZEOF_HEADER = wr at hw hw1
    obtain ⟨w, fl⟩ := wr
    dsimp only at hw hw1
    rw [if_pos hw1] at hw
    simp at hw
  obtain ⟨_, hc1, hb1⟩ := write_with_chunks_ok st1.flash a (header_bytes (new_header name s m))
    SIZEOF_HEADER (by omega) hw1
  have hb1' := hb1 (by omega)
  have hH30 : (header_bytes (new_header name s m)).length = 30 := header_bytes_length _
  have htk : (header_bytes (new_header name s m)).take SIZEOF_HEADER =
      header_bytes (new_header name s m) := by
    rw [hH, ← hH30, List.take_length]
  rw [htk] at hc1
  generalize write_with_chunks st1.flash a (header_bytes (new_header name s m))
    SIZEOF_HEADER = wr at hw hw1 hc1 ⊢
  obtain ⟨w, fl⟩ := wr
  dsimp only at hw hw1 hc1 ⊢
  subst hw1
  rw [if_neg (by decide)] at hw ⊢
  generalize hst3 : ({ set_slot { st1 with flash := fl } slot (new_info name a) with
      g_manager_table :=
        { (set_slot { st1 with flash := fl } slot (new_info name a)).g_manager_table with
          table_count := ((set_slot { st1 with flash := fl } slot
            (new_info name a)).g_manager_table.table_count + 1) % 256
          used_size := ((set_slot { st1 with flash := fl } slot
            (new_info name a)).g_manager_table.used_size + SIZEOF_HEADER) % U32 } } : State)
    = st3 at hw ⊢
  have hlt : slot < st.g_manager_table.tables.length := by rw [hc.slots]; exact hs24
  have e_mgr : st3.g_manager_table =
      { st.g_manager_table with
        tables := st.g_manager_table.tables.set slot (new_info name a)
        table_count := (st.g_manager_table.table_count + 1) % 256
        used_size := (st.g_manager_table.used_size + SIZEOF_HEADER) % U32 } := by
    rw [← hst3]
    show ({ { st1.g_manager_table with
      tables := st1.g_manager_table.tables.set slot (new_info name a) } with
      table_count := (st1.g_manager_table.table_count + 1) % 256
      used_size := (st1.g_manager_table.used_size + SIZEOF_HEADER) % U32 } :
        flash_manager_table_t) = _
    rw [hm1]
  have e_i : slot_at st3.g_manager_table slot = new_info name a := by
    rw [e_mgr]
    exact slot_at_set_same _ _ _ hlt
  have e_o : ∀ j, j ≠ slot → slot_at st3.g_manager_table j = slot_at st.g_manager_table j := by
    intro j hj
    rw [e_mgr]
    exact slot_at_set_ne _ _ _ _ (Ne.symm hj)
  have e_fl : st3.flash.flash_cache =
      mem_write st1.flash.flash_cache a (header_bytes (new_header name s m)) := by
    rw [← hst3]; exact hc1
  have e_cur : cursor_pos st3 = a + SIZEOF_HEADER := by rw [← hst3]; exact hcur1
  have e_nx : st3.g_manager_table.next_manager_addr = st.g_manager_table.next_manager_addr := by
    rw [e_mgr]
  have e_low : ∀ x, x < cursor_pos st → st3.flash.flash_cache x = st.flash.flash_cache x := by
    intro x hx
    rw [e_fl, mem_write_out _ _ _ _ (by omega)]
    exact hfr1 x hx
  have e_hdr : mem_read st3.flash.flash_cache a SIZEOF_HEADER =
      header_bytes (new_header name s m) := by
    rw [e_fl]
    have := mem_read_write_same st1.flash.flash_cache a (header_bytes (new_header name s m))
    rw [hH30] at this
    rw [hH]
    exact this
  have hc3 : Consistent st3 := by
    refine ⟨by rw [← hst3]; show st1.g_manager_loaded = true; rw [hl1]; exact hc.loaded, ?_,
      by rw [← hst3]; show st1.g_total_size ≤ _; rw [ht1]; exact hc.total_le,
      by rw [e_cur]; omega, by rw [e_cur, e_nx]; omega, ?_, ?_, ?_⟩
    · rw [e_mgr]
      show (st.g_manager_table.tables.set slot _).length = _
      rw [List.length_set]; exact hc.slots
    · intro x hx1 hx2
      rw [e_nx] at hx1 hx2
      rw [e_low x (by omega)]
      exact hc.reserve_blank x hx1 hx2
    · intro x hx1 hx2
      rw [e_cur] at hx1
      rw [e_fl, mem_write_out _ _ _ _ (by omega)]
      exact hbl1 x (by omega) (hc.free_blank x (by omega) hx2)
    · intro j hj hvj
      rw [e_cur, e_nx]
      by_cases hji : j = slot
      · subst hji
        rw [e_i]
        have hp : header_at st3 (new_info name a).addr =
            parse_header (header_bytes (new_header name s m)) := by
          unfold header_at; exact congrArg parse_header e_hdr
        rw [hp, parse_header_bytes]
        show a + SIZEOF_HEADER + 0 % U32 ≤ _ ∧ (_ ∨ _ ≤ a) ∧ 0 % U32 = 0 % U32 * (s % U32)
        rw [Nat.zero_mod, Nat.zero_mul]
        exact ⟨by omega, Or.inr (by omega), rfl⟩
      · rw [e_o j hji] at hvj ⊢
        obtain ⟨t1, t2, t3⟩ := hc.tables_ok j hj hvj
        have hp : header_at st3 (slot_at st.g_manager_table j).addr =
            header_at st (slot_at st.g_manager_table j).addr := by
          apply header_at_congr
          intro x hx1 hx2
          exact e_low x (by omega)
        rw [hp]
        exact ⟨by omega, t2, t3⟩
  have hwf3 : wf_manager st3.g_manager_table := by
    rw [e_mgr]
    obtain ⟨h1, h2, h3, h4, h5, h6, h7, h8, h9⟩ := wf_set_slot _ hp.wf slot (new_info name a)
      (wf_new_info name a (by omega))
    exact ⟨h1, h2, h3, Nat.mod_lt _ (by decide), h5, Nat.mod_lt _ (by omega), h7, h8, h9⟩
  exact persisted_save st st3 hc hp hc3 e_nx (fun x hx => e_low x (by omega))
    (by rw [e_mgr]) (by rw [e_mgr]) hwf3 (by rw [← hst3]; exact ht1) hw

theorem persisted_clear (st : State) (name : List Byte) (mask : Nat)
    (hc : Consistent st) (hp : Persisted st) (hm0 : mask ≠ 0)
    (hw : (fast_flash_clear_table_data st name mask).1 = 0) :
    Persisted (fast_flash_clear_table_data st name mask).2 ∧
      (fast_flash_clear_table_data st name mask).2.g_total_size = st.g_total_size := by
  obtain ⟨i, hi, _, _⟩ := find_table_index_nonneg st name (clear_found st name mask hw)
  have hU : U32 = 4294967296 := by decide!
  have hW : WIN_FLASH_TOTAL_SIZE = 65536 := by decide!
  have hH : SIZEOF_HEADER = 30 := by decide!
  have hM : SIZEOF_MANAGER = 692 := by decide!
  obtain ⟨i', hi', hi24, hval⟩ := find_table_index_nonneg st name (by rw [hi]; omega)
  have hii : i' = i := Int.ofNat.inj (hi'.symm.trans hi)
  subst hii
  obtain ⟨ht1, ht2, ht3⟩ := hc.tables_ok i' hi24 hval
  have hcl := hc.cursor_le
  obtain ⟨hl1, hl2, hl3, hl4, hl5, hl6, hl7⟩ := parse_header_lt
    (mem_read st.flash.flash_cache (slot_at st.g_manager_table i').addr SIZEOF_HEADER)
  unfold fast_flash_clear_table_data at hw ⊢
  rw [if_neg (by simp [hc.loaded]), if_neg (by rw [hi]; omega)] at hw ⊢
  rw [hi] at hw ⊢
  rw [Int.toNat_ofNat] at hw ⊢
  dsimp only at hw ⊢
  rw [win_flash_read_of_le _ _ _ (by omega)] at hw ⊢
  dsimp only at hw ⊢
  rw [if_neg (by decide)] at hw ⊢
  unfold header_at at ht1 ht2 ht3
  generalize parse_header (mem_read st.flash.flash_cache (slot_at st.g_manager_table i').addr
    SIZEOF_HEADER) = h at *
  generalize hn : h.struct_nums = n at *
  generalize hs : h.struct_size = s at *
  by_cases hchk : mask &&& ((if n < 64 then (1 <<< n) - 1 else U64 - 1) ^^^ (U64 - 1)) ≠ 0
  · rw [if_pos hchk] at hw; simp at hw
  rw [if_neg hchk, if_neg hm0] at hw ⊢
  have hmod : ((slot_at st.g_manager_table i').addr + SIZEOF_HEADER) % U32 =
      (slot_at st.g_manager_table i').addr + SIZEOF_HEADER :=
    Nat.mod_eq_of_lt (by omega)
  rw [hmod, win_flash_read_of_le _ _ _ (by omega)] at hw ⊢
  dsimp only at hw ⊢
  rw [if_neg (by decide)] at hw ⊢
  rw [clear_loop_eq mask _ s _ _ _ _ (by omega) (by omega)] at hw ⊢
  dsimp only at hw ⊢
  rw [ht3] at hw ⊢
  generalize hD : mem_read st.flash.flash_cache
    ((slot_at st.g_manager_table i').addr + SIZEOF_HEADER) (n * s) = D at *
  have hDl : D.length = n * s := by rw [← hD]; exact mem_read_length _ _ _
  generalize hK : (List.range n).filter (fun q => decide (mask &&& bit64 q = 0)) = K at *
  have hKn : ∀ q ∈ K, q < n := by
    intro q hq
    rw [← hK] at hq
    exact List.mem_range.mp (List.mem_filter.mp hq).1
  have hKl : K.length ≤ n := by
    rw [← hK]
    exact (List.length_filter_le _ _).trans (by rw [List.length_range])
  have hKs : K.length * s ≤ n * s := Nat.mul_le_mul_right _ hKl
  have hrows : K.map (fun q => (D.drop ((q * s) % U32)).take s) =
      K.map (fun q => (D.drop (q * s)).take s) := by
    apply List.map_congr_left
    intro q hq
    have : (q + 1) * s ≤ n * s := Nat.mul_le_mul_right _ (hKn q hq)
    rw [Nat.add_mul, Nat.one_mul] at this
    rw [Nat.mod_eq_of_lt (by omega)]
  rw [hrows] at hw ⊢
  have hlen : ((K.map (fun q => (D.drop (q * s)).take s)).flatten).length = K.length * s := by
    rw [join_length_eq s, List.length_map]
    intro d hd
    obtain ⟨q, hq, rfl⟩ := List.mem_map.mp hd
    have : (q + 1) * s ≤ n * s := Nat.mul_le_mul_right _ (hKn q hq)
    rw [Nat.add_mul, Nat.one_mul] at this
    rw [List.length_take, List.length_drop, hDl]
    omega
  generalize hND : (K.map (fun q => (D.drop (q * s)).take s)).flatten = ND at *
  have e0 : (0 + K.length * s) % U32 = K.length * s := by
    rw [Nat.zero_add]; exact Nat.mod_eq_of_lt (by omega)
  have e1 : (0 + K.length) % U32 = K.length := by
    rw [Nat.zero_add]; exact Nat.mod_eq_of_lt (by omega)
  rw [e0, e1] at hw ⊢
  rcases hal : allocate_table_space st ((SIZEOF_HEADER + K.length * s) % U32) with
    ⟨result, a, st1⟩
  rw [hal] at hw
  dsimp only at hw ⊢
  by_cases hres : result = 0
  swap
  · rw [if_pos hres] at hw
    exact absurd hw hres
  subst hres
  rw [if_neg (by decide)] at hw ⊢
  have hndl : K.length * s < U32 := by omega
  have hwi := wf_slot_at _ hp.wf i'
  exact persisted_relocate st hc hp _ i' _ _ true _ a st1 hndl hal hw
    (fun hb => wf_info_moved _ hwi _ _ _ (by omega) (Nat.mod_lt _ (by omega)) hwi.2.2.2.1)

/-- Every defined, successful call of the mutating API keeps the manager on flash. -/
theorem step_persisted (st : State) (c : api_call) (hc : Consistent st) (hp : Persisted st)
    (h0 : (api_step st c).1 = 0) :
    Persisted (api_step st c).2 ∧ (api_step st c).2.g_total_size = st.g_total_size := by
  cases c with
  | create name s m => exact persisted_create st name s m hc hp h0
  | append name d s => exact persisted_append st name d s hc hp h0
  | overwrite name k d s => exact persisted_overwrite st name d k s hc hp h0
  | batch name data s k => exact persisted_batch st name data s k hc hp h0
  | clear name mask =>
    by_cases hm0 : mask = 0
    · subst hm0
      show Persisted (fast_flash_clear_table_data st name 0).2 ∧
        (fast_flash_clear_table_data st name 0).2.g_total_size = st.g_total_size
      rw [clear_zero]
      exact ⟨hp, rfl⟩
    · exact persisted_clear st name mask hc hp hm0 h0
  | delete name => exact persisted_delete st name hc hp h0

theorem run_calls_persisted : ∀ (cs : List api_call) (st st' : State), Consistent st →
    Persisted st → run_calls st cs = some st' →
    Consistent st' ∧ Persisted st' ∧ st'.g_total_size = st.g_total_size
  | [], st, st', hc, hp, h => by
    simp only [run_calls, Option.some.injEq] at h
    subst h; exact ⟨hc, hp, rfl⟩
  | c :: cs, st, st', hc, hp, h => by
    unfold run_calls at h
    by_cases hcond : (call_defined st c && decide ((api_step st c).1 = 0)) = true
    · rw [if_pos hcond] at h
      simp only [Bool.and_eq_true, decide_eq_true_eq] at hcond
      obtain ⟨hp1, ht1⟩ := step_persisted st c hc hp hcond.2
      obtain ⟨h1, h2, h3⟩ := run_calls_persisted cs _ st'
        (step_consistent st c hc hcond.1 hcond.2).1 hp1 h
      exact ⟨h1, h2, h3.trans ht1⟩
    · rw [if_neg hcond] at h
      exact absurd h (by simp)

theorem fresh_boot_consistent : Consistent fresh_boot := by
  have hW : WIN_FLASH_TOTAL_SIZE = 65536 := by decide!
  have hM : SIZEOF_MANAGER = 692 := by decide!
  have hS : FLASH_SECTOR_SIZE = 4096 := by decide!
  have hcur : cursor_pos fresh_boot = SIZEOF_MANAGER + SIZEOF_MANAGER := by
    show 0 * FLASH_SECTOR_SIZE + (SIZEOF_MANAGER + SIZEOF_MANAGER) = _
    omega
  have hnext : fresh_boot.g_manager_table.next_manager_addr = SIZEOF_MANAGER := rfl
  have hcache : ∀ a, SIZEOF_MANAGER ≤ a → fresh_boot.flash.flash_cache a = 0xFF := by
    intro a ha
    show mem_write (mem_erase (fun _ => (0xFF : Byte)) 0 FLASH_SECTOR_SIZE) 0 (manager_bytes _) a
      = 0xFF
    rw [mem_write_out _ _ _ _ (by rw [manager_bytes_length]; omega)]
    unfold mem_erase
    split <;> rfl
  refine ⟨rfl, by decide!, Nat.le_of_eq rfl, by rw [hcur, hW, hM]; decide,
    by rw [hcur, hnext], ?_, ?_, ?_⟩
  · intro a h1 _
    rw [hnext] at h1
    exact hcache a h1
  · intro a h1 _
    rw [hcur] at h1
    exact hcache a (by omega)
  · intro i _ hv
    exfalso
    have hz : slot_at fresh_boot.g_manager_table i = zero_info := by
      show (List.replicate 24 zero_info).getD i zero_info = zero_info
      rw [List.getD_eq_getElem?_getD, List.getElem?_replicate]
      split <;> rfl
    rw [hz] at hv
    exact absurd hv (by decide)

theorem fresh_boot_persisted : Persisted fresh_boot := by
  have hW : WIN_FLASH_TOTAL_SIZE = 65536 := by decide!
  have hU : U32 = 4294967296 := by decide!
  have hwf : wf_manager fresh_boot.g_manager_table := wf_fresh _ (by rw [hW, hU]; decide)
  have hrec := fresh_state_record
    { power_on with g_total_size := WIN_FLASH_TOTAL_SIZE, g_allow_erase := false }
  have hm0 : parse_manager (mem_read fresh_boot.flash.flash_cache 0 SIZEOF_MANAGER) =
      fresh_boot.g_manager_table := by
    have h2 : mem_read fresh_boot.flash.flash_cache 0 SIZEOF_MANAGER =
        manager_bytes fresh_boot.g_manager_table := hrec
    rw [h2]
    exact parse_manager_bytes _ hwf
  refine ⟨by show 0 < WIN_FLASH_TOTAL_SIZE; rw [hW]; decide, fresh_boot_valid, hwf, rfl, rfl,
    0, ?_, ?_⟩
  · rw [hm0]
  · show 0 + SIZEOF_MANAGER ≤ SIZEOF_MANAGER
    omega

/-- C2: from the state after `fast_flash_init` on a blank device (erase not allowed), after
any sequence of create/append/overwrite/batch/clear/delete calls that have defined behaviour and
all returned 0, `fast_flash_init` with the same total size (and either value of the erase flag)
returns 0, programs and erases nothing, and loads the manager table that was in RAM: every
name exists or not as before, every table has the same row count and the same rows, and the
used size is the same. -/
theorem persistence_across_reinit (cs : List api_call) (st : State) (allow_erase : Bool)
    (hrun : run_calls fresh_boot cs = some st) :
    fast_flash_init power_on WIN_FLASH_TOTAL_SIZE false = (0, fresh_boot) ∧
    (fast_flash_init st WIN_FLASH_TOTAL_SIZE allow_erase).1 = 0 ∧
    (fast_flash_init st WIN_FLASH_TOTAL_SIZE allow_erase).2.g_manager_table =
      st.g_manager_table ∧
    (fast_flash_init st WIN_FLASH_TOTAL_SIZE allow_erase).2.flash = st.flash ∧
    (∀ name, fast_flash_table_exists (fast_flash_init st WIN_FLASH_TOTAL_SIZE allow_erase).2 name
      = fast_flash_table_exists st name) ∧
    (∀ name, fast_flash_get_table_count
      (fast_flash_init st WIN_FLASH_TOTAL_SIZE allow_erase).2 name =
        fast_flash_get_table_count st name) ∧
    (∀ name k sz, fast_flash_read_table_data
      (fast_flash_init st WIN_FLASH_TOTAL_SIZE allow_erase).2 name k sz =
        fast_flash_read_table_data st name k sz) ∧
    fast_flash_get_used_size (fast_flash_init st WIN_FLASH_TOTAL_SIZE allow_erase).2 =
      fast_flash_get_used_size st := by
  obtain ⟨hc, hp, ht⟩ := run_calls_persisted cs fresh_boot st fresh_boot_consistent
    fresh_boot_persisted hrun
  have ht' : st.g_total_size = WIN_FLASH_TOTAL_SIZE := ht
  obtain ⟨h1, h2, h3, h4⟩ := reinit_of_persisted st hc hp allow_erase
  rw [ht'] at h1 h2 h3 h4
  have hl : (fast_flash_init st WIN_FLASH_TOTAL_SIZE allow_erase).2.g_manager_loaded =
      st.g_manager_loaded := h2.trans hc.loaded.symm
  exact ⟨fresh_boot_init, h1, h3, h4,
    fun name => (reads_congr st _ h4 h3 hl name 0 0).1,
    fun name => (reads_congr st _ h4 h3 hl name 0 0).2.1,
    fun name k sz => (reads_congr st _ h4 h3 hl name k sz).2.2.1,
    (reads_congr st _ h4 h3 hl [] 0 0).2.2.2⟩

/-! ## The allocator on its own -/

/-- C27 (for a free address at least two sectors below 2^32): with the cursor offset below the
sector size and `1 ≤ size ≤ 4096`, an allocation that returns 0 gives the old free address
`sector * 4096 + offset` when `offset + size ≤ 4096` and the next sector boundary otherwise; the
address is not below the old free address, the range `[a, a + size)` lies in one sector, and the
new cursor denotes `a + size` with its offset below the sector size. -/
theorem allocation_within_one_sector (st : State) (size : Nat)
    (hoff : st.g_current_offset < FLASH_SECTOR_SIZE)
    (h1 : 1 ≤ size) (h2 : size ≤ FLASH_SECTOR_SIZE)
    (hlim : cursor_pos st + 2 * FLASH_SECTOR_SIZE ≤ U32)
    (h : (allocate_table_space st size).1 = 0) :
    (st.g_current_offset + size ≤ FLASH_SECTOR_SIZE →
      (allocate_table_space st size).2.1 =
        st.g_current_sector * FLASH_SECTOR_SIZE + st.g_current_offset) ∧
    (FLASH_SECTOR_SIZE < st.g_current_offset + size →
      (allocate_table_space st size).2.1 = (st.g_current_sector + 1) * FLASH_SECTOR_SIZE) ∧
    st.g_current_sector * FLASH_SECTOR_SIZE + st.g_current_offset ≤
      (allocate_table_space st size).2.1 ∧
    (allocate_table_space st size).2.1 / FLASH_SECTOR_SIZE =
      ((allocate_table_space st size).2.1 + size - 1) / FLASH_SECTOR_SIZE ∧
    cursor_pos (allocate_table_space st size).2.2 = (allocate_table_space st size).2.1 + size ∧
    cursor_addr (allocate_table_space st size).2.2 = (allocate_table_space st size).2.1 + size ∧
    (allocate_table_space st size).2.2.g_current_offset < FLASH_SECTOR_SIZE := by
  have hS : FLASH_SECTOR_SIZE = 4096 := by decide!
  have hU : U32 = 4294967296 := by decide!
  have hcu : cursor_addr st = cursor_pos st := cursor_addr_eq st (by omega)
  have hdiv : ∀ a, (a + size - 1) / FLASH_SECTOR_SIZE = a / FLASH_SECTOR_SIZE ↔
      a % FLASH_SECTOR_SIZE + size ≤ FLASH_SECTOR_SIZE := by
    intro a
    rw [hS]
    omega
  have hca : ∀ (s : State) (a : Nat), a < U32 → cursor_addr (set_cursor s a) = a := by
    intro s a ha
    rw [cursor_addr_eq _ (by rw [cursor_pos_set_cursor]; exact ha), cursor_pos_set_cursor]
  have hso : ∀ (s : State) (a : Nat), (set_cursor s a).g_current_offset < FLASH_SECTOR_SIZE := by
    intro s a
    exact Nat.mod_lt _ (by omega)
  generalize hr : allocate_table_space st size = r at h ⊢
  unfold allocate_table_space at hr
  rw [hcu] at hr
  have hpp : cursor_pos st = st.g_current_sector * FLASH_SECTOR_SIZE + st.g_current_offset := rfl
  generalize hp : cursor_pos st = p at *
  have hpm : p % FLASH_SECTOR_SIZE = st.g_current_offset := by
    rw [hpp, Nat.mul_add_mod_of_lt hoff]
  have hpd : p / FLASH_SECTOR_SIZE = st.g_current_sector := by
    rw [hpp, Nat.mul_comm, Nat.mul_add_div (by omega), Nat.div_eq_of_lt hoff, Nat.add_zero]
  rw [if_neg (by omega), if_neg (by omega)] at hr
  dsimp only at hr
  rw [hpm, hpd] at hr
  by_cases hcross : st.g_current_offset + size > FLASH_SECTOR_SIZE
  · rw [if_pos hcross] at hr
    have hss : (st.g_current_sector * FLASH_SECTOR_SIZE + FLASH_SECTOR_SIZE) % U32 =
        (st.g_current_sector + 1) * FLASH_SECTOR_SIZE :=
      by rw [Nat.mod_eq_of_lt (by omega)]; ring
    rw [hss] at hr
    have hsz : ((st.g_current_sector + 1) * FLASH_SECTOR_SIZE + size) % U32 =
        (st.g_current_sector + 1) * FLASH_SECTOR_SIZE + size :=
      Nat.mod_eq_of_lt (by rw [Nat.add_mul] ; omega)
    rw [hsz] at hr
    have hqm : ((st.g_current_sector + 1) * FLASH_SECTOR_SIZE) % FLASH_SECTOR_SIZE = 0 :=
      Nat.mul_mod_left _ _
    have hlt : (st.g_current_sector + 1) * FLASH_SECTOR_SIZE + size < U32 := by
      rw [Nat.add_mul]; omega
    have hge : st.g_current_sector * FLASH_SECTOR_SIZE + st.g_current_offset ≤
        (st.g_current_sector + 1) * FLASH_SECTOR_SIZE := by
      rw [Nat.add_mul]; omega
    by_cases ht : (st.g_current_sector + 1) * FLASH_SECTOR_SIZE + size > st.g_total_size
    · rw [if_pos ht] at hr; subst hr; simp at h
    rw [if_neg ht] at hr
    by_cases he : st.g_allow_erase = true
    · rw [if_pos he] at hr
      by_cases her : (win_flash_erase st.flash ((st.g_current_sector + 1) * FLASH_SECTOR_SIZE)
          FLASH_SECTOR_SIZE).1 = 0
      · simp only [her, ne_eq, not_true_eq_false, if_false] at hr
        subst hr
        dsimp only
        exact ⟨fun hle => by omega, fun _ => rfl, hge, ((hdiv _).mpr (by omega)).symm,
          cursor_pos_set_cursor _ _, hca _ _ hlt, hso _ _⟩
      · simp only [her, ne_eq, not_false_eq_true, if_true] at hr
        subst hr; simp at h
    · rw [if_neg he] at hr
      subst hr
      dsimp only
      exact ⟨fun hle => by omega, fun _ => rfl, hge, ((hdiv _).mpr (by omega)).symm,
        cursor_pos_set_cursor _ _, hca _ _ hlt, hso _ _⟩
  · rw [if_neg hcross] at hr
    have hsz : (st.g_current_sector * FLASH_SECTOR_SIZE + st.g_current_offset + size) % U32 =
        st.g_current_sector * FLASH_SECTOR_SIZE + st.g_current_offset + size :=
      Nat.mod_eq_of_lt (by omega)
    rw [hsz] at hr
    subst hr
    dsimp only
    have hmm : (st.g_current_sector * FLASH_SECTOR_SIZE + st.g_current_offset) %
        FLASH_SECTOR_SIZE = st.g_current_offset := Nat.mul_add_mod_of_lt hoff
    exact ⟨fun _ => rfl, fun hlt => by omega, Nat.le_refl _,
      ((hdiv _).mpr (by rw [hmm]; omega)).symm, cursor_pos_set_cursor _ _,
      hca _ _ (by omega), hso _ _⟩

/-! ## Commit on its own -/

theorem win_flash_write_ops (d : win_flash) (addr : Nat) (buf : List Byte) (size : Nat) :
    (win_flash_write d addr buf size).2.ops = flash_op.write addr (buf.take size) :: d.ops := by
  unfold win_flash_write
  dsimp only
  split
  · rfl
  · split <;> rfl

/-- A write of at most one chunk that returns 0 has issued one program call and stored the
bytes. -/
theorem write_with_chunks_single (d : win_flash) (addr : Nat) (buf : List Byte) (size : Nat)
    (h1 : 1 ≤ size) (hc : size ≤ FLASH_WRITE_CHUNK_SIZE)
    (h : (write_with_chunks d addr buf size).1 = 0) :
    size ≤ buf.length ∧
    (write_with_chunks d addr buf size).2.flash_cache =
      mem_write d.flash_cache addr (buf.take size) ∧
    (write_with_chunks d addr buf size).2.ops = flash_op.write addr (buf.take size) :: d.ops := by
  generalize hr : write_with_chunks d addr buf size = r at h ⊢
  unfold write_with_chunks at hr
  obtain ⟨k, rfl⟩ : ∃ k, size = k + 1 := ⟨size - 1, by omega⟩
  unfold write_with_chunks_loop at hr
  rw [if_pos (by omega), if_neg (by omega)] at hr
  dsimp only at hr
  by_cases hw : (win_flash_write d addr buf (k + 1)).1 = 0
  · obtain ⟨_, hlen, hcache⟩ := win_flash_write_ok d addr buf (k + 1) hw
    have hops := win_flash_write_ops d addr buf (k + 1)
    rw [if_neg (by rw [hw]; decide), Nat.sub_self] at hr
    have h0 : ∀ (f : Nat) (d1 : win_flash) (a : Nat) (s : List Byte),
        write_with_chunks_loop f d1 a s 0 = (0, d1) := by
      intro f d1 a s
      cases f with
      | zero => rfl
      | succ f =>
        unfold write_with_chunks_loop
        rw [if_neg (by decide)]
    rw [h0] at hr
    subst hr
    exact ⟨hlen, hcache, hops⟩
  · rw [if_pos hw] at hr
    subst hr
    exact absurd h hw

/-- The next reservation as `save_manager_table` computes it at 32 bits is
`next_reservation` of the cursor address reduced modulo 2^32. -/
theorem next_reserved_eq (p : Nat) (hp : p < U32) :
    (if SIZEOF_MANAGER > FLASH_SECTOR_SIZE - p % FLASH_SECTOR_SIZE then
      (p / FLASH_SECTOR_SIZE + 1) * FLASH_SECTOR_SIZE % U32 else p) =
    next_reservation p % U32 := by
  unfold next_reservation
  split
  · rfl
  · exact (Nat.mod_eq_of_lt hp).symm

theorem cursor_addr_lt (st : State) : cursor_addr st < U32 := by
  unfold cursor_addr
  exact Nat.mod_lt _ (by decide!)

/-- With no room for the next reservation `save_manager_table` returns -1 and leaves the
state as it was. -/
theorem save_no_space (st : State) (hl : st.g_manager_loaded = true)
    (hfull : next_reservation (cursor_addr st) % U32 + SIZEOF_MANAGER > st.g_total_size) :
    save_manager_table st = (-1, st) := by
  unfold save_manager_table
  rw [if_neg (by rw [hl]; decide)]
  dsimp only
  split
  · rfl
  · rw [next_reserved_eq _ (cursor_addr_lt st), if_pos hfull]

/-- C25 (with the code's return value): in a loaded state in which the next reservation
computed from the cursor (at 32 bits) ends beyond the total size, `save_manager_table` returns
-1, not -2, and leaves flash and RAM as they were; `fast_flash_delete_table` on an existing
table, the tail shared by the relocating mutators, and `fast_flash_create_table` after its
allocation all return -1 as well. -/
theorem commit_out_of_space (st : State) (hl : st.g_manager_loaded = true)
    (hfull : next_reservation (cursor_addr st) % U32 + SIZEOF_MANAGER > st.g_total_size) :
    save_manager_table st = (-1, st) ∧
    (∀ name, ¬ find_table_index st name < 0 →
      (fast_flash_delete_table st name).1 = -1 ∧
      (fast_flash_delete_table st name).2.flash = st.flash) ∧
    (∀ idx addr header data len skip info,
      (relocate_commit st idx addr header data len skip info).1 = -1) ∧
    (∀ st0 name s m, st0.g_manager_loaded = true → find_table_index st0 name < 0 →
      ¬ find_free_table_slot st0 < 0 →
      (allocate_table_space st0 SIZEOF_HEADER).1 = 0 →
      (allocate_table_space st0 SIZEOF_HEADER).2.2 = st →
      (fast_flash_create_table st0 name s m).1 = -1) := by
  have hsave : ∀ s2 : State, s2.g_manager_loaded = true → cursor_addr s2 = cursor_addr st →
      s2.g_total_size = st.g_total_size → save_manager_table s2 = (-1, s2) := by
    intro s2 h1 h2 h3
    exact save_no_space s2 h1 (by rw [h2, h3]; exact hfull)
  refine ⟨save_no_space st hl hfull, ?_, ?_, ?_⟩
  · intro name hf
    unfold fast_flash_delete_table
    rw [if_neg (by rw [hl]; decide), if_neg hf]
    dsimp only
    rw [hsave _ (by exact hl) (by rfl) (by rfl)]
    exact ⟨rfl, rfl⟩
  · intro idx addr header data len skip info
    unfold relocate_commit
    generalize write_with_chunks st.flash addr (header_bytes header) SIZEOF_HEADER = w1
    obtain ⟨w1, fl1⟩ := w1
    dsimp only
    by_cases h1 : w1 ≠ 0
    · rw [if_pos h1]
    rw [if_neg h1]
    generalize (if skip && decide (len = 0) then ((0 : Int), fl1)
      else write_with_chunks fl1 ((addr + SIZEOF_HEADER) % U32) data len) = w2
    obtain ⟨w2, fl2⟩ := w2
    dsimp only
    by_cases h2 : w2 ≠ 0
    · rw [if_pos h2]
    rw [if_neg h2, hsave _ (by exact hl) (by rfl) (by rfl)]
  · intro st0 name s m hl0 hf hs ha hst
    unfold fast_flash_create_table
    rw [if_neg (by rw [hl0]; decide), if_neg (by omega), if_neg hs]
    dsimp only
    generalize hA : allocate_table_space st0 SIZEOF_HEADER = A at ha hst
    obtain ⟨ra, aa, sa⟩ := A
    dsimp only at ha hst ⊢
    subst ha
    subst hst
    rw [if_neg (by decide)]
    generalize write_with_chunks sa.flash aa
      (header_bytes (new_header name s m)) SIZEOF_HEADER = w1
    obtain ⟨w1, fl1⟩ := w1
    dsimp only
    by_cases h1 : w1 ≠ 0
    · rw [if_pos h1]
    rw [if_neg h1, hsave _ (by exact hl) (by rfl) (by rfl)]

/-- What a `save_manager_table` that returns 0 has done, for a cursor address more than a sector
below 2^32. -/
theorem save_post (st : State) (hlim : cursor_addr st + FLASH_SECTOR_SIZE < U32)
    (h : (save_manager_table st).1 = 0) :
    st.g_manager_loaded = true ∧
    st.g_manager_table.next_manager_addr ≠ 0 ∧
    st.g_manager_table.next_manager_addr < st.g_total_size ∧
    next_reservation (cursor_addr st) + SIZEOF_MANAGER ≤ st.g_total_size ∧
    (save_manager_table st).2.g_manager_table =
      committed_manager st.g_manager_table (next_reservation (cursor_addr st)) ∧
    (save_manager_table st).2.g_current_sector =
      (next_reservation (cursor_addr st) + SIZEOF_MANAGER) / FLASH_SECTOR_SIZE ∧
    (save_manager_table st).2.g_current_offset =
      (next_reservation (cursor_addr st) + SIZEOF_MANAGER) % FLASH_SECTOR_SIZE ∧
    mem_read (save_manager_table st).2.flash.flash_cache st.g_manager_table.next_manager_addr
      SIZEOF_MANAGER =
      manager_bytes (committed_manager st.g_manager_table (next_reservation (cursor_addr st))) ∧
    (save_manager_table st).2.g_total_size = st.g_total_size := by
  have hS : FLASH_SECTOR_SIZE = 4096 := by decide!
  have hU : U32 = 4294967296 := by decide!
  have hM : SIZEOF_MANAGER = 692 := by decide!
  have hC : FLASH_WRITE_CHUNK_SIZE = 1024 := by decide!
  generalize hr : save_manager_table st = r at h ⊢
  unfold save_manager_table at hr
  generalize hp : cursor_addr st = p at *
  generalize hR : st.g_manager_table.next_manager_addr = R at *
  by_cases hl : st.g_manager_loaded = false
  · rw [if_pos hl] at hr; subst hr; simp at h
  rw [if_neg hl] at hr
  dsimp only at hr
  by_cases ha : R = 0 ∨ R ≥ st.g_total_size
  · rw [if_pos ha] at hr; subst hr; simp at h
  rw [if_neg ha] at hr
  have hnr : (if SIZEOF_MANAGER > FLASH_SECTOR_SIZE - p % FLASH_SECTOR_SIZE then
      (p / FLASH_SECTOR_SIZE + 1) * FLASH_SECTOR_SIZE % U32 else p) = next_reservation p := by
    unfold next_reservation
    split
    · have := Nat.div_add_mod' p FLASH_SECTOR_SIZE
      apply Nat.mod_eq_of_lt
      rw [Nat.add_mul]
      omega
    · rfl
  rw [hnr] at hr
  generalize next_reservation p = nr at *
  by_cases hfit : nr + SIZEOF_MANAGER > st.g_total_size
  · rw [if_pos hfit] at hr; subst hr; simp at h
  rw [if_neg hfit] at hr
  generalize (if (st.g_allow_erase &&
      decide ((win_flash_read st.flash R 1).1 = 0 ∧
        (win_flash_read st.flash R 1).2.headD 0 ≠ 0xFF) && st.g_allow_erase) = true then
      erase_sectors (((R + SIZEOF_MANAGER) % U32 + U32 - 1) % U32 / FLASH_SECTOR_SIZE + 1 -
        R / FLASH_SECTOR_SIZE) st.flash (R / FLASH_SECTOR_SIZE)
    else ((0 : Int), st.flash)) = e at hr
  obtain ⟨er, fl1⟩ := e
  dsimp only at hr
  by_cases her : er ≠ 0
  · rw [if_pos her] at hr; subst hr; simp at h
  rw [if_neg her] at hr
  have hw0 : (write_with_chunks fl1 R
      (manager_bytes (committed_manager st.g_manager_table nr)) SIZEOF_MANAGER).1 = 0 := by
    by_contra hcon
    have hr2 := hr
    unfold committed_manager at hcon
    simp only [ne_eq, hcon, not_false_eq_true, if_true] at hr2
    subst hr2
    simp at h
  obtain ⟨_, hwc, _⟩ := write_with_chunks_single fl1 R _ SIZEOF_MANAGER (by omega) (by omega) hw0
  rw [← manager_bytes_length (committed_manager st.g_manager_table nr), List.take_length]
    at hwc
  have hrd : mem_read (write_with_chunks fl1 R
      (manager_bytes (committed_manager st.g_manager_table nr))
        (manager_bytes (committed_manager st.g_manager_table nr)).length).2.flash_cache R
      SIZEOF_MANAGER = manager_bytes (committed_manager st.g_manager_table nr) := by
    rw [hwc, ← manager_bytes_length (committed_manager st.g_manager_table nr)]
    exact mem_read_write_same _ _ _
  rw [manager_bytes_length] at hrd
  unfold committed_manager at hw0 hrd
  simp only [ne_eq, not_true_eq_false, if_false, hw0] at hr
  subst hr
  have hl' : st.g_manager_loaded = true := by simpa using hl
  exact ⟨hl', by omega, by omega, by omega, rfl, rfl, rfl, hrd, rfl⟩

/-- C29 (for a cursor address more than a sector below 2^32): when `save_manager_table`
returns 0 in a state whose cursor address is `p`, with `r = next_reservation p` (`p` itself when
`4096 - p mod 4096 ≥ 692`, the next sector boundary otherwise): the manager was loaded and the
target `t = next_manager_addr` it had was non-zero and below the total size, `r + 692` is within
the total size, `[r, r + 692)` lies in one sector, the in-RAM `next_manager_addr` is `r`, the
cursor denotes `r + 692`, the in-RAM `crc` field is the CRC of the in-RAM record, the 692 bytes
at `t` are the image of the in-RAM manager, and, the in-RAM manager having fields that fit their
C types and the manager magic and version, the record read back from `t` is the in-RAM manager
and passes `validate_manager_table`. -/
theorem commit_post_state (st : State) (hlim : cursor_addr st + FLASH_SECTOR_SIZE < U32)
    (h : (save_manager_table st).1 = 0) :
    st.g_manager_loaded = true ∧
    st.g_manager_table.next_manager_addr ≠ 0 ∧
    st.g_manager_table.next_manager_addr < st.g_total_size ∧
    next_reservation (cursor_addr st) + SIZEOF_MANAGER ≤ st.g_total_size ∧
    next_reservation (cursor_addr st) / FLASH_SECTOR_SIZE =
      (next_reservation (cursor_addr st) + SIZEOF_MANAGER - 1) / FLASH_SECTOR_SIZE ∧
    (save_manager_table st).2.g_manager_table.next_manager_addr =
      next_reservation (cursor_addr st) ∧
    cursor_pos (save_manager_table st).2 = next_reservation (cursor_addr st) + SIZEOF_MANAGER ∧
    (save_manager_table st).2.g_current_offset < FLASH_SECTOR_SIZE ∧
    calculate_manager_table_crc (save_manager_table st).2.g_manager_table =
      (save_manager_table st).2.g_manager_table.crc ∧
    mem_read (save_manager_table st).2.flash.flash_cache st.g_manager_table.next_manager_addr
      SIZEOF_MANAGER = manager_bytes (save_manager_table st).2.g_manager_table ∧
    (wf_manager st.g_manager_table → st.g_manager_table.magic = MAGIC_NUMBER_MANAGER →
      st.g_manager_table.version = MANAGER_TABLE_VERSION →
      parse_manager (mem_read (save_manager_table st).2.flash.flash_cache
        st.g_manager_table.next_manager_addr SIZEOF_MANAGER) =
          (save_manager_table st).2.g_manager_table ∧
      validate_manager_table (parse_manager (mem_read (save_manager_table st).2.flash.flash_cache
        st.g_manager_table.next_manager_addr SIZEOF_MANAGER)) = 0) := by
  have hS : FLASH_SECTOR_SIZE = 4096 := by decide!
  have hU : U32 = 4294967296 := by decide!
  have hM : SIZEOF_MANAGER = 692 := by decide!
  obtain ⟨h1, h2, h3, h4, h5, h6, h7, h8, _⟩ := save_post st hlim h
  obtain ⟨hn1, hn2, hn3⟩ := next_reservation_spec (cursor_addr st)
  have hcp : cursor_pos (save_manager_table st).2 =
      next_reservation (cursor_addr st) + SIZEOF_MANAGER := by
    unfold cursor_pos
    rw [h6, h7]
    exact Nat.div_add_mod' _ _
  refine ⟨h1, h2, h3, h4, ?_, ?_, hcp, ?_, ?_, ?_, ?_⟩
  · rw [hS, hM] at *
    omega
  · rw [h5]
    rfl
  · rw [h7]
    exact Nat.mod_lt _ (by omega)
  · rw [h5]
    exact manager_crc_independent
      { st.g_manager_table with next_manager_addr := next_reservation (cursor_addr st) }
      st.g_manager_table.magic _
  · rw [h8, h5]
  · intro hwf hmg hvs
    rw [h8, h5, parse_manager_bytes _ (wf_committed _ _ hwf (by omega))]
    exact ⟨rfl, validate_committed_manager _ _ hmg hvs⟩

theorem small_boot_init : fast_flash_init power_on 1400 false = (0, small_boot) :=
  fast_flash_init_fresh power_on 1400 false blank_invalid

/-- An allocation that fails leaves the manager and the cursor as they were. -/
theorem allocate_fail_same (st : State) (size : Nat)
    (h : (allocate_table_space st size).1 ≠ 0) :
    same_ram st (allocate_table_space st size).2.2 := by
  generalize hr : allocate_table_space st size = r at h ⊢
  unfold allocate_table_space at hr
  split at hr
  · subst hr; exact ⟨rfl, rfl, rfl⟩
  split at hr
  · subst hr; exact ⟨rfl, rfl, rfl⟩
  dsimp only at hr
  split at hr
  · split at hr
    · subst hr; exact ⟨rfl, rfl, rfl⟩
    split at hr
    · generalize win_flash_erase st.flash
        ((cursor_addr st / FLASH_SECTOR_SIZE * FLASH_SECTOR_SIZE + FLASH_SECTOR_SIZE) % U32)
        FLASH_SECTOR_SIZE = e at hr
      obtain ⟨er, fl⟩ := e
      dsimp only at hr
      split at hr
      · subst hr; exact ⟨rfl, rfl, rfl⟩
      · subst hr; exact absurd rfl h
    · subst hr; exact absurd rfl h
  · subst hr; exact absurd rfl h

theorem same_ram_refl (st : State) : same_ram st st := ⟨rfl, rfl, rfl⟩

theorem create_early (st : State) (name : List Byte) (s m : Nat)
    (h : rejected st (.create name s m) ∨ (allocate_table_space st SIZEOF_HEADER).1 ≠ 0) :
    same_ram st (fast_flash_create_table st name s m).2 ∧
    (rejected st (.create name s m) → (fast_flash_create_table st name s m).1 ≠ 0) := by
  unfold rejected at h
  generalize hr : fast_flash_create_table st name s m = r
  unfold fast_flash_create_table at hr
  by_cases hl : st.g_manager_loaded = false
  · rw [if_pos hl] at hr; subst hr; exact ⟨same_ram_refl st, fun _ => by simp⟩
  rw [if_neg hl] at hr
  by_cases hf : find_table_index st name ≥ 0
  · rw [if_pos hf] at hr; subst hr; exact ⟨same_ram_refl st, fun _ => by simp⟩
  rw [if_neg hf] at hr
  by_cases hs : find_free_table_slot st < 0
  · rw [if_pos hs] at hr; subst hr; exact ⟨same_ram_refl st, fun _ => by simp⟩
  rw [if_neg hs] at hr
  dsimp only at hr
  have hal : (allocate_table_space st SIZEOF_HEADER).1 ≠ 0 := by
    rcases h with (h | h | h) | h
    · exact absurd h hl
    · exact absurd h hf
    · exact absurd h hs
    · exact h
  have hsame := allocate_fail_same st SIZEOF_HEADER hal
  generalize allocate_table_space st SIZEOF_HEADER = A at hr hal hsame
  obtain ⟨ra, aa, sa⟩ := A
  dsimp only at hr hal hsame
  rw [if_pos hal] at hr
  subst hr
  exact ⟨hsame, fun _ => hal⟩

theorem delete_early (st : State) (name : List Byte) (h : rejected st (.delete name)) :
    same_ram st (fast_flash_delete_table st name).2 ∧ (fast_flash_delete_table st name).1 ≠ 0 := by
  unfold rejected at h
  unfold fast_flash_delete_table
  rcases h with h | h
  · rw [if_pos h]; exact ⟨same_ram_refl st, by simp⟩
  · by_cases hl : st.g_manager_loaded = false
    · rw [if_pos hl]; exact ⟨same_ram_refl st, by simp⟩
    · rw [if_neg hl, if_pos h]; exact ⟨same_ram_refl st, by simp⟩

theorem append_early (st : State) (name d : List Byte) (size : Nat)
    (h : rejected st (.append name d size) ∨
      (allocate_table_space st
        ((SIZEOF_HEADER + ((read_header st name).2.data_len + size) % U32) % U32)).1 ≠ 0) :
    same_ram st (fast_flash_write_table_data st name d size).2 ∧
    (rejected st (.append name d size) → (fast_flash_write_table_data st name d size).1 ≠ 0) := by
  unfold rejected read_header at h
  generalize hr : fast_flash_write_table_data st name d size = r
  unfold fast_flash_write_table_data at hr
  by_cases hl : st.g_manager_loaded = false
  · rw [if_pos hl] at hr; subst hr; exact ⟨same_ram_refl st, fun _ => by simp⟩
  rw [if_neg hl] at hr
  by_cases hf : find_table_index st name < 0
  · rw [if_pos hf] at hr; subst hr; exact ⟨same_ram_refl st, fun _ => by simp⟩
  rw [if_neg hf] at hr
  dsimp only at hr h
  generalize win_flash_read st.flash
    (slot_at st.g_manager_table (find_table_index st name).toNat).addr SIZEOF_HEADER = rd at hr h
  obtain ⟨r0, hb⟩ := rd
  dsimp only at hr h
  by_cases hr0 : r0 ≠ 0
  · rw [if_pos hr0] at hr; subst hr; exact ⟨same_ram_refl st, fun _ => by simp⟩
  rw [if_neg hr0] at hr
  by_cases hsz : size ≠ (parse_header hb).struct_size
  · rw [if_pos hsz] at hr; subst hr; exact ⟨same_ram_refl st, fun _ => by simp⟩
  rw [if_neg hsz] at hr
  have hal : (allocate_table_space st
      ((SIZEOF_HEADER + ((parse_header hb).data_len + size) % U32) % U32)).1 ≠ 0 := by
    rcases h with (h | h | h | h) | h
    · exact absurd h hl
    · exact absurd h hf
    · exact absurd h hr0
    · exact absurd h hsz
    · exact h
  have hsame := allocate_fail_same st _ hal
  generalize allocate_table_space st
    ((SIZEOF_HEADER + ((parse_header hb).data_len + size) % U32) % U32) = A at hr hal hsame
  obtain ⟨ra, aa, sa⟩ := A
  dsimp only at hr hal hsame
  rw [if_pos hal] at hr
  subst hr
  exact ⟨hsame, fun _ => hal⟩

theorem overwrite_early (st : State) (name d : List Byte) (index size : Nat)
    (h : rejected st (.overwrite name index d size) ∨
      (allocate_table_space st
        (((read_header st name).2.data_len + SIZEOF_HEADER) % U32)).1 ≠ 0) :
    same_ram st (fast_flash_write_table_data_by_index st name index d size).2 ∧
    (rejected st (.overwrite name index d size) →
      (fast_flash_write_table_data_by_index st name index d size).1 ≠ 0) := by
  unfold rejected read_header at h
  generalize hr : fast_flash_write_table_data_by_index st name index d size = r
  unfold fast_flash_write_table_data_by_index at hr
  by_cases hl : st.g_manager_loaded = false
  · rw [if_pos hl] at hr; subst hr; exact ⟨same_ram_refl st, fun _ => by simp⟩
  rw [if_neg hl] at hr
  by_cases hf : find_table_index st name < 0
  · rw [if_pos hf] at hr; subst hr; exact ⟨same_ram_refl st, fun _ => by simp⟩
  rw [if_neg hf] at hr
  dsimp only at hr h
  generalize win_flash_read st.flash
    (slot_at st.g_manager_table (find_table_index st name).toNat).addr SIZEOF_HEADER = rd at hr h
  obtain ⟨r0, hb⟩ := rd
  dsimp only at hr h
  by_cases hr0 : r0 ≠ 0
  · rw [if_pos hr0] at hr; subst hr; exact ⟨same_ram_refl st, fun _ => by simp⟩
  rw [if_neg hr0] at hr
  by_cases hsz : size ≠ (parse_header hb).struct_size
  · rw [if_pos hsz] at hr; subst hr; exact ⟨same_ram_refl st, fun _ => by simp⟩
  rw [if_neg hsz] at hr
  by_cases hix : index ≥ (parse_header hb).struct_nums
  · rw [if_pos hix] at hr; subst hr; exact ⟨same_ram_refl st, fun _ => by simp⟩
  rw [if_neg hix] at hr
  generalize win_flash_read st.flash
    (((slot_at st.g_manager_table (find_table_index st name).toNat).addr + SIZEOF_HEADER) % U32)
    (parse_header hb).data_len = rd2 at hr
  obtain ⟨r2, od⟩ := rd2
  dsimp only at hr
  by_cases hr2 : r2 ≠ 0
  · rw [if_pos hr2] at hr; subst hr; exact ⟨same_ram_refl st, fun _ => by simp⟩
  rw [if_neg hr2] at hr
  have hal : (allocate_table_space st
      (((parse_header hb).data_len + SIZEOF_HEADER) % U32)).1 ≠ 0 := by
    rcases h with (h | h | h | h | h) | h
    · exact absurd h hl
    · exact absurd h hf
    · exact absurd h hr0
    · exact absurd h hsz
    · exact absurd h hix
    · exact h
  have hsame := allocate_fail_same st _ hal
  generalize allocate_table_space st
    (((parse_header hb).data_len + SIZEOF_HEADER) % U32) = A at hr hal hsame
  obtain ⟨ra, aa, sa⟩ := A
  dsimp only at hr hal hsame
  rw [if_pos hal] at hr
  subst hr
  exact ⟨hsame, fun _ => hal⟩

theorem batch_early (st : State) (name d : List Byte) (s k : Nat)
    (h : rejected st (.batch name d s k) ∨
      (allocate_table_space st
        ((SIZEOF_HEADER + ((read_header st name).2.data_len + (s * k) % U32) % U32)
          % U32)).1 ≠ 0) :
    same_ram st (fast_flash_write_table_data_batch st name d s k).2 ∧
    (rejected st (.batch name d s k) →
      (fast_flash_write_table_data_batch st name d s k).1 ≠ 0) := by
  unfold rejected read_header at h
  generalize hr : fast_flash_write_table_data_batch st name d s k = r
  unfold fast_flash_write_table_data_batch at hr
  by_cases hl : k = 0 ∨ st.g_manager_loaded = false
  · rw [if_pos hl] at hr; subst hr; exact ⟨same_ram_refl st, fun _ => by simp⟩
  rw [if_neg hl] at hr
  by_cases hf : find_table_index st name < 0
  · rw [if_pos hf] at hr; subst hr; exact ⟨same_ram_refl st, fun _ => by simp⟩
  rw [if_neg hf] at hr
  dsimp only at hr h
  generalize win_flash_read st.flash
    (slot_at st.g_manager_table (find_table_index st name).toNat).addr SIZEOF_HEADER = rd at hr h
  obtain ⟨r0, hb⟩ := rd
  dsimp only at hr h
  by_cases hr0 : r0 ≠ 0
  · rw [if_pos hr0] at hr; subst hr; exact ⟨same_ram_refl st, fun _ => by simp⟩
  rw [if_neg hr0] at hr
  by_cases hsz : s ≠ (parse_header hb).struct_size
  · rw [if_pos hsz] at hr; subst hr; exact ⟨same_ram_refl st, fun _ => by simp⟩
  rw [if_neg hsz] at hr
  by_cases hcap : ((parse_header hb).struct_nums + k) % U32 > header_capacity (parse_header hb)
  · rw [if_pos hcap] at hr; subst hr; exact ⟨same_ram_refl st, fun _ => by simp⟩
  rw [if_neg hcap] at hr
  have hal : (allocate_table_space st
      ((SIZEOF_HEADER + ((parse_header hb).data_len + (s * k) % U32) % U32) % U32)).1 ≠ 0 := by
    rcases h with (h | h | h | h | h | h) | h
    · exact absurd (Or.inl h) hl
    · exact absurd (Or.inr h) hl
    · exact absurd h hf
    · exact absurd h hr0
    · exact absurd h hsz
    · exact absurd h hcap
    · exact h
  have hsame := allocate_fail_same st _ hal
  generalize allocate_table_space st
    ((SIZEOF_HEADER + ((parse_header hb).data_len + (s * k) % U32) % U32) % U32) = A
    at hr hal hsame
  obtain ⟨ra, aa, sa⟩ := A
  dsimp only at hr hal hsame
  rw [if_pos hal] at hr
  subst hr
  exact ⟨hsame, fun _ => hal⟩

theorem clear_early (st : State) (name : List Byte) (mask : Nat)
    (h : rejected st (.clear name mask) ∨
      ∃ size, requested_size st (.clear name mask) = some size ∧
        (allocate_table_space st size).1 ≠ 0) :
    same_ram st (fast_flash_clear_table_data st name mask).2 ∧
    (rejected st (.clear name mask) → (fast_flash_clear_table_data st name mask).1 ≠ 0) := by
  unfold rejected requested_size read_header at h
  generalize hr : fast_flash_clear_table_data st name mask = r
  unfold fast_flash_clear_table_data at hr
  by_cases hl : st.g_manager_loaded = false
  · rw [if_pos hl] at hr; subst hr; exact ⟨same_ram_refl st, fun _ => by simp⟩
  rw [if_neg hl] at hr
  by_cases hf : find_table_index st name < 0
  · rw [if_pos hf] at hr; subst hr; exact ⟨same_ram_refl st, fun _ => by simp⟩
  rw [if_neg hf] at hr
  dsimp only at hr h
  generalize hrd : win_flash_read st.flash
    (slot_at st.g_manager_table (find_table_index st name).toNat).addr SIZEOF_HEADER = rd at hr h
  obtain ⟨r0, hb⟩ := rd
  dsimp only at hr h
  by_cases hr0 : r0 ≠ 0
  · rw [if_pos hr0] at hr; subst hr; exact ⟨same_ram_refl st, fun _ => by simp⟩
  rw [if_neg hr0] at hr
  by_cases hmk : mask &&& ((if (parse_header hb).struct_nums < 64 then
      (1 <<< (parse_header hb).struct_nums) - 1 else U64 - 1) ^^^ (U64 - 1)) ≠ 0
  · rw [if_pos hmk] at hr; subst hr; exact ⟨same_ram_refl st, fun _ => by simp⟩
  rw [if_neg hmk] at hr
  by_cases hm0 : mask = 0
  · rw [if_pos hm0] at hr; subst hr
    refine ⟨same_ram_refl st, fun hrej => ?_⟩
    simp only [rejected, read_header, hrd] at hrej
    rcases hrej with h | h | h | h
    · exact absurd h hl
    · exact absurd h hf
    · exact absurd h hr0
    · exact absurd h hmk
  rw [if_neg hm0] at hr
  generalize win_flash_read st.flash
    (((slot_at st.g_manager_table (find_table_index st name).toNat).addr + SIZEOF_HEADER) % U32)
    (parse_header hb).data_len = rd2 at hr h
  obtain ⟨r2, od⟩ := rd2
  dsimp only at hr h
  by_cases hr2 : r2 ≠ 0
  · rw [if_pos hr2] at hr; subst hr; exact ⟨same_ram_refl st, fun _ => by simp⟩
  rw [if_neg hr2] at hr
  generalize clear_loop mask od (parse_header hb).struct_size
    (List.range (parse_header hb).struct_nums) ([], 0, 0) = cl at hr h
  obtain ⟨nd, ndl, nsn⟩ := cl
  dsimp only at hr h
  have hal : (allocate_table_space st ((SIZEOF_HEADER + ndl) % U32)).1 ≠ 0 := by
    rcases h with (h | h | h | h) | ⟨size, h1, h2⟩
    · exact absurd h hl
    · exact absurd h hf
    · exact absurd h hr0
    · exact absurd h hmk
    · simp only [Option.some.injEq] at h1
      rw [h1]
      exact h2
  have hsame := allocate_fail_same st _ hal
  generalize allocate_table_space st ((SIZEOF_HEADER + ndl) % U32) = A at hr hal hsame
  obtain ⟨ra, aa, sa⟩ := A
  dsimp only at hr hal hsame
  rw [if_pos hal] at hr
  subst hr
  exact ⟨hsame, fun _ => hal⟩

theorem append_checked_early (st : State) (name d : List Byte) (size : Nat)
    (h : rejected st (.append name d size) ∨
      (read_header st name).2.struct_nums ≥ header_capacity (read_header st name).2 ∨
      (allocate_table_space st
        ((SIZEOF_HEADER + ((read_header st name).2.data_len + size) % U32) % U32)).1 ≠ 0) :
    same_ram st (fast_flash_append_table_data st name d size).2 ∧
    (rejected st (.append name d size) ∨
        (read_header st name).2.struct_nums ≥ header_capacity (read_header st name).2 →
      (fast_flash_append_table_data st name d size).1 ≠ 0) := by
  have h0 := h
  unfold rejected read_header at h
  generalize hr : fast_flash_append_table_data st name d size = r
  unfold fast_flash_append_table_data at hr
  by_cases hl : st.g_manager_loaded = false
  · rw [if_pos hl] at hr; subst hr; exact ⟨same_ram_refl st, fun _ => by simp⟩
  rw [if_neg hl] at hr
  by_cases hf : find_table_index st name < 0
  · rw [if_pos hf] at hr; subst hr; exact ⟨same_ram_refl st, fun _ => by simp⟩
  rw [if_neg hf] at hr
  dsimp only at hr h
  generalize hrd : win_flash_read st.flash
    (slot_at st.g_manager_table (find_table_index st name).toNat).addr SIZEOF_HEADER = rd at hr h
  obtain ⟨r0, hb⟩ := rd
  dsimp only at hr h
  by_cases hr0 : r0 ≠ 0
  · rw [if_pos hr0] at hr; subst hr; exact ⟨same_ram_refl st, fun _ => by simp⟩
  rw [if_neg hr0] at hr
  by_cases hsz : size ≠ (parse_header hb).struct_size
  · rw [if_pos hsz] at hr; subst hr; exact ⟨same_ram_refl st, fun _ => by simp⟩
  rw [if_neg hsz] at hr
  by_cases hcap : (parse_header hb).struct_nums ≥ header_capacity (parse_header hb)
  · rw [if_pos hcap] at hr; subst hr; exact ⟨same_ram_refl st, fun _ => by simp⟩
  rw [if_neg hcap] at hr
  subst hr
  have hfull : ¬ (read_header st name).2.struct_nums ≥
      header_capacity (read_header st name).2 := by
    unfold read_header
    rw [hrd]
    exact hcap
  have hw := append_early st name d size
    (h0.elim Or.inl (fun h2 => h2.elim (fun h3 => absurd h3 hfull) Or.inr))
  exact ⟨hw.1, fun h2 => h2.elim hw.2 (fun h3 => absurd h3 hfull)⟩

/-- C24 (for the failures that precede the staging): for each of the seven mutators, a call
that has defined behaviour up to its request for space and that one of the checks on its
arguments and on the table rejects (manager not loaded; name not found, or for `create` name
present or no free slot; header unreadable; record size different from the table's; index or
mask beyond the rows; batch of zero records or beyond the capacity;
`fast_flash_append_table_data` on a full table), or whose request to `allocate_table_space`
returns non-zero, leaves the in-RAM manager table and the write cursor equal to their values
before the call, and a rejected call returns non-zero. -/
theorem rejected_call_keeps_ram (st : State) (c : mutator_call)
    (_hdef : early_defined st c)
    (hearly : mutator_rejected st c ∨
      ∃ size, mutator_requested_size st c = some size ∧
        (allocate_table_space st size).1 ≠ 0) :
    same_ram st (mutator_step st c).2 ∧
    (mutator_rejected st c → (mutator_step st c).1 ≠ 0) := by
  have hsz : ∀ (P : Nat → Prop) (n : Nat), (∃ size, some n = some size ∧ P size) → P n := by
    intro P n ⟨size, h1, h2⟩
    simp only [Option.some.injEq] at h1
    rw [h1]
    exact h2
  cases c with
  | core c =>
    cases c with
    | create name s m => exact create_early st name s m (hearly.imp id (hsz _ _))
    | append name d size => exact append_early st name d size (hearly.imp id (hsz _ _))
    | overwrite name index d size =>
      exact overwrite_early st name d index size (hearly.imp id (hsz _ _))
    | batch name d s k => exact batch_early st name d s k (hearly.imp id (hsz _ _))
    | clear name mask => exact clear_early st name mask hearly
    | delete name =>
      have hrej : rejected st (.delete name) := by
        rcases hearly with h | ⟨size, h1, _⟩
        · exact h
        · cases h1
      have h := delete_early st name hrej
      exact ⟨h.1, fun _ => h.2⟩
  | append_checked name d size =>
    exact append_checked_early st name d size
      (hearly.elim (fun h => h.elim Or.inl (fun h2 => Or.inr (Or.inl h2)))
        (fun h2 => Or.inr (Or.inr (hsz _ _ h2))))

/-! ## Garbage collection: erasing -/

/-- The driver accepts the erase of a sector that lies on the device. -/
theorem win_flash_erase_sector_eq (d : win_flash) (s : Nat)
    (h : s * FLASH_SECTOR_SIZE + FLASH_SECTOR_SIZE ≤ WIN_FLASH_TOTAL_SIZE) :
    win_flash_erase d (s * FLASH_SECTOR_SIZE % U32) FLASH_SECTOR_SIZE =
      (0, { flash_cache := mem_erase d.flash_cache (s * FLASH_SECTOR_SIZE) FLASH_SECTOR_SIZE,
            ops := flash_op.erase (s * FLASH_SECTOR_SIZE % U32) FLASH_SECTOR_SIZE :: d.ops }) := by
  have hS : FLASH_SECTOR_SIZE = 4096 := by decide!
  have hU : U32 = 4294967296 := by decide!
  have hW : WIN_FLASH_TOTAL_SIZE = 65536 := by decide!
  have hm : s * FLASH_SECTOR_SIZE % U32 = s * FLASH_SECTOR_SIZE := Nat.mod_eq_of_lt (by omega)
  unfold win_flash_erase
  dsimp only
  rw [aligned_size_sector, hm, Nat.mul_div_cancel _ (by omega : 0 < FLASH_SECTOR_SIZE),
    Nat.mod_eq_of_lt (by omega : s * FLASH_SECTOR_SIZE + FLASH_SECTOR_SIZE < U32),
    if_neg (by omega), if_neg (by omega)]

/-- An erase leaves an erased byte erased, whatever the driver answers. -/
theorem win_flash_erase_keeps_blank (d : win_flash) (addr size x : Nat)
    (h : d.flash_cache x = 0xFF) : (win_flash_erase d addr size).2.flash_cache x = 0xFF := by
  unfold win_flash_erase
  dsimp only
  split
  · exact h
  · split
    · exact h
    · show mem_erase d.flash_cache _ _ x = 0xFF
      unfold mem_erase
      split
      · rfl
      · exact h

theorem erase_ignoring_keeps_blank : ∀ (l : List Nat) (d : win_flash) (x : Nat),
    d.flash_cache x = 0xFF → (erase_ignoring l d).flash_cache x = 0xFF
  | [], _, _, h => h
  | s :: l, d, x, h => by
    unfold erase_ignoring
    exact erase_ignoring_keeps_blank l _ x (win_flash_erase_keeps_blank d _ _ x h)

/-- After the erase loop every byte of a listed sector that lies on the device is erased. -/
theorem erase_ignoring_in : ∀ (l : List Nat) (d : win_flash) (s x : Nat), s ∈ l →
    s * FLASH_SECTOR_SIZE + FLASH_SECTOR_SIZE ≤ WIN_FLASH_TOTAL_SIZE →
    s * FLASH_SECTOR_SIZE ≤ x → x < s * FLASH_SECTOR_SIZE + FLASH_SECTOR_SIZE →
    (erase_ignoring l d).flash_cache x = 0xFF
  | [], _, _, _, hs, _, _, _ => by cases hs
  | t :: l, d, s, x, hs, hd, h1, h2 => by
    unfold erase_ignoring
    rcases List.mem_cons.mp hs with rfl | hs
    · apply erase_ignoring_keeps_blank
      rw [win_flash_erase_sector_eq d s hd]
      exact mem_erase_in _ _ _ _ h1 h2
    · exact erase_ignoring_in l _ s x hs hd h1 h2

/-- The erase loop touches no byte outside the listed sectors (for sectors below 2^20). -/
theorem erase_ignoring_frame : ∀ (l : List Nat) (d : win_flash) (x : Nat),
    (∀ s ∈ l, s * FLASH_SECTOR_SIZE < U32 ∧
      (x < s * FLASH_SECTOR_SIZE ∨ s * FLASH_SECTOR_SIZE + FLASH_SECTOR_SIZE ≤ x)) →
    (erase_ignoring l d).flash_cache x = d.flash_cache x
  | [], _, _, _ => rfl
  | t :: l, d, x, h => by
    have hS : FLASH_SECTOR_SIZE = 4096 := by decide!
    unfold erase_ignoring
    rw [erase_ignoring_frame l _ x (fun s hs => h s (List.mem_cons_of_mem _ hs))]
    obtain ⟨h1, h2⟩ := h t (List.mem_cons_self _ _)
    apply win_flash_erase_sector_frame
    rw [Nat.mod_eq_of_lt h1, Nat.mul_div_cancel _ (by omega : 0 < FLASH_SECTOR_SIZE)]
    exact h2

/-- The erase loop issues one erase call per listed sector, in order. -/
theorem erase_ignoring_ops : ∀ (l : List Nat) (d : win_flash),
    (erase_ignoring l d).ops =
      (l.map (fun s => flash_op.erase (s * FLASH_SECTOR_SIZE % U32) FLASH_SECTOR_SIZE)).reverse
        ++ d.ops
  | [], _ => rfl
  | s :: l, d => by
    have h1 : (win_flash_erase d (s * FLASH_SECTOR_SIZE % U32) FLASH_SECTOR_SIZE).2.ops =
        flash_op.erase (s * FLASH_SECTOR_SIZE % U32) FLASH_SECTOR_SIZE :: d.ops := by
      unfold win_flash_erase
      dsimp only
      split
      · rfl
      · split <;> rfl
    unfold erase_ignoring
    rw [erase_ignoring_ops l _, h1]
    simp

/-! ## Garbage collection without an empty sector -/

/-- No sector is empty when every sector holds the address of a Valid slot. -/
theorem find_empty_sector_none (st : State)
    (hfull : ∀ sector, sector < st.g_total_size / FLASH_SECTOR_SIZE →
      ∃ i, i < MAX_TABLES_ALL_SECTOR ∧
        (slot_at st.g_manager_table i).status = TABLE_STATUS_VALID ∧
        (slot_at st.g_manager_table i).addr / FLASH_SECTOR_SIZE = sector) :
    find_empty_sector st = none := by
  unfold find_empty_sector
  rw [List.find?_eq_none]
  intro sector hs
  obtain ⟨i, hi, h1, h2⟩ := hfull sector (List.mem_range.mp hs)
  simp only [decide_not, Bool.not_eq_true', decide_eq_false_iff_not, not_not]
  exact ⟨i, List.mem_range.mpr hi, h1, h2⟩

/-- A manager whose slots are all Invalid resolves no name. -/
theorem find_table_index_none (st : State) (name : List Byte)
    (h : ∀ i, (slot_at st.g_manager_table i).status ≠ TABLE_STATUS_VALID) :
    find_table_index st name = -1 := by
  unfold find_table_index
  rw [List.find?_eq_none.mpr]
  intro i _
  simp only [decide_eq_true_eq, not_and]
  intro hv
  exact absurd hv (h i)

theorem slot_at_fresh (total crc i : Nat) :
    slot_at { fresh_manager total with crc := crc } i = zero_info := by
  show (List.replicate 24 zero_info).getD i zero_info = zero_info
  rw [List.getD_eq_getElem?_getD, List.getElem?_replicate]
  split <;> rfl

/-- The state a `fast_flash_gc` without an empty sector produces: all sectors erased and the
empty manager programmed at offset 0. -/
theorem gc_case_b_eq (st : State) (hl : st.g_manager_loaded = true)
    (he : st.g_allow_erase = true) (hnone : find_empty_sector st = none) :
    fast_flash_gc st =
      (0, { st with
        flash :=
          { flash_cache :=
              mem_write
                (erase_ignoring (List.range' 1 (st.g_total_size / FLASH_SECTOR_SIZE - 1))
                  { flash_cache := mem_erase st.flash.flash_cache 0 FLASH_SECTOR_SIZE,
                    ops := flash_op.erase 0 FLASH_SECTOR_SIZE :: st.flash.ops }).flash_cache 0
                (manager_bytes { fresh_manager st.g_total_size with
                  crc := calculate_manager_table_crc (fresh_manager st.g_total_size) })
            ops :=
              flash_op.write 0 (manager_bytes { fresh_manager st.g_total_size with
                  crc := calculate_manager_table_crc (fresh_manager st.g_total_size) }) ::
                (erase_ignoring (List.range' 1 (st.g_total_size / FLASH_SECTOR_SIZE - 1))
                  { flash_cache := mem_erase st.flash.flash_cache 0 FLASH_SECTOR_SIZE,
                    ops := flash_op.erase 0 FLASH_SECTOR_SIZE :: st.flash.ops }).ops }
        g_manager_table := { fresh_manager st.g_total_size with
          crc := calculate_manager_table_crc (fresh_manager st.g_total_size) }
        g_current_sector := 0
        g_current_offset := SIZEOF_MANAGER * 2 }) := by
  have hS : FLASH_SECTOR_SIZE = 4096 := by decide!
  have hM : SIZEOF_MANAGER = 692 := by decide!
  have hC : FLASH_WRITE_CHUNK_SIZE = 1024 := by decide!
  have hW : WIN_FLASH_TOTAL_SIZE = 65536 := by decide!
  unfold fast_flash_gc
  rw [if_neg (by rw [hl]; decide), if_neg (by rw [he]; decide)]
  dsimp only
  rw [hnone]
  dsimp only
  rw [win_flash_erase_first]
  dsimp only
  rw [if_neg (by decide)]
  rw [write_with_chunks_blank _ 0 _ SIZEOF_MANAGER (by omega) (by omega)
    (by rw [manager_bytes_length]) (by omega)
    (fun j hj => erase_ignoring_keeps_blank _ _ _
      (mem_erase_in _ _ _ _ (Nat.zero_le _) (by omega)))]
  dsimp only
  rw [if_neg (by decide), List.take_of_length_le (by rw [manager_bytes_length])]
  rfl

/-- C21: in a loaded state with erase allowed in which every sector index below
`total_size / 4096` holds the address of a Valid slot, and whose sectors all lie on the device
(so that the driver accepts every erase), `fast_flash_gc` returns 0; it has erased sector 0 and
then every other sector and programmed one record at offset 0; every byte of the sectors other
than that record is erased; the in-RAM manager has the manager magic and version,
`table_count` 0, `used_size` 0, `next_manager_addr` 692 and only Invalid slots; the 692 bytes at
offset 0 are its image, and it and the record read back from offset 0 pass
`validate_manager_table`; the cursor is sector 0, offset 1384; no name resolves to a table. -/
theorem gc_reset_without_empty_sector (st : State) (hl : st.g_manager_loaded = true)
    (he : st.g_allow_erase = true)
    (hfull : ∀ sector, sector < st.g_total_size / FLASH_SECTOR_SIZE →
      ∃ i, i < MAX_TABLES_ALL_SECTOR ∧
        (slot_at st.g_manager_table i).status = TABLE_STATUS_VALID ∧
        (slot_at st.g_manager_table i).addr / FLASH_SECTOR_SIZE = sector)
    (hdev : st.g_total_size / FLASH_SECTOR_SIZE * FLASH_SECTOR_SIZE ≤ WIN_FLASH_TOTAL_SIZE) :
    (fast_flash_gc st).1 = 0 ∧
    (fast_flash_gc st).2.flash.ops =
      flash_op.write 0 (manager_bytes (fast_flash_gc st).2.g_manager_table) ::
        (((List.range' 1 (st.g_total_size / FLASH_SECTOR_SIZE - 1)).map
          (fun s => flash_op.erase (s * FLASH_SECTOR_SIZE % U32) FLASH_SECTOR_SIZE)).reverse ++
          flash_op.erase 0 FLASH_SECTOR_SIZE :: st.flash.ops) ∧
    (∀ x, SIZEOF_MANAGER ≤ x →
      x < FLASH_SECTOR_SIZE ∨ x < st.g_total_size / FLASH_SECTOR_SIZE * FLASH_SECTOR_SIZE →
      (fast_flash_gc st).2.flash.flash_cache x = 0xFF) ∧
    (fast_flash_gc st).2.g_manager_table.magic = MAGIC_NUMBER_MANAGER ∧
    (fast_flash_gc st).2.g_manager_table.version = MANAGER_TABLE_VERSION ∧
    (fast_flash_gc st).2.g_manager_table.table_count = 0 ∧
    (fast_flash_gc st).2.g_manager_table.used_size = 0 ∧
    (fast_flash_gc st).2.g_manager_table.next_manager_addr = 692 ∧
    (fast_flash_gc st).2.g_manager_table.total_size = st.g_total_size ∧
    (∀ i, (slot_at (fast_flash_gc st).2.g_manager_table i).status = TABLE_STATUS_INVALID) ∧
    mem_read (fast_flash_gc st).2.flash.flash_cache 0 SIZEOF_MANAGER =
      manager_bytes (fast_flash_gc st).2.g_manager_table ∧
    validate_manager_table (fast_flash_gc st).2.g_manager_table = 0 ∧
    validate_manager_table
      (parse_manager (mem_read (fast_flash_gc st).2.flash.flash_cache 0 SIZEOF_MANAGER)) = 0 ∧
    (fast_flash_gc st).2.g_manager_loaded = true ∧
    (fast_flash_gc st).2.g_current_sector = 0 ∧
    (fast_flash_gc st).2.g_current_offset = 1384 ∧
    ∀ name, fast_flash_table_exists (fast_flash_gc st).2 name = false := by
  have hS : FLASH_SECTOR_SIZE = 4096 := by decide!
  have hM : SIZEOF_MANAGER = 692 := by decide!
  have hW : WIN_FLASH_TOTAL_SIZE = 65536 := by decide!
  have hU : U32 = 4294967296 := by decide!
  have htot : st.g_total_size < U32 := by
    have := Nat.div_add_mod' st.g_total_size FLASH_SECTOR_SIZE
    have := Nat.mod_lt st.g_total_size (by omega : 0 < FLASH_SECTOR_SIZE)
    omega
  rw [gc_case_b_eq st hl he (find_empty_sector_none st hfull)]
  dsimp only
  have hrec : mem_read
      (mem_write
        (erase_ignoring (List.range' 1 (st.g_total_size / FLASH_SECTOR_SIZE - 1))
          { flash_cache := mem_erase st.flash.flash_cache 0 FLASH_SECTOR_SIZE,
            ops := flash_op.erase 0 FLASH_SECTOR_SIZE :: st.flash.ops }).flash_cache 0
        (manager_bytes { fresh_manager st.g_total_size with
          crc := calculate_manager_table_crc (fresh_manager st.g_total_size) }))
      0 SIZEOF_MANAGER =
      manager_bytes { fresh_manager st.g_total_size with
        crc := calculate_manager_table_crc (fresh_manager st.g_total_size) } := by
    have := mem_read_write_same
      (erase_ignoring (List.range' 1 (st.g_total_size / FLASH_SECTOR_SIZE - 1))
        { flash_cache := mem_erase st.flash.flash_cache 0 FLASH_SECTOR_SIZE,
          ops := flash_op.erase 0 FLASH_SECTOR_SIZE :: st.flash.ops }).flash_cache 0
      (manager_bytes { fresh_manager st.g_total_size with
        crc := calculate_manager_table_crc (fresh_manager st.g_total_size) })
    rw [manager_bytes_length] at this
    exact this
  have hval : validate_manager_table { fresh_manager st.g_total_size with
      crc := calculate_manager_table_crc (fresh_manager st.g_total_size) } = 0 :=
    validate_committed (fresh_manager st.g_total_size) rfl rfl
  refine ⟨rfl, ?_, ?_, rfl, rfl, rfl, rfl, ?_, rfl, ?_, hrec, hval, ?_, hl, rfl, ?_, ?_⟩
  · rw [erase_ignoring_ops]
  · intro x hx hlt
    rw [mem_write_out _ _ _ _ (Or.inr (by rw [manager_bytes_length]; omega))]
    by_cases h0 : x < FLASH_SECTOR_SIZE
    · exact erase_ignoring_keeps_blank _ _ _ (mem_erase_in _ _ _ _ (Nat.zero_le _) (by omega))
    · have hlt2 : x < st.g_total_size / FLASH_SECTOR_SIZE * FLASH_SECTOR_SIZE := by
        rcases hlt with h | h
        · exact absurd h h0
        · exact h
      have hd := Nat.div_add_mod' x FLASH_SECTOR_SIZE
      have hm := Nat.mod_lt x (by omega : 0 < FLASH_SECTOR_SIZE)
      generalize x / FLASH_SECTOR_SIZE = q at hd
      generalize x % FLASH_SECTOR_SIZE = o at hd hm
      generalize st.g_total_size / FLASH_SECTOR_SIZE = n at hdev hlt2 ⊢
      have hsn : q < n := by
        by_contra hcon
        have := Nat.mul_le_mul_right FLASH_SECTOR_SIZE (Nat.le_of_not_lt hcon)
        omega
      have hs1 : 1 ≤ q := by
        by_contra hcon
        have : q = 0 := by omega
        rw [this] at hd
        omega
      have hin : q + 1 ≤ n := hsn
      have hle := Nat.mul_le_mul_right FLASH_SECTOR_SIZE hin
      rw [Nat.add_mul] at hle
      exact erase_ignoring_in _ _ q x
        (List.mem_range'_1.mpr ⟨hs1, by omega⟩) (by omega) (by omega) (by omega)
  · show SIZEOF_MANAGER = 692
    exact hM
  · intro i
    rw [slot_at_fresh]
    rfl
  · rw [hrec, parse_manager_bytes _ (wf_fresh _ htot)]
    exact hval
  · show SIZEOF_MANAGER * 2 = 1384
    rw [hM]
  · intro name
    unfold fast_flash_table_exists
    rw [if_neg (by rw [hl]; decide)]
    rw [find_table_index_none _ name (fun i => by
      show (slot_at { fresh_manager st.g_total_size with
        crc := calculate_manager_table_crc (fresh_manager st.g_total_size) } i).status ≠ _
      rw [slot_at_fresh]
      decide)]
    decide

/-! ## Garbage collection: the tables and their order -/

theorem swap_head_perm {α : Type} (z : α) : ∀ (xs : List α) (k : Nat) (x : α), k < xs.length →
    (xs.getD k z :: xs.set k x).Perm (x :: xs)
  | [], _, _, h => by cases h
  | y :: ys, 0, x, _ => List.Perm.swap _ _ _
  | y :: ys, k + 1, x, h => by
    have ih := swap_head_perm z ys k x (Nat.lt_of_succ_lt_succ h)
    show (ys.getD k z :: y :: ys.set k x).Perm (x :: y :: ys)
    exact (List.Perm.swap _ _ _).trans (((List.Perm.cons y ih)).trans (List.Perm.swap _ _ _))

/-- Exchanging two entries of a list gives a permutation of it. -/
theorem swap_perm {α : Type} (z : α) : ∀ (v : List α) (i j : Nat), i < j → j < v.length →
    ((v.set i (v.getD j z)).set j (v.getD i z)).Perm v
  | [], _, _, _, h => by cases h
  | x :: xs, 0, 0, h, _ => by cases h
  | x :: xs, 0, k + 1, _, h => swap_head_perm z xs k x (Nat.lt_of_succ_lt_succ h)
  | x :: xs, i + 1, 0, h, _ => by cases h
  | x :: xs, i + 1, k + 1, hij, h => by
    show (x :: (xs.set i (xs.getD k z)).set k (xs.getD i z)).Perm (x :: xs)
    exact List.Perm.cons x (swap_perm z xs i k (Nat.lt_of_succ_lt_succ hij)
      (Nat.lt_of_succ_lt_succ h))

theorem sort_inner_perm (i : Nat) : ∀ (js : List Nat) (v : List flash_table_info_t),
    (∀ j ∈ js, i < j ∧ j < v.length) → (sort_inner i js v).Perm v
  | [], _, _ => List.Perm.refl _
  | j :: js, v, h => by
    unfold sort_inner
    obtain ⟨h1, h2⟩ := h j (List.mem_cons_self _ _)
    split
    · have hp := swap_perm zero_info v i j h1 h2
      refine (sort_inner_perm i js _ (fun k hk => ?_)).trans hp
      rw [hp.length_eq]
      exact h k (List.mem_cons_of_mem _ hk)
    · exact sort_inner_perm i js v (fun k hk => h k (List.mem_cons_of_mem _ hk))

theorem sort_outer_perm : ∀ (is : List Nat) (v : List flash_table_info_t),
    (sort_outer is v).Perm v
  | [], _ => List.Perm.refl _
  | i :: is, v => by
    unfold sort_outer
    have hp : (sort_inner i (List.range' (i + 1) (v.length - (i + 1))) v).Perm v :=
      sort_inner_perm i _ v (fun j hj => by
        have := List.mem_range'_1.mp hj
        omega)
    exact (sort_outer_perm is _).trans hp

/-- The address sort of `fast_flash_gc` permutes the tables. -/
theorem sort_by_addr_perm (v : List flash_table_info_t) : (sort_by_addr v).Perm v :=
  sort_outer_perm _ v

/-- The RAM update after a move changes the address of one slot and nothing else. -/
theorem gc_update_addr_slot (m : flash_manager_table_t) (name : List Byte) (new_addr i : Nat) :
    slot_at (gc_update_addr m name new_addr) i = slot_at m i ∨
      slot_at (gc_update_addr m name new_addr) i = { slot_at m i with addr := new_addr } := by
  unfold gc_update_addr
  split
  · rename_i j hj
    have h1 := List.find?_some hj
    simp only [decide_eq_true_eq] at h1
    have hlt : j < m.tables.length := slot_lt_of_status m j (by rw [h1.1]; decide)
    by_cases hij : j = i
    · subst hij
      exact Or.inr (slot_at_set_same m j _ hlt)
    · exact Or.inl (slot_at_set_ne m j i _ hij)
  · exact Or.inl rfl

theorem gc_update_addr_fields (m : flash_manager_table_t) (name : List Byte) (new_addr : Nat) :
    (gc_update_addr m name new_addr).magic = m.magic ∧
    (gc_update_addr m name new_addr).version = m.version ∧
    (gc_update_addr m name new_addr).table_count = m.table_count ∧
    (gc_update_addr m name new_addr).total_size = m.total_size ∧
    (gc_update_addr m name new_addr).tables.length = m.tables.length := by
  unfold gc_update_addr
  split
  · exact ⟨rfl, rfl, rfl, rfl, List.length_set _ _ _⟩
  · exact ⟨rfl, rfl, rfl, rfl, rfl⟩

/-- Two managers whose slots agree in everything but the address. -/
theorem collect_valid_sizes (m m' : flash_manager_table_t)
    (h : ∀ i, (slot_at m' i).status = (slot_at m i).status ∧
      (slot_at m' i).size = (slot_at m i).size) :
    (collect_valid m').map (fun t => t.size) = (collect_valid m).map (fun t => t.size) := by
  unfold collect_valid
  generalize List.range MAX_TABLES_ALL_SECTOR = l
  induction l with
  | nil => rfl
  | cons i l ih =>
    simp only [List.map_cons, List.filter_cons, (h i).1]
    split
    · simp only [List.map_cons, (h i).2, ih]
    · exact ih

/-- The loop that moves tables into the scratch sector changes no slot in anything but its
address and leaves the other globals alone. -/
theorem gc_move_to_cache_shape : ∀ (ts : List flash_table_info_t) (st : State) (pos : Nat),
    (∀ i, (slot_at (gc_move_to_cache ts st pos).2.g_manager_table i).status =
        (slot_at st.g_manager_table i).status ∧
      (slot_at (gc_move_to_cache ts st pos).2.g_manager_table i).size =
        (slot_at st.g_manager_table i).size ∧
      (slot_at (gc_move_to_cache ts st pos).2.g_manager_table i).name =
        (slot_at st.g_manager_table i).name) ∧
    (gc_move_to_cache ts st pos).2.g_manager_loaded = st.g_manager_loaded ∧
    (gc_move_to_cache ts st pos).2.g_total_size = st.g_total_size ∧
    (gc_move_to_cache ts st pos).2.g_allow_erase = st.g_allow_erase ∧
    (gc_move_to_cache ts st pos).2.g_manager_table.magic = st.g_manager_table.magic ∧
    (gc_move_to_cache ts st pos).2.g_manager_table.version = st.g_manager_table.version
  | [], st, pos => ⟨fun _ => ⟨rfl, rfl, rfl⟩, rfl, rfl, rfl, rfl, rfl⟩
  | t :: ts, st, pos => by
    unfold gc_move_to_cache
    generalize win_flash_read st.flash t.addr t.size = rd
    obtain ⟨r, temp⟩ := rd
    dsimp only
    by_cases hr : r ≠ 0
    · rw [if_pos hr]
      exact ⟨fun _ => ⟨rfl, rfl, rfl⟩, rfl, rfl, rfl, rfl, rfl⟩
    rw [if_neg hr]
    generalize write_with_chunks st.flash pos temp t.size = wr
    obtain ⟨w, fl⟩ := wr
    dsimp only
    by_cases hw : w ≠ 0
    · rw [if_pos hw]
      exact ⟨fun _ => ⟨rfl, rfl, rfl⟩, rfl, rfl, rfl, rfl, rfl⟩
    rw [if_neg hw]
    obtain ⟨h1, h2, h3, h4, h5, h6⟩ := gc_move_to_cache_shape ts
      { st with flash := fl,
                g_manager_table := gc_update_addr st.g_manager_table t.name pos }
      ((pos + t.size) % U32)
    have hf := gc_update_addr_fields st.g_manager_table t.name pos
    refine ⟨fun i => ?_, h2, h3, h4, h5.trans hf.1, h6.trans hf.2.1⟩
    obtain ⟨a1, a2, a3⟩ := h1 i
    rw [a1, a2, a3]
    rcases gc_update_addr_slot st.g_manager_table t.name pos i with h | h <;>
      rw [h] <;> exact ⟨rfl, rfl, rfl⟩

/-- The compaction loop on tables that fit the current sector: when it returns 0 the write
position has advanced by the sum of the sizes and the sector is unchanged; no slot has changed
in anything but its address. -/
theorem gc_compact_fit : ∀ (ts : List flash_table_info_t) (st : State) (wp sec : Nat),
    wp + (ts.map (fun t => t.size)).sum ≤ (sec + 1) * FLASH_SECTOR_SIZE →
    (sec + 1) * FLASH_SECTOR_SIZE < U32 →
    (gc_compact ts st wp sec).1 = 0 →
    (gc_compact ts st wp sec).2.2 = (wp + (ts.map (fun t => t.size)).sum, sec) ∧
    (∀ i, (slot_at (gc_compact ts st wp sec).2.1.g_manager_table i).status =
        (slot_at st.g_manager_table i).status ∧
      (slot_at (gc_compact ts st wp sec).2.1.g_manager_table i).size =
        (slot_at st.g_manager_table i).size ∧
      (slot_at (gc_compact ts st wp sec).2.1.g_manager_table i).name =
        (slot_at st.g_manager_table i).name) ∧
    (gc_compact ts st wp sec).2.1.g_manager_loaded = st.g_manager_loaded ∧
    (gc_compact ts st wp sec).2.1.g_total_size = st.g_total_size ∧
    (gc_compact ts st wp sec).2.1.g_allow_erase = st.g_allow_erase ∧
    (gc_compact ts st wp sec).2.1.g_manager_table.magic = st.g_manager_table.magic ∧
    (gc_compact ts st wp sec).2.1.g_manager_table.version = st.g_manager_table.version
  | [], st, wp, sec, _, _, _ => by
    simp only [List.map_nil, List.sum_nil, Nat.add_zero]
    exact ⟨rfl, fun _ => ⟨rfl, rfl, rfl⟩, rfl, rfl, rfl, rfl, rfl⟩
  | t :: ts, st, wp, sec, hfit, hlim, h0 => by
    simp only [List.map_cons, List.sum_cons] at hfit ⊢
    unfold gc_compact at h0 ⊢
    have hnc : decide ((wp + t.size) % U32 > (sec + 1) * FLASH_SECTOR_SIZE % U32) = false := by
      rw [decide_eq_false_iff_not, Nat.mod_eq_of_lt hlim, Nat.mod_eq_of_lt (by omega)]
      omega
    simp only [hnc, Bool.false_eq_true, if_false] at h0 ⊢
    rw [if_neg (by decide)] at h0 ⊢
    generalize win_flash_read st.flash t.addr t.size = rd at h0 ⊢
    obtain ⟨r, temp⟩ := rd
    dsimp only at h0 ⊢
    by_cases hr : r ≠ 0
    · rw [if_pos hr] at h0
      simp at h0
    rw [if_neg hr] at h0 ⊢
    generalize write_with_chunks st.flash wp temp t.size = wr at h0 ⊢
    obtain ⟨w, fl⟩ := wr
    dsimp only at h0 ⊢
    by_cases hw : w ≠ 0
    · rw [if_pos hw] at h0
      simp at h0
    rw [if_neg hw] at h0 ⊢
    have hwp : (wp + t.size) % U32 = wp + t.size := Nat.mod_eq_of_lt (by omega)
    rw [hwp] at h0 ⊢
    obtain ⟨h1, h2, h3, h4, h5, h6, h7⟩ := gc_compact_fit ts
      { st with flash := fl,
                g_manager_table := gc_update_addr st.g_manager_table t.name wp }
      (wp + t.size) sec (by omega) hlim h0
    have hf := gc_update_addr_fields st.g_manager_table t.name wp
    refine ⟨by rw [h1, Nat.add_assoc], fun i => ?_, h3, h4, h5, h6.trans hf.1, h7.trans hf.2.1⟩
    obtain ⟨a1, a2, a3⟩ := h2 i
    rw [a1, a2, a3]
    rcases gc_update_addr_slot st.g_manager_table t.name wp i with h | h <;>
      rw [h] <;> exact ⟨rfl, rfl, rfl⟩

/-- A `fast_flash_gc` with an empty sector that returns 0, for tables that fit sector 0 behind
the manager record: the new write position `692 + sum of the sizes of the Valid slots` is the
`used_size` and the `next_manager_addr` of the in-RAM manager and the cursor; no slot has
changed in anything but its address. -/
theorem gc_case_a_fit (st : State) (S : Nat) (hA : find_empty_sector st = some S)
    (h0 : (fast_flash_gc st).1 = 0)
    (hfit : SIZEOF_MANAGER + ((collect_valid st.g_manager_table).map (fun t => t.size)).sum ≤
      FLASH_SECTOR_SIZE) :
    (fast_flash_gc st).2.g_manager_loaded = true ∧
    (fast_flash_gc st).2.g_manager_table.used_size =
      SIZEOF_MANAGER + ((collect_valid st.g_manager_table).map (fun t => t.size)).sum ∧
    (fast_flash_gc st).2.g_manager_table.next_manager_addr =
      SIZEOF_MANAGER + ((collect_valid st.g_manager_table).map (fun t => t.size)).sum ∧
    (fast_flash_gc st).2.g_current_sector = 0 ∧
    (fast_flash_gc st).2.g_current_offset =
      (SIZEOF_MANAGER + ((collect_valid st.g_manager_table).map (fun t => t.size)).sum) %
        FLASH_SECTOR_SIZE ∧
    (∀ i, (slot_at (fast_flash_gc st).2.g_manager_table i).status =
        (slot_at st.g_manager_table i).status ∧
      (slot_at (fast_flash_gc st).2.g_manager_table i).size =
        (slot_at st.g_manager_table i).size ∧
      (slot_at (fast_flash_gc st).2.g_manager_table i).name =
        (slot_at st.g_manager_table i).name) := by
  have hS : FLASH_SECTOR_SIZE = 4096 := by decide!
  have hU : U32 = 4294967296 := by decide!
  have hM : SIZEOF_MANAGER = 692 := by decide!
  generalize hr : fast_flash_gc st = r at h0 ⊢
  unfold fast_flash_gc at hr
  by_cases hl : st.g_manager_loaded = false
  · rw [if_pos hl] at hr; subst hr; simp at h0
  rw [if_neg hl] at hr
  by_cases he : st.g_allow_erase = false
  · rw [if_pos he] at hr; subst hr; simp at h0
  rw [if_neg he] at hr
  dsimp only at hr
  rw [hA] at hr
  dsimp only at hr
  generalize win_flash_erase st.flash (S * FLASH_SECTOR_SIZE % U32) FLASH_SECTOR_SIZE = e1 at hr
  obtain ⟨er, fl1⟩ := e1
  dsimp only at hr
  by_cases her : er ≠ 0
  · rw [if_pos her] at hr; subst hr; simp at h0
  rw [if_neg her] at hr
  have hsh1 := gc_move_to_cache_shape
    ((sort_by_addr (collect_valid st.g_manager_table)).filter
      (fun t => t.addr / FLASH_SECTOR_SIZE = 0))
    { st with flash := fl1 } (S * FLASH_SECTOR_SIZE % U32)
  generalize gc_move_to_cache
    ((sort_by_addr (collect_valid st.g_manager_table)).filter
      (fun t => t.addr / FLASH_SECTOR_SIZE = 0))
    { st with flash := fl1 } (S * FLASH_SECTOR_SIZE % U32) = mv at hr hsh1
  obtain ⟨r1, st1⟩ := mv
  dsimp only at hr hsh1
  by_cases hr1 : r1 ≠ 0
  · rw [if_pos hr1] at hr; subst hr; simp at h0
  rw [if_neg hr1] at hr
  generalize win_flash_erase st1.flash 0 FLASH_SECTOR_SIZE = e2 at hr
  obtain ⟨er2, fl2⟩ := e2
  dsimp only at hr
  by_cases her2 : er2 ≠ 0
  · rw [if_pos her2] at hr; subst hr; simp at h0
  rw [if_neg her2] at hr
  obtain ⟨hs1, hl1, _, _, _, _⟩ := hsh1
  have hsum1 : ((sort_by_addr (collect_valid st1.g_manager_table)).map (fun t => t.size)).sum =
      ((collect_valid st.g_manager_table).map (fun t => t.size)).sum := by
    rw [((sort_by_addr_perm _).map _).sum_eq,
      collect_valid_sizes st.g_manager_table st1.g_manager_table
        (fun i => ⟨(hs1 i).1, (hs1 i).2.1⟩)]
  have hcf := gc_compact_fit (sort_by_addr (collect_valid st1.g_manager_table))
    { st1 with flash := fl2 } SIZEOF_MANAGER 0 (by rw [hsum1]; omega) (by omega)
  generalize gc_compact (sort_by_addr (collect_valid st1.g_manager_table))
    { st1 with flash := fl2 } SIZEOF_MANAGER 0 = gcr at hr hcf
  obtain ⟨r2, st2, wp, cs⟩ := gcr
  dsimp only at hr hcf
  by_cases hr2 : r2 ≠ 0
  · rw [if_pos hr2] at hr; subst hr; simp at h0
  rw [if_neg hr2] at hr
  obtain ⟨hpos, hs2, hl2, _, _, _, _⟩ := hcf (by simpa using hr2)
  rw [hsum1] at hpos
  simp only [Prod.mk.injEq] at hpos
  obtain ⟨hwp, hcs⟩ := hpos
  generalize write_with_chunks st2.flash 0
    (manager_bytes
      { { st2.g_manager_table with next_manager_addr := wp, used_size := wp } with
        crc := calculate_manager_table_crc
          { st2.g_manager_table with next_manager_addr := wp, used_size := wp } })
    SIZEOF_MANAGER = wr at hr
  obtain ⟨w, fl3⟩ := wr
  dsimp only at hr
  by_cases hw : w ≠ 0
  · rw [if_pos hw] at hr; subst hr; simp at h0
  rw [if_neg hw] at hr
  subst hr
  dsimp only
  have hl0 : st.g_manager_loaded = true := by simpa using hl
  refine ⟨?_, hwp, hwp, hcs, by rw [hwp], fun i => ?_⟩
  · rw [hl2]
    show st1.g_manager_loaded = true
    rw [hl1]
    exact hl0
  · have a := hs2 i
    have b := hs1 i
    exact ⟨a.1.trans b.1, a.2.1.trans b.2.1, a.2.2.trans b.2.2⟩

/-- The used size after a collection of tables that fit sector 0: when `fast_flash_gc` finds an
empty sector and returns
0, and 692 plus the sizes of the Valid slots is at most 4096, `fast_flash_get_used_size()` is
692 plus the sum of the sizes of the Valid slots after the collection, which are the sizes they
had before it. -/
theorem gc_used_size_when_fitting (st : State) (S : Nat)
    (hA : find_empty_sector st = some S) (h0 : (fast_flash_gc st).1 = 0)
    (hfit : 692 + ((collect_valid st.g_manager_table).map (fun t => t.size)).sum ≤ 4096) :
    fast_flash_get_used_size (fast_flash_gc st).2 =
      692 + ((collect_valid (fast_flash_gc st).2.g_manager_table).map (fun t => t.size)).sum ∧
    (collect_valid (fast_flash_gc st).2.g_manager_table).map (fun t => t.size) =
      (collect_valid st.g_manager_table).map (fun t => t.size) := by
  have hS : FLASH_SECTOR_SIZE = 4096 := by decide!
  have hM : SIZEOF_MANAGER = 692 := by decide!
  obtain ⟨h1, h2, _, _, _, h6⟩ := gc_case_a_fit st S hA h0 (by rw [hS, hM]; exact hfit)
  have hsz := collect_valid_sizes st.g_manager_table (fast_flash_gc st).2.g_manager_table
    (fun i => ⟨(h6 i).1, (h6 i).2.1⟩)
  refine ⟨?_, hsz⟩
  unfold fast_flash_get_used_size
  rw [h1, if_pos rfl, h2, hsz, hM]

/-! ## Garbage collection of a single table -/

theorem write_with_chunks_loop_blank : ∀ (fuel : Nat) (d : win_flash) (addr : Nat)
    (src : List Byte) (remain : Nat), remain ≤ fuel → remain ≤ src.length →
    addr + remain ≤ WIN_FLASH_TOTAL_SIZE →
    (∀ j, j < remain → d.flash_cache (addr + j) = 0xFF) →
    (write_with_chunks_loop fuel d addr src remain).1 = 0
  | 0, d, addr, src, remain, _, _, _, _ => rfl
  | fuel + 1, d, addr, src, remain, hf, hs, hb, hbl => by
    have hC : FLASH_WRITE_CHUNK_SIZE = 1024 := by decide!
    have hU : U32 = 4294967296 := by decide!
    have hW : WIN_FLASH_TOTAL_SIZE = 65536 := by decide!
    unfold write_with_chunks_loop
    by_cases hr : remain > 0
    · rw [if_pos hr]
      dsimp only
      generalize hcs : (if remain > FLASH_WRITE_CHUNK_SIZE then FLASH_WRITE_CHUNK_SIZE
        else remain) = chunk
      have hc1 : chunk ≤ remain ∧ chunk ≤ FLASH_WRITE_CHUNK_SIZE ∧ 0 < chunk := by
        rw [← hcs]; split <;> omega
      rw [win_flash_write_blank d addr src chunk (by omega) (by omega)
        (fun j hj => hbl j (by omega))]
      dsimp only
      rw [if_neg (by decide), Nat.mod_eq_of_lt (by omega)]
      apply write_with_chunks_loop_blank fuel _ (addr + chunk) _ (remain - chunk) (by omega)
        (by rw [List.length_drop]; omega) (by omega)
      intro j hj
      show mem_write d.flash_cache addr (src.take chunk) (addr + chunk + j) = 0xFF
      rw [mem_write_out _ _ _ _ (Or.inr (by rw [List.length_take]; omega))]
      have := hbl (chunk + j) (by omega)
      rw [← Nat.add_assoc] at this
      exact this
    · rw [if_neg hr]

/-- A chunked write into an erased range on the device returns 0 and stores the bytes. -/
theorem write_with_chunks_blank_any (d : win_flash) (addr : Nat) (data : List Byte) (size : Nat)
    (hs : size ≤ data.length) (hb : addr + size ≤ WIN_FLASH_TOTAL_SIZE)
    (hbl : ∀ j, j < size → d.flash_cache (addr + j) = 0xFF) :
    ∃ fl, write_with_chunks d addr data size = (0, fl) ∧
      fl.flash_cache = mem_write d.flash_cache addr (data.take size) := by
  have hC : FLASH_WRITE_CHUNK_SIZE = 1024 := by decide!
  have hU : U32 = 4294967296 := by decide!
  have hW : WIN_FLASH_TOTAL_SIZE = 65536 := by decide!
  have h0 : (write_with_chunks d addr data size).1 = 0 :=
    write_with_chunks_loop_blank size d addr data size (Nat.le_refl _) hs hb hbl
  obtain ⟨_, hc, _⟩ := write_with_chunks_ok d addr data size (by omega) h0
  exact ⟨(write_with_chunks d addr data size).2, Prod.ext h0 rfl, hc⟩

theorem strncmp_eq_refl : ∀ (n : Nat) (a : List Byte), strncmp_eq n a a = true
  | 0, _ => rfl
  | n + 1, a => by
    unfold strncmp_eq
    rw [if_neg (by simp)]
    split
    · rfl
    · exact strncmp_eq_refl n a.tail

/-- With a single Valid slot the list of Valid tables is that slot. -/
theorem collect_valid_only (m : flash_manager_table_t) (i0 : Nat)
    (hi0 : i0 < MAX_TABLES_ALL_SECTOR)
    (honly : ∀ i, i < MAX_TABLES_ALL_SECTOR →
      ((slot_at m i).status = TABLE_STATUS_VALID ↔ i = i0)) :
    collect_valid m = [slot_at m i0] := by
  unfold collect_valid
  rw [List.filter_map]
  have hf : (List.range MAX_TABLES_ALL_SECTOR).filter
      ((fun t : flash_table_info_t => decide (t.status = TABLE_STATUS_VALID)) ∘ slot_at m) =
      (List.range MAX_TABLES_ALL_SECTOR).filter (fun i => decide (i = i0)) := by
    apply List.filter_congr
    intro i hi
    simp only [Function.comp, decide_eq_decide]
    exact honly i (List.mem_range.mp hi)
  rw [hf]
  have h1 : (List.range MAX_TABLES_ALL_SECTOR).filter (fun i => decide (i = i0)) = [i0] := by
    have hT : MAX_TABLES_ALL_SECTOR = 24 := rfl
    rw [hT] at hi0 ⊢
    interval_cases i0 <;> rfl
  rw [h1]
  rfl

/-- With a single Valid slot the RAM update after a move changes that slot. -/
theorem gc_update_addr_only (m : flash_manager_table_t) (i0 : Nat)
    (hi0 : i0 < MAX_TABLES_ALL_SECTOR)
    (honly : ∀ i, i < MAX_TABLES_ALL_SECTOR →
      ((slot_at m i).status = TABLE_STATUS_VALID ↔ i = i0)) (new_addr : Nat) :
    gc_update_addr m (slot_at m i0).name new_addr =
      { m with tables := m.tables.set i0 { slot_at m i0 with addr := new_addr } } := by
  unfold gc_update_addr
  have hv : (slot_at m i0).status = TABLE_STATUS_VALID := (honly i0 hi0).mpr rfl
  split
  · rename_i j hj
    have h1 := List.find?_some hj
    simp only [decide_eq_true_eq] at h1
    have hj24 := List.mem_range.mp (List.mem_of_find?_eq_some hj)
    have : j = i0 := (honly j hj24).mp h1.1
    subst this
    rfl
  · rename_i hnone
    rw [List.find?_eq_none] at hnone
    have := hnone i0 (List.mem_range.mpr hi0)
    simp only [decide_eq_true_eq, not_and] at this
    exact absurd (strncmp_eq_refl _ _) (this hv)

theorem sort_by_addr_single (t : flash_table_info_t) : sort_by_addr [t] = [t] := rfl

theorem gc_move_to_cache_single (t : flash_table_info_t) (st : State) (pos : Nat)
    (temp : List Byte) (fl : win_flash)
    (hread : win_flash_read st.flash t.addr t.size = (0, temp))
    (hwrite : write_with_chunks st.flash pos temp t.size = (0, fl)) :
    gc_move_to_cache [t] st pos =
      (0, { st with flash := fl,
                    g_manager_table := gc_update_addr st.g_manager_table t.name pos }) := by
  unfold gc_move_to_cache
  rw [hread]
  dsimp only
  rw [if_neg (by decide), hwrite]
  dsimp only
  rw [if_neg (by decide)]
  unfold gc_move_to_cache
  rfl

theorem gc_compact_single_crossing (t : flash_table_info_t) (st : State) (wp sec : Nat)
    (fl0 fl : win_flash) (temp : List Byte)
    (hcross : (wp + t.size) % U32 > (sec + 1) * FLASH_SECTOR_SIZE % U32)
    (herase : win_flash_erase st.flash ((sec + 1) * FLASH_SECTOR_SIZE % U32)
      FLASH_SECTOR_SIZE = (0, fl0))
    (hread : win_flash_read fl0 t.addr t.size = (0, temp))
    (hwrite : write_with_chunks fl0 ((sec + 1) * FLASH_SECTOR_SIZE % U32) temp t.size
      = (0, fl)) :
    gc_compact [t] st wp sec =
      (0, { st with flash := fl,
                    g_manager_table := gc_update_addr st.g_manager_table t.name
                      ((sec + 1) * FLASH_SECTOR_SIZE % U32) },
        ((sec + 1) * FLASH_SECTOR_SIZE % U32 + t.size) % U32, sec + 1) := by
  unfold gc_compact
  simp only [decide_eq_true hcross, if_true]
  rw [herase]
  dsimp only
  rw [if_neg (by decide), hread]
  dsimp only
  rw [if_neg (by decide), hwrite]
  dsimp only
  rw [if_neg (by decide)]
  unfold gc_compact
  rfl

/-- `fast_flash_gc` on a store with a single Valid table that lies in sector 0 and does not fit
behind the manager record (692 + size > 4096): with sector 1 empty, the collection returns 0,
places the table at the start of sector 1 and sets `next_manager_addr` and `used_size` to
`4096 + size`; the bytes it leaves there are erased, because the scratch copy in sector 1 is
erased before the table is copied from it. -/
theorem gc_single_crossing (st : State) (i0 : Nat) (hl : st.g_manager_loaded = true)
    (he : st.g_allow_erase = true) (hi0 : i0 < MAX_TABLES_ALL_SECTOR)
    (honly : ∀ i, i < MAX_TABLES_ALL_SECTOR →
      ((slot_at st.g_manager_table i).status = TABLE_STATUS_VALID ↔ i = i0))
    (hA : find_empty_sector st = some 1)
    (hsec : (slot_at st.g_manager_table i0).addr < FLASH_SECTOR_SIZE)
    (hbig : FLASH_SECTOR_SIZE < SIZEOF_MANAGER + (slot_at st.g_manager_table i0).size)
    (hsz : (slot_at st.g_manager_table i0).size ≤ FLASH_SECTOR_SIZE) :
    (fast_flash_gc st).1 = 0 ∧
    (fast_flash_gc st).2.g_manager_loaded = true ∧
    (fast_flash_gc st).2.g_manager_table.used_size =
      FLASH_SECTOR_SIZE + (slot_at st.g_manager_table i0).size ∧
    (fast_flash_gc st).2.g_manager_table.next_manager_addr =
      FLASH_SECTOR_SIZE + (slot_at st.g_manager_table i0).size ∧
    slot_at (fast_flash_gc st).2.g_manager_table i0 =
      { slot_at st.g_manager_table i0 with addr := FLASH_SECTOR_SIZE } ∧
    (∀ i, i ≠ i0 →
      slot_at (fast_flash_gc st).2.g_manager_table i = slot_at st.g_manager_table i) ∧
    (∀ x, FLASH_SECTOR_SIZE ≤ x → x < FLASH_SECTOR_SIZE + (slot_at st.g_manager_table i0).size →
      (fast_flash_gc st).2.flash.flash_cache x = 0xFF) := by
  have hS : FLASH_SECTOR_SIZE = 4096 := by decide!
  have hU : U32 = 4294967296 := by decide!
  have hM : SIZEOF_MANAGER = 692 := by decide!
  have hW : WIN_FLASH_TOTAL_SIZE = 65536 := by decide!
  have hC : FLASH_WRITE_CHUNK_SIZE = 1024 := by decide!
  have hv : (slot_at st.g_manager_table i0).status = TABLE_STATUS_VALID := (honly i0 hi0).mpr rfl
  have hlen : i0 < st.g_manager_table.tables.length :=
    slot_lt_of_status _ i0 (by rw [hv]; decide)
  have hP : 1 * FLASH_SECTOR_SIZE % U32 = FLASH_SECTOR_SIZE := by
    rw [Nat.one_mul, Nat.mod_eq_of_lt (by omega)]
  generalize hr : fast_flash_gc st = r
  unfold fast_flash_gc at hr
  rw [if_neg (by rw [hl]; decide), if_neg (by rw [he]; decide)] at hr
  dsimp only at hr
  rw [hA] at hr
  dsimp only at hr
  -- the scratch sector is erased
  obtain ⟨fl1, hE1, hc1⟩ : ∃ fl1, win_flash_erase st.flash (1 * FLASH_SECTOR_SIZE % U32)
      FLASH_SECTOR_SIZE = (0, fl1) ∧
      fl1.flash_cache = mem_erase st.flash.flash_cache FLASH_SECTOR_SIZE FLASH_SECTOR_SIZE := by
    refine ⟨_, win_flash_erase_sector_eq st.flash 1 (by omega), ?_⟩
    rw [Nat.one_mul]
  rw [hE1] at hr
  dsimp only at hr
  rw [if_neg (by decide), collect_valid_only _ i0 hi0 honly, sort_by_addr_single,
    List.filter_cons_of_pos (by simp only [decide_eq_true_eq]; exact Nat.div_eq_of_lt hsec),
    List.filter_nil, hP] at hr
  -- the table is copied to the scratch sector
  obtain ⟨fl2, hW2, hc2⟩ := write_with_chunks_blank_any fl1 FLASH_SECTOR_SIZE
    (mem_read fl1.flash_cache (slot_at st.g_manager_table i0).addr
      (slot_at st.g_manager_table i0).size) (slot_at st.g_manager_table i0).size
    (by rw [mem_read_length]) (by omega)
    (fun j hj => by rw [hc1]; exact mem_erase_in _ _ _ _ (by omega) (by omega))
  rw [gc_move_to_cache_single _ { st with flash := fl1 } _ _ fl2
    (win_flash_read_of_le fl1 _ _ (by omega)) hW2] at hr
  dsimp only at hr
  rw [if_neg (by decide), win_flash_erase_first] at hr
  dsimp only at hr
  rw [if_neg (by decide), gc_update_addr_only _ i0 hi0 honly] at hr
  -- the manager after the move
  generalize hm1 : ({ st.g_manager_table with
    tables := st.g_manager_table.tables.set i0
      { slot_at st.g_manager_table i0 with addr := FLASH_SECTOR_SIZE } } :
      flash_manager_table_t) = m1 at hr
  have hs1 : slot_at m1 i0 = { slot_at st.g_manager_table i0 with addr := FLASH_SECTOR_SIZE } := by
    rw [← hm1]
    exact slot_at_set_same _ _ _ hlen
  have hs1' : ∀ i, i ≠ i0 → slot_at m1 i = slot_at st.g_manager_table i := by
    intro i hi
    rw [← hm1]
    exact slot_at_set_ne _ _ _ _ (Ne.symm hi)
  have honly1 : ∀ i, i < MAX_TABLES_ALL_SECTOR →
      ((slot_at m1 i).status = TABLE_STATUS_VALID ↔ i = i0) := by
    intro i hi
    by_cases hii : i = i0
    · subst hii
      rw [hs1]
      exact ⟨fun _ => rfl, fun _ => hv⟩
    · rw [hs1' i hii]
      exact honly i hi
  have hlen1 : i0 < m1.tables.length := by
    rw [← hm1]
    show i0 < (st.g_manager_table.tables.set i0 _).length
    rw [List.length_set]
    exact hlen
  rw [collect_valid_only m1 i0 hi0 honly1, sort_by_addr_single] at hr
  -- the compaction moves to sector 1, erasing it first
  have hcross : (SIZEOF_MANAGER + (slot_at m1 i0).size) % U32 >
      (0 + 1) * FLASH_SECTOR_SIZE % U32 := by
    rw [hs1, Nat.zero_add, hP]
    show (SIZEOF_MANAGER + (slot_at st.g_manager_table i0).size) % U32 > FLASH_SECTOR_SIZE
    rw [Nat.mod_eq_of_lt (by omega)]
    exact hbig
  have hP0 : (0 + 1) * FLASH_SECTOR_SIZE % U32 = FLASH_SECTOR_SIZE := by
    rw [Nat.zero_add, hP]
  obtain ⟨fl4, hE4, hc4⟩ : ∃ fl4, win_flash_erase
      { flash_cache := mem_erase fl2.flash_cache 0 FLASH_SECTOR_SIZE,
        ops := flash_op.erase 0 FLASH_SECTOR_SIZE :: fl2.ops } FLASH_SECTOR_SIZE
      FLASH_SECTOR_SIZE = (0, fl4) ∧
      fl4.flash_cache = mem_erase (mem_erase fl2.flash_cache 0 FLASH_SECTOR_SIZE)
        FLASH_SECTOR_SIZE FLASH_SECTOR_SIZE := by
    have h := win_flash_erase_sector_eq
      { flash_cache := mem_erase fl2.flash_cache 0 FLASH_SECTOR_SIZE,
        ops := flash_op.erase 0 FLASH_SECTOR_SIZE :: fl2.ops } 1 (by omega)
    rw [hP, Nat.one_mul] at h
    exact ⟨_, h, rfl⟩
  have ha1 : (slot_at m1 i0).addr = FLASH_SECTOR_SIZE := by rw [hs1]
  have hz1 : (slot_at m1 i0).size = (slot_at st.g_manager_table i0).size := by rw [hs1]
  obtain ⟨fl5, hW5, hc5⟩ := write_with_chunks_blank_any fl4 FLASH_SECTOR_SIZE
    (mem_read fl4.flash_cache (slot_at m1 i0).addr (slot_at m1 i0).size) (slot_at m1 i0).size
    (by rw [mem_read_length]) (by rw [hz1]; omega)
    (fun j hj => by
      rw [hz1] at hj
      rw [hc4]
      exact mem_erase_in _ _ _ _ (by omega) (by omega))
  rw [gc_compact_single_crossing (slot_at m1 i0)
    { st with flash := { flash_cache := mem_erase fl2.flash_cache 0 FLASH_SECTOR_SIZE,
                         ops := flash_op.erase 0 FLASH_SECTOR_SIZE :: fl2.ops },
              g_manager_table := m1 } SIZEOF_MANAGER 0 fl4 fl5 _ hcross
    (by rw [hP0]; exact hE4)
    (win_flash_read_of_le fl4 _ _ (by rw [ha1, hz1]; omega))
    (by rw [hP0]; exact hW5)] at hr
  dsimp only at hr
  rw [if_neg (by decide), hP0, gc_update_addr_only _ i0 hi0 honly1] at hr
  generalize hm2 : ({ m1 with
    tables := m1.tables.set i0 { slot_at m1 i0 with addr := FLASH_SECTOR_SIZE } } :
      flash_manager_table_t) = m2 at hr
  have hs2 : slot_at m2 i0 = { slot_at st.g_manager_table i0 with addr := FLASH_SECTOR_SIZE } := by
    rw [← hm2, slot_at_set_same _ _ _ hlen1, hs1]
  have hs2' : ∀ i, i ≠ i0 → slot_at m2 i = slot_at st.g_manager_table i := by
    intro i hi
    rw [← hm2, slot_at_set_ne _ _ _ _ (Ne.symm hi)]
    exact hs1' i hi
  have hwp : (FLASH_SECTOR_SIZE + (slot_at m1 i0).size) % U32 =
      FLASH_SECTOR_SIZE + (slot_at st.g_manager_table i0).size := by
    rw [hz1, Nat.mod_eq_of_lt (by omega)]
  rw [hwp] at hr
  -- the manager record is programmed at offset 0
  obtain ⟨fl6, hW6, hc6⟩ := write_with_chunks_blank_any fl5 0
    (manager_bytes
      { { m2 with
          next_manager_addr := FLASH_SECTOR_SIZE + (slot_at st.g_manager_table i0).size,
          used_size := FLASH_SECTOR_SIZE + (slot_at st.g_manager_table i0).size } with
        crc := calculate_manager_table_crc
          { m2 with
            next_manager_addr := FLASH_SECTOR_SIZE + (slot_at st.g_manager_table i0).size,
            used_size := FLASH_SECTOR_SIZE + (slot_at st.g_manager_table i0).size } })
    SIZEOF_MANAGER (by rw [manager_bytes_length]) (by omega)
    (fun j hj => by
      rw [hc5, mem_write_out _ _ _ _ (Or.inl (by omega)), hc4,
        mem_erase_out _ _ _ _ (Or.inl (by omega))]
      exact mem_erase_in _ _ _ _ (by omega) (by omega))
  rw [hW6] at hr
  dsimp only at hr
  rw [if_neg (by decide)] at hr
  subst hr
  refine ⟨rfl, hl, rfl, rfl, hs2, hs2', ?_⟩
  intro x hx1 hx2
  show (erase_ignoring _ fl6).flash_cache x = 0xFF
  apply erase_ignoring_keeps_blank
  rw [hc6, mem_write_out _ _ _ _ (Or.inr (by
      rw [List.length_take, manager_bytes_length, Nat.min_self]; omega)), hc5,
    mem_write_in _ _ _ _ hx1 (by rw [List.length_take, mem_read_length, Nat.min_self, hz1]; exact hx2),
    List.getD_eq_getElem?_getD, List.getElem?_take_of_lt (by rw [hz1]; omega),
    ← List.getD_eq_getElem?_getD, mem_read_getD _ _ _ _ (by rw [hz1]; omega), ha1, hc4]
  exact mem_erase_in _ _ _ _ (by omega) (by omega)


/-- A header read from erased bytes. -/
theorem parse_header_blank :
    (parse_header (mem_read (fun _ => 0xFF) FLASH_SECTOR_SIZE SIZEOF_HEADER)).struct_nums =
      4294967295 ∧
    (parse_header (mem_read (fun _ => 0xFF) FLASH_SECTOR_SIZE SIZEOF_HEADER)).struct_size =
      4294967295 := by
  decide!

/-- The collection of `gc_single_crossing` as the readers see it: the table is still listed, at
the start of sector 1, but the bytes there are erased; the row count read from the header is
0xFFFFFFFF and no row of a size other than 0xFFFFFFFF can be read. -/
theorem gc_single_crossing_reads (st : State) (i0 : Nat) (name : List Byte)
    (hl : st.g_manager_loaded = true)
    (he : st.g_allow_erase = true) (hi0 : i0 < MAX_TABLES_ALL_SECTOR)
    (honly : ∀ i, i < MAX_TABLES_ALL_SECTOR →
      ((slot_at st.g_manager_table i).status = TABLE_STATUS_VALID ↔ i = i0))
    (hA : find_empty_sector st = some 1)
    (hsec : (slot_at st.g_manager_table i0).addr < FLASH_SECTOR_SIZE)
    (hbig : FLASH_SECTOR_SIZE < SIZEOF_MANAGER + (slot_at st.g_manager_table i0).size)
    (hsz : (slot_at st.g_manager_table i0).size ≤ FLASH_SECTOR_SIZE)
    (hidx : find_table_index st name = (i0 : Int))
    (hhdr : SIZEOF_HEADER ≤ (slot_at st.g_manager_table i0).size) :
    (collect_valid (fast_flash_gc st).2.g_manager_table).map (fun t => t.size) =
      [(slot_at st.g_manager_table i0).size] ∧
    fast_flash_table_exists (fast_flash_gc st).2 name = true ∧
    fast_flash_get_table_count (fast_flash_gc st).2 name = 4294967295 ∧
    (∀ index size, size ≠ 4294967295 →
      (fast_flash_read_table_data (fast_flash_gc st).2 name index size).1 = -1) := by
  have hS : FLASH_SECTOR_SIZE = 4096 := by decide!
  have hH : SIZEOF_HEADER = 30 := by decide!
  have hW : WIN_FLASH_TOTAL_SIZE = 65536 := by decide!
  obtain ⟨_, hl1, _, _, hs0, hsi, hbl⟩ :=
    gc_single_crossing st i0 hl he hi0 honly hA hsec hbig hsz
  have honly1 : ∀ i, i < MAX_TABLES_ALL_SECTOR →
      ((slot_at (fast_flash_gc st).2.g_manager_table i).status = TABLE_STATUS_VALID
        ↔ i = i0) := by
    intro i hi
    by_cases hii : i = i0
    · subst hii
      rw [hs0]
      exact honly i hi
    · rw [hsi i hii]
      exact honly i hi
  have hfind : find_table_index (fast_flash_gc st).2 name = (i0 : Int) := by
    rw [find_table_index_congr (fast_flash_gc st).2 st name, hidx]
    intro i _
    by_cases hi : i = i0
    · subst hi
      rw [hs0]
      exact ⟨rfl, rfl⟩
    · rw [hsi i hi]
      exact ⟨rfl, rfl⟩
  have hnn : ¬ ((i0 : Int) < 0) := by omega
  have ha : (slot_at (fast_flash_gc st).2.g_manager_table i0).addr = FLASH_SECTOR_SIZE := by
    rw [hs0]
  have hrd : win_flash_read (fast_flash_gc st).2.flash FLASH_SECTOR_SIZE SIZEOF_HEADER =
      (0, mem_read (fun _ => 0xFF) FLASH_SECTOR_SIZE SIZEOF_HEADER) := by
    rw [win_flash_read_of_le _ _ _ (by omega),
      mem_read_congr _ (fun _ => 0xFF) _ _ (fun x hx1 hx2 => hbl x hx1 (by omega))]
  refine ⟨?_, ?_, ?_, ?_⟩
  · rw [collect_valid_only _ i0 hi0 honly1, hs0]
    rfl
  · unfold fast_flash_table_exists
    rw [hl1, hfind, if_neg (by decide)]
    exact decide_eq_true (Int.ofNat_nonneg i0)
  · unfold fast_flash_get_table_count
    rw [hl1, hfind, if_neg (by decide), if_neg hnn]
    dsimp only
    rw [Int.toNat_ofNat, ha, hrd]
    dsimp only
    rw [if_neg (by decide), parse_header_blank.1]
  · intro index size hsize
    unfold fast_flash_read_table_data
    rw [hl1, hfind, if_neg (by decide), if_neg hnn]
    dsimp only
    rw [Int.toNat_ofNat, ha, hrd]
    dsimp only
    rw [if_neg (by decide), parse_header_blank.2, if_pos hsize]

/-! ## Garbage collection of a store without tables -/

theorem collect_valid_nil (m : flash_manager_table_t)
    (hnone : ∀ i, i < MAX_TABLES_ALL_SECTOR → (slot_at m i).status ≠ TABLE_STATUS_VALID) :
    collect_valid m = [] := by
  unfold collect_valid
  rw [List.filter_eq_nil_iff]
  intro t ht
  obtain ⟨i, hi, rfl⟩ := List.mem_map.mp ht
  simp only [decide_eq_true_eq]
  exact hnone i (List.mem_range.mp hi)

theorem find_empty_sector_zero (st : State) (hn : FLASH_SECTOR_SIZE ≤ st.g_total_size)
    (hnone : ∀ i, i < MAX_TABLES_ALL_SECTOR →
      (slot_at st.g_manager_table i).status ≠ TABLE_STATUS_VALID) :
    find_empty_sector st = some 0 := by
  have hS : FLASH_SECTOR_SIZE = 4096 := by decide!
  unfold find_empty_sector
  obtain ⟨k, hk⟩ : ∃ k, st.g_total_size / FLASH_SECTOR_SIZE = k + 1 := by
    have : 1 ≤ st.g_total_size / FLASH_SECTOR_SIZE :=
      (Nat.one_le_div_iff (by omega)).mpr hn
    exact ⟨st.g_total_size / FLASH_SECTOR_SIZE - 1, by omega⟩
  rw [hk, List.range_succ_eq_map, List.find?_cons_of_pos]
  simp only [decide_eq_true_eq]
  rintro ⟨i, hi, hv, _⟩
  exact absurd hv (hnone i (List.mem_range.mp hi))

/-- `fast_flash_gc` on a store without a Valid slot, of at least one sector: sector 0 is the
empty sector; the collection returns 0, leaves the slots as they are, sets `used_size` and
`next_manager_addr` to 692 and puts the cursor at offset 692 of sector 0, the address it has
just recorded as the place of the next manager record. -/
theorem gc_empty_store (st : State) (hl : st.g_manager_loaded = true)
    (he : st.g_allow_erase = true) (hn : FLASH_SECTOR_SIZE ≤ st.g_total_size)
    (hnone : ∀ i, i < MAX_TABLES_ALL_SECTOR →
      (slot_at st.g_manager_table i).status ≠ TABLE_STATUS_VALID) :
    (fast_flash_gc st).1 = 0 ∧
    (fast_flash_gc st).2.g_manager_loaded = true ∧
    (fast_flash_gc st).2.g_manager_table.used_size = SIZEOF_MANAGER ∧
    (fast_flash_gc st).2.g_manager_table.next_manager_addr = SIZEOF_MANAGER ∧
    (fast_flash_gc st).2.g_manager_table.tables = st.g_manager_table.tables ∧
    (fast_flash_gc st).2.g_current_sector = 0 ∧
    (fast_flash_gc st).2.g_current_offset = SIZEOF_MANAGER % FLASH_SECTOR_SIZE := by
  have hS : FLASH_SECTOR_SIZE = 4096 := by decide!
  have hU : U32 = 4294967296 := by decide!
  have hM : SIZEOF_MANAGER = 692 := by decide!
  have hW : WIN_FLASH_TOTAL_SIZE = 65536 := by decide!
  have hP : 0 * FLASH_SECTOR_SIZE % U32 = 0 := by rw [Nat.zero_mul]; rfl
  have hmv : ∀ (s : State) (p : Nat), gc_move_to_cache [] s p = (0, s) := by
    intro s p; rw [gc_move_to_cache]
  have hcp : ∀ (s : State) (a b : Nat), gc_compact [] s a b = (0, s, a, b) := by
    intro s a b; rw [gc_compact]
  generalize hr : fast_flash_gc st = r
  unfold fast_flash_gc at hr
  rw [if_neg (by rw [hl]; decide), if_neg (by rw [he]; decide)] at hr
  dsimp only at hr
  rw [find_empty_sector_zero st hn hnone] at hr
  dsimp only at hr
  rw [hP, win_flash_erase_first] at hr
  dsimp only at hr
  rw [if_neg (by decide), collect_valid_nil _ hnone] at hr
  have hso : sort_by_addr [] = [] := rfl
  rw [hso, List.filter_nil, hmv] at hr
  dsimp only at hr
  rw [if_neg (by decide), win_flash_erase_first] at hr
  dsimp only at hr
  rw [if_neg (by decide), collect_valid_nil _ hnone, hso, hcp] at hr
  dsimp only at hr
  rw [if_neg (by decide)] at hr
  obtain ⟨fl6, hW6, _⟩ := write_with_chunks_blank_any
    { flash_cache := mem_erase (mem_erase st.flash.flash_cache 0 FLASH_SECTOR_SIZE) 0
        FLASH_SECTOR_SIZE,
      ops := flash_op.erase 0 FLASH_SECTOR_SIZE ::
        flash_op.erase 0 FLASH_SECTOR_SIZE :: st.flash.ops } 0
    (manager_bytes
      { { st.g_manager_table with
          next_manager_addr := SIZEOF_MANAGER, used_size := SIZEOF_MANAGER } with
        crc := calculate_manager_table_crc
          { st.g_manager_table with
            next_manager_addr := SIZEOF_MANAGER, used_size := SIZEOF_MANAGER } })
    SIZEOF_MANAGER (by rw [manager_bytes_length]) (by omega)
    (fun j hj => mem_erase_in _ _ _ _ (by omega) (by omega))
  rw [hW6] at hr
  dsimp only at hr
  rw [if_neg (by decide)] at hr
  subst hr
  exact ⟨rfl, hl, rfl, rfl, rfl, rfl, rfl⟩

theorem gc_compact_single_fit (t : flash_table_info_t) (st : State) (wp sec : Nat)
    (fl : win_flash) (temp : List Byte)
    (hfit : ¬ (wp + t.size) % U32 > (sec + 1) * FLASH_SECTOR_SIZE % U32)
    (hread : win_flash_read st.flash t.addr t.size = (0, temp))
    (hwrite : write_with_chunks st.flash wp temp t.size = (0, fl)) :
    gc_compact [t] st wp sec =
      (0, { st with flash := fl,
                    g_manager_table := gc_update_addr st.g_manager_table t.name wp },
        (wp + t.size) % U32, sec) := by
  unfold gc_compact
  simp only [decide_eq_false hfit, if_false, Bool.false_eq_true]
  rw [if_neg (by decide), hread]
  dsimp only
  rw [if_neg (by decide), hwrite]
  dsimp only
  rw [if_neg (by decide)]
  unfold gc_compact
  rfl

/-- `fast_flash_gc` on a store with a single Valid table that lies in sector 0 and fits behind
the manager record (692 + size ≤ 4096): with sector 1 empty, the collection returns 0, places
the table at 692 and sets `next_manager_addr` and `used_size` to `692 + size`. -/
theorem gc_single_fit (st : State) (i0 : Nat) (hl : st.g_manager_loaded = true)
    (he : st.g_allow_erase = true) (hi0 : i0 < MAX_TABLES_ALL_SECTOR)
    (honly : ∀ i, i < MAX_TABLES_ALL_SECTOR →
      ((slot_at st.g_manager_table i).status = TABLE_STATUS_VALID ↔ i = i0))
    (hA : find_empty_sector st = some 1)
    (hsec : (slot_at st.g_manager_table i0).addr < FLASH_SECTOR_SIZE)
    (hsmall : SIZEOF_MANAGER + (slot_at st.g_manager_table i0).size ≤ FLASH_SECTOR_SIZE) :
    (fast_flash_gc st).1 = 0 ∧
    (fast_flash_gc st).2.g_manager_loaded = true ∧
    (fast_flash_gc st).2.g_manager_table.used_size =
      SIZEOF_MANAGER + (slot_at st.g_manager_table i0).size ∧
    (fast_flash_gc st).2.g_manager_table.next_manager_addr =
      SIZEOF_MANAGER + (slot_at st.g_manager_table i0).size ∧
    slot_at (fast_flash_gc st).2.g_manager_table i0 =
      { slot_at st.g_manager_table i0 with addr := SIZEOF_MANAGER } ∧
    (∀ i, i ≠ i0 → slot_at (fast_flash_gc st).2.g_manager_table i = slot_at st.g_manager_table i)
    := by
  have hS : FLASH_SECTOR_SIZE = 4096 := by decide!
  have hU : U32 = 4294967296 := by decide!
  have hM : SIZEOF_MANAGER = 692 := by decide!
  have hW : WIN_FLASH_TOTAL_SIZE = 65536 := by decide!
  have hC : FLASH_WRITE_CHUNK_SIZE = 1024 := by decide!
  have hv : (slot_at st.g_manager_table i0).status = TABLE_STATUS_VALID := (honly i0 hi0).mpr rfl
  have hlen : i0 < st.g_manager_table.tables.length :=
    slot_lt_of_status _ i0 (by rw [hv]; decide)
  have hP : 1 * FLASH_SECTOR_SIZE % U32 = FLASH_SECTOR_SIZE := by
    rw [Nat.one_mul, Nat.mod_eq_of_lt (by omega)]
  generalize hr : fast_flash_gc st = r
  unfold fast_flash_gc at hr
  rw [if_neg (by rw [hl]; decide), if_neg (by rw [he]; decide)] at hr
  dsimp only at hr
  rw [hA] at hr
  dsimp only at hr
  -- the scratch sector is erased
  obtain ⟨fl1, hE1, hc1⟩ : ∃ fl1, win_flash_erase st.flash (1 * FLASH_SECTOR_SIZE % U32)
      FLASH_SECTOR_SIZE = (0, fl1) ∧
      fl1.flash_cache = mem_erase st.flash.flash_cache FLASH_SECTOR_SIZE FLASH_SECTOR_SIZE := by
    refine ⟨_, win_flash_erase_sector_eq st.flash 1 (by omega), ?_⟩
    rw [Nat.one_mul]
  rw [hE1] at hr
  dsimp only at hr
  rw [if_neg (by decide), collect_valid_only _ i0 hi0 honly, sort_by_addr_single,
    List.filter_cons_of_pos (by simp only [decide_eq_true_eq]; exact Nat.div_eq_of_lt hsec),
    List.filter_nil, hP] at hr
  -- the table is copied to the scratch sector
  obtain ⟨fl2, hW2, hc2⟩ := write_with_chunks_blank_any fl1 FLASH_SECTOR_SIZE
    (mem_read fl1.flash_cache (slot_at st.g_manager_table i0).addr
      (slot_at st.g_manager_table i0).size) (slot_at st.g_manager_table i0).size
    (by rw [mem_read_length]) (by omega)
    (fun j hj => by rw [hc1]; exact mem_erase_in _ _ _ _ (by omega) (by omega))
  rw [gc_move_to_cache_single _ { st with flash := fl1 } _ _ fl2
    (win_flash_read_of_le fl1 _ _ (by omega)) hW2] at hr
  dsimp only at hr
  rw [if_neg (by decide), win_flash_erase_first] at hr
  dsimp only at hr
  rw [if_neg (by decide), gc_update_addr_only _ i0 hi0 honly] at hr
  -- the manager after the move
  generalize hm1 : ({ st.g_manager_table with
    tables := st.g_manager_table.tables.set i0
      { slot_at st.g_manager_table i0 with addr := FLASH_SECTOR_SIZE } } :
      flash_manager_table_t) = m1 at hr
  have hs1 : slot_at m1 i0 = { slot_at st.g_manager_table i0 with addr := FLASH_SECTOR_SIZE } := by
    rw [← hm1]
    exact slot_at_set_same _ _ _ hlen
  have hs1' : ∀ i, i ≠ i0 → slot_at m1 i = slot_at st.g_manager_table i := by
    intro i hi
    rw [← hm1]
    exact slot_at_set_ne _ _ _ _ (Ne.symm hi)
  have honly1 : ∀ i, i < MAX_TABLES_ALL_SECTOR →
      ((slot_at m1 i).status = TABLE_STATUS_VALID ↔ i = i0) := by
    intro i hi
    by_cases hii : i = i0
    · subst hii
      rw [hs1]
      exact ⟨fun _ => rfl, fun _ => hv⟩
    · rw [hs1' i hii]
      exact honly i hi
  have hlen1 : i0 < m1.tables.length := by
    rw [← hm1]
    show i0 < (st.g_manager_table.tables.set i0 _).length
    rw [List.length_set]
    exact hlen
  rw [collect_valid_only m1 i0 hi0 honly1, sort_by_addr_single] at hr
  have ha1 : (slot_at m1 i0).addr = FLASH_SECTOR_SIZE := by rw [hs1]
  have hz1 : (slot_at m1 i0).size = (slot_at st.g_manager_table i0).size := by rw [hs1]
  -- the compaction writes the table behind the manager record
  have hfit : ¬ (SIZEOF_MANAGER + (slot_at m1 i0).size) % U32 >
      (0 + 1) * FLASH_SECTOR_SIZE % U32 := by
    rw [hz1, Nat.zero_add, hP, Nat.mod_eq_of_lt (by omega)]
    omega
  obtain ⟨fl5, hW5, hc5⟩ := write_with_chunks_blank_any
    { flash_cache := mem_erase fl2.flash_cache 0 FLASH_SECTOR_SIZE,
      ops := flash_op.erase 0 FLASH_SECTOR_SIZE :: fl2.ops } SIZEOF_MANAGER
    (mem_read (mem_erase fl2.flash_cache 0 FLASH_SECTOR_SIZE) (slot_at m1 i0).addr
      (slot_at m1 i0).size) (slot_at m1 i0).size
    (by rw [mem_read_length]) (by rw [hz1]; omega)
    (fun j hj => by
      rw [hz1] at hj
      exact mem_erase_in _ _ _ _ (by omega) (by omega))
  rw [gc_compact_single_fit (slot_at m1 i0)
    { st with flash := { flash_cache := mem_erase fl2.flash_cache 0 FLASH_SECTOR_SIZE,
                         ops := flash_op.erase 0 FLASH_SECTOR_SIZE :: fl2.ops },
              g_manager_table := m1 } SIZEOF_MANAGER 0 fl5 _ hfit
    (win_flash_read_of_le _ _ _ (by rw [ha1, hz1]; omega)) hW5] at hr
  dsimp only at hr
  rw [if_neg (by decide), gc_update_addr_only _ i0 hi0 honly1] at hr
  generalize hm2 : ({ m1 with
    tables := m1.tables.set i0 { slot_at m1 i0 with addr := SIZEOF_MANAGER } } :
      flash_manager_table_t) = m2 at hr
  have hs2 : slot_at m2 i0 = { slot_at st.g_manager_table i0 with addr := SIZEOF_MANAGER } := by
    rw [← hm2, slot_at_set_same _ _ _ hlen1, hs1]
  have hs2' : ∀ i, i ≠ i0 → slot_at m2 i = slot_at st.g_manager_table i := by
    intro i hi
    rw [← hm2, slot_at_set_ne _ _ _ _ (Ne.symm hi)]
    exact hs1' i hi
  have hwp : (SIZEOF_MANAGER + (slot_at m1 i0).size) % U32 =
      SIZEOF_MANAGER + (slot_at st.g_manager_table i0).size := by
    rw [hz1, Nat.mod_eq_of_lt (by omega)]
  rw [hwp] at hr
  -- the manager record is programmed at offset 0
  obtain ⟨fl6, hW6, _⟩ := write_with_chunks_blank_any fl5 0
    (manager_bytes
      { { m2 with
          next_manager_addr := SIZEOF_MANAGER + (slot_at st.g_manager_table i0).size,
          used_size := SIZEOF_MANAGER + (slot_at st.g_manager_table i0).size } with
        crc := calculate_manager_table_crc
          { m2 with
            next_manager_addr := SIZEOF_MANAGER + (slot_at st.g_manager_table i0).size,
            used_size := SIZEOF_MANAGER + (slot_at st.g_manager_table i0).size } })
    SIZEOF_MANAGER (by rw [manager_bytes_length]) (by omega)
    (fun j hj => by
      rw [hc5, mem_write_out _ _ _ _ (Or.inl (by omega))]
      exact mem_erase_in _ _ _ _ (by omega) (by omega))
  rw [hW6] at hr
  dsimp only at hr
  rw [if_neg (by decide)] at hr
  subst hr
  exact ⟨rfl, hl, rfl, rfl, hs2, hs2'⟩

/-! ## Garbage collection at concrete stores -/

/-- The globals of `one_sector_state`, evaluated. -/
theorem one_sector_state_ram :
    (fast_flash_init power_on FLASH_SECTOR_SIZE true).1 = 0 ∧
    (fast_flash_create_table (fast_flash_init power_on FLASH_SECTOR_SIZE true).2 name_T 4 10).1
      = 0 ∧
    one_sector_state.g_manager_loaded = true ∧ one_sector_state.g_allow_erase = true ∧
    one_sector_state.g_total_size = FLASH_SECTOR_SIZE ∧
    (slot_at one_sector_state.g_manager_table 0).status = TABLE_STATUS_VALID ∧
    (slot_at one_sector_state.g_manager_table 0).addr / FLASH_SECTOR_SIZE = 0 := by
  decide!

/-- Every sector of `one_sector_state` holds a Valid table. -/
theorem one_sector_state_full :
    ∀ sector, sector < one_sector_state.g_total_size / FLASH_SECTOR_SIZE →
      ∃ i, i < MAX_TABLES_ALL_SECTOR ∧
        (slot_at one_sector_state.g_manager_table i).status = TABLE_STATUS_VALID ∧
        (slot_at one_sector_state.g_manager_table i).addr / FLASH_SECTOR_SIZE = sector := by
  intro sector hs
  have h := one_sector_state_ram
  have hS : FLASH_SECTOR_SIZE = 4096 := by decide!
  rw [h.2.2.2.2.1, hS] at hs
  have h0 : sector = 0 := by omega
  subst h0
  exact ⟨0, by decide, h.2.2.2.2.2.1, h.2.2.2.2.2.2⟩

theorem one_sector_state_dev :
    one_sector_state.g_total_size / FLASH_SECTOR_SIZE * FLASH_SECTOR_SIZE ≤
      WIN_FLASH_TOTAL_SIZE := by
  rw [one_sector_state_ram.2.2.2.2.1]
  decide!

/-- Two collections in a row on a store without an empty sector: the first resets the store
(`used_size` 0, cursor at offset 1384 of sector 0), the second finds sector 0 empty and leaves
`used_size` 692 and the cursor at offset 692. -/
theorem gc_twice_after_reset (st : State) (hl : st.g_manager_loaded = true)
    (he : st.g_allow_erase = true) (hnone : find_empty_sector st = none)
    (hn : FLASH_SECTOR_SIZE ≤ st.g_total_size) :
    (fast_flash_gc st).1 = 0 ∧
    (fast_flash_gc (fast_flash_gc st).2).1 = 0 ∧
    (fast_flash_gc st).2.g_manager_table.used_size = 0 ∧
    (fast_flash_gc (fast_flash_gc st).2).2.g_manager_table.used_size = SIZEOF_MANAGER ∧
    (fast_flash_gc st).2.g_manager_table.next_manager_addr = SIZEOF_MANAGER ∧
    (fast_flash_gc (fast_flash_gc st).2).2.g_manager_table.next_manager_addr = SIZEOF_MANAGER ∧
    (fast_flash_gc st).2.g_current_sector = 0 ∧
    (fast_flash_gc (fast_flash_gc st).2).2.g_current_sector = 0 ∧
    (fast_flash_gc st).2.g_current_offset = SIZEOF_MANAGER * 2 ∧
    (fast_flash_gc (fast_flash_gc st).2).2.g_current_offset =
      SIZEOF_MANAGER % FLASH_SECTOR_SIZE := by
  have hB := gc_case_b_eq st hl he hnone
  have hA := gc_empty_store (fast_flash_gc st).2 (by rw [hB]; exact hl) (by rw [hB]; exact he)
    (by rw [hB]; exact hn)
    (fun i _ => by
      rw [hB]
      show (slot_at { fresh_manager st.g_total_size with
        crc := calculate_manager_table_crc (fresh_manager st.g_total_size) } i).status ≠
          TABLE_STATUS_VALID
      rw [slot_at_fresh]
      decide)
  refine ⟨?_, hA.1, ?_, hA.2.2.1, ?_, hA.2.2.2.1, ?_, hA.2.2.2.2.2.1, ?_, hA.2.2.2.2.2.2⟩ <;>
    rw [hB] <;> rfl

/-- The globals of `wide_state`, evaluated, and what its table reads: the three calls that build
it return 0, its only Valid slot is slot 0, a table of size 3430 at address 2106 in sector 0
that is found under the name `"T"`, and the table holds the row `[1, 2, 3, 4]`. -/
theorem wide_state_facts :
    ((fast_flash_init power_on WIN_FLASH_TOTAL_SIZE true).1 = 0 ∧
    (fast_flash_create_table (boot true) name_T 4 850).1 = 0 ∧
    (fast_flash_write_table_data (fast_flash_create_table (boot true) name_T 4 850).2 name_T
      [1, 2, 3, 4] 4).1 = 0 ∧
    wide_state.g_manager_loaded = true ∧ wide_state.g_allow_erase = true ∧
    (∀ i, i < MAX_TABLES_ALL_SECTOR →
      ((slot_at wide_state.g_manager_table i).status = TABLE_STATUS_VALID ↔ i = 0)) ∧
    find_empty_sector wide_state = some 1 ∧
    (slot_at wide_state.g_manager_table 0).addr = 2106 ∧
    (slot_at wide_state.g_manager_table 0).size = 3430) ∧
    fast_flash_get_table_count wide_state name_T = 1 ∧
    fast_flash_read_table_data wide_state name_T 0 4 = (0, [1, 2, 3, 4]) ∧
    find_table_index wide_state name_T = ((0 : Nat) : Int) := by
  decide!

/-- The globals of `wide_state`, evaluated: the three calls that build it return 0, and its only
Valid slot is slot 0, a table of size 3430 at address 2106, in sector 0. -/
theorem wide_state_ram :
    (fast_flash_init power_on WIN_FLASH_TOTAL_SIZE true).1 = 0 ∧
    (fast_flash_create_table (boot true) name_T 4 850).1 = 0 ∧
    (fast_flash_write_table_data (fast_flash_create_table (boot true) name_T 4 850).2 name_T
      [1, 2, 3, 4] 4).1 = 0 ∧
    wide_state.g_manager_loaded = true ∧ wide_state.g_allow_erase = true ∧
    (∀ i, i < MAX_TABLES_ALL_SECTOR →
      ((slot_at wide_state.g_manager_table i).status = TABLE_STATUS_VALID ↔ i = 0)) ∧
    find_empty_sector wide_state = some 1 ∧
    (slot_at wide_state.g_manager_table 0).addr = 2106 ∧
    (slot_at wide_state.g_manager_table 0).size = 3430 :=
  wide_state_facts.1

/-- The collection of `wide_state`: it returns 0 and sets `used_size` and `next_manager_addr` to
7526, with the only Valid slot of size 3430. -/
theorem wide_state_gc :
    (fast_flash_gc wide_state).1 = 0 ∧
    (fast_flash_gc wide_state).2.g_manager_loaded = true ∧
    (fast_flash_gc wide_state).2.g_manager_table.used_size = 7526 ∧
    (fast_flash_gc wide_state).2.g_manager_table.next_manager_addr = 7526 ∧
    (collect_valid (fast_flash_gc wide_state).2.g_manager_table).map (fun t => t.size) =
      [3430] := by
  have hS : FLASH_SECTOR_SIZE = 4096 := by decide!
  have hM : SIZEOF_MANAGER = 692 := by decide!
  have hH : SIZEOF_HEADER = 30 := by decide!
  obtain ⟨⟨_, _, _, hl, he, honly, hA, haddr, hsize⟩, _, _, hidx⟩ := wide_state_facts
  obtain ⟨h0, hl1, hu, hn, _, _, _⟩ := gc_single_crossing wide_state 0 hl he (by decide)
    honly hA (by rw [haddr, hS]; decide) (by rw [hsize, hS, hM]; decide)
    (by rw [hsize, hS]; decide)
  obtain ⟨hc, _, _, _⟩ := gc_single_crossing_reads wide_state 0 name_T hl he (by decide)
    honly hA (by rw [haddr, hS]; decide) (by rw [hsize, hS, hM]; decide)
    (by rw [hsize, hS]; decide) hidx (by rw [hsize, hH]; decide)
  refine ⟨h0, hl1, ?_, ?_, ?_⟩
  · rw [hu, hsize, hS]
  · rw [hn, hsize, hS]
  · rw [hc, hsize]

/-! ## The driver calls of a mutation -/

theorem only_writes_refl (p n : Nat) (d : win_flash) : only_writes p n d d :=
  ⟨[], rfl, fun _ h => absurd h (List.not_mem_nil _)⟩

theorem only_writes_trans (p n : Nat) (d1 d2 d3 : win_flash) (h12 : only_writes p n d1 d2)
    (h23 : only_writes p n d2 d3) : only_writes p n d1 d3 := by
  obtain ⟨n1, e1, p1⟩ := h12
  obtain ⟨n2, e2, p2⟩ := h23
  refine ⟨n2 ++ n1, by rw [e2, e1, List.append_assoc], fun op hop => ?_⟩
  rcases List.mem_append.mp hop with h | h
  · exact p2 op h
  · exact p1 op h

/-- The program calls of the chunk loop lie in `[addr, addr + remain)`. -/
theorem write_with_chunks_loop_range : ∀ (fuel : Nat) (d : win_flash) (addr : Nat)
    (src : List Byte) (remain : Nat), addr + FLASH_WRITE_CHUNK_SIZE < U32 →
    ∃ new, (write_with_chunks_loop fuel d addr src remain).2.ops = new ++ d.ops ∧
      ∀ op ∈ new, ∃ a b, op = flash_op.write a b ∧ addr ≤ a ∧ a + b.length ≤ addr + remain
  | 0, d, addr, src, remain, _ => ⟨[], rfl, fun _ h => absurd h (List.not_mem_nil _)⟩
  | fuel + 1, d, addr, src, remain, ha => by
    have hC : FLASH_WRITE_CHUNK_SIZE = 1024 := by decide!
    have hU : U32 = 4294967296 := by decide!
    have hW : WIN_FLASH_TOTAL_SIZE = 65536 := by decide!
    unfold write_with_chunks_loop
    by_cases hr : remain > 0
    · rw [if_pos hr]
      dsimp only
      generalize hcs : (if remain > FLASH_WRITE_CHUNK_SIZE then FLASH_WRITE_CHUNK_SIZE
        else remain) = chunk
      have hc1 : chunk ≤ remain ∧ chunk ≤ FLASH_WRITE_CHUNK_SIZE := by
        rw [← hcs]; split <;> omega
      have hops := win_flash_write_ops d addr src chunk
      have hlen : (src.take chunk).length ≤ chunk := by
        rw [List.length_take]; exact Nat.min_le_left _ _
      by_cases hres : (win_flash_write d addr src chunk).1 ≠ 0
      · rw [if_pos hres]
        refine ⟨[flash_op.write addr (src.take chunk)], hops, fun op hop => ?_⟩
        rw [List.mem_singleton] at hop
        exact ⟨addr, src.take chunk, hop, Nat.le_refl _, by omega⟩
      · rw [if_neg hres]
        have hok := (win_flash_write_ok d addr src chunk (Decidable.of_not_not hres)).1
        rw [Nat.mod_eq_of_lt (by omega)] at hok ⊢
        obtain ⟨new, e, hp⟩ := write_with_chunks_loop_range fuel
          (win_flash_write d addr src chunk).2 (addr + chunk) (src.drop chunk)
          (remain - chunk) (by omega)
        refine ⟨new ++ [flash_op.write addr (src.take chunk)], ?_, fun op hop => ?_⟩
        · rw [e, hops, List.append_assoc]
          rfl
        · rcases List.mem_append.mp hop with h | h
          · obtain ⟨a, b, h1, h2, h3⟩ := hp op h
            exact ⟨a, b, h1, by omega, by omega⟩
          · rw [List.mem_singleton] at h
            exact ⟨addr, src.take chunk, h, Nat.le_refl _, by omega⟩
    · rw [if_neg hr]
      exact ⟨[], rfl, fun _ h => absurd h (List.not_mem_nil _)⟩

/-- The program calls of `write_with_chunks` lie in `[addr, addr + size)`. -/
theorem write_with_chunks_range (d : win_flash) (addr : Nat) (data : List Byte) (size : Nat)
    (ha : addr + FLASH_WRITE_CHUNK_SIZE < U32) :
    ∃ new, (write_with_chunks d addr data size).2.ops = new ++ d.ops ∧
      ∀ op ∈ new, ∃ a b, op = flash_op.write a b ∧ addr ≤ a ∧ a + b.length ≤ addr + size :=
  write_with_chunks_loop_range size d addr data size ha

theorem write_with_chunks_above (p n : Nat) (d : win_flash) (addr : Nat) (data : List Byte)
    (size : Nat) (ha : addr + FLASH_WRITE_CHUNK_SIZE < U32) (hp : p ≤ addr) :
    only_writes p n d (write_with_chunks d addr data size).2 := by
  obtain ⟨new, e, h⟩ := write_with_chunks_range d addr data size ha
  refine ⟨new, e, fun op hop => ?_⟩
  obtain ⟨a, b, h1, h2, _⟩ := h op hop
  exact ⟨a, b, h1, Or.inl (by omega)⟩

theorem write_with_chunks_slot (p n : Nat) (d : win_flash) (data : List Byte)
    (ha : n + FLASH_WRITE_CHUNK_SIZE < U32) :
    only_writes p n d (write_with_chunks d n data SIZEOF_MANAGER).2 := by
  obtain ⟨new, e, h⟩ := write_with_chunks_range d n data SIZEOF_MANAGER ha
  refine ⟨new, e, fun op hop => ?_⟩
  obtain ⟨a, b, h1, h2, h3⟩ := h op hop
  exact ⟨a, b, h1, Or.inr ⟨h2, h3⟩⟩

/-- With erase not allowed the allocator issues no driver call and changes nothing but the
cursor. -/
theorem allocate_no_erase (st : State) (size : Nat) (he : st.g_allow_erase = false) :
    (allocate_table_space st size).2.2.flash = st.flash ∧
    (allocate_table_space st size).2.2.g_allow_erase = false ∧
    (allocate_table_space st size).2.2.g_manager_table = st.g_manager_table := by
  unfold allocate_table_space
  split
  · exact ⟨rfl, he, rfl⟩
  split
  · exact ⟨rfl, he, rfl⟩
  dsimp only
  split
  · split
    · exact ⟨rfl, he, rfl⟩
    · rw [he]
      exact ⟨rfl, he, rfl⟩
  · exact ⟨rfl, he, rfl⟩

/-- With erase not allowed the commit issues no driver call but the program calls of the
record, inside the slot reserved for it. -/
theorem save_only_writes (p : Nat) (st : State) (he : st.g_allow_erase = false)
    (hn : st.g_manager_table.next_manager_addr + FLASH_WRITE_CHUNK_SIZE < U32) :
    only_writes p st.g_manager_table.next_manager_addr st.flash (save_manager_table st).2.flash ∧
    (save_manager_table st).2.g_allow_erase = false := by
  generalize hr : save_manager_table st = r
  unfold save_manager_table at hr
  by_cases hl : st.g_manager_loaded = false
  · rw [if_pos hl] at hr; subst hr; exact ⟨only_writes_refl _ _ _, he⟩
  rw [if_neg hl] at hr
  dsimp only at hr
  by_cases h1 : st.g_manager_table.next_manager_addr = 0 ∨
      st.g_manager_table.next_manager_addr ≥ st.g_total_size
  · rw [if_pos h1] at hr; subst hr; exact ⟨only_writes_refl _ _ _, he⟩
  rw [if_neg h1, next_reserved_eq _ (cursor_addr_lt st)] at hr
  by_cases hfull : next_reservation (cursor_addr st) % U32 + SIZEOF_MANAGER > st.g_total_size
  · rw [if_pos hfull] at hr; subst hr; exact ⟨only_writes_refl _ _ _, he⟩
  rw [if_neg hfull, he] at hr
  simp only [Bool.false_and, Bool.and_false, Bool.false_eq_true, if_false] at hr
  rw [if_neg (by decide)] at hr
  generalize hm : manager_bytes _ = mb at hr
  have hw := write_with_chunks_slot p st.g_manager_table.next_manager_addr st.flash mb hn
  generalize write_with_chunks st.flash st.g_manager_table.next_manager_addr mb
    SIZEOF_MANAGER = w at hr hw
  obtain ⟨wr, fl⟩ := w
  dsimp only at hr hw
  split at hr
  · subst hr; exact ⟨hw, rfl⟩
  · subst hr; exact ⟨hw, rfl⟩

theorem relocate_only_writes (p : Nat) (st : State) (idx a : Nat) (header : table_header_t)
    (all_data : List Byte) (data_len : Nat) (skip : Bool) (info : flash_table_info_t)
    (he : st.g_allow_erase = false) (hp : p ≤ a)
    (ha : a + SIZEOF_HEADER + FLASH_WRITE_CHUNK_SIZE < U32)
    (hn : st.g_manager_table.next_manager_addr + FLASH_WRITE_CHUNK_SIZE < U32) :
    only_writes p st.g_manager_table.next_manager_addr st.flash
      (relocate_commit st idx a header all_data data_len skip info).2.flash ∧
    (relocate_commit st idx a header all_data data_len skip info).2.g_allow_erase = false := by
  have hH : SIZEOF_HEADER = 30 := by decide!
  generalize hr : relocate_commit st idx a header all_data data_len skip info = r
  unfold relocate_commit at hr
  have hw1 := write_with_chunks_above p st.g_manager_table.next_manager_addr st.flash a
    (header_bytes header) SIZEOF_HEADER (by omega) hp
  generalize write_with_chunks st.flash a (header_bytes header) SIZEOF_HEADER = w1 at hr hw1
  obtain ⟨r1, fl1⟩ := w1
  dsimp only at hr hw1
  by_cases h1 : r1 ≠ 0
  · rw [if_pos h1] at hr; subst hr; exact ⟨hw1, he⟩
  rw [if_neg h1] at hr
  have hw2 : only_writes p st.g_manager_table.next_manager_addr fl1
      (if (skip && decide (data_len = 0)) = true then ((0 : Int), fl1)
        else write_with_chunks fl1 ((a + SIZEOF_HEADER) % U32) all_data data_len).2 := by
    split
    · exact only_writes_refl _ _ _
    · rw [Nat.mod_eq_of_lt (by omega)]
      exact write_with_chunks_above _ _ _ _ _ _ (by omega) (by omega)
  generalize (if (skip && decide (data_len = 0)) = true then ((0 : Int), fl1)
    else write_with_chunks fl1 ((a + SIZEOF_HEADER) % U32) all_data data_len) = w2 at hr hw2
  obtain ⟨r2, fl2⟩ := w2
  dsimp only at hr hw2
  have h12 := only_writes_trans _ _ _ _ _ hw1 hw2
  by_cases h2 : r2 ≠ 0
  · rw [if_pos h2] at hr; subst hr; exact ⟨h12, he⟩
  rw [if_neg h2] at hr
  subst hr
  obtain ⟨hs1, hs2⟩ := save_only_writes p (set_slot { st with flash := fl2 } idx info) he hn
  exact ⟨only_writes_trans _ _ _ _ _ h12 hs1, hs2⟩

theorem staged_refl (st : State) (he : st.g_allow_erase = false) : staged st st :=
  ⟨only_writes_refl _ _ _, he⟩

/-- The allocation of a mutator, with erase not allowed. -/
theorem staged_alloc (st : State) (size : Nat) (he : st.g_allow_erase = false)
    (hc : cursor_pos st ≤ WIN_FLASH_TOTAL_SIZE) :
    staged st (allocate_table_space st size).2.2 ∧
    (allocate_table_space st size).2.2.flash = st.flash ∧
    (allocate_table_space st size).2.2.g_allow_erase = false ∧
    (allocate_table_space st size).2.2.g_manager_table = st.g_manager_table ∧
    ((allocate_table_space st size).1 = 0 →
      cursor_pos st ≤ (allocate_table_space st size).2.1 ∧
      (allocate_table_space st size).2.1 + SIZEOF_HEADER + FLASH_WRITE_CHUNK_SIZE < U32) := by
  have hS : FLASH_SECTOR_SIZE = 4096 := by decide!
  have hU : U32 = 4294967296 := by decide!
  have hW : WIN_FLASH_TOTAL_SIZE = 65536 := by decide!
  have hH : SIZEOF_HEADER = 30 := by decide!
  have hC : FLASH_WRITE_CHUNK_SIZE = 1024 := by decide!
  obtain ⟨h1, h2, h3⟩ := allocate_no_erase st size he
  refine ⟨⟨?_, h2⟩, h1, h2, h3, fun h0 => ?_⟩
  · rw [h1]; exact only_writes_refl _ _ _
  · obtain ⟨_, _, h4, h5, _⟩ := allocate_ok st size hc h0
    exact ⟨h4, by omega⟩

/-- The tail of a relocating mutator after a successful allocation. -/
theorem staged_relocate (st st1 : State) (idx a : Nat) (header : table_header_t)
    (all_data : List Byte) (data_len : Nat) (skip : Bool) (info : flash_table_info_t)
    (hf : st1.flash = st.flash) (he : st1.g_allow_erase = false)
    (hm : st1.g_manager_table = st.g_manager_table) (hp : cursor_pos st ≤ a)
    (ha : a + SIZEOF_HEADER + FLASH_WRITE_CHUNK_SIZE < U32)
    (hn : st.g_manager_table.next_manager_addr + FLASH_WRITE_CHUNK_SIZE < U32) :
    staged st (relocate_commit st1 idx a header all_data data_len skip info).2 := by
  have h := relocate_only_writes (cursor_pos st) st1 idx a header all_data data_len skip info
    he hp ha (by rw [hm]; exact hn)
  rw [hm, hf] at h
  exact h

theorem staged_create (st : State) (name : List Byte) (s m : Nat)
    (he : st.g_allow_erase = false) (hc : cursor_pos st ≤ WIN_FLASH_TOTAL_SIZE)
    (hn : st.g_manager_table.next_manager_addr + FLASH_WRITE_CHUNK_SIZE < U32) :
    staged st (fast_flash_create_table st name s m).2 := by
  generalize hr : fast_flash_create_table st name s m = r
  unfold fast_flash_create_table at hr
  by_cases hl : st.g_manager_loaded = false
  · rw [if_pos hl] at hr; subst hr; exact staged_refl st he
  rw [if_neg hl] at hr
  by_cases hf : find_table_index st name ≥ 0
  · rw [if_pos hf] at hr; subst hr; exact staged_refl st he
  rw [if_neg hf] at hr
  by_cases hs : find_free_table_slot st < 0
  · rw [if_pos hs] at hr; subst hr; exact staged_refl st he
  rw [if_neg hs] at hr
  dsimp only at hr
  obtain ⟨ha0, ha1, ha2, ha3, ha4⟩ := staged_alloc st SIZEOF_HEADER he hc
  generalize allocate_table_space st SIZEOF_HEADER = A at hr ha0 ha1 ha2 ha3 ha4
  obtain ⟨ra, a, st1⟩ := A
  dsimp only at hr ha0 ha1 ha2 ha3 ha4
  by_cases hra : ra ≠ 0
  · rw [if_pos hra] at hr; subst hr; exact ha0
  rw [if_neg hra] at hr
  obtain ⟨hp, hb⟩ := ha4 (Decidable.of_not_not hra)
  have hH : SIZEOF_HEADER = 30 := by decide!
  have hw := write_with_chunks_above (cursor_pos st) st.g_manager_table.next_manager_addr
    st1.flash a (header_bytes (new_header name s m)) SIZEOF_HEADER (by omega) hp
  generalize write_with_chunks st1.flash a (header_bytes (new_header name s m))
    SIZEOF_HEADER = w at hr hw
  obtain ⟨wr, fl⟩ := w
  dsimp only at hr hw
  rw [ha1] at hw
  by_cases hwr : wr ≠ 0
  · rw [if_pos hwr] at hr; subst hr; exact ⟨hw, ha2⟩
  rw [if_neg hwr] at hr
  subst hr
  have hsv := save_only_writes (cursor_pos st)
    { set_slot { st1 with flash := fl } (find_free_table_slot st).toNat (new_info name a) with
      g_manager_table :=
        { (set_slot { st1 with flash := fl } (find_free_table_slot st).toNat
            (new_info name a)).g_manager_table with
          table_count := ((set_slot { st1 with flash := fl } (find_free_table_slot st).toNat
            (new_info name a)).g_manager_table.table_count + 1) % 256
          used_size := ((set_slot { st1 with flash := fl } (find_free_table_slot st).toNat
            (new_info name a)).g_manager_table.used_size + SIZEOF_HEADER) % U32 } }
    ha2 (by show st1.g_manager_table.next_manager_addr + _ < _; rw [ha3]; exact hn)
  obtain ⟨hs1, hs2⟩ := hsv
  refine ⟨only_writes_trans _ _ _ _ _ hw ?_, hs2⟩
  have e : st1.g_manager_table.next_manager_addr = st.g_manager_table.next_manager_addr := by
    rw [ha3]
  rw [← e]
  exact hs1

theorem staged_delete (st : State) (name : List Byte)
    (he : st.g_allow_erase = false)
    (hn : st.g_manager_table.next_manager_addr + FLASH_WRITE_CHUNK_SIZE < U32) :
    staged st (fast_flash_delete_table st name).2 := by
  generalize hr : fast_flash_delete_table st name = r
  unfold fast_flash_delete_table at hr
  by_cases hl : st.g_manager_loaded = false
  · rw [if_pos hl] at hr; subst hr; exact staged_refl st he
  rw [if_neg hl] at hr
  by_cases hf : find_table_index st name < 0
  · rw [if_pos hf] at hr; subst hr; exact staged_refl st he
  rw [if_neg hf] at hr
  subst hr
  exact save_only_writes (cursor_pos st)
    { set_slot st (find_table_index st name).toNat
        { slot_at st.g_manager_table (find_table_index st name).toNat with
          status := TABLE_STATUS_DELETED } with
      g_manager_table :=
        { (set_slot st (find_table_index st name).toNat
            { slot_at st.g_manager_table (find_table_index st name).toNat with
              status := TABLE_STATUS_DELETED }).g_manager_table with
          table_count := ((set_slot st (find_table_index st name).toNat
            { slot_at st.g_manager_table (find_table_index st name).toNat with
              status := TABLE_STATUS_DELETED }).g_manager_table.table_count + 256 - 1) % 256 } }
    he hn

theorem staged_append (st : State) (name d : List Byte) (size : Nat)
    (he : st.g_allow_erase = false) (hc : cursor_pos st ≤ WIN_FLASH_TOTAL_SIZE)
    (hn : st.g_manager_table.next_manager_addr + FLASH_WRITE_CHUNK_SIZE < U32) :
    staged st (fast_flash_write_table_data st name d size).2 := by
  generalize hr : fast_flash_write_table_data st name d size = r
  unfold fast_flash_write_table_data at hr
  by_cases hl : st.g_manager_loaded = false
  · rw [if_pos hl] at hr; subst hr; exact staged_refl st he
  rw [if_neg hl] at hr
  by_cases hf : find_table_index st name < 0
  · rw [if_pos hf] at hr; subst hr; exact staged_refl st he
  rw [if_neg hf] at hr
  dsimp only at hr
  generalize win_flash_read st.flash
    (slot_at st.g_manager_table (find_table_index st name).toNat).addr SIZEOF_HEADER = rd at hr
  obtain ⟨r0, hb⟩ := rd
  dsimp only at hr
  by_cases hr0 : r0 ≠ 0
  · rw [if_pos hr0] at hr; subst hr; exact staged_refl st he
  rw [if_neg hr0] at hr
  by_cases hsz : size ≠ (parse_header hb).struct_size
  · rw [if_pos hsz] at hr; subst hr; exact staged_refl st he
  rw [if_neg hsz] at hr
  obtain ⟨ha0, ha1, ha2, ha3, ha4⟩ := staged_alloc st
    ((SIZEOF_HEADER + ((parse_header hb).data_len + size) % U32) % U32) he hc
  generalize allocate_table_space st
    ((SIZEOF_HEADER + ((parse_header hb).data_len + size) % U32) % U32) = A
    at hr ha0 ha1 ha2 ha3 ha4
  obtain ⟨ra, a, st1⟩ := A
  dsimp only at hr ha0 ha1 ha2 ha3 ha4
  by_cases hra : ra ≠ 0
  · rw [if_pos hra] at hr; subst hr; exact ha0
  rw [if_neg hra] at hr
  obtain ⟨hp, hb1⟩ := ha4 (Decidable.of_not_not hra)
  generalize (if (parse_header hb).data_len > 0 then
    win_flash_read st1.flash
      (((slot_at st.g_manager_table (find_table_index st name).toNat).addr + SIZEOF_HEADER)
        % U32) (parse_header hb).data_len
    else (0, [])) = rd2 at hr
  obtain ⟨r2, od⟩ := rd2
  dsimp only at hr
  by_cases hr2 : r2 ≠ 0
  · rw [if_pos hr2] at hr; subst hr; exact ha0
  rw [if_neg hr2] at hr
  subst hr
  exact staged_relocate st st1 _ a _ _ _ _ _ ha1 ha2 ha3 hp hb1 hn

theorem staged_overwrite (st : State) (name : List Byte) (index : Nat) (d : List Byte)
    (size : Nat) (he : st.g_allow_erase = false) (hc : cursor_pos st ≤ WIN_FLASH_TOTAL_SIZE)
    (hn : st.g_manager_table.next_manager_addr + FLASH_WRITE_CHUNK_SIZE < U32) :
    staged st (fast_flash_write_table_data_by_index st name index d size).2 := by
  generalize hr : fast_flash_write_table_data_by_index st name index d size = r
  unfold fast_flash_write_table_data_by_index at hr
  by_cases hl : st.g_manager_loaded = false
  · rw [if_pos hl] at hr; subst hr; exact staged_refl st he
  rw [if_neg hl] at hr
  by_cases hf : find_table_index st name < 0
  · rw [if_pos hf] at hr; subst hr; exact staged_refl st he
  rw [if_neg hf] at hr
  dsimp only at hr
  generalize win_flash_read st.flash
    (slot_at st.g_manager_table (find_table_index st name).toNat).addr SIZEOF_HEADER = rd at hr
  obtain ⟨r0, hb⟩ := rd
  dsimp only at hr
  by_cases hr0 : r0 ≠ 0
  · rw [if_pos hr0] at hr; subst hr; exact staged_refl st he
  rw [if_neg hr0] at hr
  by_cases hsz : size ≠ (parse_header hb).struct_size
  · rw [if_pos hsz] at hr; subst hr; exact staged_refl st he
  rw [if_neg hsz] at hr
  by_cases hix : index ≥ (parse_header hb).struct_nums
  · rw [if_pos hix] at hr; subst hr; exact staged_refl st he
  rw [if_neg hix] at hr
  generalize win_flash_read st.flash
    (((slot_at st.g_manager_table (find_table_index st name).toNat).addr + SIZEOF_HEADER)
      % U32) (parse_header hb).data_len = rd2 at hr
  obtain ⟨r2, od⟩ := rd2
  dsimp only at hr
  by_cases hr2 : r2 ≠ 0
  · rw [if_pos hr2] at hr; subst hr; exact staged_refl st he
  rw [if_neg hr2] at hr
  obtain ⟨ha0, ha1, ha2, ha3, ha4⟩ := staged_alloc st
    (((parse_header hb).data_len + SIZEOF_HEADER) % U32) he hc
  generalize allocate_table_space st (((parse_header hb).data_len + SIZEOF_HEADER) % U32) = A
    at hr ha0 ha1 ha2 ha3 ha4
  obtain ⟨ra, a, st1⟩ := A
  dsimp only at hr ha0 ha1 ha2 ha3 ha4
  by_cases hra : ra ≠ 0
  · rw [if_pos hra] at hr; subst hr; exact ha0
  rw [if_neg hra] at hr
  obtain ⟨hp, hb1⟩ := ha4 (Decidable.of_not_not hra)
  subst hr
  exact staged_relocate st st1 _ a _ _ _ _ _ ha1 ha2 ha3 hp hb1 hn

theorem staged_batch (st : State) (name data : List Byte) (s k : Nat)
    (he : st.g_allow_erase = false) (hc : cursor_pos st ≤ WIN_FLASH_TOTAL_SIZE)
    (hn : st.g_manager_table.next_manager_addr + FLASH_WRITE_CHUNK_SIZE < U32) :
    staged st (fast_flash_write_table_data_batch st name data s k).2 := by
  generalize hr : fast_flash_write_table_data_batch st name data s k = r
  unfold fast_flash_write_table_data_batch at hr
  by_cases hl : k = 0 ∨ st.g_manager_loaded = false
  · rw [if_pos hl] at hr; subst hr; exact staged_refl st he
  rw [if_neg hl] at hr
  by_cases hf : find_table_index st name < 0
  · rw [if_pos hf] at hr; subst hr; exact staged_refl st he
  rw [if_neg hf] at hr
  dsimp only at hr
  generalize win_flash_read st.flash
    (slot_at st.g_manager_table (find_table_index st name).toNat).addr SIZEOF_HEADER = rd at hr
  obtain ⟨r0, hb⟩ := rd
  dsimp only at hr
  by_cases hr0 : r0 ≠ 0
  · rw [if_pos hr0] at hr; subst hr; exact staged_refl st he
  rw [if_neg hr0] at hr
  by_cases hsz : s ≠ (parse_header hb).struct_size
  · rw [if_pos hsz] at hr; subst hr; exact staged_refl st he
  rw [if_neg hsz] at hr
  by_cases hcap : ((parse_header hb).struct_nums + k) % U32 > header_capacity (parse_header hb)
  · rw [if_pos hcap] at hr; subst hr; exact staged_refl st he
  rw [if_neg hcap] at hr
  obtain ⟨ha0, ha1, ha2, ha3, ha4⟩ := staged_alloc st
    ((SIZEOF_HEADER + ((parse_header hb).data_len + (s * k) % U32) % U32) % U32) he hc
  generalize allocate_table_space st
    ((SIZEOF_HEADER + ((parse_header hb).data_len + (s * k) % U32) % U32) % U32) = A
    at hr ha0 ha1 ha2 ha3 ha4
  obtain ⟨ra, a, st1⟩ := A
  dsimp only at hr ha0 ha1 ha2 ha3 ha4
  by_cases hra : ra ≠ 0
  · rw [if_pos hra] at hr; subst hr; exact ha0
  rw [if_neg hra] at hr
  obtain ⟨hp, hb1⟩ := ha4 (Decidable.of_not_not hra)
  generalize (if (parse_header hb).data_len > 0 then
    win_flash_read st1.flash
      (((slot_at st.g_manager_table (find_table_index st name).toNat).addr + SIZEOF_HEADER)
        % U32) (parse_header hb).data_len
    else (0, [])) = rd2 at hr
  obtain ⟨r2, od⟩ := rd2
  dsimp only at hr
  by_cases hr2 : r2 ≠ 0
  · rw [if_pos hr2] at hr; subst hr; exact ha0
  rw [if_neg hr2] at hr
  subst hr
  exact staged_relocate st st1 _ a _ _ _ _ _ ha1 ha2 ha3 hp hb1 hn

theorem staged_clear (st : State) (name : List Byte) (mask : Nat)
    (he : st.g_allow_erase = false) (hc : cursor_pos st ≤ WIN_FLASH_TOTAL_SIZE)
    (hn : st.g_manager_table.next_manager_addr + FLASH_WRITE_CHUNK_SIZE < U32) :
    staged st (fast_flash_clear_table_data st name mask).2 := by
  generalize hr : fast_flash_clear_table_data st name mask = r
  unfold fast_flash_clear_table_data at hr
  by_cases hl : st.g_manager_loaded = false
  · rw [if_pos hl] at hr; subst hr; exact staged_refl st he
  rw [if_neg hl] at hr
  by_cases hf : find_table_index st name < 0
  · rw [if_pos hf] at hr; subst hr; exact staged_refl st he
  rw [if_neg hf] at hr
  dsimp only at hr
  generalize win_flash_read st.flash
    (slot_at st.g_manager_table (find_table_index st name).toNat).addr SIZEOF_HEADER = rd at hr
  obtain ⟨r0, hb⟩ := rd
  dsimp only at hr
  by_cases hr0 : r0 ≠ 0
  · rw [if_pos hr0] at hr; subst hr; exact staged_refl st he
  rw [if_neg hr0] at hr
  by_cases hmk : mask &&& ((if (parse_header hb).struct_nums < 64 then
      (1 <<< (parse_header hb).struct_nums) - 1 else U64 - 1) ^^^ (U64 - 1)) ≠ 0
  · rw [if_pos hmk] at hr; subst hr; exact staged_refl st he
  rw [if_neg hmk] at hr
  by_cases hm0 : mask = 0
  · rw [if_pos hm0] at hr; subst hr; exact staged_refl st he
  rw [if_neg hm0] at hr
  generalize win_flash_read st.flash
    (((slot_at st.g_manager_table (find_table_index st name).toNat).addr + SIZEOF_HEADER) % U32)
    (parse_header hb).data_len = rd2 at hr
  obtain ⟨r2, od⟩ := rd2
  dsimp only at hr
  by_cases hr2 : r2 ≠ 0
  · rw [if_pos hr2] at hr; subst hr; exact staged_refl st he
  rw [if_neg hr2] at hr
  generalize clear_loop mask od (parse_header hb).struct_size
    (List.range (parse_header hb).struct_nums) ([], 0, 0) = cl at hr
  obtain ⟨nd, ndl, nsn⟩ := cl
  dsimp only at hr
  obtain ⟨ha0, ha1, ha2, ha3, ha4⟩ := staged_alloc st ((SIZEOF_HEADER + ndl) % U32) he hc
  generalize allocate_table_space st ((SIZEOF_HEADER + ndl) % U32) = A
    at hr ha0 ha1 ha2 ha3 ha4
  obtain ⟨ra, a, st1⟩ := A
  dsimp only at hr ha0 ha1 ha2 ha3 ha4
  by_cases hra : ra ≠ 0
  · rw [if_pos hra] at hr; subst hr; exact ha0
  rw [if_neg hra] at hr
  obtain ⟨hp, hb1⟩ := ha4 (Decidable.of_not_not hra)
  subst hr
  exact staged_relocate st st1 _ a _ _ _ _ _ ha1 ha2 ha3 hp hb1 hn

/-- Every mutator, started with erase not allowed and the cursor on the device, issues program
calls only, each at or above the cursor or inside the slot reserved for the next manager
record, and leaves erase not allowed. -/
theorem staged_step (st : State) (c : api_call) (he : st.g_allow_erase = false)
    (hc : cursor_pos st ≤ WIN_FLASH_TOTAL_SIZE)
    (hn : st.g_manager_table.next_manager_addr + FLASH_WRITE_CHUNK_SIZE < U32) :
    staged st (api_step st c).2 := by
  cases c with
  | create name s m => exact staged_create st name s m he hc hn
  | append name d s => exact staged_append st name d s he hc hn
  | overwrite name k d s => exact staged_overwrite st name k d s he hc hn
  | batch name data s k => exact staged_batch st name data s k he hc hn
  | clear name mask => exact staged_clear st name mask he hc hn
  | delete name => exact staged_delete st name he hn

theorem consistent_reserve_lt (st : State) (hc : Consistent st) :
    st.g_manager_table.next_manager_addr + FLASH_WRITE_CHUNK_SIZE < U32 := by
  have hU : U32 = 4294967296 := by decide!
  have hW : WIN_FLASH_TOTAL_SIZE = 65536 := by decide!
  have hC : FLASH_WRITE_CHUNK_SIZE = 1024 := by decide!
  have h1 := hc.reserve_le
  have h2 := hc.cursor_le
  omega

/-- Erase stays disallowed along a run of calls that starts with erase not allowed. -/
theorem run_calls_no_erase : ∀ (cs : List api_call) (st st' : State), Consistent st →
    st.g_allow_erase = false → run_calls st cs = some st' → st'.g_allow_erase = false
  | [], st, st', _, he, h => by
    simp only [run_calls, Option.some.injEq] at h
    subst h; exact he
  | c :: cs, st, st', hc, he, h => by
    unfold run_calls at h
    by_cases hcond : (call_defined st c && decide ((api_step st c).1 = 0)) = true
    · rw [if_pos hcond] at h
      simp only [Bool.and_eq_true, decide_eq_true_eq] at hcond
      exact run_calls_no_erase cs _ st' (step_consistent st c hc hcond.1 hcond.2).1
        (staged_step st c he hc.cursor_le (consistent_reserve_lt st hc)).2 h
    · rw [if_neg hcond] at h
      exact absurd h (by simp)

/-- A delete whose commit has no room returns -1 and issues no driver call. -/
theorem delete_no_space (st : State) (name : List Byte) (hl : st.g_manager_loaded = true)
    (hf : ¬ find_table_index st name < 0)
    (hfull : next_reservation (cursor_addr st) % U32 + SIZEOF_MANAGER > st.g_total_size) :
    (fast_flash_delete_table st name).1 = -1 ∧
    (fast_flash_delete_table st name).2.flash = st.flash := by
  unfold fast_flash_delete_table
  rw [if_neg (by rw [hl]; decide), if_neg hf]
  dsimp only
  rw [save_no_space _ (by exact hl) (by exact hfull)]
  exact ⟨rfl, rfl⟩

/-! ## A mutation that is cut off -/

theorem boot_with_init (total_size : Nat) :
    fast_flash_init power_on total_size false = (0, boot_with total_size) :=
  fast_flash_init_fresh power_on total_size false blank_invalid

theorem boot_with_consistent (total_size : Nat) (hT : total_size ≤ WIN_FLASH_TOTAL_SIZE) :
    Consistent (boot_with total_size) := by
  have hW : WIN_FLASH_TOTAL_SIZE = 65536 := by decide!
  have hM : SIZEOF_MANAGER = 692 := by decide!
  have hS : FLASH_SECTOR_SIZE = 4096 := by decide!
  have hcur : cursor_pos (boot_with total_size) = SIZEOF_MANAGER + SIZEOF_MANAGER := by
    show 0 * FLASH_SECTOR_SIZE + (SIZEOF_MANAGER + SIZEOF_MANAGER) = _
    omega
  have hnext : (boot_with total_size).g_manager_table.next_manager_addr = SIZEOF_MANAGER := rfl
  have hcache : ∀ a, SIZEOF_MANAGER ≤ a → (boot_with total_size).flash.flash_cache a = 0xFF := by
    intro a ha
    show mem_write (mem_erase (fun _ => (0xFF : Byte)) 0 FLASH_SECTOR_SIZE) 0 (manager_bytes _) a
      = 0xFF
    rw [mem_write_out _ _ _ _ (by rw [manager_bytes_length]; omega)]
    unfold mem_erase
    split <;> rfl
  refine ⟨rfl, ?_, hT, by rw [hcur, hW, hM]; decide, by rw [hcur, hnext], ?_, ?_, ?_⟩
  · show (List.replicate 24 zero_info).length = MAX_TABLES_ALL_SECTOR
    rw [List.length_replicate]
    decide!
  · intro a h1 _
    rw [hnext] at h1
    exact hcache a h1
  · intro a h1 _
    rw [hcur] at h1
    exact hcache a (by omega)
  · intro i _ hv
    exfalso
    have hz : slot_at (boot_with total_size).g_manager_table i = zero_info := by
      show (List.replicate 24 zero_info).getD i zero_info = zero_info
      rw [List.getD_eq_getElem?_getD, List.getElem?_replicate]
      split <;> rfl
    rw [hz] at hv
    exact absurd hv (by decide)

theorem boot_with_persisted (total_size : Nat) (hpos : 0 < total_size)
    (hT : total_size ≤ WIN_FLASH_TOTAL_SIZE) : Persisted (boot_with total_size) := by
  have hW : WIN_FLASH_TOTAL_SIZE = 65536 := by decide!
  have hU : U32 = 4294967296 := by decide!
  have hwf : wf_manager (boot_with total_size).g_manager_table :=
    wf_fresh total_size (by omega)
  have hrec := fresh_state_record
    { power_on with g_total_size := total_size, g_allow_erase := false }
  have hm0 : parse_manager (mem_read (boot_with total_size).flash.flash_cache 0 SIZEOF_MANAGER) =
      (boot_with total_size).g_manager_table := by
    have h2 : mem_read (boot_with total_size).flash.flash_cache 0 SIZEOF_MANAGER =
        manager_bytes (boot_with total_size).g_manager_table := hrec
    rw [h2]
    exact parse_manager_bytes _ hwf
  have hval : validate_manager_table
      (parse_manager (mem_read (boot_with total_size).flash.flash_cache 0 SIZEOF_MANAGER)) = 0 :=
    fresh_state_valid _ (by show total_size < U32; omega)
  refine ⟨hpos, hval, hwf, rfl, rfl, 0, ?_, ?_⟩
  · rw [hm0]
  · show 0 + SIZEOF_MANAGER ≤ SIZEOF_MANAGER
    omega

/-- Initialisation over a flash whose chain of records from offset 0 ends at the record `M`
adopts `M`, whatever the globals held before, and issues no driver call. -/
theorem reinit_of_chain (s0 : State) (total_size : Nat) (allow_erase : Bool)
    (M : flash_manager_table_t) (A : Nat) (hpos : 0 < total_size)
    (hfirst : validate_manager_table
      (parse_manager (mem_read s0.flash.flash_cache 0 SIZEOF_MANAGER)) = 0)
    (hreach : Relation.ReflTransGen (chain_step s0.flash total_size)
      (0, parse_manager (mem_read s0.flash.flash_cache 0 SIZEOF_MANAGER)) (A, M))
    (hend : chain_next s0.flash total_size A M = none) :
    (fast_flash_init s0 total_size allow_erase).1 = 0 ∧
    (fast_flash_init s0 total_size allow_erase).2.g_manager_loaded = true ∧
    (fast_flash_init s0 total_size allow_erase).2.g_manager_table = M ∧
    (fast_flash_init s0 total_size allow_erase).2.flash = s0.flash := by
  obtain ⟨h1, h2, h3, h4, h5⟩ := load_manager_table_chain
    { s0 with g_total_size := total_size, g_allow_erase := allow_erase } hpos hfirst
  have hlast := chain_last_of_reach s0.flash total_size total_size _ _ hreach hend h4
  have h3' : (load_manager_table
      { s0 with g_total_size := total_size, g_allow_erase := allow_erase }).2.g_manager_table
      = M := by
    rw [h3]
    exact congrArg Prod.snd hlast
  generalize hr : load_manager_table
    { s0 with g_total_size := total_size, g_allow_erase := allow_erase } = r at h1 h2 h3' h5
  obtain ⟨r1, r2⟩ := r
  unfold fast_flash_init
  rw [hr]
  dsimp only at h1 h2 h3' h5 ⊢
  subst h1
  rw [if_neg (by decide)]
  exact ⟨rfl, h2, h3', h5⟩

/-- Initialisation after a cut: when the flash holds what the consistent, persisted state `st`
had below its cursor, `fast_flash_init` adopts the manager of `st` and every table reads as in
`st`. -/
theorem reinit_after_cut (st s0 : State) (allow_erase : Bool) (hc : Consistent st)
    (hp : Persisted st)
    (hsame : ∀ x, x < cursor_pos st → s0.flash.flash_cache x = st.flash.flash_cache x) :
    (fast_flash_init s0 st.g_total_size allow_erase).1 = 0 ∧
    (fast_flash_init s0 st.g_total_size allow_erase).2.g_manager_table = st.g_manager_table ∧
    (fast_flash_init s0 st.g_total_size allow_erase).2.flash = s0.flash ∧
    (∀ name, fast_flash_table_exists (fast_flash_init s0 st.g_total_size allow_erase).2 name =
      fast_flash_table_exists st name) ∧
    (∀ name, fast_flash_get_table_count (fast_flash_init s0 st.g_total_size allow_erase).2 name =
      fast_flash_get_table_count st name) ∧
    (∀ name k sz,
      fast_flash_read_table_data (fast_flash_init s0 st.g_total_size allow_erase).2 name k sz =
        fast_flash_read_table_data st name k sz) := by
  have hW : WIN_FLASH_TOTAL_SIZE = 65536 := by decide!
  have hM : SIZEOF_MANAGER = 692 := by decide!
  obtain ⟨A, hreach, hA⟩ := hp.chain
  have hres := hc.reserve_le
  have hcl := hc.cursor_le
  have hrd0 : mem_read s0.flash.flash_cache 0 SIZEOF_MANAGER =
      mem_read st.flash.flash_cache 0 SIZEOF_MANAGER :=
    mem_read_congr _ _ _ _ (fun x _ hx => hsame x (by omega))
  have hfirst : validate_manager_table
      (parse_manager (mem_read s0.flash.flash_cache 0 SIZEOF_MANAGER)) = 0 := by
    rw [hrd0]; exact hp.first
  have hreach' : Relation.ReflTransGen (chain_step s0.flash st.g_total_size)
      (0, parse_manager (mem_read s0.flash.flash_cache 0 SIZEOF_MANAGER))
      (A, st.g_manager_table) := by
    rw [hrd0]
    exact chain_reach_congr st.flash s0.flash st.g_total_size _ _ hc.total_le hreach
      (fun a ha => hsame a (by show a < cursor_pos st; have : a < A + SIZEOF_MANAGER := ha; omega))
  have hend : chain_next s0.flash st.g_total_size A st.g_manager_table = none := by
    unfold chain_next
    rw [if_neg]
    intro hcon
    obtain ⟨_, _, _, _, h5⟩ := hcon
    rw [win_flash_read_of_le _ _ _ (by omega)] at h5
    exact blank_record_invalid _ _
      (fun x h1 h2 => by rw [hsame x (by omega)]; exact hc.reserve_blank x h1 h2) h5
  obtain ⟨h1, h2, h3, h4⟩ := reinit_of_chain s0 st.g_total_size allow_erase st.g_manager_table A
    hp.size_pos hfirst hreach' hend
  generalize (fast_flash_init s0 st.g_total_size allow_erase).2 = s2 at h2 h3 h4 ⊢
  have hfi : ∀ name, find_table_index s2 name = find_table_index st name := by
    intro name
    unfold find_table_index
    rw [h3]
  have hreads : ∀ name k sz,
      fast_flash_read_table_data s2 name k sz = fast_flash_read_table_data st name k sz ∧
      fast_flash_get_table_count s2 name = fast_flash_get_table_count st name := by
    intro name k sz
    by_cases hj : find_table_index st name < 0
    · exact frame_reads_absent st s2 name hj (by rw [hfi]; exact hj) k sz
    · obtain ⟨j, hj1, _⟩ := find_table_index_spec st name hj
      exact frame_reads st s2 hc h2 name j hj1 (by rw [hfi]; exact hj1) (by rw [h3])
        (fun x hx _ => by rw [h4]; exact hsame x hx) k sz
  refine ⟨h1, h3, h4, fun name => ?_, fun name => (hreads name 0 0).2,
    fun name k sz => (hreads name k sz).1⟩
  unfold fast_flash_table_exists
  rw [hfi, h2, hc.loaded]

/-- C26 (for states reached by calls that returned 0): let `st` be reached from the state
after `fast_flash_init(&win_flash_ops, total_size, false)` on a blank device, with
`0 < total_size ≤ 65536`, by create/append/overwrite/batch/clear/delete calls that have
defined behaviour and all returned 0.  The chain of manager records leads to a record at some
address `A` that is the in-RAM manager and ends there, and every driver call a mutator issues
in `st` is a program call that lies at or above the cursor or inside the 692 bytes reserved at
`next_manager_addr` (the commit); it starts behind the adopted record and touches no byte of
the header and data `[addr, addr + 30 + data_len)` of a Valid table.  Hence for every flash
that holds below the cursor what the flash of `st` holds, whatever was programmed from the
cursor on, `fast_flash_init` returns 0, issues no driver call and adopts the manager of `st`,
and every name exists or not, has the row count and reads the rows as in `st`. -/
theorem interrupted_mutation_invisible (total_size : Nat) (cs : List api_call) (st : State)
    (c : api_call) (hpos : 0 < total_size) (hdev : total_size ≤ WIN_FLASH_TOTAL_SIZE)
    (hrun : run_calls (boot_with total_size) cs = some st) :
    fast_flash_init power_on total_size false = (0, boot_with total_size) ∧
    (∃ A,
      Relation.ReflTransGen (chain_step st.flash total_size)
        (0, parse_manager (mem_read st.flash.flash_cache 0 SIZEOF_MANAGER))
        (A, st.g_manager_table) ∧
      chain_next st.flash total_size A st.g_manager_table = none ∧
      ∃ new, (api_step st c).2.flash.ops = new ++ st.flash.ops ∧
        ∀ op ∈ new, ∃ a b, op = flash_op.write a b ∧
          (cursor_pos st ≤ a ∨
            (st.g_manager_table.next_manager_addr ≤ a ∧
              a + b.length ≤ st.g_manager_table.next_manager_addr + SIZEOF_MANAGER)) ∧
          A + SIZEOF_MANAGER ≤ a ∧
          ∀ i, i < MAX_TABLES_ALL_SECTOR →
            (slot_at st.g_manager_table i).status = TABLE_STATUS_VALID →
            a + b.length ≤ (slot_at st.g_manager_table i).addr ∨
            (slot_at st.g_manager_table i).addr + SIZEOF_HEADER +
              (header_at st (slot_at st.g_manager_table i).addr).data_len ≤ a) ∧
    ∀ (s0 : State) (allow_erase : Bool),
      (∀ x, x < cursor_pos st → s0.flash.flash_cache x = st.flash.flash_cache x) →
      (fast_flash_init s0 total_size allow_erase).1 = 0 ∧
      (fast_flash_init s0 total_size allow_erase).2.g_manager_table = st.g_manager_table ∧
      (fast_flash_init s0 total_size allow_erase).2.flash = s0.flash ∧
      (∀ name, fast_flash_table_exists (fast_flash_init s0 total_size allow_erase).2 name =
        fast_flash_table_exists st name) ∧
      (∀ name, fast_flash_get_table_count (fast_flash_init s0 total_size allow_erase).2 name =
        fast_flash_get_table_count st name) ∧
      (∀ name k sz,
        fast_flash_read_table_data (fast_flash_init s0 total_size allow_erase).2 name k sz =
          fast_flash_read_table_data st name k sz) := by
  have hc0 := boot_with_consistent total_size hdev
  obtain ⟨hc, hp, ht⟩ := run_calls_persisted cs (boot_with total_size) st hc0
    (boot_with_persisted total_size hpos hdev) hrun
  have ht' : st.g_total_size = total_size := ht
  have he := run_calls_no_erase cs (boot_with total_size) st hc0 rfl hrun
  refine ⟨boot_with_init total_size, ?_, ?_⟩
  · obtain ⟨A, hreach, hA⟩ := hp.chain
    rw [ht'] at hreach
    have hend := chain_ends_at_manager st hc A
    rw [ht'] at hend
    obtain ⟨⟨new, hops, hall⟩, _⟩ :=
      staged_step st c he hc.cursor_le (consistent_reserve_lt st hc)
    refine ⟨A, hreach, hend, new, hops, fun op hop => ?_⟩
    obtain ⟨a, b, hab, hcase⟩ := hall op hop
    have hres := hc.reserve_le
    refine ⟨a, b, hab, hcase, ?_, fun i hi hv => ?_⟩
    · rcases hcase with h | ⟨h, _⟩ <;> omega
    · obtain ⟨t1, t2, _⟩ := hc.tables_ok i hi hv
      rcases hcase with h | ⟨h1, h2⟩
      · exact Or.inr (by omega)
      · rcases t2 with t | t
        · exact Or.inr (by omega)
        · exact Or.inl (by omega)
  · intro s0 allow_erase hsame
    have h := reinit_after_cut st s0 allow_erase hc hp hsame
    rw [ht'] at h
    exact h

/-! ## Further stores, evaluated -/

/-- The globals of `deleted_state`, evaluated. -/
theorem deleted_state_ram :
    (fast_flash_init power_on WIN_FLASH_TOTAL_SIZE true).1 = 0 ∧
    (fast_flash_create_table (boot true) name_T 4 10).1 = 0 ∧
    (fast_flash_delete_table (fast_flash_create_table (boot true) name_T 4 10).2 name_T).1 = 0 ∧
    deleted_state.g_manager_loaded = true ∧ deleted_state.g_allow_erase = true ∧
    deleted_state.g_total_size = WIN_FLASH_TOTAL_SIZE ∧
    (∀ i, i < MAX_TABLES_ALL_SECTOR →
      (slot_at deleted_state.g_manager_table i).status ≠ TABLE_STATUS_VALID) ∧
    (slot_at deleted_state.g_manager_table 0).status = TABLE_STATUS_DELETED ∧
    find_free_table_slot deleted_state = 1 := by
  decide!

theorem find_free_table_slot_congr (st st' : State)
    (h : st'.g_manager_table.tables = st.g_manager_table.tables) :
    find_free_table_slot st' = find_free_table_slot st := by
  unfold find_free_table_slot slot_at
  rw [h]

/-! ## Chunked programming -/

theorem chunk_calls_zero (a : Nat) (d : List Byte) : chunk_calls a d 0 = [] := by
  have hC : FLASH_WRITE_CHUNK_SIZE = 1024 := by decide!
  unfold chunk_calls
  rw [hC]
  rfl

theorem chunk_calls_length (a : Nat) (d : List Byte) (n : Nat) :
    (chunk_calls a d n).length = (n + FLASH_WRITE_CHUNK_SIZE - 1) / FLASH_WRITE_CHUNK_SIZE := by
  unfold chunk_calls
  rw [List.length_map, List.length_range]

theorem chunk_calls_get (a : Nat) (d : List Byte) (n j : Nat)
    (hj : j < (n + FLASH_WRITE_CHUNK_SIZE - 1) / FLASH_WRITE_CHUNK_SIZE) :
    (chunk_calls a d n)[j]? = some (flash_op.write (a + FLASH_WRITE_CHUNK_SIZE * j)
      ((d.drop (FLASH_WRITE_CHUNK_SIZE * j)).take
        (min FLASH_WRITE_CHUNK_SIZE (n - FLASH_WRITE_CHUNK_SIZE * j)))) := by
  unfold chunk_calls
  rw [List.getElem?_map, List.getElem?_range hj]
  rfl

/-- The first call and the calls for the rest. -/
theorem chunk_calls_cons (a : Nat) (d : List Byte) (n : Nat) (hn : 0 < n) :
    chunk_calls a d n =
      flash_op.write a (d.take (min FLASH_WRITE_CHUNK_SIZE n)) ::
        chunk_calls (a + min FLASH_WRITE_CHUNK_SIZE n) (d.drop (min FLASH_WRITE_CHUNK_SIZE n))
          (n - min FLASH_WRITE_CHUNK_SIZE n) := by
  have hC : FLASH_WRITE_CHUNK_SIZE = 1024 := by decide!
  unfold chunk_calls
  rw [hC]
  obtain ⟨k, hk⟩ : ∃ k, (n + 1024 - 1) / 1024 = k + 1 :=
    ⟨(n + 1024 - 1) / 1024 - 1, by omega⟩
  have hk2 : (n - min 1024 n + 1024 - 1) / 1024 = k := by omega
  rw [hk, hk2, List.range_succ_eq_map, List.map_cons, List.map_map]
  congr 1
  apply List.map_congr_left
  intro j hj
  have hj' := List.mem_range.mp hj
  have hbig : 1024 < n := by omega
  have hmin : min 1024 n = 1024 := by omega
  simp only [Function.comp, hmin, List.drop_drop]
  have e1 : 1024 * (j + 1) = 1024 * j + 1024 := by omega
  have e2 : n - 1024 - 1024 * j = n - (1024 * j + 1024) := by omega
  have e3 : a + 1024 + 1024 * j = a + (1024 * j + 1024) := by omega
  rw [e1, e2, e3, Nat.add_comm 1024 (1024 * j)]

theorem win_flash_write_take (d : win_flash) (addr : Nat) (src : List Byte) (c : Nat)
    (hc : c ≤ src.length) :
    win_flash_write d addr (src.take c) (src.take c).length = win_flash_write d addr src c := by
  have hl : (src.take c).length = c := by rw [List.length_take]; omega
  have hk := nor_run_le d.flash_cache (src.take c) addr
  rw [hl] at hk ⊢
  unfold win_flash_write
  rw [List.take_take, Nat.min_self]
  dsimp only
  split
  · rfl
  · split
    · rfl
    · rw [List.take_take, Nat.min_eq_left hk]

theorem write_with_chunks_loop_zero (fuel : Nat) (d : win_flash) (addr : Nat)
    (src : List Byte) : write_with_chunks_loop fuel d addr src 0 = (0, d) := by
  cases fuel with
  | zero => rfl
  | succ f =>
    unfold write_with_chunks_loop
    rw [if_neg (by omega)]

/-- The loop of `write_with_chunks` issues the calls of the specification in order and stops at
the first that fails. -/
theorem write_with_chunks_loop_calls : ∀ (fuel : Nat) (d : win_flash) (addr : Nat)
    (src : List Byte) (remain : Nat), remain ≤ fuel → remain ≤ src.length →
    addr + remain ≤ U32 →
    write_with_chunks_loop fuel d addr src remain = issue_in_order d (chunk_calls addr src remain)
  | 0, d, addr, src, remain, hf, _, _ => by
    have : remain = 0 := by omega
    subst this
    rw [chunk_calls_zero]
    rfl
  | fuel + 1, d, addr, src, remain, hf, hs, hw => by
    have hC : FLASH_WRITE_CHUNK_SIZE = 1024 := by decide!
    have hU : U32 = 4294967296 := by decide!
    by_cases hr : remain > 0
    · rw [chunk_calls_cons addr src remain hr]
      unfold write_with_chunks_loop
      rw [if_pos hr]
      dsimp only
      have hcs : (if remain > FLASH_WRITE_CHUNK_SIZE then FLASH_WRITE_CHUNK_SIZE else remain) =
          min FLASH_WRITE_CHUNK_SIZE remain := by
        split <;> omega
      rw [hcs]
      generalize hc : min FLASH_WRITE_CHUNK_SIZE remain = c
      have hc1 : c ≤ remain ∧ 0 < c ∧ c ≤ 1024 := by omega
      unfold issue_in_order
      rw [win_flash_write_take d addr src c (by omega)]
      generalize win_flash_write d addr src c = w
      obtain ⟨r, d1⟩ := w
      dsimp only
      by_cases hr0 : r ≠ 0
      · rw [if_pos hr0, if_pos hr0]
      · rw [if_neg hr0, if_neg hr0]
        by_cases hrest : remain - c = 0
        · rw [hrest, write_with_chunks_loop_zero, chunk_calls_zero]
          rfl
        · rw [Nat.mod_eq_of_lt (by omega)]
          exact write_with_chunks_loop_calls fuel d1 (addr + c) (src.drop c) (remain - c)
            (by omega) (by rw [List.length_drop]; omega) (by omega)
    · have : remain = 0 := by omega
      subst this
      rw [write_with_chunks_loop_zero, chunk_calls_zero]
      rfl

/-- What a run of calls in order leaves in the log: the calls issued, newest first. -/
theorem issue_in_order_ops : ∀ (l : List flash_op) (d : win_flash),
    ∃ k, k ≤ l.length ∧ (issue_in_order d l).2.ops = (l.take k).reverse ++ d.ops ∧
      ((issue_in_order d l).1 = 0 → k = l.length) ∧
      ((issue_in_order d l).1 ≠ 0 → 0 < k)
  | [], d => ⟨0, Nat.le_refl _, rfl, fun _ => rfl, fun h => absurd rfl h⟩
  | flash_op.write a b :: rest, d => by
    unfold issue_in_order
    have hops := win_flash_write_ops d a b b.length
    rw [List.take_length] at hops
    generalize win_flash_write d a b b.length = w at hops
    obtain ⟨r, d1⟩ := w
    dsimp only at hops ⊢
    by_cases hr0 : r ≠ 0
    · rw [if_pos hr0]
      exact ⟨1, by simp, by simp [hops], fun h => absurd h hr0, fun _ => Nat.one_pos⟩
    · rw [if_neg hr0]
      obtain ⟨k, hk, e, h0, h1⟩ := issue_in_order_ops rest d1
      refine ⟨k + 1, by simp; omega, ?_, fun h => by simp [h0 h], fun _ => Nat.succ_pos _⟩
      rw [e, hops]
      simp
  | flash_op.erase a s :: rest, d => by
    unfold issue_in_order
    have hops : (win_flash_erase d a s).2.ops = flash_op.erase a s :: d.ops := by
      unfold win_flash_erase
      dsimp only
      split
      · rfl
      · split <;> rfl
    generalize win_flash_erase d a s = w at hops
    obtain ⟨r, d1⟩ := w
    dsimp only at hops ⊢
    by_cases hr0 : r ≠ 0
    · rw [if_pos hr0]
      exact ⟨1, by simp, by simp [hops], fun h => absurd h hr0, fun _ => Nat.one_pos⟩
    · rw [if_neg hr0]
      obtain ⟨k, hk, e, h0, h1⟩ := issue_in_order_ops rest d1
      refine ⟨k + 1, by simp; omega, ?_, fun h => by simp [h0 h], fun _ => Nat.succ_pos _⟩
      rw [e, hops]
      simp

theorem nor_run_congr (c c' : Nat → Byte) : ∀ (l : List Byte) (a : Nat),
    (∀ j, j < l.length → c' (a + j) = c (a + j)) → nor_run c' a l = nor_run c a l
  | [], _, _ => rfl
  | b :: bs, a, h => by
    unfold nor_run
    have h0 : c' a = c a := h 0 (by simp)
    rw [h0, nor_run_congr c c' bs (a + 1) (fun j hj => by
      have := h (j + 1) (by simp; omega)
      rw [Nat.add_assoc, Nat.add_comm 1 j]
      exact this)]

theorem nor_run_append (c : Nat → Byte) : ∀ (x y : List Byte) (a : Nat),
    nor_run c a x = x.length → nor_run c (a + x.length) y = y.length →
    nor_run c a (x ++ y) = (x ++ y).length
  | [], y, a, _, hy => by
    simpa using hy
  | b :: bs, y, a, hx, hy => by
    rw [List.cons_append]
    unfold nor_run at hx ⊢
    split at hx
    · simp at hx
    · rename_i hb
      rw [if_neg hb]
      simp only [List.length_cons, Nat.add_right_cancel_iff] at hx
      have e : a + (b :: bs).length = a + 1 + bs.length := by simp; omega
      rw [e] at hy
      rw [nor_run_append c bs y (a + 1) hx hy]
      simp

theorem win_flash_write_zero (d : win_flash) (addr : Nat) (buf : List Byte) (size : Nat)
    (h : (win_flash_write d addr buf size).1 = 0) :
    nor_run d.flash_cache addr (buf.take size) = size := by
  unfold win_flash_write at h
  dsimp only at h
  split at h
  · simp at h
  · split at h
    · assumption
    · simp at h

/-- A chunked write that returns 0 has stored the bytes, and every byte of the range accepted
them under the NOR rule in the content the device had before the first call. -/
theorem write_with_chunks_loop_whole : ∀ (fuel : Nat) (d : win_flash) (addr : Nat)
    (src : List Byte) (remain : Nat), remain ≤ fuel → remain ≤ src.length →
    addr + remain ≤ U32 → (write_with_chunks_loop fuel d addr src remain).1 = 0 →
    (write_with_chunks_loop fuel d addr src remain).2.flash_cache =
      mem_write d.flash_cache addr (src.take remain) ∧
    nor_run d.flash_cache addr (src.take remain) = remain ∧
    (0 < remain → (addr + remain) % U32 ≤ WIN_FLASH_TOTAL_SIZE)
  | 0, d, addr, src, remain, hf, _, _, _ => by
    have : remain = 0 := by omega
    subst this
    simp [write_with_chunks_loop, mem_write_nil, nor_run]
  | fuel + 1, d, addr, src, remain, hf, hs, hw, h => by
    have hC : FLASH_WRITE_CHUNK_SIZE = 1024 := by decide!
    have hU : U32 = 4294967296 := by decide!
    by_cases hr : remain > 0
    · unfold write_with_chunks_loop at h ⊢
      rw [if_pos hr] at h ⊢
      dsimp only at h ⊢
      generalize hcs : (if remain > FLASH_WRITE_CHUNK_SIZE then FLASH_WRITE_CHUNK_SIZE
        else remain) = c at h ⊢
      have hc1 : c ≤ remain ∧ 0 < c ∧ c ≤ 1024 := by
        rw [← hcs]; split <;> omega
      have hlen : (src.take c).length = c := by rw [List.length_take]; omega
      have hsplit : src.take remain = src.take c ++ (src.drop c).take (remain - c) := by
        have e : remain = c + (remain - c) := by omega
        conv => lhs; rw [e]
        exact List.take_add src c (remain - c)
      by_cases hr0 : (win_flash_write d addr src c).1 ≠ 0
      · rw [if_pos hr0] at h
        exact absurd h hr0
      · rw [if_neg hr0] at h ⊢
        have h0 := Decidable.of_not_not hr0
        obtain ⟨hb, _, hcache⟩ := win_flash_write_ok d addr src c h0
        have hnor := win_flash_write_zero d addr src c h0
        by_cases hrest : remain - c = 0
        · have hrc : remain = c := by omega
          rw [hrest, write_with_chunks_loop_zero]
          subst hrc
          exact ⟨hcache, hnor, fun _ => hb⟩
        · rw [Nat.mod_eq_of_lt (by omega)] at h ⊢
          obtain ⟨i1, i2, i3⟩ := write_with_chunks_loop_whole fuel (win_flash_write d addr src c).2
            (addr + c) (src.drop c) (remain - c) (by omega) (by rw [List.length_drop]; omega)
            (by omega) h
          refine ⟨?_, ?_, fun _ => ?_⟩
          · rw [i1, hcache, hsplit]
            have := mem_write_append d.flash_cache addr (src.take c)
              ((src.drop c).take (remain - c))
            rw [hlen] at this
            exact this
          · rw [hsplit]
            have i2' : nor_run d.flash_cache (addr + (src.take c).length)
                ((src.drop c).take (remain - c)) = ((src.drop c).take (remain - c)).length := by
              rw [hlen, List.length_take, List.length_drop,
                Nat.min_eq_left (by omega)]
              rw [← nor_run_congr d.flash_cache (win_flash_write d addr src c).2.flash_cache
                ((src.drop c).take (remain - c)) (addr + c) (fun j _ => by
                  rw [hcache]
                  exact mem_write_out _ _ _ _ (Or.inr (by rw [hlen]; omega)))]
              exact i2
            have := nor_run_append d.flash_cache (src.take c) ((src.drop c).take (remain - c))
              addr (by rw [hnor, hlen]) i2'
            rw [this, List.length_append, hlen, List.length_take, List.length_drop,
              Nat.min_eq_left (by omega)]
            omega
          · have := i3 (by omega)
            have e : addr + c + (remain - c) = addr + remain := by omega
            rw [e] at this
            exact this
    · have : remain = 0 := by omega
      subst this
      simp [write_with_chunks_loop_zero, mem_write_nil, nor_run]

/-- C36 (for a range inside the 32-bit address space): for a byte sequence `d` of length `n`
and `a + n ≤ 2^32`, `write_with_chunks(a, d, n)` is the run, in order, of the driver writes of
the specification (`ceil(n / 1024)` of them, the `j`-th at `a + 1024 * j` with the next
`min(1024, remaining)` bytes of `d`) that stops at the first write with a non-zero code and
returns that code: result and device state are the same.  The writes it has issued are the
first `k` of these, all of them when it returns 0 and at least one when it does not; and when
it returns 0 a single driver write of `d` at `a` returns 0 as well and leaves the same
content. -/
theorem chunked_programming (dev : win_flash) (a : Nat) (d : List Byte) (n : Nat)
    (hlen : d.length = n) (hrange : a + n ≤ U32) :
    write_with_chunks dev a d n = issue_in_order dev (chunk_calls a d n) ∧
    (chunk_calls a d n).length = (n + FLASH_WRITE_CHUNK_SIZE - 1) / FLASH_WRITE_CHUNK_SIZE ∧
    (∀ j, j < (n + FLASH_WRITE_CHUNK_SIZE - 1) / FLASH_WRITE_CHUNK_SIZE →
      (chunk_calls a d n)[j]? = some (flash_op.write (a + FLASH_WRITE_CHUNK_SIZE * j)
        ((d.drop (FLASH_WRITE_CHUNK_SIZE * j)).take
          (min FLASH_WRITE_CHUNK_SIZE (n - FLASH_WRITE_CHUNK_SIZE * j))))) ∧
    (∃ k, k ≤ (chunk_calls a d n).length ∧
      (write_with_chunks dev a d n).2.ops = ((chunk_calls a d n).take k).reverse ++ dev.ops ∧
      ((write_with_chunks dev a d n).1 = 0 → k = (chunk_calls a d n).length) ∧
      ((write_with_chunks dev a d n).1 ≠ 0 → 0 < k)) ∧
    ((write_with_chunks dev a d n).1 = 0 →
      (write_with_chunks dev a d n).2.flash_cache = mem_write dev.flash_cache a d ∧
      ((win_flash_write dev a d n).1 = 0 →
        (write_with_chunks dev a d n).2.flash_cache = (win_flash_write dev a d n).2.flash_cache) ∧
      (0 < n → (win_flash_write dev a d n).1 = 0)) := by
  have hcalls : write_with_chunks dev a d n = issue_in_order dev (chunk_calls a d n) :=
    write_with_chunks_loop_calls n dev a d n (Nat.le_refl _) (by omega) hrange
  refine ⟨hcalls, chunk_calls_length a d n, fun j hj => chunk_calls_get a d n j hj, ?_, ?_⟩
  · rw [hcalls]
    exact issue_in_order_ops (chunk_calls a d n) dev
  · intro h0
    obtain ⟨w1, w2, w3⟩ := write_with_chunks_loop_whole n dev a d n (Nat.le_refl _)
      (by omega) hrange h0
    have htake : d.take n = d := by rw [← hlen]; exact List.take_length d
    rw [htake] at w1 w2
    refine ⟨w1, fun hs => ?_, fun hn => ?_⟩
    · rw [(win_flash_write_ok dev a d n hs).2.2, htake]
      exact w1
    · unfold win_flash_write
      dsimp only
      rw [htake, w2, if_pos rfl, if_neg (Nat.not_lt.mpr (w3 hn))]

theorem walk_pass_continues (st : State) (addr : Nat)
    (last : Option (flash_manager_table_t × Nat)) (next_addr : Nat)
    (last1 : Option (flash_manager_table_t × Nat))
    (h : walk_pass st addr last = Sum.inr (next_addr, last1)) :
    addr < next_addr ∧ next_addr < st.g_total_size := by
  unfold walk_pass at h
  split at h
  · dsimp only at h
    split at h
    · cases h
    · split at h
      · cases h
      · split at h
        · cases h
        · split at h
          · cases h
          · rename_i hn
            split at h
            · cases h
            · split at h
              · cases h
              · simp only [Sum.inr.injEq, Prod.mk.injEq] at h
                rw [← h.1]
                omega
  · cases h

theorem load_walk_pass (fuel : Nat) (st : State) (addr : Nat)
    (last : Option (flash_manager_table_t × Nat)) :
    load_walk (fuel + 1) st addr last =
      match walk_pass st addr last with
      | Sum.inl r => r
      | Sum.inr (next_addr, last1) => load_walk fuel st next_addr last1 := by
  rw [load_walk]
  unfold walk_pass
  split
  · dsimp only
    split
    · rfl
    · split
      · rfl
      · split
        · rfl
        · split
          · rfl
          · split
            · rfl
            · split
              · rfl
              · rfl
  · rfl

theorem walk_within_enough : ∀ (fuel : Nat) (st : State) (addr : Nat)
    (last : Option (flash_manager_table_t × Nat)), st.g_total_size - addr < fuel →
    walk_within fuel st addr last = some (load_walk fuel st addr last)
  | 0, _, _, _, h => absurd h (Nat.not_lt_zero _)
  | fuel + 1, st, addr, last, h => by
    rw [load_walk_pass, walk_within]
    generalize hp : walk_pass st addr last = p
    cases p with
    | inl r => rfl
    | inr q =>
      obtain ⟨next_addr, last1⟩ := q
      obtain ⟨h1, h2⟩ := walk_pass_continues st addr last next_addr last1 hp
      exact walk_within_enough fuel st next_addr last1 (by omega)

theorem walk_within_more : ∀ (fuel k : Nat) (st : State) (addr : Nat)
    (last : Option (flash_manager_table_t × Nat))
    (r : State ⊕ Option (flash_manager_table_t × Nat)),
    walk_within fuel st addr last = some r → walk_within (fuel + k) st addr last = some r
  | 0, _, _, _, _, _, h => by cases h
  | fuel + 1, k, st, addr, last, r, h => by
    rw [Nat.add_right_comm, walk_within]
    rw [walk_within] at h
    generalize walk_pass st addr last = p at h ⊢
    cases p with
    | inl r1 => exact h
    | inr q => exact walk_within_more fuel k st q.1 q.2 r h

/-- C38: the walk of `load_manager_table` terminates for every `total_size` and every flash
content.  A pass of the loop that does not return or leave the loop continues at an address
strictly greater than the current one and below `g_total_size`; so, started at any address,
the loop is over within `g_total_size - addr + 1` passes, whatever fuel beyond that it is
given, and the walk that `load_manager_table` starts at address 0 is over within
`g_total_size + 1` passes, with the result the function goes on with. -/
theorem load_walk_terminates (st : State) (addr : Nat)
    (last : Option (flash_manager_table_t × Nat)) :
    (∀ next_addr last1, walk_pass st addr last = Sum.inr (next_addr, last1) →
      addr < next_addr ∧ next_addr < st.g_total_size) ∧
    (∀ k, walk_within (st.g_total_size - addr + 1 + k) st addr last =
      some (load_walk (st.g_total_size - addr + 1 + k) st addr last)) ∧
    (∀ k, load_walk (st.g_total_size - addr + 1 + k) st addr last =
      load_walk (st.g_total_size - addr + 1) st addr last) ∧
    walk_within (st.g_total_size + 1) st 0 none =
      some (load_walk (st.g_total_size + 1) st 0 none) := by
  refine ⟨fun n l h => walk_pass_continues st addr last n l h,
    fun k => walk_within_enough _ st addr last (by omega), fun k => ?_,
    walk_within_enough _ st 0 none (by omega)⟩
  have h1 := walk_within_enough (st.g_total_size - addr + 1 + k) st addr last (by omega)
  have h2 := walk_within_more _ k _ _ _ _
    (walk_within_enough (st.g_total_size - addr + 1) st addr last (by omega))
  exact Option.some.inj (h1.symm.trans h2)

/-! ## The data CRC of every table -/

theorem calculate_crc32_take (data : List Byte) (n : Nat) :
    calculate_crc32 (data.take n) n = calculate_crc32 data n := by
  unfold calculate_crc32
  rw [List.take_take, Nat.min_self]

theorem calculate_crc32_zero (data : List Byte) : calculate_crc32 data 0 = 0 := by
  unfold calculate_crc32
  rw [List.take_zero]
  decide

theorem checked_frame (st st' : State) (hc : Consistent st) (hk : Checked st) (j : Nat)
    (hj : j < MAX_TABLES_ALL_SECTOR)
    (hv : (slot_at st.g_manager_table j).status = TABLE_STATUS_VALID)
    (hs : slot_at st'.g_manager_table j = slot_at st.g_manager_table j)
    (hfr : ∀ x, x < cursor_pos st →
      (x < st.g_manager_table.next_manager_addr ∨
        st.g_manager_table.next_manager_addr + SIZEOF_MANAGER ≤ x) →
      st'.flash.flash_cache x = st.flash.flash_cache x) :
    (header_at st' (slot_at st'.g_manager_table j).addr).magic = MAGIC_NUMBER_TABLE ∧
    (header_at st' (slot_at st'.g_manager_table j).addr).data_crc =
      calculate_crc32
        (mem_read st'.flash.flash_cache ((slot_at st'.g_manager_table j).addr + SIZEOF_HEADER)
          (header_at st' (slot_at st'.g_manager_table j).addr).data_len)
        (header_at st' (slot_at st'.g_manager_table j).addr).data_len := by
  have hH : SIZEOF_HEADER = 30 := by decide!
  obtain ⟨t1, t2, _⟩ := hc.tables_ok j hj hv
  obtain ⟨k1, k2⟩ := hk j hj hv
  rw [hs]
  have hp : header_at st' (slot_at st.g_manager_table j).addr =
      header_at st (slot_at st.g_manager_table j).addr :=
    header_at_congr _ _ _ (fun x hx1 hx2 => hfr x (by omega) (by omega))
  rw [hp]
  have hd : mem_read st'.flash.flash_cache ((slot_at st.g_manager_table j).addr + SIZEOF_HEADER)
      (header_at st (slot_at st.g_manager_table j).addr).data_len =
      mem_read st.flash.flash_cache ((slot_at st.g_manager_table j).addr + SIZEOF_HEADER)
        (header_at st (slot_at st.g_manager_table j).addr).data_len :=
    mem_read_congr _ _ _ _ (fun x hx1 hx2 => hfr x (by omega) (by omega))
  rw [hd]
  exact ⟨k1, k2⟩

theorem checked_relocate (st0 : State) (hc : Consistent st0) (hk : Checked st0)
    (ndl idx : Nat) (header : table_header_t) (all_data : List Byte) (skip : Bool)
    (info : flash_table_info_t) (a : Nat) (st1 : State) (hndl : ndl < U32)
    (hal : allocate_table_space st0 ((SIZEOF_HEADER + ndl) % U32) = (0, a, st1))
    (hrc : (relocate_commit st1 idx a header all_data ndl skip info).1 = 0)
    (hidx : idx < MAX_TABLES_ALL_SECTOR) (hia : info.addr = a)
    (hmg : header.magic = MAGIC_NUMBER_TABLE) (hdl : header.data_len = ndl)
    (hcrc : header.data_crc = calculate_crc32 all_data ndl) :
    Checked (relocate_commit st1 idx a header all_data ndl skip info).2 := by
  have hU : U32 = 4294967296 := by decide!
  obtain ⟨_, _, _, _, h5, _, _, h8, h9, h10, _⟩ :=
    relocate_ok_full st0 hc ndl idx header all_data skip info a st1 hndl hal hrc
  have hlt : idx < st0.g_manager_table.tables.length := by rw [hc.slots]; exact hidx
  generalize relocate_commit st1 idx a header all_data ndl skip info = r at *
  have e_i : slot_at r.2.g_manager_table idx = info := by
    rw [h5, slot_at_committed]
    exact slot_at_set_same _ _ _ hlt
  have e_o : ∀ j, j ≠ idx → slot_at r.2.g_manager_table j = slot_at st0.g_manager_table j := by
    intro j hj
    rw [h5, slot_at_committed]
    exact slot_at_set_ne _ _ _ _ (Ne.symm hj)
  intro j hj hv
  by_cases hji : j = idx
  · subst hji
    rw [e_i, hia]
    have hp : header_at r.2 a = parse_header (header_bytes header) := by
      unfold header_at; rw [h9]
    rw [hp, parse_header_bytes]
    dsimp only
    rw [hmg, hdl, hcrc, Nat.mod_eq_of_lt hndl, Nat.mod_eq_of_lt (calculate_crc32_lt _ _), h10,
      calculate_crc32_take]
    exact ⟨by decide!, rfl⟩
  · rw [e_o j hji] at hv
    exact checked_frame st0 r.2 hc hk j hj hv (e_o j hji) h8

theorem checked_append (st : State) (name d : List Byte) (s : Nat)
    (hc : Consistent st) (hk : Checked st)
    (hw : (fast_flash_write_table_data st name d s).1 = 0) :
    Checked (fast_flash_write_table_data st name d s).2 := by
  have hU : U32 = 4294967296 := by decide!
  obtain ⟨i, hi, hi24, hval⟩ := find_table_index_nonneg st name (append_found st name d s hw)
  have hs := write_table_data_size st name d s i hc hi hw
  obtain ⟨a, st1, hal, heq⟩ := write_table_data_run st name d s i hc hi hs hw
  rw [heq] at hw ⊢
  exact checked_relocate st hc hk _ i _ _ false _ a st1 (Nat.mod_lt _ (by omega)) hal hw hi24 rfl
    (hk i hi24 hval).1 rfl rfl

theorem checked_overwrite (st : State) (name d : List Byte) (k s : Nat)
    (hc : Consistent st) (hk : Checked st)
    (hw : (fast_flash_write_table_data_by_index st name k d s).1 = 0) :
    Checked (fast_flash_write_table_data_by_index st name k d s).2 := by
  obtain ⟨i, hi, hi24, hval⟩ := find_table_index_nonneg st name
    (overwrite_found st name d k s hw)
  obtain ⟨_, _, a, st1, hal, heq⟩ := write_by_index_run st name d k s i hc hi hw
  obtain ⟨_, hl2, _⟩ := parse_header_lt
    (mem_read st.flash.flash_cache (slot_at st.g_manager_table i).addr SIZEOF_HEADER)
  rw [heq] at hw ⊢
  exact checked_relocate st hc hk _ i _ _ false _ a st1 hl2 hal hw hi24 rfl
    (hk i hi24 hval).1 rfl rfl

theorem checked_batch (st : State) (name data : List Byte) (s k : Nat)
    (hc : Consistent st) (hk : Checked st)
    (hw : (fast_flash_write_table_data_batch st name data s k).1 = 0) :
    Checked (fast_flash_write_table_data_batch st name data s k).2 := by
  have hU : U32 = 4294967296 := by decide!
  obtain ⟨i, hi, hi24, hval⟩ := find_table_index_nonneg st name (batch_found st name data s k hw)
  obtain ⟨_, a, st1, hal, heq⟩ := batch_run st name data s k i hc hi hw
  rw [heq] at hw ⊢
  exact checked_relocate st hc hk _ i _ _ false _ a st1 (Nat.mod_lt _ (by omega)) hal hw hi24 rfl
    (hk i hi24 hval).1 rfl rfl

theorem checked_clear (st : State) (name : List Byte) (mask : Nat)
    (hc : Consistent st) (hk : Checked st) (hm0 : mask ≠ 0)
    (hw : (fast_flash_clear_table_data st name mask).1 = 0) :
    Checked (fast_flash_clear_table_data st name mask).2 := by
  obtain ⟨i, hi, _, _⟩ := find_table_index_nonneg st name (clear_found st name mask hw)
  have hU : U32 = 4294967296 := by decide!
  have hW : WIN_FLASH_TOTAL_SIZE = 65536 := by decide!
  have hH : SIZEOF_HEADER = 30 := by decide!
  have hM : SIZEOF_MANAGER = 692 := by decide!
  obtain ⟨i', hi', hi24, hval⟩ := find_table_index_nonneg st name (by rw [hi]; omega)
  have hii : i' = i := Int.ofNat.inj (hi'.symm.trans hi)
  subst hii
  obtain ⟨ht1, ht2, ht3⟩ := hc.tables_ok i' hi24 hval
  have hmg := (hk i' hi24 hval).1
  have hcl := hc.cursor_le
  obtain ⟨hl1, hl2, hl3, hl4, hl5, hl6, hl7⟩ := parse_header_lt
    (mem_read st.flash.flash_cache (slot_at st.g_manager_table i').addr SIZEOF_HEADER)
  unfold fast_flash_clear_table_data at hw ⊢
  rw [if_neg (by simp [hc.loaded]), if_neg (by rw [hi]; omega)] at hw ⊢
  rw [hi] at hw ⊢
  rw [Int.toNat_ofNat] at hw ⊢
  dsimp only at hw ⊢
  rw [win_flash_read_of_le _ _ _ (by omega)] at hw ⊢
  dsimp only at hw ⊢
  rw [if_neg (by decide)] at hw ⊢
  unfold header_at at ht1 ht2 ht3 hmg
  generalize parse_header (mem_read st.flash.flash_cache (slot_at st.g_manager_table i').addr
    SIZEOF_HEADER) = h at *
  generalize hn : h.struct_nums = n at *
  generalize hs : h.struct_size = s at *
  by_cases hchk : mask &&& ((if n < 64 then (1 <<< n) - 1 else U64 - 1) ^^^ (U64 - 1)) ≠ 0
  · rw [if_pos hchk] at hw; simp at hw
  rw [if_neg hchk, if_neg hm0] at hw ⊢
  have hmod : ((slot_at st.g_manager_table i').addr + SIZEOF_HEADER) % U32 =
      (slot_at st.g_manager_table i').addr + SIZEOF_HEADER :=
    Nat.mod_eq_of_lt (by omega)
  rw [hmod, win_flash_read_of_le _ _ _ (by omega)] at hw ⊢
  dsimp only at hw ⊢
  rw [if_neg (by decide)] at hw ⊢
  rw [clear_loop_eq mask _ s _ _ _ _ (by omega) (by omega)] at hw ⊢
  dsimp only at hw ⊢
  rw [ht3] at hw ⊢
  generalize hD : mem_read st.flash.flash_cache
    ((slot_at st.g_manager_table i').addr + SIZEOF_HEADER) (n * s) = D at *
  have hDl : D.length = n * s := by rw [← hD]; exact mem_read_length _ _ _
  generalize hK : (List.range n).filter (fun q => decide (mask &&& bit64 q = 0)) = K at *
  have hKl : K.length ≤ n := by
    rw [← hK]
    exact (List.length_filter_le _ _).trans (by rw [List.length_range])
  have hKs : K.length * s ≤ n * s := Nat.mul_le_mul_right _ hKl
  generalize hND : (K.map (fun q => (D.drop ((q * s) % U32)).take s)).flatten = ND at *
  have e0 : (0 + K.length * s) % U32 = K.length * s := by
    rw [Nat.zero_add]; exact Nat.mod_eq_of_lt (by omega)
  have e1 : (0 + K.length) % U32 = K.length := by
    rw [Nat.zero_add]; exact Nat.mod_eq_of_lt (by omega)
  rw [e0, e1] at hw ⊢
  rcases hal : allocate_table_space st ((SIZEOF_HEADER + K.length * s) % U32) with
    ⟨result, a, st1⟩
  rw [hal] at hw
  dsimp only at hw ⊢
  by_cases hres : result = 0
  swap
  · rw [if_pos hres] at hw
    exact absurd hw hres
  subst hres
  rw [if_neg (by decide)] at hw ⊢
  have hndl : K.length * s < U32 := by omega
  refine checked_relocate st hc hk _ i' _ _ true _ a st1 hndl hal hw hi24 rfl hmg rfl ?_
  show (if K.length * s > 0 then calculate_crc32 ND (K.length * s) else 0) = _
  split
  · rfl
  · rename_i hz
    have hz0 : K.length * s = 0 := by omega
    rw [hz0, calculate_crc32_zero]

theorem checked_create (st : State) (name : List Byte) (s m : Nat)
    (hc : Consistent st) (hk : Checked st)
    (hw : (fast_flash_create_table st name s m).1 = 0) :
    Checked (fast_flash_create_table st name s m).2 := by
  have hU : U32 = 4294967296 := by decide!
  obtain ⟨_, slot, a, _, hs24, hinv, _, _, hmgr, hfr, hhdr, _⟩ := create_shape st name s m hc hw
  have hlt : slot < st.g_manager_table.tables.length := by rw [hc.slots]; exact hs24
  generalize fast_flash_create_table st name s m = r at *
  have e_i : slot_at r.2.g_manager_table slot = new_info name a := by
    rw [hmgr, slot_at_committed]
    exact slot_at_set_same _ _ _ hlt
  have e_o : ∀ j, j ≠ slot → slot_at r.2.g_manager_table j = slot_at st.g_manager_table j := by
    intro j hj
    rw [hmgr, slot_at_committed]
    exact slot_at_set_ne _ _ _ _ (Ne.symm hj)
  intro j hj hv
  by_cases hji : j = slot
  · subst hji
    rw [e_i]
    have hp : header_at r.2 (new_info name a).addr =
        parse_header (header_bytes (new_header name s m)) := by
      unfold header_at; exact congrArg parse_header hhdr
    rw [hp, parse_header_bytes]
    show MAGIC_NUMBER_TABLE % 65536 = MAGIC_NUMBER_TABLE ∧
      0 % U32 = calculate_crc32 _ (0 % U32)
    rw [Nat.zero_mod, calculate_crc32_zero]
    exact ⟨by decide!, rfl⟩
  · rw [e_o j hji] at hv
    exact checked_frame st r.2 hc hk j hj hv (e_o j hji) hfr

theorem checked_delete (st : State) (name : List Byte)
    (hc : Consistent st) (hk : Checked st)
    (hw : (fast_flash_delete_table st name).1 = 0) :
    Checked (fast_flash_delete_table st name).2 := by
  obtain ⟨i, hi, _, _⟩ := find_table_index_nonneg st name (delete_found st name hw)
  obtain ⟨_, hsi, hso, hfr, _⟩ := delete_shape st name i hc hi hw
  generalize fast_flash_delete_table st name = r at *
  intro j hj hv
  by_cases hji : j = i
  · subst hji
    rw [hsi] at hv
    exact absurd hv (show TABLE_STATUS_DELETED ≠ TABLE_STATUS_VALID by decide)
  · rw [hso j hji] at hv
    exact checked_frame st r.2 hc hk j hj hv (hso j hji) (fun x _ hx => hfr x hx)

/-- Every defined, successful call of the mutating API keeps the magic and the data CRC of
every Valid table right. -/
theorem step_checked (st : State) (c : api_call) (hc : Consistent st) (hk : Checked st)
    (h0 : (api_step st c).1 = 0) : Checked (api_step st c).2 := by
  cases c with
  | create name s m => exact checked_create st name s m hc hk h0
  | append name d s => exact checked_append st name d s hc hk h0
  | overwrite name k d s => exact checked_overwrite st name d k s hc hk h0
  | batch name data s k => exact checked_batch st name data s k hc hk h0
  | clear name mask =>
    by_cases hm0 : mask = 0
    · subst hm0
      show Checked (fast_flash_clear_table_data st name 0).2
      rw [clear_zero]
      exact hk
    · exact checked_clear st name mask hc hk hm0 h0
  | delete name => exact checked_delete st name hc hk h0

theorem run_calls_checked : ∀ (cs : List api_call) (st st' : State), Consistent st →
    Checked st → run_calls st cs = some st' → Consistent st' ∧ Checked st'
  | [], st, st', hc, hk, h => by
    simp only [run_calls, Option.some.injEq] at h
    subst h; exact ⟨hc, hk⟩
  | c :: cs, st, st', hc, hk, h => by
    unfold run_calls at h
    by_cases hcond : (call_defined st c && decide ((api_step st c).1 = 0)) = true
    · rw [if_pos hcond] at h
      simp only [Bool.and_eq_true, decide_eq_true_eq] at hcond
      exact run_calls_checked cs _ st' (step_consistent st c hc hcond.1 hcond.2).1
        (step_checked st c hc hk hcond.2) h
    · rw [if_neg hcond] at h
      exact absurd h (by simp)

theorem fresh_state_consistent (total_size : Nat) (allow_erase : Bool)
    (hT : total_size ≤ WIN_FLASH_TOTAL_SIZE) :
    Consistent (boot_state total_size allow_erase) ∧
    ∀ i, (slot_at (boot_state total_size allow_erase).g_manager_table i).status ≠
      TABLE_STATUS_VALID := by
  have hW : WIN_FLASH_TOTAL_SIZE = 65536 := by decide!
  have hM : SIZEOF_MANAGER = 692 := by decide!
  have hS : FLASH_SECTOR_SIZE = 4096 := by decide!
  generalize hst : boot_state total_size allow_erase = st0
  have hcur : cursor_pos st0 = SIZEOF_MANAGER + SIZEOF_MANAGER := by
    rw [← hst]
    show 0 * FLASH_SECTOR_SIZE + (SIZEOF_MANAGER + SIZEOF_MANAGER) = _
    omega
  have hnext : st0.g_manager_table.next_manager_addr = SIZEOF_MANAGER := by rw [← hst]; rfl
  have hcache : ∀ a, SIZEOF_MANAGER ≤ a → st0.flash.flash_cache a = 0xFF := by
    intro a ha
    rw [← hst]
    show mem_write (mem_erase (fun _ => (0xFF : Byte)) 0 FLASH_SECTOR_SIZE) 0 (manager_bytes _) a
      = 0xFF
    rw [mem_write_out _ _ _ _ (by rw [manager_bytes_length]; omega)]
    unfold mem_erase
    split <;> rfl
  have hz : ∀ i, slot_at st0.g_manager_table i = zero_info := by
    intro i
    rw [← hst]
    show (List.replicate 24 zero_info).getD i zero_info = zero_info
    rw [List.getD_eq_getElem?_getD, List.getElem?_replicate]
    split <;> rfl
  refine ⟨⟨by rw [← hst]; rfl, ?_, by rw [← hst]; exact hT, by rw [hcur, hW, hM]; decide,
    by rw [hcur, hnext], ?_, ?_, ?_⟩, ?_⟩
  · rw [← hst]
    show (List.replicate 24 zero_info).length = MAX_TABLES_ALL_SECTOR
    rw [List.length_replicate]
    decide!
  · intro a h1 _
    rw [hnext] at h1
    exact hcache a h1
  · intro a h1 _
    rw [hcur] at h1
    exact hcache a (by omega)
  · intro i _ hv
    rw [hz] at hv
    exact absurd hv (by decide)
  · intro i hv
    rw [hz] at hv
    exact absurd hv (by decide)

theorem validate_of_checked (st : State) (hc : Consistent st) (hk : Checked st)
    (name : List Byte) (hf : 0 ≤ find_table_index st name) :
    fast_flash_validate_table_data st name = 0 := by
  have hU : U32 = 4294967296 := by decide!
  have hW : WIN_FLASH_TOTAL_SIZE = 65536 := by decide!
  have hH : SIZEOF_HEADER = 30 := by decide!
  obtain ⟨i, hi, hi24, hval⟩ := find_table_index_nonneg st name hf
  obtain ⟨t1, _, _⟩ := hc.tables_ok i hi24 hval
  obtain ⟨k1, k2⟩ := hk i hi24 hval
  have hcl := hc.cursor_le
  unfold fast_flash_validate_table_data
  rw [if_neg (by simp [hc.loaded]), if_neg (by omega)]
  rw [hi, Int.toNat_ofNat]
  dsimp only
  rw [win_flash_read_of_le _ _ _ (by omega)]
  dsimp only
  rw [if_neg (by decide)]
  unfold header_at at t1 k1 k2
  generalize parse_header (mem_read st.flash.flash_cache (slot_at st.g_manager_table i).addr
    SIZEOF_HEADER) = h at *
  rw [if_neg (by rw [k1]; exact fun hne => hne rfl)]
  split
  · rw [Nat.mod_eq_of_lt (by omega), win_flash_read_of_le _ _ _ (by omega)]
    dsimp only
    rw [if_neg (by decide), if_neg (by rw [k2]; exact fun hne => hne rfl)]
  · rfl

/-- C33: on a blank device of `total_size ≤ 65536` bytes, in every state reached from
`fast_flash_init` (which returns 0) through defined, successful create, append, overwrite,
batch, clear and delete calls, the header at the address of every Valid slot has the magic
0x0531 and a `data_crc` equal to `calculate_crc32` of the `data_len` bytes that follow it,
which is 0 for an empty table; and `fast_flash_validate_table_data` returns 0 for every name
that resolves to a table, in particular for the stored name of every Valid slot. -/
theorem data_crc_matches (total_size : Nat) (allow_erase : Bool) (cs : List api_call)
    (st : State) (hT : total_size ≤ WIN_FLASH_TOTAL_SIZE)
    (hrun : run_calls (fast_flash_init power_on total_size allow_erase).2 cs = some st) :
    (fast_flash_init power_on total_size allow_erase).1 = 0 ∧
    MAGIC_NUMBER_TABLE = 0x0531 ∧
    (∀ i, i < MAX_TABLES_ALL_SECTOR →
      (slot_at st.g_manager_table i).status = TABLE_STATUS_VALID →
      (header_at st (slot_at st.g_manager_table i).addr).magic = MAGIC_NUMBER_TABLE ∧
      (header_at st (slot_at st.g_manager_table i).addr).data_crc =
        calculate_crc32
          (mem_read st.flash.flash_cache ((slot_at st.g_manager_table i).addr + SIZEOF_HEADER)
            (header_at st (slot_at st.g_manager_table i).addr).data_len)
          (header_at st (slot_at st.g_manager_table i).addr).data_len ∧
      ((header_at st (slot_at st.g_manager_table i).addr).data_len = 0 →
        (header_at st (slot_at st.g_manager_table i).addr).data_crc = 0) ∧
      fast_flash_validate_table_data st (slot_at st.g_manager_table i).name = 0) ∧
    (∀ name, 0 ≤ find_table_index st name → fast_flash_validate_table_data st name = 0) := by
  have hinit : fast_flash_init power_on total_size allow_erase =
      (0, boot_state total_size allow_erase) :=
    fast_flash_init_fresh power_on total_size allow_erase blank_invalid
  rw [hinit] at hrun ⊢
  obtain ⟨hc0, hno⟩ := fresh_state_consistent total_size allow_erase hT
  obtain ⟨hc, hk⟩ := run_calls_checked cs _ st hc0 (fun i _ hv => absurd hv (hno i)) hrun
  refine ⟨rfl, by decide!, fun i hi hv => ?_, fun name hf => validate_of_checked st hc hk name hf⟩
  obtain ⟨k1, k2⟩ := hk i hi hv
  refine ⟨k1, k2, fun hz => ?_, validate_of_checked st hc hk _
    ((find_table_index_nonneg_iff st _).mpr ⟨i, hi, hv, strncmp_eq_refl _ _⟩)⟩
  rw [k2, hz, calculate_crc32_zero]

/-- On a blank device of `total_size ≤ 65536` bytes, in every state reached from
`fast_flash_init` through defined, successful calls (a batch is defined when the grown data
length `(n + k) * s` stays below 2^32), the header of every Valid table has
`data_len = struct_nums * struct_size`. -/
theorem header_accounting_defined_runs (total_size : Nat) (allow_erase : Bool)
    (cs : List api_call) (st : State) (hT : total_size ≤ WIN_FLASH_TOTAL_SIZE)
    (hrun : run_calls (fast_flash_init power_on total_size allow_erase).2 cs = some st) :
    ∀ i, i < MAX_TABLES_ALL_SECTOR →
      (slot_at st.g_manager_table i).status = TABLE_STATUS_VALID →
      (header_at st (slot_at st.g_manager_table i).addr).data_len =
        (header_at st (slot_at st.g_manager_table i).addr).struct_nums *
          (header_at st (slot_at st.g_manager_table i).addr).struct_size := by
  have hinit : fast_flash_init power_on total_size allow_erase =
      (0, boot_state total_size allow_erase) :=
    fast_flash_init_fresh power_on total_size allow_erase blank_invalid
  rw [hinit] at hrun
  have hc := run_calls_consistent cs _ st (fresh_state_consistent total_size allow_erase hT).1 hrun
  exact fun i hi hv => (hc.tables_ok i hi hv).2.2

/-! ## The count of the Valid slots -/

theorem same_accounting_refl (m : flash_manager_table_t) : same_accounting m m :=
  ⟨rfl, rfl, fun _ => rfl⟩

theorem same_accounting_trans (m1 m2 m3 : flash_manager_table_t)
    (h12 : same_accounting m1 m2) (h23 : same_accounting m2 m3) : same_accounting m1 m3 :=
  ⟨h23.1.trans h12.1, h23.2.1.trans h12.2.1, fun i => (h23.2.2 i).trans (h12.2.2 i)⟩

theorem valid_count_congr (m m' : flash_manager_table_t)
    (h : ∀ i, (slot_at m' i).status = (slot_at m i).status) : valid_count m' = valid_count m := by
  unfold valid_count
  congr 1
  apply List.filter_congr
  intro i _
  rw [h i]

theorem counted_of_same (m m' : flash_manager_table_t) (h : same_accounting m m')
    (hc : Counted m) : Counted m' :=
  ⟨h.1.trans hc.1, by rw [h.2.1, hc.2, valid_count_congr m m' h.2.2]⟩

theorem valid_count_le (m : flash_manager_table_t) : valid_count m ≤ MAX_TABLES_ALL_SECTOR := by
  unfold valid_count
  exact (List.length_filter_le _ _).trans (by rw [List.length_range])

theorem filter_length_update (p q : Nat → Bool) (i : Nat) (h : ∀ j, j ≠ i → q j = p j) :
    ∀ n, i < n → ((List.range n).filter q).length + (if p i = true then 1 else 0) =
      ((List.range n).filter p).length + (if q i = true then 1 else 0)
  | 0, hi => absurd hi (Nat.not_lt_zero _)
  | n + 1, hi => by
    rw [List.range_succ, List.filter_append, List.filter_append, List.length_append,
      List.length_append]
    by_cases hin : i = n
    · subst hin
      have e : (List.range i).filter q = (List.range i).filter p := by
        apply List.filter_congr
        intro j hj
        exact h j (by have := List.mem_range.mp hj; omega)
      rw [e]
      simp only [List.filter_cons, List.filter_nil]
      cases p i <;> cases q i <;> simp
    · have ih := filter_length_update p q i h n (by omega)
      have e : q n = p n := h n (fun hc => hin hc.symm)
      simp only [List.filter_cons, List.filter_nil, e]
      omega

theorem slot_at_set (m : flash_manager_table_t) (i j : Nat) (t : flash_table_info_t) :
    slot_at { m with tables := m.tables.set i t } j =
      if j = i ∧ i < m.tables.length then t else slot_at m j := by
  by_cases hji : j = i
  · subst hji
    by_cases hlt : j < m.tables.length
    · rw [if_pos ⟨rfl, hlt⟩]
      exact slot_at_set_same m j t hlt
    · rw [if_neg (fun hc => hlt hc.2)]
      show (m.tables.set j t).getD j zero_info = m.tables.getD j zero_info
      rw [List.set_eq_of_length_le (by omega)]
  · rw [if_neg (fun hc => hji hc.1)]
    exact slot_at_set_ne m i j t (fun hc => hji hc.symm)

theorem set_same_status (m : flash_manager_table_t) (i : Nat) (t : flash_table_info_t)
    (h : t.status = (slot_at m i).status) :
    same_accounting m { m with tables := m.tables.set i t } := by
  refine ⟨List.length_set _ _ _, rfl, fun j => ?_⟩
  rw [slot_at_set]
  split
  · rename_i hc
    rw [hc.1]
    exact h
  · rfl

theorem allocate_manager (st : State) (size : Nat) :
    (allocate_table_space st size).2.2.g_manager_table = st.g_manager_table := by
  unfold allocate_table_space
  repeat' (first | rfl | split | dsimp only)

theorem save_accounting (st : State) :
    same_accounting st.g_manager_table (save_manager_table st).2.g_manager_table := by
  unfold save_manager_table
  repeat' (first | exact ⟨rfl, rfl, fun _ => rfl⟩ | split | dsimp only)

theorem relocate_accounting (st : State) (idx a : Nat) (header : table_header_t)
    (all_data : List Byte) (data_len : Nat) (skip : Bool) (info : flash_table_info_t)
    (h : info.status = (slot_at st.g_manager_table idx).status) :
    same_accounting st.g_manager_table
      (relocate_commit st idx a header all_data data_len skip info).2.g_manager_table := by
  unfold relocate_commit
  repeat' (first | exact same_accounting_refl _ | split | dsimp only)
  exact same_accounting_trans _ _ _ (set_same_status st.g_manager_table idx info h)
    (save_accounting _)

theorem relocate_after_alloc (st : State) (size idx a : Nat) (header : table_header_t)
    (all_data : List Byte) (data_len : Nat) (skip : Bool) (info : flash_table_info_t)
    (h : info.status = (slot_at st.g_manager_table idx).status) :
    same_accounting st.g_manager_table
      (relocate_commit (allocate_table_space st size).2.2 idx a header all_data data_len skip
        info).2.g_manager_table := by
  have h1 := relocate_accounting (allocate_table_space st size).2.2 idx a header all_data
    data_len skip info (by rw [allocate_manager]; exact h)
  rw [allocate_manager] at h1
  exact h1

theorem append_accounting (st : State) (name d : List Byte) (size : Nat) :
    same_accounting st.g_manager_table
      (fast_flash_write_table_data st name d size).2.g_manager_table := by
  unfold fast_flash_write_table_data
  repeat' (first | exact same_accounting_refl _ | split | dsimp only)
  all_goals
    first
    | (rw [allocate_manager]; exact same_accounting_refl _)
    | exact relocate_after_alloc _ _ _ _ _ _ _ _ _ rfl

theorem overwrite_accounting (st : State) (name : List Byte) (index : Nat) (d : List Byte)
    (size : Nat) :
    same_accounting st.g_manager_table
      (fast_flash_write_table_data_by_index st name index d size).2.g_manager_table := by
  unfold fast_flash_write_table_data_by_index
  repeat' (first | exact same_accounting_refl _ | split | dsimp only)
  all_goals
    first
    | (rw [allocate_manager]; exact same_accounting_refl _)
    | exact relocate_after_alloc _ _ _ _ _ _ _ _ _ rfl

theorem batch_accounting (st : State) (name data : List Byte) (s k : Nat) :
    same_accounting st.g_manager_table
      (fast_flash_write_table_data_batch st name data s k).2.g_manager_table := by
  unfold fast_flash_write_table_data_batch
  repeat' (first | exact same_accounting_refl _ | split | dsimp only)
  all_goals
    first
    | (rw [allocate_manager]; exact same_accounting_refl _)
    | exact relocate_after_alloc _ _ _ _ _ _ _ _ _ rfl

theorem clear_accounting (st : State) (name : List Byte) (mask : Nat) :
    same_accounting st.g_manager_table
      (fast_flash_clear_table_data st name mask).2.g_manager_table := by
  generalize hr : fast_flash_clear_table_data st name mask = r
  unfold fast_flash_clear_table_data at hr
  by_cases hl : st.g_manager_loaded = false
  · rw [if_pos hl] at hr; subst hr; exact same_accounting_refl _
  rw [if_neg hl] at hr
  by_cases hf : find_table_index st name < 0
  · rw [if_pos hf] at hr; subst hr; exact same_accounting_refl _
  rw [if_neg hf] at hr
  dsimp only at hr
  generalize win_flash_read st.flash
    (slot_at st.g_manager_table (find_table_index st name).toNat).addr SIZEOF_HEADER = rd at hr
  obtain ⟨r0, hb⟩ := rd
  dsimp only at hr
  by_cases hr0 : r0 ≠ 0
  · rw [if_pos hr0] at hr; subst hr; exact same_accounting_refl _
  rw [if_neg hr0] at hr
  by_cases hmk : mask &&& ((if (parse_header hb).struct_nums < 64 then
      (1 <<< (parse_header hb).struct_nums) - 1 else U64 - 1) ^^^ (U64 - 1)) ≠ 0
  · rw [if_pos hmk] at hr; subst hr; exact same_accounting_refl _
  rw [if_neg hmk] at hr
  by_cases hm0 : mask = 0
  · rw [if_pos hm0] at hr; subst hr; exact same_accounting_refl _
  rw [if_neg hm0] at hr
  generalize win_flash_read st.flash
    (((slot_at st.g_manager_table (find_table_index st name).toNat).addr + SIZEOF_HEADER) % U32)
    (parse_header hb).data_len = rd2 at hr
  obtain ⟨r2, od⟩ := rd2
  dsimp only at hr
  by_cases hr2 : r2 ≠ 0
  · rw [if_pos hr2] at hr; subst hr; exact same_accounting_refl _
  rw [if_neg hr2] at hr
  generalize clear_loop mask od (parse_header hb).struct_size
    (List.range (parse_header hb).struct_nums) ([], 0, 0) = cl at hr
  obtain ⟨nd, ndl, nsn⟩ := cl
  dsimp only at hr
  have hA := allocate_manager st ((SIZEOF_HEADER + ndl) % U32)
  generalize allocate_table_space st ((SIZEOF_HEADER + ndl) % U32) = A at hr hA
  obtain ⟨ra, a, st1⟩ := A
  dsimp only at hr hA
  by_cases hra : ra ≠ 0
  · rw [if_pos hra] at hr; subst hr
    show same_accounting st.g_manager_table st1.g_manager_table
    rw [hA]; exact same_accounting_refl _
  rw [if_neg hra] at hr
  subst hr
  rw [← hA]
  exact relocate_accounting _ _ _ _ _ _ _ _ rfl

theorem append_checked_accounting (st : State) (name d : List Byte) (size : Nat) :
    same_accounting st.g_manager_table
      (fast_flash_append_table_data st name d size).2.g_manager_table := by
  unfold fast_flash_append_table_data
  repeat' (first | exact same_accounting_refl _ | exact append_accounting _ _ _ _ | split | dsimp only)

theorem repair_accounting (st : State) (name : List Byte) :
    same_accounting st.g_manager_table (fast_flash_repair_table st name).2.g_manager_table := by
  unfold fast_flash_repair_table
  repeat' (first | exact same_accounting_refl _ | split | dsimp only)

theorem counted_count_le (m : flash_manager_table_t) (hc : Counted m) :
    m.table_count ≤ MAX_TABLES_ALL_SECTOR := by
  rw [hc.2]; exact valid_count_le m

theorem counted_create (m : flash_manager_table_t) (hc : Counted m) (slot us : Nat)
    (t : flash_table_info_t) (hs : slot < MAX_TABLES_ALL_SECTOR)
    (hinv : (slot_at m slot).status = TABLE_STATUS_INVALID)
    (ht : t.status = TABLE_STATUS_VALID) :
    Counted { { m with tables := m.tables.set slot t } with
      table_count := (m.table_count + 1) % 256, used_size := us } := by
  have h24 : MAX_TABLES_ALL_SECTOR = 24 := by decide!
  have hlt : slot < m.tables.length := by rw [hc.1]; exact hs
  have hup := filter_length_update
    (fun i => decide ((slot_at m i).status = TABLE_STATUS_VALID))
    (fun i => decide ((slot_at { m with tables := m.tables.set slot t } i).status =
      TABLE_STATUS_VALID)) slot
    (fun j hj => by
      show decide ((slot_at { m with tables := m.tables.set slot t } j).status = _) = _
      rw [slot_at_set_ne m slot j t (fun hc => hj hc.symm)])
    MAX_TABLES_ALL_SECTOR hs
  have e1 : decide ((slot_at m slot).status = TABLE_STATUS_VALID) = false := by
    rw [hinv]; decide
  have e2 : decide ((slot_at { m with tables := m.tables.set slot t } slot).status =
      TABLE_STATUS_VALID) = true := by
    rw [slot_at_set_same m slot t hlt, ht]; decide
  dsimp only at hup
  rw [e1, e2] at hup
  simp only [Bool.false_eq_true, if_false, if_true, Nat.add_zero] at hup
  have hle := valid_count_le { m with tables := m.tables.set slot t }
  refine ⟨(List.length_set _ _ _).trans hc.1, ?_⟩
  show (m.table_count + 1) % 256 = valid_count { m with tables := m.tables.set slot t }
  have hv : valid_count m + 1 = valid_count { m with tables := m.tables.set slot t } := by
    unfold valid_count; exact hup.symm ▸ rfl
  rw [hc.2, hv]
  exact Nat.mod_eq_of_lt (by omega)

theorem counted_delete (m : flash_manager_table_t) (hc : Counted m) (idx : Nat)
    (t : flash_table_info_t) (hs : idx < MAX_TABLES_ALL_SECTOR)
    (hval : (slot_at m idx).status = TABLE_STATUS_VALID)
    (ht : t.status = TABLE_STATUS_DELETED) :
    Counted { { m with tables := m.tables.set idx t } with
      table_count := (m.table_count + 256 - 1) % 256 } := by
  have h24 : MAX_TABLES_ALL_SECTOR = 24 := by decide!
  have hlt : idx < m.tables.length := by rw [hc.1]; exact hs
  have hup := filter_length_update
    (fun i => decide ((slot_at m i).status = TABLE_STATUS_VALID))
    (fun i => decide ((slot_at { m with tables := m.tables.set idx t } i).status =
      TABLE_STATUS_VALID)) idx
    (fun j hj => by
      show decide ((slot_at { m with tables := m.tables.set idx t } j).status = _) = _
      rw [slot_at_set_ne m idx j t (fun hc => hj hc.symm)])
    MAX_TABLES_ALL_SECTOR hs
  have e1 : decide ((slot_at m idx).status = TABLE_STATUS_VALID) = true := by
    rw [hval]; decide
  have e2 : decide ((slot_at { m with tables := m.tables.set idx t } idx).status =
      TABLE_STATUS_VALID) = false := by
    rw [slot_at_set_same m idx t hlt, ht]; decide
  dsimp only at hup
  rw [e1, e2] at hup
  simp only [Bool.false_eq_true, if_false, if_true, Nat.add_zero] at hup
  have hle := valid_count_le m
  refine ⟨(List.length_set _ _ _).trans hc.1, ?_⟩
  show (m.table_count + 256 - 1) % 256 = valid_count { m with tables := m.tables.set idx t }
  have hv : valid_count { m with tables := m.tables.set idx t } + 1 = valid_count m := by
    unfold valid_count; exact hup
  have hcnt := hc.2
  have e : (m.table_count + 256 - 1) % 256 = m.table_count - 1 := by
    have e1 : m.table_count + 256 - 1 = m.table_count - 1 + 256 := by omega
    rw [e1, Nat.add_mod_right]
    exact Nat.mod_eq_of_lt (by omega)
  rw [e]
  omega

theorem create_counted (st : State) (name : List Byte) (s m : Nat)
    (hc : Counted st.g_manager_table) :
    Counted (fast_flash_create_table st name s m).2.g_manager_table := by
  generalize hr : fast_flash_create_table st name s m = r
  unfold fast_flash_create_table at hr
  by_cases hl : st.g_manager_loaded = false
  · rw [if_pos hl] at hr; subst hr; exact hc
  rw [if_neg hl] at hr
  by_cases hf : find_table_index st name ≥ 0
  · rw [if_pos hf] at hr; subst hr; exact hc
  rw [if_neg hf] at hr
  by_cases hs : find_free_table_slot st < 0
  · rw [if_pos hs] at hr; subst hr; exact hc
  rw [if_neg hs] at hr
  dsimp only at hr
  obtain ⟨slot, hslot, hs24, hinv⟩ := find_free_table_slot_spec st hs
  rw [hslot, Int.toNat_ofNat] at hr
  have hA := allocate_manager st SIZEOF_HEADER
  generalize allocate_table_space st SIZEOF_HEADER = A at hr hA
  obtain ⟨ra, a, st1⟩ := A
  dsimp only at hr hA
  by_cases hra : ra ≠ 0
  · rw [if_pos hra] at hr; subst hr
    show Counted st1.g_manager_table
    rw [hA]; exact hc
  rw [if_neg hra] at hr
  generalize write_with_chunks st1.flash a (header_bytes (new_header name s m))
    SIZEOF_HEADER = w at hr
  obtain ⟨wr, fl⟩ := w
  dsimp only at hr
  by_cases hwr : wr ≠ 0
  · rw [if_pos hwr] at hr; subst hr
    show Counted st1.g_manager_table
    rw [hA]; exact hc
  rw [if_neg hwr] at hr
  subst hr
  refine counted_of_same _ _ (save_accounting _) ?_
  show Counted { { st1.g_manager_table with
      tables := st1.g_manager_table.tables.set slot (new_info name a) } with
    table_count := (st1.g_manager_table.table_count + 1) % 256
    used_size := (st1.g_manager_table.used_size + SIZEOF_HEADER) % U32 }
  rw [hA]
  exact counted_create st.g_manager_table hc slot _ _ hs24 hinv rfl

theorem delete_counted (st : State) (name : List Byte) (hc : Counted st.g_manager_table) :
    Counted (fast_flash_delete_table st name).2.g_manager_table := by
  generalize hr : fast_flash_delete_table st name = r
  unfold fast_flash_delete_table at hr
  by_cases hl : st.g_manager_loaded = false
  · rw [if_pos hl] at hr; subst hr; exact hc
  rw [if_neg hl] at hr
  by_cases hf : find_table_index st name < 0
  · rw [if_pos hf] at hr; subst hr; exact hc
  rw [if_neg hf] at hr
  obtain ⟨idx, hidx, hi24, hval, _⟩ := find_table_index_spec st name hf
  rw [hidx, Int.toNat_ofNat] at hr
  subst hr
  refine counted_of_same _ _ (save_accounting _) ?_
  exact counted_delete st.g_manager_table hc idx _ hi24 hval rfl

theorem gc_update_addr_accounting (m : flash_manager_table_t) (name : List Byte)
    (new_addr : Nat) : same_accounting m (gc_update_addr m name new_addr) := by
  obtain ⟨_, _, h3, _, h5⟩ := gc_update_addr_fields m name new_addr
  refine ⟨h5, h3, fun i => ?_⟩
  rcases gc_update_addr_slot m name new_addr i with h | h <;> rw [h]

theorem gc_move_to_cache_accounting : ∀ (ts : List flash_table_info_t) (st : State)
    (pos : Nat),
    same_accounting st.g_manager_table (gc_move_to_cache ts st pos).2.g_manager_table
  | [], st, _ => by rw [gc_move_to_cache]; exact same_accounting_refl _
  | t :: ts, st, pos => by
    rw [gc_move_to_cache]
    generalize win_flash_read st.flash t.addr t.size = rd
    obtain ⟨r, temp_data⟩ := rd
    dsimp only
    split
    · exact same_accounting_refl _
    generalize write_with_chunks st.flash pos temp_data t.size = w
    obtain ⟨wr, fl⟩ := w
    dsimp only
    split
    · exact same_accounting_refl _
    · exact same_accounting_trans _ _ _ (gc_update_addr_accounting st.g_manager_table t.name pos)
        (gc_move_to_cache_accounting ts _ _)

theorem gc_compact_accounting : ∀ (ts : List flash_table_info_t) (st : State) (wp sec : Nat),
    same_accounting st.g_manager_table (gc_compact ts st wp sec).2.1.g_manager_table
  | [], st, _, _ => by rw [gc_compact]; exact same_accounting_refl _
  | t :: ts, st, wp, sec => by
    rw [gc_compact]
    have ih := fun st1 wp1 sec1 => gc_compact_accounting ts st1 wp1 sec1
    repeat' first
      | exact same_accounting_refl _
      | exact same_accounting_trans _ _ _ (gc_update_addr_accounting _ _ _) (ih _ _ _)
      | split

theorem counted_zero_tables (m : flash_manager_table_t)
    (h1 : m.tables = zero_manager.tables) (h2 : m.table_count = 0) : Counted m := by
  refine ⟨by rw [h1]; decide!, ?_⟩
  rw [h2, valid_count_congr zero_manager m (fun i => by unfold slot_at; rw [h1])]
  decide!

theorem gc_counted (st : State) (hc : Counted st.g_manager_table) :
    Counted (fast_flash_gc st).2.g_manager_table := by
  unfold fast_flash_gc
  split
  · exact hc
  split
  · exact hc
  dsimp only
  split
  · -- no empty sector: the store is reset
    split
    · exact hc
    · split
      · exact counted_zero_tables _ rfl rfl
      · exact counted_zero_tables _ rfl rfl
  · -- compaction
    generalize win_flash_erase st.flash _ _ = e
    obtain ⟨er, fl1⟩ := e
    dsimp only
    split
    · exact hc
    generalize hg1 : gc_move_to_cache _ _ _ = g1
    have h1 : same_accounting st.g_manager_table g1.2.g_manager_table := by
      rw [← hg1]; exact gc_move_to_cache_accounting _ _ _
    obtain ⟨r1, st1⟩ := g1
    dsimp only at h1 ⊢
    split
    · exact counted_of_same _ _ h1 hc
    generalize win_flash_erase st1.flash 0 FLASH_SECTOR_SIZE = e2
    obtain ⟨er2, fl2⟩ := e2
    dsimp only
    split
    · exact counted_of_same _ _ h1 hc
    generalize hg2 : gc_compact _ _ _ _ = g2
    have h2 : same_accounting st1.g_manager_table g2.2.1.g_manager_table := by
      rw [← hg2]; exact gc_compact_accounting _ _ _ _
    obtain ⟨r2, st2, wp, cs⟩ := g2
    dsimp only at h2 ⊢
    have h12 := same_accounting_trans _ _ _ h1 h2
    split
    · exact counted_of_same _ _ h12 hc
    generalize write_with_chunks st2.flash 0 _ _ = w
    obtain ⟨wr, fl3⟩ := w
    dsimp only
    split
    · exact counted_of_same _ _
        (same_accounting_trans _ _ _ h12 ⟨rfl, rfl, fun _ => rfl⟩) hc
    · exact counted_of_same _ _
        (same_accounting_trans _ _ _ h12 ⟨rfl, rfl, fun _ => rfl⟩) hc

/-- Every public call keeps the count of the Valid slots, whatever it returns. -/
theorem public_step_counted (st : State) (c : public_call) (hc : Counted st.g_manager_table) :
    Counted (public_step st c).g_manager_table := by
  cases c with
  | mutator m =>
    cases m with
    | core c =>
      cases c with
      | create name s m => exact create_counted st name s m hc
      | append name d s => exact counted_of_same _ _ (append_accounting st name d s) hc
      | overwrite name k d s =>
        exact counted_of_same _ _ (overwrite_accounting st name k d s) hc
      | batch name data s k => exact counted_of_same _ _ (batch_accounting st name data s k) hc
      | clear name mask => exact counted_of_same _ _ (clear_accounting st name mask) hc
      | delete name => exact delete_counted st name hc
    | append_checked name d s =>
      exact counted_of_same _ _ (append_checked_accounting st name d s) hc
  | gc => exact gc_counted st hc
  | repair name => exact counted_of_same _ _ (repair_accounting st name) hc
  | set_erase_allowed allowed => exact hc

theorem run_public_counted : ∀ (cs : List public_call) (st st' : State),
    Counted st.g_manager_table → run_public st cs = some st' → Counted st'.g_manager_table
  | [], st, st', hc, h => by
    simp only [run_public, Option.some.injEq] at h
    subst h; exact hc
  | c :: cs, st, st', hc, h => by
    unfold run_public at h
    by_cases hd : public_defined st c = true
    · rw [if_pos hd] at h
      exact run_public_counted cs _ st' (public_step_counted st c hc) h
    · rw [if_neg hd] at h
      exact absurd h (by simp)

/-- Without a further `fast_flash_init` the count is kept: for every `total_size` and erase
flag, `fast_flash_init` on a blank device returns 0, and in every state reached from there
through any sequence of defined calls of the other public functions that change the globals or
the flash (create, delete, append in both forms, overwrite, batch, clear, gc, repair,
set_erase_allowed), whatever each call returns, the `table_count` of the in-RAM manager is the
number of slots whose status is Valid, and it is at most 24. -/
theorem count_kept_between_inits (total_size : Nat) (allow_erase : Bool)
    (cs : List public_call) (st : State)
    (hrun : run_public (fast_flash_init power_on total_size allow_erase).2 cs = some st) :
    (fast_flash_init power_on total_size allow_erase).1 = 0 ∧
    st.g_manager_table.table_count = valid_count st.g_manager_table ∧
    st.g_manager_table.table_count ≤ 24 := by
  have hinit : fast_flash_init power_on total_size allow_erase =
      (0, boot_state total_size allow_erase) :=
    fast_flash_init_fresh power_on total_size allow_erase blank_invalid
  rw [hinit] at hrun ⊢
  have h0 : Counted (boot_state total_size allow_erase).g_manager_table :=
    counted_zero_tables _ rfl rfl
  have h := run_public_counted cs _ st h0 hrun
  exact ⟨rfl, h.2, (counted_count_le _ h).trans (by decide!)⟩

/-! ## A write past the allocated range -/

/-- The globals of `huge_record_state` and the header of its table, evaluated. -/
theorem huge_record_state_ram :
    (fast_flash_init power_on WIN_FLASH_TOTAL_SIZE false).1 = 0 ∧
    (fast_flash_create_table (boot false) name_T 4294967267 1).1 = 0 ∧
    huge_record_state.g_manager_loaded = true ∧
    huge_record_state.g_allow_erase = false ∧
    huge_record_state.g_total_size = WIN_FLASH_TOTAL_SIZE ∧
    huge_record_state.g_current_sector = 0 ∧
    huge_record_state.g_current_offset = 2106 ∧
    huge_record_state.g_manager_table.next_manager_addr = 1414 ∧
    0 ≤ find_table_index huge_record_state name_T ∧
    find_table_index huge_record_state name_U < 0 ∧
    find_free_table_slot huge_record_state = 1 ∧
    (read_header huge_record_state name_T).1 = 0 ∧
    (read_header huge_record_state name_T).2.struct_size = 4294967267 ∧
    (read_header huge_record_state name_T).2.data_len = 0 ∧
    (read_header huge_record_state name_T).2.magic = 0x0531 := by
  decide!

/-- A chunked write that runs past the end of the device returns a non-zero code. -/
theorem write_with_chunks_loop_overrun : ∀ (fuel : Nat) (d : win_flash) (addr : Nat)
    (src : List Byte) (remain : Nat), remain ≤ fuel → addr ≤ WIN_FLASH_TOTAL_SIZE →
    WIN_FLASH_TOTAL_SIZE < addr + remain →
    (write_with_chunks_loop fuel d addr src remain).1 ≠ 0
  | 0, d, addr, src, remain, hf, ha, hr => by omega
  | fuel + 1, d, addr, src, remain, hf, ha, hr => by
    have hC : FLASH_WRITE_CHUNK_SIZE = 1024 := by decide!
    have hU : U32 = 4294967296 := by decide!
    have hW : WIN_FLASH_TOTAL_SIZE = 65536 := by decide!
    unfold write_with_chunks_loop
    rw [if_pos (by omega)]
    dsimp only
    generalize hcs : (if remain > FLASH_WRITE_CHUNK_SIZE then FLASH_WRITE_CHUNK_SIZE
      else remain) = chunk
    have hc1 : chunk ≤ remain ∧ chunk ≤ FLASH_WRITE_CHUNK_SIZE ∧ 0 < chunk := by
      rw [← hcs]; split <;> omega
    by_cases hres : (win_flash_write d addr src chunk).1 ≠ 0
    · rw [if_pos hres]
      exact hres
    · rw [if_neg hres]
      obtain ⟨hb, _, _⟩ := win_flash_write_ok d addr src chunk (Decidable.of_not_not hres)
      rw [Nat.mod_eq_of_lt (by omega)] at hb ⊢
      exact write_with_chunks_loop_overrun fuel _ (addr + chunk) _ (remain - chunk)
        (by omega) hb (by omega)

/-- A write of at most one chunk that the driver refuses is that one driver call. -/
theorem write_with_chunks_one_call (d : win_flash) (addr : Nat) (data : List Byte) (size : Nat)
    (h0 : 0 < size) (h1 : size ≤ FLASH_WRITE_CHUNK_SIZE)
    (hres : (win_flash_write d addr data size).1 ≠ 0) :
    write_with_chunks d addr data size = win_flash_write d addr data size := by
  unfold write_with_chunks
  obtain ⟨n, rfl⟩ : ∃ n, size = n + 1 := ⟨size - 1, by omega⟩
  unfold write_with_chunks_loop
  rw [if_pos h0]
  dsimp only
  have e : (if n + 1 > FLASH_WRITE_CHUNK_SIZE then FLASH_WRITE_CHUNK_SIZE else n + 1) = n + 1 :=
    if_neg (by omega)
  rw [e, if_pos hres]

theorem nor_run_refused (c : Nat → Byte) (a : Nat) (b : Byte) (bs : List Byte)
    (h : (c a).val &&& b.val ≠ b.val) : nor_run c a (b :: bs) = 0 := by
  unfold nor_run
  rw [if_pos h]

theorem header_bytes_head (h : table_header_t) :
    header_bytes h =
      ⟨h.magic % 256, Nat.mod_lt _ (by decide)⟩ ::
        ⟨h.magic / 256 % 256, Nat.mod_lt _ (by decide)⟩ ::
          (fix_len 8 h.name ++ le_bytes 4 h.table_size ++ le_bytes 4 h.data_len ++
            le_bytes 4 h.struct_size ++ le_bytes 4 h.struct_nums ++ le_bytes 4 h.data_crc) := by
  unfold header_bytes
  simp only [le_bytes, List.append_assoc, List.cons_append, List.nil_append]

/-- An append of one record of 4294967267 bytes to an empty table, with the cursor at 2106 in
sector 0 and erased flash from there on: the allocator is asked for
`(30 + 4294967267) mod 2^32 = 1` byte, the 30-byte header is programmed at 2106, the data
write runs to the end of the device and fails, and the call returns -1 with the cursor
at 2107. -/
theorem append_overruns (S : State) (name d : List Byte) (n : Nat)
    (hn : n = 4294967267)
    (hl : S.g_manager_loaded = true) (hsec : S.g_current_sector = 0)
    (hoff : S.g_current_offset = 2106) (hf : 0 ≤ find_table_index S name)
    (hr1 : (read_header S name).1 = 0)
    (hs : (read_header S name).2.struct_size = n)
    (hd : (read_header S name).2.data_len = 0)
    (hm : (read_header S name).2.magic = 0x0531)
    (hblank : ∀ a, 2106 ≤ a → a < WIN_FLASH_TOTAL_SIZE → S.flash.flash_cache a = 0xFF) :
    (fast_flash_write_table_data S name d n).1 = -1 ∧
    (fast_flash_write_table_data S name d n).2.g_manager_table = S.g_manager_table ∧
    (fast_flash_write_table_data S name d n).2.g_manager_loaded = true ∧
    (fast_flash_write_table_data S name d n).2.g_current_sector = 0 ∧
    (fast_flash_write_table_data S name d n).2.g_current_offset = 2107 ∧
    (fast_flash_write_table_data S name d n).2.flash.flash_cache 2107 = 0x05 := by
  have hS : FLASH_SECTOR_SIZE = 4096 := by decide!
  have hU : U32 = 4294967296 := by decide!
  have hW : WIN_FLASH_TOTAL_SIZE = 65536 := by decide!
  have hH : SIZEOF_HEADER = 30 := by decide!
  have hC : FLASH_WRITE_CHUNK_SIZE = 1024 := by decide!
  unfold read_header at hr1 hs hd hm
  dsimp only at hr1 hs hd hm
  generalize hr : fast_flash_write_table_data S name d n = r
  unfold fast_flash_write_table_data at hr
  rw [if_neg (by simp [hl]), if_neg (by omega)] at hr
  dsimp only at hr
  generalize win_flash_read S.flash
    (slot_at S.g_manager_table (find_table_index S name).toNat).addr SIZEOF_HEADER = rd
    at hr hr1 hs hd hm
  obtain ⟨r0, hb⟩ := rd
  dsimp only at hr hr1 hs hd hm
  subst hr1
  rw [if_neg (by decide), if_neg (by rw [hs]; exact fun h => h rfl), hd] at hr
  have hsz : (SIZEOF_HEADER + (0 + n) % U32) % U32 = 1 := by rw [hH, hU, hn]
  have hndl : (0 + n) % U32 = n := by rw [hU, hn]
  rw [hsz, hndl] at hr
  have hcur : cursor_addr S = 2106 := by
    unfold cursor_addr; rw [hsec, hoff, hS, hU]
  have hal : allocate_table_space S 1 = (0, 2106, set_cursor S 2107) := by
    unfold allocate_table_space
    rw [if_neg (by decide), if_neg (by rw [hS]; decide)]
    dsimp only
    rw [hcur, hS, hU]
    rfl
  rw [hal] at hr
  dsimp only at hr
  rw [if_neg (by decide), if_neg (Nat.lt_irrefl 0)] at hr
  dsimp only at hr
  rw [if_neg (by decide)] at hr
  unfold relocate_commit at hr
  generalize hhb : header_bytes _ = hbytes at hr
  have hlen : hbytes.length = 30 := by rw [← hhb]; exact header_bytes_length _
  obtain ⟨fl1, hw1, hc1⟩ := write_with_chunks_blank_any (set_cursor S 2107).flash 2106
    hbytes SIZEOF_HEADER (by rw [hlen, hH]) (by rw [hH, hW]; decide)
    (fun j hj => hblank (2106 + j) (by omega) (by omega))
  rw [hw1] at hr
  dsimp only at hr
  rw [if_neg (by decide)] at hr
  have haddr : (2106 + SIZEOF_HEADER) % U32 = 2136 := by rw [hH, hU]
  rw [haddr] at hr
  have hov := write_with_chunks_loop_overrun n fl1 2136
    ([] ++ d.take n) n (Nat.le_refl _) (by rw [hW]; decide)
    (by rw [hW, hn]; decide)
  have hfr := write_with_chunks_frame fl1 2136 ([] ++ d.take n) n 2107
    (by rw [hC, hU]; decide) (Or.inl (by decide))
  unfold write_with_chunks at hfr
  simp only [Bool.false_and, Bool.false_eq_true, if_false] at hr
  unfold write_with_chunks at hr
  generalize write_with_chunks_loop n fl1 2136 ([] ++ d.take n) n = w2 at hr hov hfr
  obtain ⟨r2, fl2⟩ := w2
  dsimp only at hr hov hfr
  rw [if_pos hov] at hr
  subst hr
  refine ⟨rfl, rfl, hl, ?_, ?_, ?_⟩
  · show 2107 / FLASH_SECTOR_SIZE = 0
    rw [hS]
  · show 2107 % FLASH_SECTOR_SIZE = 2107
    rw [hS]
  · show fl2.flash_cache 2107 = 0x05
    rw [hfr, hc1, List.take_of_length_le (by rw [hlen, hH])]
    unfold mem_write
    rw [if_pos ⟨by decide, by rw [hlen]; decide⟩, ← hhb, header_bytes_head]
    apply Fin.ext
    show (parse_header hb).magic / 256 % 256 = 5
    rw [hm]

/-- A create in a state whose cursor is at 2107 in sector 0 while the byte there holds 0x05:
the allocator returns 2107, the first byte of the new header (0x31) is refused by the NOR rule
and the call returns -1. -/
theorem create_on_programmed_byte (S : State) (name : List Byte) (s m : Nat)
    (hl : S.g_manager_loaded = true) (hsec : S.g_current_sector = 0)
    (hoff : S.g_current_offset = 2107) (hnf : find_table_index S name < 0)
    (hfree : ¬ find_free_table_slot S < 0)
    (hbyte : S.flash.flash_cache 2107 = 0x05) :
    (allocate_table_space S SIZEOF_HEADER).1 = 0 ∧
    (allocate_table_space S SIZEOF_HEADER).2.1 = 2107 ∧
    nor_run S.flash.flash_cache 2107 (header_bytes (new_header name s m)) = 0 ∧
    (fast_flash_create_table S name s m).1 = -1 ∧
    (fast_flash_create_table S name s m).2.flash.ops =
      flash_op.write 2107 (header_bytes (new_header name s m)) :: S.flash.ops := by
  have hS : FLASH_SECTOR_SIZE = 4096 := by decide!
  have hU : U32 = 4294967296 := by decide!
  have hW : WIN_FLASH_TOTAL_SIZE = 65536 := by decide!
  have hH : SIZEOF_HEADER = 30 := by decide!
  have hC : FLASH_WRITE_CHUNK_SIZE = 1024 := by decide!
  have hcur : cursor_addr S = 2107 := by
    unfold cursor_addr; rw [hsec, hoff, hS, hU]
  have hal : allocate_table_space S SIZEOF_HEADER = (0, 2107, set_cursor S 2137) := by
    unfold allocate_table_space
    rw [if_neg (by rw [hH]; decide), if_neg (by rw [hS, hH]; decide)]
    dsimp only
    rw [hcur, hS, hU, hH]
    rfl
  have hnor : nor_run S.flash.flash_cache 2107 (header_bytes (new_header name s m)) = 0 := by
    rw [header_bytes_head]
    apply nor_run_refused
    rw [hbyte]
    show (5 : Nat) &&& (MAGIC_NUMBER_TABLE % 256) ≠ MAGIC_NUMBER_TABLE % 256
    decide!
  have hlen := header_bytes_length (new_header name s m)
  have htake : (header_bytes (new_header name s m)).take SIZEOF_HEADER =
      header_bytes (new_header name s m) := List.take_of_length_le (by rw [hlen, hH])
  have hwr : win_flash_write S.flash 2107 (header_bytes (new_header name s m)) SIZEOF_HEADER =
      (-1, { S.flash with
        ops := flash_op.write 2107 (header_bytes (new_header name s m)) :: S.flash.ops
        flash_cache := mem_write S.flash.flash_cache 2107
          ((header_bytes (new_header name s m)).take 0) }) := by
    unfold win_flash_write
    dsimp only
    rw [htake, hnor, if_neg (by rw [hH, hU, hW]; decide), if_neg (by rw [hH]; decide)]
  have hw : write_with_chunks S.flash 2107 (header_bytes (new_header name s m))
      SIZEOF_HEADER = win_flash_write S.flash 2107 (header_bytes (new_header name s m))
        SIZEOF_HEADER :=
    write_with_chunks_one_call _ _ _ _ (by rw [hH]; decide) (by rw [hH, hC]; decide)
      (by rw [hwr]; show (-1 : Int) ≠ 0; decide)
  have hw2 : write_with_chunks (set_cursor S 2137).flash 2107
      (header_bytes (new_header name s m)) SIZEOF_HEADER =
      (-1, { S.flash with
        ops := flash_op.write 2107 (header_bytes (new_header name s m)) :: S.flash.ops
        flash_cache := mem_write S.flash.flash_cache 2107
          ((header_bytes (new_header name s m)).take 0) }) := hw.trans hwr
  refine ⟨by rw [hal], by rw [hal], hnor, ?_, ?_⟩
  all_goals
    unfold fast_flash_create_table
    rw [if_neg (by simp [hl]), if_neg (by omega), if_neg hfree]
    dsimp only
    rw [hal]
    dsimp only
    rw [if_neg (by decide), hw2]
    dsimp only
    rw [if_pos (by decide)]

/-- The state after the append of a 4294967267-byte record: the call returned -1, the cursor
is at 2107, the byte there is programmed, and the next create fails on it. -/
theorem overrun_facts (d : List Byte) :
    (fast_flash_write_table_data huge_record_state name_T d 4294967267).1 = -1 ∧
    cursor_pos (fast_flash_write_table_data huge_record_state name_T d 4294967267).2 = 2107 ∧
    (fast_flash_write_table_data huge_record_state name_T d 4294967267).2.flash.flash_cache 2107 = 0x05 ∧
    (allocate_table_space (fast_flash_write_table_data huge_record_state name_T d 4294967267).2 SIZEOF_HEADER).1 = 0 ∧
    (allocate_table_space (fast_flash_write_table_data huge_record_state name_T d 4294967267).2 SIZEOF_HEADER).2.1 = 2107 ∧
    nor_run (fast_flash_write_table_data huge_record_state name_T d 4294967267).2.flash.flash_cache 2107
      (header_bytes (new_header name_U 4 10)) = 0 ∧
    (fast_flash_create_table (fast_flash_write_table_data huge_record_state name_T d 4294967267).2 name_U 4 10).1 = -1 ∧
    (fast_flash_create_table (fast_flash_write_table_data huge_record_state name_T d 4294967267).2 name_U 4 10).2.flash.ops =
      flash_op.write 2107 (header_bytes (new_header name_U 4 10)) ::
        (fast_flash_write_table_data huge_record_state name_T d 4294967267).2.flash.ops := by
  have hS : FLASH_SECTOR_SIZE = 4096 := by decide!
  have hW : WIN_FLASH_TOTAL_SIZE = 65536 := by decide!
  obtain ⟨r1, r2, hl, _, _, hsec, hoff, _, hf, hnU, hfree, hr1, hs, hd, hm⟩ :=
    huge_record_state_ram
  have e : boot false = boot_state WIN_FLASH_TOTAL_SIZE false := by
    unfold boot
    rw [fast_flash_init_fresh power_on WIN_FLASH_TOTAL_SIZE false blank_invalid]
    rfl
  have hc0 := (fresh_state_consistent WIN_FLASH_TOTAL_SIZE false (Nat.le_refl _)).1
  have hcS : Consistent huge_record_state := by
    have h0 := r2
    unfold huge_record_state
    rw [e] at h0 ⊢
    exact (step_consistent (boot_state WIN_FLASH_TOTAL_SIZE false)
      (api_call.create name_T 4294967267 1) hc0 rfl h0).1
  have hcurS : cursor_pos huge_record_state = 2106 := by
    unfold cursor_pos; rw [hsec, hoff, hS]
  have hblank : ∀ a, 2106 ≤ a → a < WIN_FLASH_TOTAL_SIZE →
      huge_record_state.flash.flash_cache a = 0xFF :=
    fun a h1 h2 => hcS.free_blank a (by rw [hcurS]; exact h1) h2
  obtain ⟨o1, o2, o3, o4, o5, o6⟩ := append_overruns huge_record_state name_T d 4294967267 rfl
    hl hsec hoff hf hr1 hs hd hm hblank
  clear r1 r2 e hc0 hcS hcurS hblank hr1 hs hd hm hf hl hsec hoff
  generalize fast_flash_write_table_data huge_record_state name_T d 4294967267 = X
    at o1 o2 o3 o4 o5 o6 ⊢
  have hnU2 : find_table_index X.2 name_U < 0 := by
    have := find_table_index_congr X.2 huge_record_state name_U
      (fun i _ => by rw [o2]; exact ⟨rfl, rfl⟩)
    rw [this]; exact hnU
  have hfree2 : ¬ find_free_table_slot X.2 < 0 := by
    have e2 := find_free_table_slot_congr X.2 huge_record_state (by rw [o2])
    rw [← e2, hfree]
    decide
  obtain ⟨c1, c2, c3, c4, c5⟩ := create_on_programmed_byte X.2 name_U 4 10
    o3 o4 o5 hnU2 hfree2 o6
  refine ⟨o1, ?_, o6, c1, c2, c3, c4, c5⟩
  unfold cursor_pos
  rw [o4, o5, hS]

/-! ## Re-initialisation over a record that no commit wrote -/

/-- The first chunk of a chunked write over erased bytes stays as it was programmed, whatever
becomes of the chunks that follow it. -/
theorem write_with_chunks_loop_first : ∀ (fuel : Nat) (d : win_flash) (addr : Nat)
    (src : List Byte) (remain : Nat), remain ≤ fuel → FLASH_WRITE_CHUNK_SIZE < remain →
    FLASH_WRITE_CHUNK_SIZE ≤ src.length →
    addr + FLASH_WRITE_CHUNK_SIZE ≤ WIN_FLASH_TOTAL_SIZE →
    (∀ j, j < FLASH_WRITE_CHUNK_SIZE → d.flash_cache (addr + j) = 0xFF) →
    ∀ j, j < FLASH_WRITE_CHUNK_SIZE →
      (write_with_chunks_loop fuel d addr src remain).2.flash_cache (addr + j) = src.getD j 0
  | 0, d, addr, src, remain, hf, hr, _, _, _ => by omega
  | fuel + 1, d, addr, src, remain, hf, hr, hs, hb, hbl => by
    have hC : FLASH_WRITE_CHUNK_SIZE = 1024 := by decide!
    have hU : U32 = 4294967296 := by decide!
    have hW : WIN_FLASH_TOTAL_SIZE = 65536 := by decide!
    intro j hj
    unfold write_with_chunks_loop
    rw [if_pos (by omega)]
    dsimp only
    rw [if_pos hr, win_flash_write_blank d addr src FLASH_WRITE_CHUNK_SIZE hs hb hbl]
    dsimp only
    rw [if_neg (by decide), Nat.mod_eq_of_lt (by omega),
      write_with_chunks_loop_frame fuel _ _ _ _ (addr + j) (by omega) (by omega)
        (Or.inl (by omega))]
    show mem_write d.flash_cache addr (src.take FLASH_WRITE_CHUNK_SIZE) (addr + j) = _
    rw [mem_write_in _ _ _ _ (by omega) (by rw [List.length_take]; omega),
      Nat.add_sub_cancel_left, List.getD_eq_getElem?_getD, List.getD_eq_getElem?_getD,
      List.getElem?_take_of_lt hj]

/-- The commit succeeds when erase is not allowed, the slot reserved for the record is erased
and lies on the device, and the next reservation fits the sector of the cursor and the store. -/
theorem save_manager_succeeds (st : State) (c : Nat) (hl : st.g_manager_loaded = true)
    (he : st.g_allow_erase = false) (hcur : cursor_addr st = c)
    (hn0 : st.g_manager_table.next_manager_addr ≠ 0)
    (hnt : st.g_manager_table.next_manager_addr < st.g_total_size)
    (hfit : SIZEOF_MANAGER ≤ FLASH_SECTOR_SIZE - c % FLASH_SECTOR_SIZE)
    (hroom : c + SIZEOF_MANAGER ≤ st.g_total_size)
    (hdev : st.g_manager_table.next_manager_addr + SIZEOF_MANAGER ≤ WIN_FLASH_TOTAL_SIZE)
    (hblank : ∀ j, j < SIZEOF_MANAGER →
      st.flash.flash_cache (st.g_manager_table.next_manager_addr + j) = 0xFF) :
    (save_manager_table st).1 = 0 := by
  have hM : SIZEOF_MANAGER = 692 := by decide!
  generalize hr : save_manager_table st = r
  unfold save_manager_table at hr
  rw [hcur] at hr
  generalize hR : st.g_manager_table.next_manager_addr = R at *
  rw [if_neg (by simp [hl])] at hr
  dsimp only at hr
  rw [if_neg (by omega : ¬ (R = 0 ∨ R ≥ st.g_total_size))] at hr
  have hnr : (if SIZEOF_MANAGER > FLASH_SECTOR_SIZE - c % FLASH_SECTOR_SIZE then
      (c / FLASH_SECTOR_SIZE + 1) * FLASH_SECTOR_SIZE % U32 else c) = c := if_neg (by omega)
  rw [hnr, if_neg (by omega : ¬ c + SIZEOF_MANAGER > st.g_total_size), he] at hr
  simp only [Bool.false_and, Bool.false_eq_true, if_false] at hr
  obtain ⟨fl, hw, _⟩ := write_with_chunks_blank_any st.flash R
    (manager_bytes (committed_manager st.g_manager_table c)) SIZEOF_MANAGER
    (by rw [manager_bytes_length]) hdev hblank
  have hw0 : (write_with_chunks st.flash R
      (manager_bytes (committed_manager st.g_manager_table c)) SIZEOF_MANAGER).1 = 0 := by
    rw [hw]
  unfold committed_manager at hw0
  simp only [ne_eq, not_true_eq_false, if_false, hw0] at hr
  subst hr
  rfl

/-- The flash after the append of `append_overruns`: nothing below 2106 has changed, and the
first chunk of the record is programmed from 2136 on; the total size and the erase flag are as
before. -/
theorem append_overruns_flash (S : State) (name d : List Byte) (n : Nat)
    (hn : n = 4294967267) (hdl : d.length = n)
    (hl : S.g_manager_loaded = true) (hsec : S.g_current_sector = 0)
    (hoff : S.g_current_offset = 2106) (hf : 0 ≤ find_table_index S name)
    (hr1 : (read_header S name).1 = 0)
    (hs : (read_header S name).2.struct_size = n)
    (hd : (read_header S name).2.data_len = 0)
    (hblank : ∀ a, 2106 ≤ a → a < WIN_FLASH_TOTAL_SIZE → S.flash.flash_cache a = 0xFF) :
    (fast_flash_write_table_data S name d n).2.g_allow_erase = S.g_allow_erase ∧
    (fast_flash_write_table_data S name d n).2.g_total_size = S.g_total_size ∧
    (∀ x, x < 2106 →
      (fast_flash_write_table_data S name d n).2.flash.flash_cache x = S.flash.flash_cache x) ∧
    ∀ j, j < FLASH_WRITE_CHUNK_SIZE →
      (fast_flash_write_table_data S name d n).2.flash.flash_cache (2136 + j) = d.getD j 0 := by
  have hS : FLASH_SECTOR_SIZE = 4096 := by decide!
  have hU : U32 = 4294967296 := by decide!
  have hW : WIN_FLASH_TOTAL_SIZE = 65536 := by decide!
  have hH : SIZEOF_HEADER = 30 := by decide!
  have hC : FLASH_WRITE_CHUNK_SIZE = 1024 := by decide!
  unfold read_header at hr1 hs hd
  dsimp only at hr1 hs hd
  generalize hr : fast_flash_write_table_data S name d n = r
  unfold fast_flash_write_table_data at hr
  rw [if_neg (by simp [hl]), if_neg (by omega)] at hr
  dsimp only at hr
  generalize win_flash_read S.flash
    (slot_at S.g_manager_table (find_table_index S name).toNat).addr SIZEOF_HEADER = rd
    at hr hr1 hs hd
  obtain ⟨r0, hb⟩ := rd
  dsimp only at hr hr1 hs hd
  subst hr1
  rw [if_neg (by decide), if_neg (by rw [hs]; exact fun h => h rfl), hd] at hr
  have hsz : (SIZEOF_HEADER + (0 + n) % U32) % U32 = 1 := by rw [hH, hU, hn]
  have hndl : (0 + n) % U32 = n := by rw [hU, hn]
  rw [hsz, hndl] at hr
  have hcur : cursor_addr S = 2106 := by
    unfold cursor_addr; rw [hsec, hoff, hS, hU]
  have hal : allocate_table_space S 1 = (0, 2106, set_cursor S 2107) := by
    unfold allocate_table_space
    rw [if_neg (by decide), if_neg (by rw [hS]; decide)]
    dsimp only
    rw [hcur, hS, hU]
    rfl
  rw [hal] at hr
  dsimp only at hr
  rw [if_neg (by decide), if_neg (Nat.lt_irrefl 0)] at hr
  dsimp only at hr
  rw [if_neg (by decide)] at hr
  unfold relocate_commit at hr
  generalize hhb : header_bytes _ = hbytes at hr
  have hlen : hbytes.length = 30 := by rw [← hhb]; exact header_bytes_length _
  obtain ⟨fl1, hw1, hc1⟩ := write_with_chunks_blank_any (set_cursor S 2107).flash 2106
    hbytes SIZEOF_HEADER (by rw [hlen, hH]) (by rw [hH, hW]; decide)
    (fun j hj => hblank (2106 + j) (by omega) (by omega))
  rw [hw1] at hr
  dsimp only at hr
  rw [if_neg (by decide)] at hr
  have haddr : (2106 + SIZEOF_HEADER) % U32 = 2136 := by rw [hH, hU]
  rw [haddr] at hr
  have hdata : ([] ++ d.take n : List Byte) = d := by
    rw [List.nil_append, List.take_of_length_le (Nat.le_of_eq hdl)]
  rw [hdata] at hr
  have hc1' : ∀ x, fl1.flash_cache x = mem_write S.flash.flash_cache 2106 hbytes x := by
    intro x
    rw [hc1, List.take_of_length_le (by rw [hlen, hH])]
    rfl
  have hfr : ∀ x, x < 2136 →
      (write_with_chunks_loop n fl1 2136 d n).2.flash_cache x = fl1.flash_cache x :=
    fun x hx => write_with_chunks_loop_frame n fl1 2136 d n x (Nat.le_refl _)
      (by rw [hC, hU]; decide) (Or.inl hx)
  have hfirst := write_with_chunks_loop_first n fl1 2136 d n (Nat.le_refl _)
    (by rw [hC, hn]; decide) (by rw [hdl, hC, hn]; decide) (by rw [hC, hW]; decide)
    (fun j hj => by
      rw [hc1', mem_write_out _ _ _ _ (Or.inr (by rw [hlen]; omega))]
      exact hblank _ (by omega) (by omega))
  have hov := write_with_chunks_loop_overrun n fl1 2136 d n (Nat.le_refl _)
    (by rw [hW]; decide) (by rw [hW, hn]; decide)
  simp only [Bool.false_and, Bool.false_eq_true, if_false] at hr
  unfold write_with_chunks at hr
  generalize write_with_chunks_loop n fl1 2136 d n = w2 at hr hfr hfirst hov
  obtain ⟨r2, fl2⟩ := w2
  dsimp only at hr hfr hfirst hov
  rw [if_pos hov] at hr
  subst hr
  refine ⟨rfl, rfl, fun x hx => ?_, fun j hj => hfirst j hj⟩
  show fl2.flash_cache x = _
  rw [hfr x (by omega), hc1', mem_write_out _ _ _ _ (Or.inl hx)]

/-- The commit of `save_manager_succeeds`, with what it leaves: the committed manager in RAM
and its image in the slot that was reserved for it. -/
theorem save_manager_at_blank (st : State) (c : Nat) (hl : st.g_manager_loaded = true)
    (he : st.g_allow_erase = false) (hcur : cursor_pos st = c)
    (hn0 : st.g_manager_table.next_manager_addr ≠ 0)
    (hnc : st.g_manager_table.next_manager_addr + SIZEOF_MANAGER ≤ c)
    (hfit : SIZEOF_MANAGER ≤ FLASH_SECTOR_SIZE - c % FLASH_SECTOR_SIZE)
    (hroom : c + SIZEOF_MANAGER ≤ st.g_total_size)
    (htot : st.g_total_size ≤ WIN_FLASH_TOTAL_SIZE)
    (hblank : ∀ j, j < SIZEOF_MANAGER →
      st.flash.flash_cache (st.g_manager_table.next_manager_addr + j) = 0xFF) :
    (save_manager_table st).1 = 0 ∧
    (save_manager_table st).2.g_manager_table = committed_manager st.g_manager_table c ∧
    (save_manager_table st).2.flash.flash_cache =
      mem_write st.flash.flash_cache st.g_manager_table.next_manager_addr
        (manager_bytes (committed_manager st.g_manager_table c)) ∧
    (save_manager_table st).2.g_total_size = st.g_total_size := by
  have hM : SIZEOF_MANAGER = 692 := by decide!
  have hW : WIN_FLASH_TOTAL_SIZE = 65536 := by decide!
  have hU : U32 = 4294967296 := by decide!
  have hcu : cursor_addr st = c := by
    rw [cursor_addr_eq st (by omega), hcur]
  have h0 := save_manager_succeeds st c hl he hcu hn0 (by omega) hfit hroom (by omega) hblank
  have hnr : next_reservation c = c := by
    unfold next_reservation
    rw [if_neg (by omega)]
  obtain ⟨_, _, _, h4, _, h6, h7, _, _⟩ := save_ok st (by omega) (by omega)
    (fun h => by rw [he] at h; exact absurd h (by decide)) h0
  rw [hcur, hnr] at h4 h6
  exact ⟨h0, h4, h6, h7⟩

/-- The state after the create of `create_on_programmed_byte`: the call has moved the cursor
to 2137 and has changed nothing else but the log of driver calls. -/
theorem create_refused_state (S : State) (name : List Byte) (s m : Nat)
    (hl : S.g_manager_loaded = true) (hsec : S.g_current_sector = 0)
    (hoff : S.g_current_offset = 2107) (hnf : find_table_index S name < 0)
    (hfree : ¬ find_free_table_slot S < 0)
    (hbyte : S.flash.flash_cache 2107 = 0x05) :
    (fast_flash_create_table S name s m).2.g_manager_table = S.g_manager_table ∧
    (fast_flash_create_table S name s m).2.g_manager_loaded = true ∧
    (fast_flash_create_table S name s m).2.g_allow_erase = S.g_allow_erase ∧
    (fast_flash_create_table S name s m).2.g_total_size = S.g_total_size ∧
    (fast_flash_create_table S name s m).2.g_current_sector = 0 ∧
    (fast_flash_create_table S name s m).2.g_current_offset = 2137 ∧
    (fast_flash_create_table S name s m).2.flash.flash_cache = S.flash.flash_cache := by
  have hS : FLASH_SECTOR_SIZE = 4096 := by decide!
  have hU : U32 = 4294967296 := by decide!
  have hW : WIN_FLASH_TOTAL_SIZE = 65536 := by decide!
  have hH : SIZEOF_HEADER = 30 := by decide!
  have hC : FLASH_WRITE_CHUNK_SIZE = 1024 := by decide!
  have hcur : cursor_addr S = 2107 := by
    unfold cursor_addr; rw [hsec, hoff, hS, hU]
  have hal : allocate_table_space S SIZEOF_HEADER = (0, 2107, set_cursor S 2137) := by
    unfold allocate_table_space
    rw [if_neg (by rw [hH]; decide), if_neg (by rw [hS, hH]; decide)]
    dsimp only
    rw [hcur, hS, hU, hH]
    rfl
  have hnor : nor_run S.flash.flash_cache 2107 (header_bytes (new_header name s m)) = 0 := by
    rw [header_bytes_head]
    apply nor_run_refused
    rw [hbyte]
    show (5 : Nat) &&& (MAGIC_NUMBER_TABLE % 256) ≠ MAGIC_NUMBER_TABLE % 256
    decide!
  have hlen := header_bytes_length (new_header name s m)
  have htake : (header_bytes (new_header name s m)).take SIZEOF_HEADER =
      header_bytes (new_header name s m) := List.take_of_length_le (by rw [hlen, hH])
  have hwr : win_flash_write S.flash 2107 (header_bytes (new_header name s m)) SIZEOF_HEADER =
      (-1, { S.flash with
        ops := flash_op.write 2107 (header_bytes (new_header name s m)) :: S.flash.ops
        flash_cache := mem_write S.flash.flash_cache 2107
          ((header_bytes (new_header name s m)).take 0) }) := by
    unfold win_flash_write
    dsimp only
    rw [htake, hnor, if_neg (by rw [hH, hU, hW]; decide), if_neg (by rw [hH]; decide)]
  have hw : write_with_chunks S.flash 2107 (header_bytes (new_header name s m))
      SIZEOF_HEADER = win_flash_write S.flash 2107 (header_bytes (new_header name s m))
        SIZEOF_HEADER :=
    write_with_chunks_one_call _ _ _ _ (by rw [hH]; decide) (by rw [hH, hC]; decide)
      (by rw [hwr]; show (-1 : Int) ≠ 0; decide)
  have hw2 : write_with_chunks (set_cursor S 2137).flash 2107
      (header_bytes (new_header name s m)) SIZEOF_HEADER =
      (-1, { S.flash with
        ops := flash_op.write 2107 (header_bytes (new_header name s m)) :: S.flash.ops
        flash_cache := mem_write S.flash.flash_cache 2107
          ((header_bytes (new_header name s m)).take 0) }) := hw.trans hwr
  generalize hr : fast_flash_create_table S name s m = r
  unfold fast_flash_create_table at hr
  rw [if_neg (by simp [hl]), if_neg (by omega), if_neg hfree] at hr
  dsimp only at hr
  rw [hal] at hr
  dsimp only at hr
  rw [if_neg (by decide), hw2] at hr
  dsimp only at hr
  rw [if_pos (by decide)] at hr
  subst hr
  refine ⟨rfl, hl, rfl, rfl, ?_, ?_, ?_⟩
  · show 2137 / FLASH_SECTOR_SIZE = 0
    rw [hS]
  · show 2137 % FLASH_SECTOR_SIZE = 2137
    rw [hS]
  · show mem_write S.flash.flash_cache 2107 ((header_bytes (new_header name s m)).take 0) = _
    rw [List.take_zero, mem_write_nil]

/-- A create with the cursor at 2137 in sector 0 and the next manager record reserved at 1414,
erase not allowed, when the 30 bytes at the cursor and the reserved slot are erased: the call
returns 0, programs the header at 2137 and the committed manager at 1414, and reserves 2167
for the record after it. -/
theorem create_over_blank (S : State) (name : List Byte) (s m slot : Nat)
    (hl : S.g_manager_loaded = true) (he : S.g_allow_erase = false)
    (ht : S.g_total_size = WIN_FLASH_TOTAL_SIZE) (hsec : S.g_current_sector = 0)
    (hoff : S.g_current_offset = 2137) (hnf : find_table_index S name < 0)
    (hfree : find_free_table_slot S = (slot : Int))
    (hnext : S.g_manager_table.next_manager_addr = 1414)
    (hb1 : ∀ a, 2137 ≤ a → a < 2167 → S.flash.flash_cache a = 0xFF)
    (hb2 : ∀ a, 1414 ≤ a → a < 2106 → S.flash.flash_cache a = 0xFF) :
    (fast_flash_create_table S name s m).1 = 0 ∧
    (fast_flash_create_table S name s m).2.g_manager_table =
      committed_manager
        { S.g_manager_table with
          tables := S.g_manager_table.tables.set slot (new_info name 2137)
          table_count := (S.g_manager_table.table_count + 1) % 256
          used_size := (S.g_manager_table.used_size + SIZEOF_HEADER) % U32 } 2167 ∧
    (fast_flash_create_table S name s m).2.flash.flash_cache =
      mem_write (mem_write S.flash.flash_cache 2137 (header_bytes (new_header name s m))) 1414
        (manager_bytes (committed_manager
          { S.g_manager_table with
            tables := S.g_manager_table.tables.set slot (new_info name 2137)
            table_count := (S.g_manager_table.table_count + 1) % 256
            used_size := (S.g_manager_table.used_size + SIZEOF_HEADER) % U32 } 2167)) ∧
    (fast_flash_create_table S name s m).2.g_total_size = WIN_FLASH_TOTAL_SIZE := by
  have hS : FLASH_SECTOR_SIZE = 4096 := by decide!
  have hU : U32 = 4294967296 := by decide!
  have hW : WIN_FLASH_TOTAL_SIZE = 65536 := by decide!
  have hH : SIZEOF_HEADER = 30 := by decide!
  have hM : SIZEOF_MANAGER = 692 := by decide!
  have hcur : cursor_addr S = 2137 := by
    unfold cursor_addr; rw [hsec, hoff, hS, hU]
  have hal : allocate_table_space S SIZEOF_HEADER = (0, 2137, set_cursor S 2167) := by
    unfold allocate_table_space
    rw [if_neg (by rw [hH]; decide), if_neg (by rw [hS, hH]; decide)]
    dsimp only
    rw [hcur, hS, hU, hH]
    rfl
  have hlen := header_bytes_length (new_header name s m)
  have htake : (header_bytes (new_header name s m)).take SIZEOF_HEADER =
      header_bytes (new_header name s m) := List.take_of_length_le (by rw [hlen, hH])
  obtain ⟨fl, hw1, hc1⟩ := write_with_chunks_blank_any (set_cursor S 2167).flash 2137
    (header_bytes (new_header name s m)) SIZEOF_HEADER (by rw [hlen, hH])
    (by rw [hH, hW]; decide) (fun j hj => hb1 (2137 + j) (by omega) (by omega))
  rw [htake] at hc1
  generalize hr : fast_flash_create_table S name s m = r
  unfold fast_flash_create_table at hr
  rw [if_neg (by simp [hl]), if_neg (by omega), if_neg (by rw [hfree]; omega), hfree,
    Int.toNat_ofNat] at hr
  dsimp only at hr
  rw [hal] at hr
  dsimp only at hr
  rw [if_neg (by decide), hw1] at hr
  dsimp only at hr
  rw [if_neg (by decide)] at hr
  have hsv := save_manager_at_blank
    ({ set_slot { set_cursor S 2167 with flash := fl } slot (new_info name 2137) with
      g_manager_table :=
        { (set_slot { set_cursor S 2167 with flash := fl } slot
            (new_info name 2137)).g_manager_table with
          table_count := ((set_slot { set_cursor S 2167 with flash := fl } slot
            (new_info name 2137)).g_manager_table.table_count + 1) % 256
          used_size := ((set_slot { set_cursor S 2167 with flash := fl } slot
            (new_info name 2137)).g_manager_table.used_size + SIZEOF_HEADER) % U32 } } : State)
    2167 hl he
    (by show 2167 / FLASH_SECTOR_SIZE * FLASH_SECTOR_SIZE + 2167 % FLASH_SECTOR_SIZE = 2167
        rw [hS])
    (by show S.g_manager_table.next_manager_addr ≠ 0
        rw [hnext]; decide)
    (by show S.g_manager_table.next_manager_addr + SIZEOF_MANAGER ≤ 2167
        rw [hnext, hM]; decide)
    (by rw [hM, hS]; decide)
    (by show 2167 + SIZEOF_MANAGER ≤ S.g_total_size
        rw [ht, hM, hW]; decide)
    (by show S.g_total_size ≤ WIN_FLASH_TOTAL_SIZE
        rw [ht])
    (fun j hj => by
      show fl.flash_cache (S.g_manager_table.next_manager_addr + j) = 0xFF
      rw [hnext, hc1, mem_write_out _ _ _ _ (Or.inl (by omega))]
      exact hb2 _ (by omega) (by omega))
  rw [hr] at hsv
  obtain ⟨h1, h2, h3, h4⟩ := hsv
  refine ⟨h1, h2, ?_, by rw [h4]; exact ht⟩
  rw [h3]
  show mem_write fl.flash_cache S.g_manager_table.next_manager_addr _ = _
  rw [hnext, hc1]
  rfl

theorem forged_record_wf : wf_manager forged_record := by
  have hU : U32 = 4294967296 := by decide!
  have hW : WIN_FLASH_TOTAL_SIZE = 65536 := by decide!
  obtain ⟨h1, _, h3, _, h5, h6, h7, h8, h9⟩ := wf_fresh WIN_FLASH_TOTAL_SIZE (by rw [hU, hW]; decide)
  exact wf_committed _ 0
    ⟨h1, by show 0 < U32; rw [hU]; decide, h3, by show 1 < 256; decide, h5, h6, h7, h8, h9⟩
    (by rw [hU]; decide)

theorem forged_record_valid : validate_manager_table forged_record = 0 :=
  validate_committed_manager _ 0 rfl rfl

theorem forged_buffer_length : forged_buffer.length = 4294967267 := by
  have hM : SIZEOF_MANAGER = 692 := by decide!
  unfold forged_buffer
  rw [List.length_append, List.length_append, List.length_replicate, List.length_replicate,
    manager_bytes_length, hM]

theorem forged_buffer_blank (j : Nat) (hj : j < 31) : forged_buffer.getD j 0 = 0xFF := by
  unfold forged_buffer
  rw [List.getD_eq_getElem?_getD,
    List.getElem?_append_left (by rw [List.length_replicate]; exact hj),
    List.getElem?_replicate, if_pos hj]
  rfl

theorem forged_buffer_record (j : Nat) (hj : j < SIZEOF_MANAGER) :
    forged_buffer.getD (31 + j) 0 = (manager_bytes forged_record).getD j 0 := by
  unfold forged_buffer
  rw [List.getD_eq_getElem?_getD, List.getD_eq_getElem?_getD,
    List.getElem?_append_right (by rw [List.length_replicate]; omega),
    List.length_replicate, Nat.add_sub_cancel_left,
    List.getElem?_append_left (by rw [manager_bytes_length]; exact hj)]

/-- A link of the chain to a record whose image is on flash. -/
theorem chain_step_of_record (d : win_flash) (total a : Nat) (m y : flash_manager_table_t)
    (h0 : m.next_manager_addr ≠ 0) (h1 : m.next_manager_addr < total)
    (h2 : a < m.next_manager_addr)
    (hb : m.next_manager_addr + SIZEOF_MANAGER ≤ WIN_FLASH_TOTAL_SIZE)
    (hrec : mem_read d.flash_cache m.next_manager_addr SIZEOF_MANAGER = manager_bytes y)
    (hwf : wf_manager y) (hv : validate_manager_table y = 0) :
    chain_step d total (a, m) (m.next_manager_addr, y) := by
  have hp : parse_manager (win_flash_read d m.next_manager_addr SIZEOF_MANAGER).2 = y := by
    rw [win_flash_read_of_le d _ _ hb]
    show parse_manager (mem_read d.flash_cache m.next_manager_addr SIZEOF_MANAGER) = y
    rw [hrec, parse_manager_bytes y hwf]
  unfold chain_step chain_next
  rw [if_pos ⟨h0, h1, h2, by rw [win_flash_read_of_le d _ _ hb], by rw [hp]; exact hv⟩, hp]

/-- The trace of the forged record: in `huge_record_state` the append of `forged_buffer` fails
and leaves the image of `forged_record` at 2167; the first create after it fails on the
programmed byte at 2107, the second returns 0 and reserves 2167 for the next manager record;
`fast_flash_init` then follows the chain to 2167 and adopts `forged_record`. -/
theorem forged_trace_facts :
    (fast_flash_write_table_data huge_record_state name_T forged_buffer 4294967267).1 = -1 ∧
    (fast_flash_create_table
      (fast_flash_write_table_data huge_record_state name_T forged_buffer 4294967267).2
      name_U 4 10).1 = -1 ∧
    (fast_flash_create_table
      (fast_flash_create_table
        (fast_flash_write_table_data huge_record_state name_T forged_buffer 4294967267).2
        name_U 4 10).2 name_U 4 10).1 = 0 ∧
    (fast_flash_init
      (fast_flash_create_table
        (fast_flash_create_table
          (fast_flash_write_table_data huge_record_state name_T forged_buffer 4294967267).2
          name_U 4 10).2 name_U 4 10).2 WIN_FLASH_TOTAL_SIZE false).1 = 0 ∧
    (fast_flash_init
      (fast_flash_create_table
        (fast_flash_create_table
          (fast_flash_write_table_data huge_record_state name_T forged_buffer 4294967267).2
          name_U 4 10).2 name_U 4 10).2 WIN_FLASH_TOTAL_SIZE false).2.g_manager_table =
      forged_record := by
  have hS : FLASH_SECTOR_SIZE = 4096 := by decide!
  have hW : WIN_FLASH_TOTAL_SIZE = 65536 := by decide!
  have hM : SIZEOF_MANAGER = 692 := by decide!
  have hH : SIZEOF_HEADER = 30 := by decide!
  have hU : U32 = 4294967296 := by decide!
  have hC : FLASH_WRITE_CHUNK_SIZE = 1024 := by decide!
  obtain ⟨r1, r2, hl, hea, htot, hsec, hoff, hnext, hf, hnU, hfree, hr1, hs, hd, hm⟩ :=
    huge_record_state_ram
  have e : boot false = boot_state WIN_FLASH_TOTAL_SIZE false := by
    unfold boot
    rw [fast_flash_init_fresh power_on WIN_FLASH_TOTAL_SIZE false blank_invalid]
    rfl
  have hc0 := (fresh_state_consistent WIN_FLASH_TOTAL_SIZE false (Nat.le_refl _)).1
  have hp0 : Persisted (boot_state WIN_FLASH_TOTAL_SIZE false) :=
    boot_with_persisted WIN_FLASH_TOTAL_SIZE (by rw [hW]; decide) (Nat.le_refl _)
  have hcS : Consistent huge_record_state := by
    have h0 := r2
    unfold huge_record_state
    rw [e] at h0 ⊢
    exact (step_consistent (boot_state WIN_FLASH_TOTAL_SIZE false)
      (api_call.create name_T 4294967267 1) hc0 rfl h0).1
  have hpS : Persisted huge_record_state := by
    have h0 := r2
    unfold huge_record_state
    rw [e] at h0 ⊢
    exact (step_persisted (boot_state WIN_FLASH_TOTAL_SIZE false)
      (api_call.create name_T 4294967267 1) hc0 hp0 h0).1
  have hcurS : cursor_pos huge_record_state = 2106 := by
    unfold cursor_pos; rw [hsec, hoff, hS]
  have hblank : ∀ a, 2106 ≤ a → a < WIN_FLASH_TOTAL_SIZE →
      huge_record_state.flash.flash_cache a = 0xFF :=
    fun a h1 h2 => hcS.free_blank a (by rw [hcurS]; exact h1) h2
  have hresb : ∀ a, 1414 ≤ a → a < 2106 → huge_record_state.flash.flash_cache a = 0xFF :=
    fun a h1 h2 => hcS.reserve_blank a (by rw [hnext]; exact h1) (by rw [hnext, hM]; exact h2)
  obtain ⟨A, hreach, hA⟩ := hpS.chain
  have hfirst := hpS.first
  have hwfS := hpS.wf
  have hmgS := hpS.magic
  have hvS := hpS.version
  rw [hnext] at hA
  rw [htot] at hreach
  -- the append that overruns
  obtain ⟨o1, o2, o3, o4, o5, o6⟩ := append_overruns huge_record_state name_T forged_buffer
    4294967267 rfl hl hsec hoff hf hr1 hs hd hm hblank
  obtain ⟨p1, p2, p3, p4⟩ := append_overruns_flash huge_record_state name_T forged_buffer
    4294967267 rfl forged_buffer_length hl hsec hoff hf hr1 hs hd hblank
  clear r1 r2 e hc0 hp0 hcS hpS hcurS hblank hr1 hs hd hm hf hl hsec hoff
  generalize fast_flash_write_table_data huge_record_state name_T forged_buffer 4294967267 = X1
    at o1 o2 o3 o4 o5 o6 p1 p2 p3 p4 ⊢
  rw [hea] at p1
  rw [htot] at p2
  have hnU1 : find_table_index X1.2 name_U < 0 := by
    have := find_table_index_congr X1.2 huge_record_state name_U
      (fun i _ => by rw [o2]; exact ⟨rfl, rfl⟩)
    rw [this]; exact hnU
  have hfree1 : find_free_table_slot X1.2 = ((1 : Nat) : Int) := by
    rw [find_free_table_slot_congr huge_record_state X1.2 (by rw [o2]), hfree]
    rfl
  -- the create that fails on the programmed byte
  obtain ⟨_, _, _, c4, _⟩ := create_on_programmed_byte X1.2 name_U 4 10 o3 o4 o5 hnU1
    (by rw [hfree1]; omega) o6
  obtain ⟨q1, q2, q3, q4, q5, q6, q7⟩ := create_refused_state X1.2 name_U 4 10 o3 o4 o5 hnU1
    (by rw [hfree1]; omega) o6
  generalize fast_flash_create_table X1.2 name_U 4 10 = X2 at c4 q1 q2 q3 q4 q5 q6 q7 ⊢
  rw [p1] at q3
  rw [p2] at q4
  rw [o2] at q1
  have hnU2 : find_table_index X2.2 name_U < 0 := by
    have := find_table_index_congr X2.2 huge_record_state name_U
      (fun i _ => by rw [q1]; exact ⟨rfl, rfl⟩)
    rw [this]; exact hnU
  have hfree2 : find_free_table_slot X2.2 = ((1 : Nat) : Int) := by
    rw [find_free_table_slot_congr huge_record_state X2.2 (by rw [q1]), hfree]
    rfl
  -- the create that succeeds
  obtain ⟨k1, k2, k3, k4⟩ := create_over_blank X2.2 name_U 4 10 1 q2 q3 q4 q5 q6 hnU2 hfree2
    (by rw [q1]; exact hnext)
    (fun a h1 h2 => by
      have h := p4 (a - 2136) (by rw [hC]; omega)
      rw [show 2136 + (a - 2136) = a by omega] at h
      rw [q7, h]
      exact forged_buffer_blank _ (by omega))
    (fun a h1 h2 => by rw [q7, p3 a (by omega)]; exact hresb a h1 h2)
  generalize fast_flash_create_table X2.2 name_U 4 10 = X3 at k1 k2 k3 k4 ⊢
  rw [q1] at k2 k3
  rw [q7] at k3
  -- the flash the re-initialisation reads
  generalize hM3 : committed_manager
    { huge_record_state.g_manager_table with
      tables := huge_record_state.g_manager_table.tables.set 1 (new_info name_U 2137)
      table_count := (huge_record_state.g_manager_table.table_count + 1) % 256
      used_size := (huge_record_state.g_manager_table.used_size + SIZEOF_HEADER) % U32 } 2167
    = M3 at k2 k3
  have hM3n : M3.next_manager_addr = 2167 := by rw [← hM3]; rfl
  have hM3wf : wf_manager M3 := by
    rw [← hM3]
    obtain ⟨h1, h2, h3, h4, h5, h6, h7, h8, h9⟩ := wf_set_slot _ hwfS 1 (new_info name_U 2137)
      (wf_new_info name_U 2137 (by rw [hU]; decide))
    exact wf_committed _ 2167
      ⟨h1, h2, h3, Nat.mod_lt _ (by decide), h5, Nat.mod_lt _ (by rw [hU]; decide), h7, h8, h9⟩
      (by rw [hU]; decide)
  have hM3v : validate_manager_table M3 = 0 := by
    rw [← hM3]
    exact validate_committed_manager _ 2167 hmgS hvS
  have hlow : ∀ x, x < 1414 →
      X3.2.flash.flash_cache x = huge_record_state.flash.flash_cache x := by
    intro x hx
    rw [k3, mem_write_out _ _ _ _ (Or.inl hx),
      mem_write_out _ _ _ _ (Or.inl (by omega)), p3 x (by omega)]
  have hrec3 : mem_read X3.2.flash.flash_cache 1414 SIZEOF_MANAGER = manager_bytes M3 := by
    rw [k3, ← manager_bytes_length M3]
    exact mem_read_write_same _ _ _
  have hrecF : mem_read X3.2.flash.flash_cache 2167 SIZEOF_MANAGER =
      manager_bytes forged_record := by
    rw [← mem_read_write_same (fun _ => (0 : Byte)) 2167 (manager_bytes forged_record),
      manager_bytes_length]
    apply mem_read_congr
    intro x h1 h2
    rw [k3, mem_write_out _ _ _ _ (Or.inr (by rw [manager_bytes_length, hM]; omega)),
      mem_write_out _ _ _ _ (Or.inr (by rw [header_bytes_length]; omega)),
      mem_write_in _ _ _ _ h1 (by rw [manager_bytes_length]; exact h2)]
    have h := p4 (x - 2136) (by rw [hC]; omega)
    rw [show 2136 + (x - 2136) = x by omega] at h
    rw [h, show x - 2136 = 31 + (x - 2167) by omega]
    exact forged_buffer_record _ (by omega)
  -- the chain of the records on that flash
  have hfirst3 : mem_read X3.2.flash.flash_cache 0 SIZEOF_MANAGER =
      mem_read huge_record_state.flash.flash_cache 0 SIZEOF_MANAGER :=
    mem_read_congr _ _ _ _ (fun x _ h2 => hlow x (by omega))
  have hreach3 := chain_reach_congr huge_record_state.flash X3.2.flash WIN_FLASH_TOTAL_SIZE _ _
    (Nat.le_refl _) hreach (fun a ha => hlow a (by show a < 1414; omega))
  rw [← hfirst3] at hreach3 hfirst
  have hstepA := chain_step_of_record X3.2.flash WIN_FLASH_TOTAL_SIZE A
    huge_record_state.g_manager_table M3 (by rw [hnext]; decide) (by rw [hnext, hW]; decide)
    (by rw [hnext]; omega) (by rw [hnext, hM, hW]; decide) (by rw [hnext]; exact hrec3)
    hM3wf hM3v
  rw [hnext] at hstepA
  have hstepB := chain_step_of_record X3.2.flash WIN_FLASH_TOTAL_SIZE 1414 M3 forged_record
    (by rw [hM3n]; decide) (by rw [hM3n, hW]; decide) (by rw [hM3n]; decide)
    (by rw [hM3n, hM, hW]; decide) (by rw [hM3n]; exact hrecF)
    forged_record_wf forged_record_valid
  rw [hM3n] at hstepB
  have hend : chain_next X3.2.flash WIN_FLASH_TOTAL_SIZE 2167 forged_record = none := by
    unfold chain_next
    rw [if_neg]
    intro hcon
    exact hcon.1 rfl
  have hre := reinit_of_chain X3.2 WIN_FLASH_TOTAL_SIZE false forged_record 2167
    (by rw [hW]; decide) hfirst ((hreach3.tail hstepA).tail hstepB) hend
  exact ⟨o1, c4, k1, hre.1, hre.2.2.1⟩

theorem forged_record_count :
    forged_record.table_count = 1 ∧ valid_count forged_record = 0 := by
  decide!

/-! ## Instances of the amended statements -/

theorem append_round_trip_witness :
    fast_flash_get_table_count (fast_flash_write_table_data demo_state name_T [5, 6, 7, 8] 4).2
      name_T = 1 + 1 ∧
    fast_flash_read_table_data (fast_flash_write_table_data demo_state name_T [5, 6, 7, 8] 4).2
      name_T 1 4 = (0, [5, 6, 7, 8]) :=
  have h := append_round_trip demo_state name_T [5, 6, 7, 8] 4 1 demo_consistent (by decide!)
    (by decide) rfl (by decide!) (by decide!)
  ⟨h.1, h.2.2.1⟩

theorem overwrite_replaces_one_row_witness :
    fast_flash_read_table_data
      (fast_flash_write_table_data_by_index demo_state name_T 0 [5, 6, 7, 8] 4).2 name_T 0 4 =
      (0, [5, 6, 7, 8]) :=
  (overwrite_replaces_one_row demo_state name_T [5, 6, 7, 8] 0 4 1 demo_consistent (by decide!)
    rfl (by decide!) (by decide) (by decide!)).1

theorem demo_other_slots (j : Nat) (hj : j ≠ 0) :
    (slot_at demo_state.g_manager_table j).status = TABLE_STATUS_INVALID := by
  obtain ⟨k, rfl⟩ : ∃ k, j = k + 1 := ⟨j - 1, by omega⟩
  have : slot_at demo_state.g_manager_table (k + 1) = zero_info := by
    show (List.replicate 23 zero_info).getD k zero_info = zero_info
    rw [List.getD_eq_getElem?_getD, List.getElem?_replicate]
    split <;> rfl
  rw [this]
  rfl

theorem batch_equals_repeated_append_witness :
    fast_flash_get_table_count
      (fast_flash_write_table_data_batch demo_state name_T [[5, 6, 7, 8]].flatten 4
        [[5, 6, 7, 8]].length).2 name_T = 1 + [[5, 6, 7, 8]].length :=
  (batch_equals_repeated_append demo_state name_T [[5, 6, 7, 8]] 4 1 demo_consistent
    (by decide!) (by decide) (by decide) (by decide) (by decide!) (by decide!) (by decide!)).1

theorem delete_removes_only_named_witness :
    fast_flash_table_exists (fast_flash_delete_table demo_state name_T).2 name_T = false :=
  (delete_removes_only_named demo_state name_T 0 demo_consistent (by decide!)
    (fun j hj hv => absurd ((demo_other_slots j hj).symm.trans hv) (by decide))
    (by decide) (by decide) (by decide!)).1

theorem created_table_visible_and_empty_witness :
    fast_flash_table_exists (fast_flash_create_table demo_state name_U 4 10).2 name_U = true ∧
    fast_flash_get_table_count (fast_flash_create_table demo_state name_U 4 10).2 name_U = 0 :=
  created_table_visible_and_empty demo_state name_U 4 10 demo_consistent (by decide)
    (by decide!)

theorem create_rejects_duplicate_witness :
    fast_flash_create_table
      (fast_flash_write_table_data (fast_flash_create_table demo_state name_U 4 10).2 name_T
        [5, 6, 7, 8] 4).2 name_U 8 3 =
      (-1, (fast_flash_write_table_data (fast_flash_create_table demo_state name_U 4 10).2
        name_T [5, 6, 7, 8] 4).2) :=
  create_rejects_duplicate demo_state _ name_U 4 10 8 3 [api_call.append name_T [5, 6, 7, 8] 4]
    demo_consistent (by decide) (by decide!)
    (by
      unfold run_calls_keeping
      rw [if_pos (by decide!)]
      rfl)

theorem append_checked_enforces_capacity_witness :
    (10 ≤ 1 → fast_flash_append_table_data demo_state name_T [5, 6, 7, 8] 4 = (-2, demo_state)) ∧
    (1 < 10 → fast_flash_append_table_data demo_state name_T [5, 6, 7, 8] 4 =
      fast_flash_write_table_data demo_state name_T [5, 6, 7, 8] 4) :=
  append_checked_enforces_capacity demo_state name_T [5, 6, 7, 8] 4 10 1 0 demo_consistent
    (by decide!) (by decide) (by decide!) (by decide!) (by decide!) (by decide!)

theorem out_of_range_index_rejected_witness :
    fast_flash_write_table_data_by_index demo_state name_T 1 [5, 6, 7, 8] 4 = (-2, demo_state) ∧
    fast_flash_read_table_data demo_state name_T 1 4 = (-1, []) :=
  out_of_range_index_rejected demo_state name_T [5, 6, 7, 8] 1 4 0 1 rfl (by decide!)
    (by decide!) (by decide!) (by decide!) (by decide)

theorem clear_rejects_absent_rows_witness :
    fast_flash_clear_table_data demo_state name_T 2 = (-2, demo_state) :=
  clear_rejects_absent_rows demo_state name_T 2 1 0 1 rfl (by decide!) (by decide!) (by decide!)
    (by decide) (by decide) (by decide)

theorem clear_empty_mask_noop_witness :
    fast_flash_clear_table_data demo_state name_T 0 = (0, demo_state) :=
  clear_empty_mask_noop demo_state name_T 0 rfl (by decide!) (by decide!)

theorem validate_manager_table_exact_witness :
    (List.replicate 692 (0xFF : Byte)).length = SIZEOF_MANAGER ∧
    (validate_manager_table (parse_manager (List.replicate 692 0xFF)) = 0 ↔
      (parse_manager (List.replicate 692 0xFF)).magic = 0xAAAA ∧
        (parse_manager (List.replicate 692 0xFF)).version = 1 ∧
        (parse_manager (List.replicate 692 0xFF)).crc =
          calculate_crc32 ((List.replicate 692 (0xFF : Byte)).drop 6) 686) ∧
    manager_bytes (parse_manager (List.replicate 692 0xFF)) = List.replicate 692 0xFF :=
  have h := validate_manager_table_exact (List.replicate 692 0xFF) (by decide!)
  ⟨by decide!, h.1, h.2.2.2.2.2.1⟩

theorem discovery_adopts_chain_end_witness :
    0 < fresh_boot.g_total_size ∧
    validate_manager_table
      (parse_manager (mem_read fresh_boot.flash.flash_cache 0 SIZEOF_MANAGER)) = 0 ∧
    (load_manager_table fresh_boot).1 = 0 ∧
    (load_manager_table fresh_boot).2.g_manager_loaded = true ∧
    (load_manager_table fresh_boot).2.g_manager_table =
      (chain_last fresh_boot.flash fresh_boot.g_total_size fresh_boot.g_total_size 0
        (parse_manager (mem_read fresh_boot.flash.flash_cache 0 SIZEOF_MANAGER))).2 :=
  have h := discovery_adopts_chain_end fresh_boot (by decide!) fresh_boot_valid
  ⟨by decide!, fresh_boot_valid, h.1, h.2.1, h.2.2.1⟩

theorem fresh_device_initialisation_witness :
    validate_manager_table
      (parse_manager (mem_read power_on.flash.flash_cache 0 SIZEOF_MANAGER)) ≠ 0 ∧
    (load_manager_table power_on).1 = 0 ∧
    (load_manager_table power_on).2.g_manager_loaded = true ∧
    (load_manager_table power_on).2.g_current_offset = 1384 :=
  have h := fresh_device_initialisation power_on blank_invalid
  ⟨blank_invalid, h.1, h.2.1, h.2.2.2.2.2.2.2.2.2.2.2.2.2.2.1⟩

theorem persistence_across_reinit_witness :
    run_calls fresh_boot [api_call.create name_T 4 2] =
      some (api_step fresh_boot (api_call.create name_T 4 2)).2 ∧
    (fast_flash_init (api_step fresh_boot (api_call.create name_T 4 2)).2
      WIN_FLASH_TOTAL_SIZE true).1 = 0 ∧
    fast_flash_table_exists (fast_flash_init (api_step fresh_boot (api_call.create name_T 4 2)).2
      WIN_FLASH_TOTAL_SIZE true).2 name_T =
      fast_flash_table_exists (api_step fresh_boot (api_call.create name_T 4 2)).2 name_T :=
  have hrun : run_calls fresh_boot [api_call.create name_T 4 2] =
      some (api_step fresh_boot (api_call.create name_T 4 2)).2 := by
    have h : (call_defined fresh_boot (api_call.create name_T 4 2) &&
        decide ((api_step fresh_boot (api_call.create name_T 4 2)).1 = 0)) = true := by decide!
    unfold run_calls
    rw [if_pos h]
    rfl
  ⟨hrun, (persistence_across_reinit _ _ true hrun).2.1,
    (persistence_across_reinit _ _ true hrun).2.2.2.2.1 name_T⟩

theorem allocation_within_one_sector_witness :
    (allocate_table_space demo_state 3000).1 = 0 ∧
    (allocate_table_space demo_state 3000).2.1 = (0 + 1) * FLASH_SECTOR_SIZE ∧
    cursor_pos (allocate_table_space demo_state 3000).2.2 =
      (allocate_table_space demo_state 3000).2.1 + 3000 :=
  have h := allocation_within_one_sector demo_state 3000 (by decide!) (by decide) (by decide!)
    (by decide!) (by decide!)
  ⟨by decide!, h.2.1 (by decide!), h.2.2.2.2.1⟩

theorem commit_out_of_space_witness :
    small_boot.g_manager_loaded = true ∧
    save_manager_table small_boot = (-1, small_boot) :=
  ⟨rfl, (commit_out_of_space small_boot rfl (by decide!)).1⟩

theorem commit_post_state_witness :
    (save_manager_table fresh_boot).1 = 0 ∧
    (save_manager_table fresh_boot).2.g_manager_table.next_manager_addr = 1384 ∧
    cursor_pos (save_manager_table fresh_boot).2 = 1384 + SIZEOF_MANAGER :=
  have h := commit_post_state fresh_boot (by decide!) (by decide!)
  ⟨by decide!, h.2.2.2.2.2.1.trans (by decide!), h.2.2.2.2.2.2.1.trans (by decide!)⟩

/-- C21 at `one_sector_state`: each of the sectors (there is one) holds a Valid table; the
collection returns 0 and leaves an empty store with the cursor at offset 1384 of sector 0. -/
theorem gc_reset_without_empty_sector_witness :
    one_sector_state.g_manager_loaded = true ∧ one_sector_state.g_allow_erase = true ∧
    (fast_flash_gc one_sector_state).1 = 0 ∧
    (fast_flash_gc one_sector_state).2.g_manager_table.table_count = 0 ∧
    (fast_flash_gc one_sector_state).2.g_manager_table.used_size = 0 ∧
    (fast_flash_gc one_sector_state).2.g_manager_table.next_manager_addr = 692 ∧
    (fast_flash_gc one_sector_state).2.g_current_sector = 0 ∧
    (fast_flash_gc one_sector_state).2.g_current_offset = 1384 ∧
    fast_flash_table_exists (fast_flash_gc one_sector_state).2 name_T = false := by
  have h := gc_reset_without_empty_sector one_sector_state one_sector_state_ram.2.2.1
    one_sector_state_ram.2.2.2.1 one_sector_state_full one_sector_state_dev
  exact ⟨one_sector_state_ram.2.2.1, one_sector_state_ram.2.2.2.1, h.1, h.2.2.2.2.2.1,
    h.2.2.2.2.2.2.1, h.2.2.2.2.2.2.2.1, h.2.2.2.2.2.2.2.2.2.2.2.2.2.2.1,
    h.2.2.2.2.2.2.2.2.2.2.2.2.2.2.2.1, h.2.2.2.2.2.2.2.2.2.2.2.2.2.2.2.2 name_T⟩

/-- At `erasable_demo_state`: one Valid table of size 70 in sector 0 and sector 1 empty; the
collection returns 0 and the used size is 692 + 70. -/
theorem gc_used_size_of_demo_store :
    find_empty_sector erasable_demo_state = some 1 ∧
    (fast_flash_gc erasable_demo_state).1 = 0 ∧
    692 + ((collect_valid erasable_demo_state.g_manager_table).map (fun t => t.size)).sum
      ≤ 4096 ∧
    fast_flash_get_used_size (fast_flash_gc erasable_demo_state).2 = 692 + 70 := by
  have hA : find_empty_sector erasable_demo_state = some 1 := by decide!
  have h0 : (fast_flash_gc erasable_demo_state).1 = 0 :=
    (gc_single_fit erasable_demo_state 0 rfl rfl (by decide) (by decide!) hA (by decide!)
      (by decide!)).1
  have hfit : 692 + ((collect_valid erasable_demo_state.g_manager_table).map
      (fun t => t.size)).sum ≤ 4096 := by decide!
  have h := gc_used_size_when_fitting erasable_demo_state 1 hA h0 hfit
  refine ⟨hA, h0, hfit, ?_⟩
  rw [h.1, h.2]
  decide!

/-- C24 at `full_demo_state`: the table `"T"` of 4-byte records holds its one row and
`fast_flash_append_table_data("T", {5, 6, 7, 8}, 4)` finds it full; the record size is not 0,
the call returns non-zero and the in-RAM manager table and the cursor are those before the
call. -/
theorem rejected_call_keeps_ram_witness :
    early_defined full_demo_state (.append_checked name_T [5, 6, 7, 8] 4) ∧
    mutator_rejected full_demo_state (.append_checked name_T [5, 6, 7, 8] 4) ∧
    same_ram full_demo_state
      (mutator_step full_demo_state (.append_checked name_T [5, 6, 7, 8] 4)).2 ∧
    (mutator_step full_demo_state (.append_checked name_T [5, 6, 7, 8] 4)).1 ≠ 0 :=
  have hdef : early_defined full_demo_state (.append_checked name_T [5, 6, 7, 8] 4) :=
    Or.inr (by decide!)
  have hrej : mutator_rejected full_demo_state (.append_checked name_T [5, 6, 7, 8] 4) :=
    Or.inr (by decide!)
  ⟨hdef, hrej,
    (rejected_call_keeps_ram full_demo_state (.append_checked name_T [5, 6, 7, 8] 4) hdef
      (Or.inl hrej)).1,
    (rejected_call_keeps_ram full_demo_state (.append_checked name_T [5, 6, 7, 8] 4) hdef
      (Or.inl hrej)).2 hrej⟩

/-- C26 on the 65536-byte device after one create: a write of "T" is cut off after three
bytes were programmed at the cursor; `fast_flash_init` on that flash, from the globals of a
power-on, returns 0 and the table "T" exists as before. -/
theorem interrupted_mutation_invisible_witness :
    0 < WIN_FLASH_TOTAL_SIZE ∧
    run_calls (boot_with WIN_FLASH_TOTAL_SIZE) [api_call.create name_T 4 2] =
      some (api_step (boot_with WIN_FLASH_TOTAL_SIZE) (api_call.create name_T 4 2)).2 ∧
    (fast_flash_init
      { power_on with
        flash :=
          { flash_cache :=
              mem_write
                (api_step (boot_with WIN_FLASH_TOTAL_SIZE)
                  (api_call.create name_T 4 2)).2.flash.flash_cache
                (cursor_pos (api_step (boot_with WIN_FLASH_TOTAL_SIZE)
                  (api_call.create name_T 4 2)).2) [0, 0, 0]
            ops := [] } }
      WIN_FLASH_TOTAL_SIZE true).1 = 0 ∧
    fast_flash_table_exists
      (fast_flash_init
        { power_on with
          flash :=
            { flash_cache :=
                mem_write
                  (api_step (boot_with WIN_FLASH_TOTAL_SIZE)
                    (api_call.create name_T 4 2)).2.flash.flash_cache
                  (cursor_pos (api_step (boot_with WIN_FLASH_TOTAL_SIZE)
                    (api_call.create name_T 4 2)).2) [0, 0, 0]
              ops := [] } }
        WIN_FLASH_TOTAL_SIZE true).2 name_T =
      fast_flash_table_exists
        (api_step (boot_with WIN_FLASH_TOTAL_SIZE) (api_call.create name_T 4 2)).2 name_T :=
  have hpos : 0 < WIN_FLASH_TOTAL_SIZE := by decide!
  have hrun : run_calls (boot_with WIN_FLASH_TOTAL_SIZE) [api_call.create name_T 4 2] =
      some (api_step (boot_with WIN_FLASH_TOTAL_SIZE) (api_call.create name_T 4 2)).2 := by
    have h : (call_defined (boot_with WIN_FLASH_TOTAL_SIZE) (api_call.create name_T 4 2) &&
        decide ((api_step (boot_with WIN_FLASH_TOTAL_SIZE)
          (api_call.create name_T 4 2)).1 = 0)) = true := by decide!
    unfold run_calls
    rw [if_pos h]
    rfl
  have h := (interrupted_mutation_invisible WIN_FLASH_TOTAL_SIZE [api_call.create name_T 4 2]
    _ (api_call.append name_T [1, 2, 3, 4] 4) hpos (Nat.le_refl _) hrun).2.2
    { power_on with
      flash :=
        { flash_cache :=
            mem_write
              (api_step (boot_with WIN_FLASH_TOTAL_SIZE)
                (api_call.create name_T 4 2)).2.flash.flash_cache
              (cursor_pos (api_step (boot_with WIN_FLASH_TOTAL_SIZE)
                (api_call.create name_T 4 2)).2) [0, 0, 0]
          ops := [] } }
    true (fun x hx => mem_write_out _ _ _ _ (Or.inl hx))
  ⟨hpos, hrun, h.1, h.2.2.2.1 name_T⟩

/-- Three bytes at address 8 of a blank device. -/
theorem chunked_programming_witness :
    ([1, 2, 3] : List Byte).length = 3 ∧ 8 + 3 ≤ U32 ∧
    write_with_chunks blank_device 8 [1, 2, 3] 3 =
      issue_in_order blank_device (chunk_calls 8 [1, 2, 3] 3) :=
  ⟨rfl, by decide!, (chunked_programming blank_device 8 [1, 2, 3] 3 rfl (by decide!)).1⟩

/-- C33 on the 65536-byte device after a create and an append of the record `[1, 2, 3, 4]`:
the table "T" holds one row, and the CRC-32 of its four data bytes is the `data_crc` of its
header, so the data of "T" validates. -/
theorem data_crc_matches_witness :
    WIN_FLASH_TOTAL_SIZE ≤ WIN_FLASH_TOTAL_SIZE ∧
    run_calls (fast_flash_init power_on WIN_FLASH_TOTAL_SIZE false).2
      [api_call.create name_T 4 2, api_call.append name_T [1, 2, 3, 4] 4] =
      some (api_step (api_step (boot_with WIN_FLASH_TOTAL_SIZE) (api_call.create name_T 4 2)).2
        (api_call.append name_T [1, 2, 3, 4] 4)).2 ∧
    fast_flash_get_table_count
      (api_step (api_step (boot_with WIN_FLASH_TOTAL_SIZE) (api_call.create name_T 4 2)).2
        (api_call.append name_T [1, 2, 3, 4] 4)).2 name_T = 1 ∧
    fast_flash_validate_table_data
      (api_step (api_step (boot_with WIN_FLASH_TOTAL_SIZE) (api_call.create name_T 4 2)).2
        (api_call.append name_T [1, 2, 3, 4] 4)).2 name_T = 0 :=
  have h : (call_defined (boot_with WIN_FLASH_TOTAL_SIZE) (api_call.create name_T 4 2) &&
      decide ((api_step (boot_with WIN_FLASH_TOTAL_SIZE) (api_call.create name_T 4 2)).1 = 0))
        = true ∧
      (call_defined
          (api_step (boot_with WIN_FLASH_TOTAL_SIZE) (api_call.create name_T 4 2)).2
          (api_call.append name_T [1, 2, 3, 4] 4) &&
        decide ((api_step
          (api_step (boot_with WIN_FLASH_TOTAL_SIZE) (api_call.create name_T 4 2)).2
          (api_call.append name_T [1, 2, 3, 4] 4)).1 = 0)) = true ∧
      fast_flash_get_table_count
        (api_step (api_step (boot_with WIN_FLASH_TOTAL_SIZE) (api_call.create name_T 4 2)).2
          (api_call.append name_T [1, 2, 3, 4] 4)).2 name_T = 1 ∧
      0 ≤ find_table_index
        (api_step (api_step (boot_with WIN_FLASH_TOTAL_SIZE) (api_call.create name_T 4 2)).2
          (api_call.append name_T [1, 2, 3, 4] 4)).2 name_T := by
    decide!
  have hrun : run_calls (fast_flash_init power_on WIN_FLASH_TOTAL_SIZE false).2
      [api_call.create name_T 4 2, api_call.append name_T [1, 2, 3, 4] 4] =
      some (api_step (api_step (boot_with WIN_FLASH_TOTAL_SIZE) (api_call.create name_T 4 2)).2
        (api_call.append name_T [1, 2, 3, 4] 4)).2 := by
    rw [boot_with_init]
    unfold run_calls
    rw [if_pos h.1]
    unfold run_calls
    rw [if_pos h.2.1]
    rfl
  ⟨Nat.le_refl _, hrun, h.2.2.1,
    (data_crc_matches WIN_FLASH_TOTAL_SIZE false _ _ (Nat.le_refl _) hrun).2.2.2 name_T
      h.2.2.2⟩

/-! ## Inputs on which the original statements fail -/

/-- The store after init (erase allowed), create("T", 4, 10) and a gc, evaluated: the gc
returns 0 and the table "T" exists with 0 rows; an append of `[1, 2, 3, 4]` and a batch append
of the one record `[9, 9, 9, 9]` each return 0 and leave a count that is not 1. -/
theorem gc_state_empty :
    (fast_flash_gc (filled_state [])).1 = 0 ∧
    fast_flash_table_exists (gc_state []) name_T = true ∧
    fast_flash_get_table_count (gc_state []) name_T = 0 ∧
    ((fast_flash_write_table_data (gc_state []) name_T [1, 2, 3, 4] 4).1 = 0 ∧
      fast_flash_get_table_count
        (fast_flash_write_table_data (gc_state []) name_T [1, 2, 3, 4] 4).2 name_T ≠ 0 + 1) ∧
    (fast_flash_write_table_data_batch (gc_state []) name_T [9, 9, 9, 9] 4 1).1 = 0 ∧
    fast_flash_get_table_count
      (fast_flash_write_table_data_batch (gc_state []) name_T [9, 9, 9, 9] 4 1).2 name_T
        ≠ 0 + 1 := by
  decide!

/-- C1 counterexample: after init (erase allowed), create("T", 4, 10) and a gc that returns 0,
the table "T" exists with 0 rows; the append of `[1, 2, 3, 4]` returns 0, yet the count
afterwards is not 1. -/
theorem append_round_trip_counterexample :
    (fast_flash_gc (filled_state [])).1 = 0 ∧
    fast_flash_table_exists (gc_state []) name_T = true ∧
    fast_flash_get_table_count (gc_state []) name_T = 0 ∧
    (fast_flash_write_table_data (gc_state []) name_T [1, 2, 3, 4] 4).1 = 0 ∧
    fast_flash_get_table_count
      (fast_flash_write_table_data (gc_state []) name_T [1, 2, 3, 4] 4).2 name_T ≠ 0 + 1 :=
  ⟨gc_state_empty.1, gc_state_empty.2.1, gc_state_empty.2.2.1, gc_state_empty.2.2.2.1.1,
    gc_state_empty.2.2.2.1.2⟩

/-- The store after init (erase allowed), create("T", 4, 10), one append of `[1, 2, 3, 4]` and
a gc, evaluated: the calls return 0 and the gc runs Case A with sector 1 as the empty sector;
afterwards "T" is the only Valid table, it holds its one row (`data_len` 4) and its slot has
`size` 70, the used size is 762, and an overwrite of row 0 returns 0 but leaves the row
unreadable. -/
theorem gc_state_one_row :
    ((fast_flash_init power_on WIN_FLASH_TOTAL_SIZE true).1 = 0 ∧
      (fast_flash_create_table (boot true) name_T 4 10).1 = 0 ∧
      (fast_flash_write_table_data (fast_flash_create_table (boot true) name_T 4 10).2 name_T
        [1, 2, 3, 4] 4).1 = 0 ∧
      (filled_state [[1, 2, 3, 4]]).g_manager_loaded = true ∧
      (filled_state [[1, 2, 3, 4]]).g_allow_erase = true ∧
      find_empty_sector (filled_state [[1, 2, 3, 4]]) = some 1 ∧
      (fast_flash_gc (filled_state [[1, 2, 3, 4]])).1 = 0 ∧
      fast_flash_get_used_size (gc_state [[1, 2, 3, 4]]) = 762 ∧
      (List.range MAX_TABLES_ALL_SECTOR).filter (fun i =>
        decide ((slot_at (gc_state [[1, 2, 3, 4]]).g_manager_table i).status =
          TABLE_STATUS_VALID)) = [0] ∧
      (slot_at (gc_state [[1, 2, 3, 4]]).g_manager_table 0).size = 70 ∧
      slot_footprint (gc_state [[1, 2, 3, 4]]) 0 = 34 ∧
      slot_footprint (filled_state [[1, 2, 3, 4]]) 0 = 34) ∧
    (fast_flash_get_table_count (gc_state [[1, 2, 3, 4]]) name_T = 1 ∧
      (fast_flash_write_table_data_by_index (gc_state [[1, 2, 3, 4]]) name_T 0 [9, 9, 9, 9] 4).1
        = 0 ∧
      fast_flash_read_table_data
        (fast_flash_write_table_data_by_index (gc_state [[1, 2, 3, 4]]) name_T 0
          [9, 9, 9, 9] 4).2 name_T 0 4 ≠ (0, [9, 9, 9, 9]) ∧
      fast_flash_get_table_count
        (fast_flash_write_table_data_by_index (gc_state [[1, 2, 3, 4]]) name_T 0
          [9, 9, 9, 9] 4).2 name_T ≠ 1) := by
  decide!

/-- C5 counterexample: after a gc that returns 0 the table "T" holds the row `[1, 2, 3, 4]`; the
overwrite of row 0 with `[9, 9, 9, 9]` returns 0, yet row 0 cannot be read afterwards and the
count is no longer 1. -/
theorem overwrite_replaces_one_row_counterexample :
    (fast_flash_gc (filled_state [[1, 2, 3, 4]])).1 = 0 ∧
    fast_flash_get_table_count (gc_state [[1, 2, 3, 4]]) name_T = 1 ∧
    (fast_flash_write_table_data_by_index (gc_state [[1, 2, 3, 4]]) name_T 0 [9, 9, 9, 9] 4).1
      = 0 ∧
    fast_flash_read_table_data
      (fast_flash_write_table_data_by_index (gc_state [[1, 2, 3, 4]]) name_T 0
        [9, 9, 9, 9] 4).2 name_T 0 4 ≠ (0, [9, 9, 9, 9]) ∧
    fast_flash_get_table_count
      (fast_flash_write_table_data_by_index (gc_state [[1, 2, 3, 4]]) name_T 0
        [9, 9, 9, 9] 4).2 name_T ≠ 1 :=
  ⟨gc_state_one_row.1.2.2.2.2.2.2.1, gc_state_one_row.2.1, gc_state_one_row.2.2.1,
    gc_state_one_row.2.2.2.1, gc_state_one_row.2.2.2.2⟩

/-- C6 counterexample: after a gc that returns 0 the table "T" exists with 0 rows; the batch
append of the one record `[9, 9, 9, 9]` returns 0, yet the count afterwards is not 1. -/
theorem batch_equals_repeated_append_counterexample :
    (fast_flash_gc (filled_state [])).1 = 0 ∧
    fast_flash_table_exists (gc_state []) name_T = true ∧
    fast_flash_get_table_count (gc_state []) name_T = 0 ∧
    (fast_flash_write_table_data_batch (gc_state []) name_T [9, 9, 9, 9] 4 1).1 = 0 ∧
    fast_flash_get_table_count
      (fast_flash_write_table_data_batch (gc_state []) name_T [9, 9, 9, 9] 4 1).2 name_T
        ≠ 0 + 1 :=
  ⟨gc_state_empty.1, gc_state_empty.2.1, gc_state_empty.2.2.1, gc_state_empty.2.2.2.2.1,
    gc_state_empty.2.2.2.2.2⟩

/-- C7 counterexample: from a fresh init, create("ABCDEFG") and create("ABCDEFGH") both return 0
(the second is stored under the 7-character name as well); delete("ABCDEFG") returns 0, yet
"ABCDEFG" still exists. -/
theorem delete_removes_only_named_counterexample :
    (fast_flash_create_table (boot false) name_7 4 10).1 = 0 ∧
    (fast_flash_create_table (fast_flash_create_table (boot false) name_7 4 10).2
      name_8 4 10).1 = 0 ∧
    (fast_flash_delete_table
      (fast_flash_create_table (fast_flash_create_table (boot false) name_7 4 10).2
        name_8 4 10).2 name_7).1 = 0 ∧
    fast_flash_table_exists
      (fast_flash_delete_table
        (fast_flash_create_table (fast_flash_create_table (boot false) name_7 4 10).2
          name_8 4 10).2 name_7).2 name_7 = true := by
  decide!

/-- C8 counterexample: from a fresh init, create("ABCDEFGH", 4, 10) returns 0, yet
table_exists("ABCDEFGH") is false. -/
theorem created_table_visible_and_empty_counterexample :
    (fast_flash_create_table (boot false) name_8 4 10).1 = 0 ∧
    fast_flash_table_exists (fast_flash_create_table (boot false) name_8 4 10).2 name_8
      = false := by
  decide!

/-- C9 counterexample: from a fresh init, create("ABCDEFGH", 4, 10) returns 0 and a second
create("ABCDEFGH", 4, 10) returns 0 as well, changing the manager table. -/
theorem create_rejects_duplicate_counterexample :
    (fast_flash_create_table (boot false) name_8 4 10).1 = 0 ∧
    (fast_flash_create_table (fast_flash_create_table (boot false) name_8 4 10).2
      name_8 4 10).1 = 0 ∧
    (fast_flash_create_table (fast_flash_create_table (boot false) name_8 4 10).2
      name_8 4 10).2.g_manager_table.table_count = 2 := by
  decide!

/-- C10 counterexample: from a fresh init, create("T", 4, 2^30) returns 0 and the table holds
0 rows, fewer than 2^30; the capacity-checked append returns -2 although
`fast_flash_write_table_data` returns 0. -/
theorem append_checked_enforces_capacity_counterexample :
    (fast_flash_create_table (boot false) name_T 4 1073741824).1 = 0 ∧
    fast_flash_get_table_count
      (fast_flash_create_table (boot false) name_T 4 1073741824).2 name_T = 0 ∧
    (fast_flash_append_table_data
      (fast_flash_create_table (boot false) name_T 4 1073741824).2 name_T [1, 2, 3, 4] 4).1
      = -2 ∧
    (fast_flash_write_table_data
      (fast_flash_create_table (boot false) name_T 4 1073741824).2 name_T [1, 2, 3, 4] 4).1
      = 0 := by
  decide!

/-- C3 (code bug): from a fresh init with erase allowed, after create("T", 4, 850) and one append
the row `[1, 2, 3, 4]` reads back and sector 1 holds no Valid table (Case A); `fast_flash_gc`
returns 0, and afterwards row 0 of "T" cannot be read and the row count is no longer 1. -/
theorem gc_destroys_table :
    wide_state.g_allow_erase = true ∧
    find_empty_sector wide_state = some 1 ∧
    fast_flash_get_table_count wide_state name_T = 1 ∧
    fast_flash_read_table_data wide_state name_T 0 4 = (0, [1, 2, 3, 4]) ∧
    (fast_flash_gc wide_state).1 = 0 ∧
    fast_flash_table_exists (fast_flash_gc wide_state).2 name_T = true ∧
    fast_flash_get_table_count (fast_flash_gc wide_state).2 name_T ≠ 1 ∧
    (fast_flash_read_table_data (fast_flash_gc wide_state).2 name_T 0 4).1 ≠ 0 := by
  have hS : FLASH_SECTOR_SIZE = 4096 := by decide!
  have hM : SIZEOF_MANAGER = 692 := by decide!
  have hH : SIZEOF_HEADER = 30 := by decide!
  obtain ⟨⟨_, _, _, hl, he, honly, hA, haddr, hsize⟩, hcnt, hread, hidx⟩ := wide_state_facts
  obtain ⟨h0, _⟩ := gc_single_crossing wide_state 0 hl he (by decide)
    honly hA (by rw [haddr, hS]; decide) (by rw [hsize, hS, hM]; decide)
    (by rw [hsize, hS]; decide)
  obtain ⟨_, hex, hc, hr⟩ := gc_single_crossing_reads wide_state 0 name_T hl he (by decide)
    honly hA (by rw [haddr, hS]; decide) (by rw [hsize, hS, hM]; decide)
    (by rw [hsize, hS]; decide) hidx (by rw [hsize, hH]; decide)
  refine ⟨he, hA, hcnt, hread, h0, hex, ?_, ?_⟩
  · rw [hc]
    decide
  · rw [hr 0 4 (by decide)]
    decide

/-- C11 at the failing input: the table `"T"` of `demo_state` holds 1 row and has capacity 10;
a batch append of 4294967295 records is not rejected (1 + 4294967295 is 0 in 32 bits): the call
does not return -2 and the device is programmed. -/
theorem batch_capacity_check_wraps :
    fast_flash_get_table_count demo_state name_T = 1 ∧
    header_capacity (header_at demo_state 1384) = 10 ∧
    (fast_flash_write_table_data_batch demo_state name_T [] 4 4294967295).1 ≠ -2 ∧
    (fast_flash_write_table_data_batch demo_state name_T [] 4 4294967295).2.flash.ops ≠
      demo_state.flash.ops := by
  decide!

/-- C17 as stated fails for a total size of 0: the record at offset 0 of `zero_size_state`
validates, but `load_manager_table` does not read it; it erases sector 0 and adopts a fresh
record (total size 0), which is not the last record of the chain (total size 65536). -/
theorem discovery_zero_size_counterexample :
    validate_manager_table
      (parse_manager (mem_read zero_size_state.flash.flash_cache 0 SIZEOF_MANAGER)) = 0 ∧
    (load_manager_table zero_size_state).2.g_manager_table ≠
      (chain_last zero_size_state.flash zero_size_state.g_total_size
        zero_size_state.g_total_size 0
        (parse_manager (mem_read zero_size_state.flash.flash_cache 0 SIZEOF_MANAGER))).2 ∧
    chain_next zero_size_state.flash zero_size_state.g_total_size 0
      (parse_manager (mem_read zero_size_state.flash.flash_cache 0 SIZEOF_MANAGER)) = none ∧
    (load_manager_table zero_size_state).2.flash.ops ≠ zero_size_state.flash.ops := by
  have hW : WIN_FLASH_TOTAL_SIZE = 65536 := by decide!
  have hv : validate_manager_table
      (parse_manager (mem_read zero_size_state.flash.flash_cache 0 SIZEOF_MANAGER)) = 0 :=
    fresh_boot_valid
  have hl : load_manager_table zero_size_state = (0, fresh_state zero_size_state) :=
    load_manager_table_of_walk zero_size_state (load_walk_zero_size _ _ none rfl)
  have hm : parse_manager (mem_read zero_size_state.flash.flash_cache 0 SIZEOF_MANAGER) =
      fresh_boot.g_manager_table := by
    have h1 := fresh_state_record
      { power_on with g_total_size := WIN_FLASH_TOTAL_SIZE, g_allow_erase := false }
    have h2 : mem_read zero_size_state.flash.flash_cache 0 SIZEOF_MANAGER =
        manager_bytes fresh_boot.g_manager_table := h1
    rw [h2]
    exact parse_manager_bytes _ (wf_fresh _ (by decide!))
  refine ⟨hv, ?_, ?_, ?_⟩
  · rw [hl, hm]
    intro h
    have h3 := congrArg flash_manager_table_t.total_size h
    have h4 : (0 : Nat) = WIN_FLASH_TOTAL_SIZE := h3
    rw [hW] at h4
    exact absurd h4 (by decide)
  · unfold chain_next
    rw [if_neg]
    intro hc
    exact absurd hc.2.1 (Nat.not_lt_zero _)
  · rw [hl]
    intro h
    have h3 := congrArg List.length h
    have h4 : zero_size_state.flash.ops.length + 2 = zero_size_state.flash.ops.length := h3
    omega

/-- C27 fails for a cursor in the last sector of the 32-bit address space: with the cursor at
sector 1048575, offset 4000, an allocation of 200 bytes does not fit the sector, returns 0 and
gives the address 0, which is below the old free address and is not the next sector
boundary. -/
theorem allocation_wraps_counterexample :
    top_cursor_state.g_current_offset < FLASH_SECTOR_SIZE ∧
    1 ≤ 200 ∧ 200 ≤ FLASH_SECTOR_SIZE ∧
    FLASH_SECTOR_SIZE < top_cursor_state.g_current_offset + 200 ∧
    (allocate_table_space top_cursor_state 200).1 = 0 ∧
    (allocate_table_space top_cursor_state 200).2.1 = 0 ∧
    ¬ (top_cursor_state.g_current_sector * FLASH_SECTOR_SIZE + top_cursor_state.g_current_offset
      ≤ (allocate_table_space top_cursor_state 200).2.1) ∧
    (allocate_table_space top_cursor_state 200).2.1 ≠
      (top_cursor_state.g_current_sector + 1) * FLASH_SECTOR_SIZE := by
  decide!

/-- C28 at the failing input: after `fast_flash_init(&win_flash_ops, 1400, false)` on a blank
device the allocation of the 30 header bytes that `fast_flash_create_table` asks for returns 0
with the address 1384, although `1384 + 30 > 1400`, and moves the cursor to 1414. -/
theorem allocate_ignores_total_size :
    fast_flash_init power_on 1400 false = (0, small_boot) ∧
    small_boot.g_total_size = 1400 ∧
    (allocate_table_space small_boot SIZEOF_HEADER).1 = 0 ∧
    (allocate_table_space small_boot SIZEOF_HEADER).2.1 = 1384 ∧
    small_boot.g_total_size < (allocate_table_space small_boot SIZEOF_HEADER).2.1 + SIZEOF_HEADER ∧
    cursor_pos (allocate_table_space small_boot SIZEOF_HEADER).2.2 = 1414 :=
  ⟨small_boot_init, rfl, by decide!, by decide!, by decide!, by decide!⟩

/-- C25 fails as stated: in the state after `fast_flash_init(&win_flash_ops, 1400, false)` on
a blank device the manager is loaded, the target 692 is valid and the next reservation
`1384 + 692` ends beyond the total size; `save_manager_table` returns -1, not -2. -/
theorem commit_out_of_space_counterexample :
    small_boot.g_manager_loaded = true ∧
    small_boot.g_manager_table.next_manager_addr ≠ 0 ∧
    small_boot.g_manager_table.next_manager_addr < small_boot.g_total_size ∧
    next_reservation (cursor_addr small_boot) + SIZEOF_MANAGER > small_boot.g_total_size ∧
    (save_manager_table small_boot).1 ≠ -2 := by
  decide!

/-- C29 fails for a cursor in the last sector of the 32-bit address space: in a loaded state
with the valid target 692 and the cursor at `p = 4294967200`, `save_manager_table` returns 0
although the next sector boundary above `p` is 2^32, beyond the total size; the in-RAM
`next_manager_addr` becomes 0 and the cursor 692. -/
theorem commit_wraps_counterexample :
    top_cursor_state.g_manager_loaded = true ∧
    top_cursor_state.g_manager_table.next_manager_addr = 692 ∧
    top_cursor_state.g_total_size = 65536 ∧
    cursor_addr top_cursor_state = 4294967200 ∧
    FLASH_SECTOR_SIZE - cursor_addr top_cursor_state % FLASH_SECTOR_SIZE < SIZEOF_MANAGER ∧
    next_reservation (cursor_addr top_cursor_state) = 4294967296 ∧
    (save_manager_table top_cursor_state).1 = 0 ∧
    (save_manager_table top_cursor_state).2.g_manager_table.next_manager_addr = 0 ∧
    cursor_pos (save_manager_table top_cursor_state).2 = 692 := by
  decide!

/-- The used size when a table is moved to the next sector: in `wide_state` (init with erase
allowed, create("T", 4, 850), one
append) sector 1 is empty; `fast_flash_gc` returns 0 and the only Valid slot has size 3430, but
the used size is 7526, not 692 + 3430. -/
theorem gc_used_size_after_sector_skip :
    wide_state.g_manager_loaded = true ∧ wide_state.g_allow_erase = true ∧
    find_empty_sector wide_state = some 1 ∧
    (fast_flash_gc wide_state).1 = 0 ∧
    fast_flash_get_used_size (fast_flash_gc wide_state).2 = 7526 ∧
    (collect_valid (fast_flash_gc wide_state).2.g_manager_table).map (fun t => t.size) =
      [3430] ∧
    fast_flash_get_used_size (fast_flash_gc wide_state).2 ≠
      692 + ((collect_valid (fast_flash_gc wide_state).2.g_manager_table).map
        (fun t => t.size)).sum := by
  obtain ⟨_, _, _, hl, he, _, hA, _, _⟩ := wide_state_ram
  obtain ⟨h0, hl1, hu, _, hc⟩ := wide_state_gc
  have hused : fast_flash_get_used_size (fast_flash_gc wide_state).2 = 7526 := by
    unfold fast_flash_get_used_size
    rw [hl1, if_pos rfl, hu]
  refine ⟨hl, he, hA, h0, hused, hc, ?_⟩
  rw [hused, hc]
  decide

/-- C22 at the failing input: after `fast_flash_init(&win_flash_ops, 4096, true)` on a blank
device and `fast_flash_create_table("T", 4, 10)`, both of which return 0, two calls of
`fast_flash_gc` in a row return 0; the first leaves `used_size` 0 and the cursor at offset
1384, the second leaves `used_size` 692 and the cursor at offset 692, the address recorded as
`next_manager_addr`. -/
theorem gc_second_call_differs :
    (fast_flash_init power_on FLASH_SECTOR_SIZE true).1 = 0 ∧
    (fast_flash_create_table (fast_flash_init power_on FLASH_SECTOR_SIZE true).2 name_T 4 10).1
      = 0 ∧
    (fast_flash_gc one_sector_state).1 = 0 ∧
    (fast_flash_gc (fast_flash_gc one_sector_state).2).1 = 0 ∧
    (fast_flash_gc one_sector_state).2.g_manager_table.used_size = 0 ∧
    (fast_flash_gc (fast_flash_gc one_sector_state).2).2.g_manager_table.used_size = 692 ∧
    (fast_flash_gc one_sector_state).2.g_current_offset = 1384 ∧
    (fast_flash_gc (fast_flash_gc one_sector_state).2).2.g_current_offset = 692 ∧
    (fast_flash_gc (fast_flash_gc one_sector_state).2).2.g_manager_table.next_manager_addr
      = 692 := by
  have hr := one_sector_state_ram
  have h := gc_twice_after_reset one_sector_state hr.2.2.1 hr.2.2.2.1
    (find_empty_sector_none _ one_sector_state_full) (by rw [hr.2.2.2.2.1])
  exact ⟨hr.1, hr.2.1, h.1, h.2.1, h.2.2.1, h.2.2.2.1.trans (by decide!),
    h.2.2.2.2.2.2.2.2.1.trans (by decide!), h.2.2.2.2.2.2.2.2.2.trans (by decide!),
    h.2.2.2.2.2.1.trans (by decide!)⟩

/-- C30 at the failing input: after `fast_flash_init(&win_flash_ops, 65536, true)` on a blank
device, `fast_flash_create_table("T", 4, 850)` and one `fast_flash_write_table_data`, all of
which return 0, `fast_flash_gc` returns 0 and leaves `next_manager_addr` 7526: the reserved
range [7526, 8218) starts in sector 1 and ends in sector 2. -/
theorem gc_reservation_crosses_sector :
    (fast_flash_init power_on WIN_FLASH_TOTAL_SIZE true).1 = 0 ∧
    (fast_flash_create_table (boot true) name_T 4 850).1 = 0 ∧
    (fast_flash_write_table_data (fast_flash_create_table (boot true) name_T 4 850).2 name_T
      [1, 2, 3, 4] 4).1 = 0 ∧
    (fast_flash_gc wide_state).1 = 0 ∧
    (fast_flash_gc wide_state).2.g_manager_table.next_manager_addr = 7526 ∧
    (fast_flash_gc wide_state).2.g_manager_table.next_manager_addr / FLASH_SECTOR_SIZE = 1 ∧
    ((fast_flash_gc wide_state).2.g_manager_table.next_manager_addr + SIZEOF_MANAGER - 1) /
      FLASH_SECTOR_SIZE = 2 := by
  obtain ⟨hi, hc, hw, _, _, _, _, _, _⟩ := wide_state_ram
  obtain ⟨h0, _, _, hn, _⟩ := wide_state_gc
  refine ⟨hi, hc, hw, h0, hn, ?_, ?_⟩
  · rw [hn]; decide!
  · rw [hn]; decide!

/-- C24 counterexample: in `small_boot` (a store of 1400 bytes after init)
`fast_flash_create_table("T", 4, 10)` stages the header and the slot and then fails in the
commit, which has no room: it returns -1, and afterwards slot 0 is Valid, `table_count` is 1
and the cursor is at offset 1414 where it was at 1384 with no table. -/
theorem failed_create_keeps_staging_counterexample :
    small_boot.g_manager_loaded = true ∧
    (fast_flash_create_table small_boot name_T 4 10).1 = -1 ∧
    small_boot.g_manager_table.table_count = 0 ∧
    (fast_flash_create_table small_boot name_T 4 10).2.g_manager_table.table_count = 1 ∧
    (slot_at small_boot.g_manager_table 0).status = TABLE_STATUS_INVALID ∧
    (slot_at (fast_flash_create_table small_boot name_T 4 10).2.g_manager_table 0).status =
      TABLE_STATUS_VALID ∧
    small_boot.g_current_offset = 1384 ∧
    (fast_flash_create_table small_boot name_T 4 10).2.g_current_offset = 1414 ∧
    ¬ same_ram small_boot (fast_flash_create_table small_boot name_T 4 10).2 := by
  have h : small_boot.g_manager_loaded = true ∧
      (fast_flash_create_table small_boot name_T 4 10).1 = -1 ∧
      small_boot.g_manager_table.table_count = 0 ∧
      (fast_flash_create_table small_boot name_T 4 10).2.g_manager_table.table_count = 1 ∧
      (slot_at small_boot.g_manager_table 0).status = TABLE_STATUS_INVALID ∧
      (slot_at (fast_flash_create_table small_boot name_T 4 10).2.g_manager_table 0).status =
        TABLE_STATUS_VALID ∧
      small_boot.g_current_offset = 1384 ∧
      (fast_flash_create_table small_boot name_T 4 10).2.g_current_offset = 1414 := by
    decide!
  obtain ⟨h1, h2, h3, h4, h5, h6, h7, h8⟩ := h
  refine ⟨h1, h2, h3, h4, h5, h6, h7, h8, fun hs => ?_⟩
  have := hs.2.2
  rw [h7, h8] at this
  exact absurd this (by decide)

/-- C26 counterexample: after `fast_flash_init(&win_flash_ops, 2200, false)` on a blank device
and a `fast_flash_create_table("T", 4, 10)` that returns 0, `fast_flash_delete_table("T")`
returns -1 from its commit, which has no room, and leaves "T" deleted in the in-RAM manager.
In the state so reached, with the flash as it is (a mutation cut off before its first program
call), `fast_flash_init` returns 0 and adopts the record on flash, not the in-RAM manager: "T"
exists again. -/
theorem interrupted_after_failed_call_counterexample :
    fast_flash_init power_on 2200 false = (0, boot_with 2200) ∧
    (fast_flash_create_table (boot_with 2200) name_T 4 10).1 = 0 ∧
    (fast_flash_delete_table (fast_flash_create_table (boot_with 2200) name_T 4 10).2
      name_T).1 = -1 ∧
    fast_flash_table_exists
      (fast_flash_delete_table (fast_flash_create_table (boot_with 2200) name_T 4 10).2
        name_T).2 name_T = false ∧
    (fast_flash_init
      (fast_flash_delete_table (fast_flash_create_table (boot_with 2200) name_T 4 10).2
        name_T).2 2200 false).1 = 0 ∧
    fast_flash_table_exists
      (fast_flash_init
        (fast_flash_delete_table (fast_flash_create_table (boot_with 2200) name_T 4 10).2
          name_T).2 2200 false).2 name_T = true := by
  have hram : (fast_flash_create_table (boot_with 2200) name_T 4 10).1 = 0 ∧
      (fast_flash_create_table (boot_with 2200) name_T 4 10).2.g_manager_loaded = true ∧
      ¬ find_table_index (fast_flash_create_table (boot_with 2200) name_T 4 10).2 name_T < 0 ∧
      next_reservation
        (cursor_addr (fast_flash_create_table (boot_with 2200) name_T 4 10).2) % U32 +
        SIZEOF_MANAGER > (fast_flash_create_table (boot_with 2200) name_T 4 10).2.g_total_size ∧
      fast_flash_table_exists
        (fast_flash_delete_table (fast_flash_create_table (boot_with 2200) name_T 4 10).2
          name_T).2 name_T = false ∧
      fast_flash_table_exists (fast_flash_create_table (boot_with 2200) name_T 4 10).2 name_T
        = true := by
    decide!
  obtain ⟨h0, hl, hf, hfull, hbad, hgood⟩ := hram
  have hrun : run_calls (boot_with 2200) [api_call.create name_T 4 10] =
      some (fast_flash_create_table (boot_with 2200) name_T 4 10).2 := by
    have h : (call_defined (boot_with 2200) (api_call.create name_T 4 10) &&
        decide ((api_step (boot_with 2200) (api_call.create name_T 4 10)).1 = 0)) = true := by
      simp only [call_defined, Bool.true_and, decide_eq_true_eq]
      exact h0
    unfold run_calls
    rw [if_pos h]
    rfl
  obtain ⟨hc, hp, ht⟩ := run_calls_persisted _ _ _
    (boot_with_consistent 2200 (by decide!)) (boot_with_persisted 2200 (by decide) (by decide!))
    hrun
  have ht' : (fast_flash_create_table (boot_with 2200) name_T 4 10).2.g_total_size = 2200 := ht
  obtain ⟨hd1, hd2⟩ := delete_no_space _ name_T hl hf hfull
  have h := reinit_after_cut (fast_flash_create_table (boot_with 2200) name_T 4 10).2
    (fast_flash_delete_table (fast_flash_create_table (boot_with 2200) name_T 4 10).2
      name_T).2 false hc hp (fun x _ => by rw [hd2])
  rw [ht'] at h
  exact ⟨boot_with_init 2200, h0, hd1, hbad, h.1, (h.2.2.2.1 name_T).trans hgood⟩

/-- C31 at the failing input: after `fast_flash_init(&win_flash_ops, 65536, true)` on a blank
device, `fast_flash_create_table("T", 4, 850)` and one `fast_flash_write_table_data`, all of
which return 0, the Valid slot of "T" has `addr` 2106 and `size` 3430: the range
`[addr, addr + size)` starts in sector 0 and ends in sector 1. -/
theorem valid_slot_crosses_sector :
    (fast_flash_init power_on WIN_FLASH_TOTAL_SIZE true).1 = 0 ∧
    (fast_flash_create_table (boot true) name_T 4 850).1 = 0 ∧
    (fast_flash_write_table_data (fast_flash_create_table (boot true) name_T 4 850).2 name_T
      [1, 2, 3, 4] 4).1 = 0 ∧
    (slot_at wide_state.g_manager_table 0).status = TABLE_STATUS_VALID ∧
    (slot_at wide_state.g_manager_table 0).addr = 2106 ∧
    (slot_at wide_state.g_manager_table 0).size = 3430 ∧
    (slot_at wide_state.g_manager_table 0).addr / FLASH_SECTOR_SIZE = 0 ∧
    ((slot_at wide_state.g_manager_table 0).addr + (slot_at wide_state.g_manager_table 0).size
      - 1) / FLASH_SECTOR_SIZE = 1 := by
  obtain ⟨h1, h2, h3, _, _, honly, _, ha, hs⟩ := wide_state_ram
  refine ⟨h1, h2, h3, (honly 0 (by decide)).mpr rfl, ha, hs, ?_, ?_⟩
  · rw [ha]; decide!
  · rw [ha, hs]; decide!

/-- C35 at the failing input: after `fast_flash_init(&win_flash_ops, 65536, true)` on a blank
device, `fast_flash_create_table("T", 4, 10)` and `fast_flash_delete_table("T")`, all of which
return 0, slot 0 is Deleted and sector 0 is empty; `fast_flash_gc` returns 0 (Case A) and
slot 0 is still Deleted, not Invalid: `find_free_table_slot` passes it over and gives
slot 1. -/
theorem gc_keeps_deleted_slot :
    (fast_flash_init power_on WIN_FLASH_TOTAL_SIZE true).1 = 0 ∧
    (fast_flash_create_table (boot true) name_T 4 10).1 = 0 ∧
    (fast_flash_delete_table (fast_flash_create_table (boot true) name_T 4 10).2 name_T).1 = 0 ∧
    (slot_at deleted_state.g_manager_table 0).status = TABLE_STATUS_DELETED ∧
    find_empty_sector deleted_state = some 0 ∧
    (fast_flash_gc deleted_state).1 = 0 ∧
    (slot_at (fast_flash_gc deleted_state).2.g_manager_table 0).status = TABLE_STATUS_DELETED ∧
    (slot_at (fast_flash_gc deleted_state).2.g_manager_table 0).status ≠ TABLE_STATUS_INVALID ∧
    find_free_table_slot (fast_flash_gc deleted_state).2 = 1 := by
  obtain ⟨h1, h2, h3, hl, he, ht, hnone, hdel, hfree⟩ := deleted_state_ram
  have hn : FLASH_SECTOR_SIZE ≤ deleted_state.g_total_size := by rw [ht]; decide!
  obtain ⟨g0, _, _, _, gt, _, _⟩ := gc_empty_store deleted_state hl he hn hnone
  have hslot : slot_at (fast_flash_gc deleted_state).2.g_manager_table 0 =
      slot_at deleted_state.g_manager_table 0 := by
    unfold slot_at
    rw [gt]
  refine ⟨h1, h2, h3, hdel, find_empty_sector_zero deleted_state hn hnone, g0, ?_, ?_, ?_⟩
  · rw [hslot]; exact hdel
  · rw [hslot, hdel]; decide
  · rw [find_free_table_slot_congr _ _ gt]; exact hfree

/-- C39 at the failing input: after `fast_flash_init(&win_flash_ops, 65536, false)` on a blank
device, `fast_flash_create_table("T", 0, 10)` returns 0 and stores a header with
`struct_size` 0.  For a call with `size` 0 every check that precedes the division passes: the
manager is loaded, the name resolves, the header is read, `size` equals `header.struct_size`,
and the allocation that `fast_flash_write_table_data` makes before it divides returns 0; the
divisor `header.struct_size` is 0. -/
theorem division_by_zero_struct_size :
    (fast_flash_init power_on WIN_FLASH_TOTAL_SIZE false).1 = 0 ∧
    (fast_flash_create_table (boot false) name_T 0 10).1 = 0 ∧
    zero_struct_state.g_manager_loaded = true ∧
    0 ≤ find_table_index zero_struct_state name_T ∧
    (read_header zero_struct_state name_T).1 = 0 ∧
    (0 : Nat) = (read_header zero_struct_state name_T).2.struct_size ∧
    (allocate_table_space zero_struct_state
      ((SIZEOF_HEADER + ((read_header zero_struct_state name_T).2.data_len + 0) % U32) % U32)).1
      = 0 ∧
    ¬ rejected zero_struct_state (.append name_T [] 0) ∧
    (read_header zero_struct_state name_T).2.struct_size = 0 := by
  have h : (fast_flash_init power_on WIN_FLASH_TOTAL_SIZE false).1 = 0 ∧
      (fast_flash_create_table (boot false) name_T 0 10).1 = 0 ∧
      zero_struct_state.g_manager_loaded = true ∧
      0 ≤ find_table_index zero_struct_state name_T ∧
      (read_header zero_struct_state name_T).1 = 0 ∧
      (0 : Nat) = (read_header zero_struct_state name_T).2.struct_size ∧
      (allocate_table_space zero_struct_state
        ((SIZEOF_HEADER + ((read_header zero_struct_state name_T).2.data_len + 0) % U32)
          % U32)).1 = 0 := by
    decide!
  obtain ⟨h1, h2, h3, h4, h5, h6, h7⟩ := h
  refine ⟨h1, h2, h3, h4, h5, h6, h7, ?_, h6.symm⟩
  intro hr
  rcases hr with hr | hr | hr | hr
  · rw [h3] at hr; exact absurd hr (by decide)
  · omega
  · exact hr h5
  · exact hr h6

/-- C40 at the failing input: `fast_flash_init(&win_flash_ops, 65536, true)` on a blank device
returns 0; `fast_flash_gc` then finds sector 0 empty (Case A), returns 0 and leaves
`next_manager_addr` 692 and the cursor at sector 0, offset 692: the cursor address is the
start of the slot reserved for the next manager record, not its end. -/
theorem gc_cursor_on_reserved_slot :
    (fast_flash_init power_on WIN_FLASH_TOTAL_SIZE true).1 = 0 ∧
    find_empty_sector (fast_flash_init power_on WIN_FLASH_TOTAL_SIZE true).2 = some 0 ∧
    (fast_flash_gc (fast_flash_init power_on WIN_FLASH_TOTAL_SIZE true).2).1 = 0 ∧
    (fast_flash_gc (fast_flash_init power_on WIN_FLASH_TOTAL_SIZE true).2).2.g_manager_table.next_manager_addr
      = 692 ∧
    cursor_pos (fast_flash_gc (fast_flash_init power_on WIN_FLASH_TOTAL_SIZE true).2).2 = 692 ∧
    cursor_pos (fast_flash_gc (fast_flash_init power_on WIN_FLASH_TOTAL_SIZE true).2).2 <
      (fast_flash_gc (fast_flash_init power_on WIN_FLASH_TOTAL_SIZE true).2).2.g_manager_table.next_manager_addr
        + SIZEOF_MANAGER := by
  have hS : FLASH_SECTOR_SIZE = 4096 := by decide!
  have hM : SIZEOF_MANAGER = 692 := by decide!
  have hW : WIN_FLASH_TOTAL_SIZE = 65536 := by decide!
  obtain ⟨S, hinit, hl, he, ht, hslots⟩ : ∃ S,
      fast_flash_init power_on WIN_FLASH_TOTAL_SIZE true = (0, S) ∧
      S.g_manager_loaded = true ∧ S.g_allow_erase = true ∧
      S.g_total_size = WIN_FLASH_TOTAL_SIZE ∧
      ∀ i, slot_at S.g_manager_table i = zero_info :=
    ⟨_, fast_flash_init_fresh power_on WIN_FLASH_TOTAL_SIZE true blank_invalid, rfl, rfl, rfl,
      fun i => slot_at_fresh _ _ i⟩
  rw [hinit]
  have hn : FLASH_SECTOR_SIZE ≤ S.g_total_size := by rw [ht]; omega
  have hnone : ∀ i, i < MAX_TABLES_ALL_SECTOR →
      (slot_at S.g_manager_table i).status ≠ TABLE_STATUS_VALID := by
    intro i _
    rw [hslots]
    decide
  obtain ⟨g0, _, _, gn, _, gs, go⟩ := gc_empty_store S hl he hn hnone
  have hcur : cursor_pos (fast_flash_gc S).2 = 692 := by
    unfold cursor_pos
    rw [gs, go, hM, hS]
  refine ⟨rfl, find_empty_sector_zero S hn hnone, g0, by rw [gn, hM], hcur, ?_⟩
  rw [hcur, gn, hM]
  decide

/-- C32 at the failing input: after `fast_flash_init(&win_flash_ops, 65536, false)` on a blank
device, `fast_flash_create_table("T", 7, 1227133513)` (the stored `table_size` is
`30 + 7 * 1227133513` reduced modulo 2^32, which is 29) and
`fast_flash_write_table_data_batch("T", {1, 2}, 7, 1840700270)` (the byte count
`7 * 1840700270` reduced modulo 2^32 is 2), all of which return 0, the header of the Valid
table "T" has `struct_size` 7, `struct_nums` 0 and `data_len` 2. -/
theorem batch_breaks_header_accounting :
    (fast_flash_init power_on WIN_FLASH_TOTAL_SIZE false).1 = 0 ∧
    (fast_flash_create_table (boot false) name_T 7 1227133513).1 = 0 ∧
    (fast_flash_write_table_data_batch (fast_flash_create_table (boot false) name_T 7 1227133513).2
      name_T [1, 2] 7 1840700270).1 = 0 ∧
    (slot_at wrapped_batch_state.g_manager_table 0).status = TABLE_STATUS_VALID ∧
    (header_at wrapped_batch_state (slot_at wrapped_batch_state.g_manager_table 0).addr).struct_size
      = 7 ∧
    (header_at wrapped_batch_state (slot_at wrapped_batch_state.g_manager_table 0).addr).struct_nums
      = 0 ∧
    (header_at wrapped_batch_state (slot_at wrapped_batch_state.g_manager_table 0).addr).data_len
      = 2 ∧
    (header_at wrapped_batch_state (slot_at wrapped_batch_state.g_manager_table 0).addr).table_size
      = 29 := by
  decide!

/-- C37 at the failing input: after `fast_flash_init(&win_flash_ops, 65536, false)` on a blank
device and `fast_flash_create_table("T", 4294967267, 1)` (both return 0), the call
`fast_flash_write_table_data("T", d, 4294967267)` asks the allocator for
`(30 + 4294967267) mod 2^32 = 1` byte, programs its 30-byte header at 2106 and returns -1
when its data write reaches the end of the device, whatever the bytes `d` of the record are.
The cursor is left at 2107, where the flash now holds 0x05, the second byte of that header.
The next allocation returns 2107: `fast_flash_create_table("U", 4, 10)` issues the driver
write of its header at 2107, the NOR rule stops it at the first byte, and the call
returns -1. -/
theorem programmed_byte_behind_cursor (d : List Byte) :
    (fast_flash_init power_on WIN_FLASH_TOTAL_SIZE false).1 = 0 ∧
    (fast_flash_create_table (boot false) name_T 4294967267 1).1 = 0 ∧
    (SIZEOF_HEADER + 4294967267) % U32 = 1 ∧
    (fast_flash_write_table_data huge_record_state name_T d 4294967267).1 = -1 ∧
    cursor_pos (fast_flash_write_table_data huge_record_state name_T d 4294967267).2 = 2107 ∧
    (fast_flash_write_table_data huge_record_state name_T d 4294967267).2.flash.flash_cache 2107 = 0x05 ∧
    (allocate_table_space (fast_flash_write_table_data huge_record_state name_T d 4294967267).2 SIZEOF_HEADER).1 = 0 ∧
    (allocate_table_space (fast_flash_write_table_data huge_record_state name_T d 4294967267).2 SIZEOF_HEADER).2.1 = 2107 ∧
    nor_run (fast_flash_write_table_data huge_record_state name_T d 4294967267).2.flash.flash_cache 2107
      (header_bytes (new_header name_U 4 10)) = 0 ∧
    (fast_flash_create_table (fast_flash_write_table_data huge_record_state name_T d 4294967267).2 name_U 4 10).1 = -1 ∧
    (fast_flash_create_table (fast_flash_write_table_data huge_record_state name_T d 4294967267).2 name_U 4 10).2.flash.ops =
      flash_op.write 2107 (header_bytes (new_header name_U 4 10)) ::
        (fast_flash_write_table_data huge_record_state name_T d 4294967267).2.flash.ops :=
  ⟨huge_record_state_ram.1, huge_record_state_ram.2.1, by decide!, overrun_facts d⟩

/-- C4 at the failing input: after `fast_flash_init(&win_flash_ops, 65536, false)` on a blank
device, `fast_flash_create_table("T", 1, 100)` and a batch write of the 65 one-byte records
`0, ..., 64`, all of which return 0, the table holds 65 rows and row 64 reads back.  The mask 1
is non-zero and its only set bit lies below `min(64, 65)`; `fast_flash_clear_table_data("T", 1)`
returns 0.  Its copy loop runs over the indices 0 to 64 and tests row 64 against `1ULL << 64`,
which the processor evaluates as `1ULL << 0`: the row count afterwards is 63 and not
`65 - popcount(1) = 64`, the last row is the old row 63, and the old row 64 is gone. -/
theorem clear_drops_row_64 :
    (fast_flash_init power_on WIN_FLASH_TOTAL_SIZE false).1 = 0 ∧
    (fast_flash_create_table (boot false) name_T 1 100).1 = 0 ∧
    (fast_flash_write_table_data_batch (fast_flash_create_table (boot false) name_T 1 100).2
      name_T rows_65 1 65).1 = 0 ∧
    fast_flash_get_table_count long_table_state name_T = 65 ∧
    fast_flash_read_table_data long_table_state name_T 64 1 = (0, [64]) ∧
    (1 : Nat) ≠ 0 ∧ 1 < 2 ^ min 64 65 ∧
    (fast_flash_clear_table_data long_table_state name_T 1).1 = 0 ∧
    fast_flash_get_table_count (fast_flash_clear_table_data long_table_state name_T 1).2 name_T
      = 63 ∧
    65 - popcount 1 = 64 ∧
    fast_flash_read_table_data (fast_flash_clear_table_data long_table_state name_T 1).2
      name_T 0 1 = (0, [1]) ∧
    fast_flash_read_table_data (fast_flash_clear_table_data long_table_state name_T 1).2
      name_T 62 1 = (0, [63]) ∧
    (fast_flash_read_table_data (fast_flash_clear_table_data long_table_state name_T 1).2
      name_T 63 1).1 ≠ 0 := by
  decide!

/-- C23 at the failing input: after `fast_flash_init(&win_flash_ops, 65536, true)` on a blank
device, `fast_flash_create_table("T", 4, 10)` and one `fast_flash_write_table_data` of the
record `[1, 2, 3, 4]`, all of which return 0, `fast_flash_gc` finds sector 1 empty (Case A) and
returns 0.  Afterwards slot 0 is the only Valid slot and the footprint of its table, header and
data, is `30 + 4 = 34` bytes as before the collection, but `fast_flash_get_used_size()` is 762,
which is 692 plus the `size` field 70 of the slot (the `table_size` of the header), and not
`692 + 34 = 726`. -/
theorem gc_used_size_counts_table_size :
    (fast_flash_init power_on WIN_FLASH_TOTAL_SIZE true).1 = 0 ∧
    (fast_flash_create_table (boot true) name_T 4 10).1 = 0 ∧
    (fast_flash_write_table_data (fast_flash_create_table (boot true) name_T 4 10).2 name_T
      [1, 2, 3, 4] 4).1 = 0 ∧
    (filled_state [[1, 2, 3, 4]]).g_manager_loaded = true ∧
    (filled_state [[1, 2, 3, 4]]).g_allow_erase = true ∧
    find_empty_sector (filled_state [[1, 2, 3, 4]]) = some 1 ∧
    (fast_flash_gc (filled_state [[1, 2, 3, 4]])).1 = 0 ∧
    fast_flash_get_used_size (gc_state [[1, 2, 3, 4]]) = 762 ∧
    (List.range MAX_TABLES_ALL_SECTOR).filter (fun i =>
      decide ((slot_at (gc_state [[1, 2, 3, 4]]).g_manager_table i).status =
        TABLE_STATUS_VALID)) = [0] ∧
    (slot_at (gc_state [[1, 2, 3, 4]]).g_manager_table 0).size = 70 ∧
    slot_footprint (gc_state [[1, 2, 3, 4]]) 0 = 34 ∧
    slot_footprint (filled_state [[1, 2, 3, 4]]) 0 = 34 ∧
    fast_flash_get_used_size (gc_state [[1, 2, 3, 4]]) ≠
      SIZEOF_MANAGER + slot_footprint (gc_state [[1, 2, 3, 4]]) 0 := by
  obtain ⟨h1, h2, h3, h4, h5, h6, h7, h8, h9, h10, h11, h12⟩ := gc_state_one_row.1
  refine ⟨h1, h2, h3, h4, h5, h6, h7, h8, h9, h10, h11, h12, ?_⟩
  rw [h8, h11]
  decide!

/-- C34 at the failing input: after `fast_flash_init(&win_flash_ops, 65536, false)` on a blank
device and `fast_flash_create_table("T", 4294967267, 1)` (both return 0, the state is
`huge_record_state`), `fast_flash_write_table_data("T", forged_buffer, 4294967267)` returns -1
after it has programmed the buffer behind the one byte the allocator gave it (C37), so that the
image of `forged_record` lies at 2167.  `fast_flash_create_table("U", 4, 10)` fails once on the
programmed byte at the cursor; called again it returns 0, and its commit records 2167 as the
address of the next manager record.  `fast_flash_init` on that store returns 0: it follows the
chain of records to 2167 and adopts the record found there, so that `table_count` is 1 while
no slot is Valid.  The file the driver reloads at that point holds these bytes: the two driver
calls that were refused in the trace (the chunk beyond the end of the device, and the header
whose first byte `0x31` does not fit the `0x05` at 2107) stored nothing, and every other call
after the first erase is a program call that returned 0 and wrote the cache to the file. -/
theorem reinit_adopts_forged_record :
    (fast_flash_init power_on WIN_FLASH_TOTAL_SIZE false).1 = 0 ∧
    (fast_flash_create_table (boot false) name_T 4294967267 1).1 = 0 ∧
    forged_buffer.length = 4294967267 ∧
    (fast_flash_write_table_data huge_record_state name_T forged_buffer 4294967267).1 = -1 ∧
    (fast_flash_create_table
      (fast_flash_write_table_data huge_record_state name_T forged_buffer 4294967267).2
      name_U 4 10).1 = -1 ∧
    (fast_flash_create_table
      (fast_flash_create_table
        (fast_flash_write_table_data huge_record_state name_T forged_buffer 4294967267).2
        name_U 4 10).2 name_U 4 10).1 = 0 ∧
    (fast_flash_init
      (fast_flash_create_table
        (fast_flash_create_table
          (fast_flash_write_table_data huge_record_state name_T forged_buffer 4294967267).2
          name_U 4 10).2 name_U 4 10).2 WIN_FLASH_TOTAL_SIZE false).1 = 0 ∧
    (fast_flash_init
      (fast_flash_create_table
        (fast_flash_create_table
          (fast_flash_write_table_data huge_record_state name_T forged_buffer 4294967267).2
          name_U 4 10).2 name_U 4 10).2 WIN_FLASH_TOTAL_SIZE false).2.g_manager_table.table_count
      = 1 ∧
    valid_count
      (fast_flash_init
        (fast_flash_create_table
          (fast_flash_create_table
            (fast_flash_write_table_data huge_record_state name_T forged_buffer 4294967267).2
            name_U 4 10).2 name_U 4 10).2 WIN_FLASH_TOTAL_SIZE false).2.g_manager_table = 0 :=
  ⟨huge_record_state_ram.1, huge_record_state_ram.2.1, forged_buffer_length,
    forged_trace_facts.1, forged_trace_facts.2.1, forged_trace_facts.2.2.1,
    forged_trace_facts.2.2.2.1,
    (congrArg flash_manager_table_t.table_count forged_trace_facts.2.2.2.2).trans
      forged_record_count.1,
    (congrArg valid_count forged_trace_facts.2.2.2.2).trans forged_record_count.2⟩

end FastFlash
